import Mathlib

/-!
# ws-engine, `examples/wav_processing`: sample codec, WAV block reader and writer, Hann
overlap-add, file processing loop

A shallow embedding of `WavReader.cpp`, `HannFilter.cpp`, `Average.h` and the loop of
`StreamManager.cpp`.

* `float` values are modelled by an exact ordered field `α` (the definitions run on `ℚ`,
  the theorems also hold on `ℝ`); rounding of float arithmetic is not modelled.
* `unsigned char` is `Fin 256`; `int16_t`, `int32_t`, `unsigned int` and `size_t` values are
  integers reduced explicitly to their twos-complement / modular range.
* C++ exceptions and `exit` are the `Except` error of type `Failure`; so is an access that is
  undefined in the source: a load or a store through a null pointer, outside an allocated
  buffer, or through an iterator that points to no element of its container.
-/

namespace WS

/-! ## Machine integers -/

/-- A byte of a stream or of a sample buffer (`unsigned char`, `uint8_t`). -/
abbrev Byte := Fin 256

/-- Value of an `int` stored into an `int16_t` (twos-complement reduction). -/
def toInt16 (v : Int) : Int := (v + 32768) % 65536 - 32768

/-- Value of an `int` expression held in a 32-bit `int` (twos-complement reduction). -/
def toInt32 (v : Int) : Int := (v + 2147483648) % 4294967296 - 2147483648

/-- The cast `static_cast<uint8_t>(v)`, equally `v & 0xff`, of a signed integer. -/
def toUInt8 (v : Int) : Byte := ⟨(v % 256).toNat, by omega⟩

/-- The byte `b[i]` of a byte buffer. -/
def byteAt (b : List Byte) (i : Nat) : Nat := (b.getD i 0).val

/-! ## Sample codec (`WavReader.cpp`, anonymous namespace) -/

section Codec

variable {α : Type} [LinearOrderedField α] [FloorRing α]

/-- Conversion of a `float` to a signed integer type: truncation toward zero. A value outside
the range of the target type, undefined in the source, is reduced by `toInt16` or `toInt32`. -/
def truncToInt (x : α) : Int := if 0 ≤ x then ⌊x⌋ else ⌈x⌉

/-- The `int16_t` computed by `convert16BitsToFloat`: `b[1] << 8 | b[0]`. -/
def int16OfBytes (b : List Byte) : Int :=
  toInt16 (((byteAt b 1 <<< 8) ||| byteAt b 0 : Nat) : Int)

/-- Function `convert16BitsToFloat`: two bytes of the data stream as a signed 16-bit integer,
divided by `32768.`. -/
def convert16BitsToFloat (b : List Byte) : α :=
  (int16OfBytes b : α) / 32768

/-- The `int` computed by `convert24BitsToFloat`: `b[2] << 24 | b[1] << 16 | b[0] << 8`. -/
def int32OfBytes (b : List Byte) : Int :=
  toInt32 ((((byteAt b 2 <<< 24) ||| (byteAt b 1 <<< 16)) ||| (byteAt b 0 <<< 8) : Nat) : Int)

/-- Function `convert24BitsToFloat`: three bytes of the data stream placed in the upper three
bytes of a 32-bit signed integer, divided by `INT_MAX - 256`. -/
def convert24BitsToFloat (b : List Byte) : α :=
  (int32OfBytes b : α) / ((2147483647 - 256 : Int) : α)

/-- Function `convertFloatTo24Bits`: the bytes `buf[0], buf[1], buf[2]` stored for a sample. -/
def convertFloatTo24Bits (f : α) : List Byte :=
  let reint : Int := toInt32 (truncToInt (f * 8388608))
  [toUInt8 reint, toUInt8 (reint >>> (8 : Nat)), toUInt8 (reint >>> (16 : Nat))]

/-- Function `clamp(value, minValue, maxValue)`: `std::min` with the upper bound, then
`std::max` with the lower bound. -/
def clamp (value minValue maxValue : α) : α :=
  max (min value maxValue) minValue

/-- Method `WavReader::sampleToFile`: the `elementSize` bytes appended to the output file for one
sample, at the configured bit depth. -/
def sampleToFile (bitsPerSample : Nat) (sample : α) : List Byte :=
  let chanIntSample : Int := toInt16 (truncToInt (sample * 32767))
  if bitsPerSample = 16 then
    [toUInt8 chanIntSample, toUInt8 (chanIntSample >>> (8 : Nat))]
  else
    convertFloatTo24Bits sample

end Codec

/-! ## Float buffers -/

section Buffers

variable {α : Type} [Zero α]

/-- Call `std::memcpy(dst + dstOff, src + srcOff, n * sizeof(float))` on float buffers. -/
def memcpy (dst : List α) (dstOff : Nat) (src : List α) (srcOff n : Nat) : List α :=
  dst.take dstOff ++ (src.drop srcOff).take n ++ dst.drop (dstOff + n)

/-- Call `std::memset(buf, 0, n * sizeof(float))`: the first `n` floats become `0.0`. -/
def memsetZero (buf : List α) (n : Nat) : List α :=
  List.replicate n 0 ++ buf.drop n

end Buffers

/-! ## WAV stream reader (`WavReader.h`, `WavReader.cpp`) -/

/-- What ends a call abnormally: the `std::runtime_error` messages thrown by `WavReader`, the
`exit(0)` of `copyToBuffer`, an access that is undefined in the source, and exhaustion of the
fuel that bounds a loop of the model. -/
inductive Failure
  /-- Thrown with the message "max number of channel are : N" -/
  | maxChannels
  /-- Thrown with the message "buffer size must be different than zero" -/
  | zeroBufferSize
  /-- Thrown with the message "no fmt chunk before data chunk" -/
  | noFmtChunk
  /-- Thrown with the message "currently 16-bit and 24-bit supported" -/
  | unsupportedDepth
  /-- Thrown with the message "currently mono or stereo only" -/
  | unsupportedChannels
  /-- Thrown with the message "unexpected eof reading from file" -/
  | unexpectedEof
  /-- Thrown with the message "unable to read from file" -/
  | unableToRead
  /-- Thrown with the message "inadequate read buffer size" -/
  | inadequateBuffer
  /-- Thrown with the message "invalid format, not a RIFF file" -/
  | notRiff
  /-- Thrown with the message "invalid format, not a WAV file" -/
  | notWave
  /-- Thrown with the message "invalid format, extra fmt chunk" -/
  | extraFmt
  /-- The call `exit(0)` after "ERROR! Unsupported bit depth" -/
  | exitProcess
  /-- A load or a store through a null pointer, undefined in the source -/
  | nullDeref
  /-- A load or a store outside the allocated buffer, or through an iterator that points to no
  element of its container, undefined in the source -/
  | outOfBounds
  /-- The loop bound of the model was used up -/
  | outOfFuel
  deriving DecidableEq, Repr

/-- Struct `WavReader::chunkHdr`. -/
@[ext]
structure chunkHdr where
  /-- Label of the chunk, `char id[4]` -/
  id : List Byte
  /-- Size of the chunk, `unsigned int` -/
  size : Nat
  /-- Current position used for tracking, `unsigned int` -/
  pos : Nat
  deriving DecidableEq, Repr

/-- The input `std::ifstream`: the bytes of the file, the get position, and whether the stream
is open and in a good state. -/
@[ext]
structure IfStream where
  /-- Bytes of the file -/
  content : List Byte
  /-- Offset of the next byte to be read -/
  gpos : Nat
  /-- False when the file could not be opened or an earlier operation failed -/
  good : Bool
  deriving DecidableEq, Repr

/-- The output `FILE*`: the bytes written so far and the file position. -/
@[ext]
structure OutFile where
  /-- Bytes of the file -/
  content : List Byte
  /-- Offset of the next byte to be written -/
  fpos : Nat
  deriving DecidableEq, Repr

/-- Constant `MAX_READ_BUF_LEN`. -/
def MAX_READ_BUF_LEN : Nat := 256

/-- The member `maxNumOfChannels`, initialised to 2 and never assigned. -/
def maxNumOfChannels : Int := 2

/-- Data members of `WS::WavReader`. -/
@[ext]
structure WavReader (α : Type) where
  /-- Header of the RIFF chunk -/
  riff : chunkHdr
  /-- Header of the WAVE chunk -/
  wave : chunkHdr
  /-- Header of the current sub chunk -/
  chk : chunkHdr
  /-- Set once the fmt chunk was parsed -/
  fmtFound : Bool
  /-- Input stream -/
  wavFile : IfStream
  /-- Field of the fmt chunk, `unsigned int` -/
  sampleRate : Nat
  /-- Field of the fmt chunk, `unsigned int` -/
  byteRate : Nat
  /-- Field of the fmt chunk, `unsigned short` -/
  audioFormat : Nat
  /-- Field of the fmt chunk, `unsigned short` -/
  numChannels : Nat
  /-- Field of the fmt chunk, `unsigned short` -/
  blockAlign : Nat
  /-- Field of the fmt chunk, `unsigned short` -/
  bitsPerSample : Nat
  /-- Field of the fmt chunk, `unsigned short` -/
  extraSize : Nat
  /-- Output file, `nullptr` when absent -/
  outWavFile : Option OutFile
  /-- Size field of the source RIFF header -/
  srcRiffSize : Nat
  /-- Size field of the source data chunk -/
  srcDataSize : Nat
  /-- Offset of the data size field in the output -/
  dataHdrSizeOffset : Nat
  /-- Offset of the RIFF size field in the output -/
  riffSizeOffset : Nat
  /-- Samples per channel written so far -/
  writtenSamples : Nat
  /-- Block length of the current call -/
  mBufferSize : Nat
  /-- Frames decoded so far -/
  numSamplesRead : Nat
  /-- Set when channel 0 met a short final block -/
  isEofLReached : Bool
  /-- Set when the last channel of a short final block was fetched -/
  isEofReached : Bool
  /-- Scratch buffer of channel 1, `nullptr` until first needed -/
  bufferToFillR : Option (List α)
  /-- Whether the header is copied to the output while parsing -/
  writeToOutput : Bool
  /-- Unused offset member -/
  headerDataSizeOffset : Nat
  /-- Size of the fmt chunk -/
  fmtPosition : Nat
  /-- Size of the data chunk -/
  dataPosition : Nat

/-- Method `WavReader::read(f, buffer, size, parent)`: reads exactly `size` bytes or throws; adds `size`
to `parent->pos` (an `unsigned int`) when a parent is given. Returns the bytes read. `f.read` of zero
bytes extracts nothing and so succeeds on a good stream wherever the position is. -/
def read (f : IfStream) (size : Nat) (parent : Option chunkHdr) :
    Except Failure (List Byte × IfStream × Option chunkHdr) :=
  if f.good = false then .error .unableToRead
  else if 0 < size ∧ f.content.length < f.gpos + size then .error .unexpectedEof
  else
    .ok ((f.content.drop f.gpos).take size, { f with gpos := f.gpos + size },
      parent.map fun p => { p with pos := (p.pos + size) % 4294967296 })

section Reader

variable {α : Type} [LinearOrderedField α]

/-- Method `WavReader::checkForExceptions(channel, bufferSize)`. -/
def checkForExceptions (st : WavReader α) (channel : Int) (bufferSize : Nat) :
    Except Failure Unit :=
  if channel > (st.numChannels : Int) - 1 then .error .maxChannels
  else if bufferSize = 0 then .error .zeroBufferSize
  else if st.fmtFound = false then .error .noFmtChunk
  else if st.bitsPerSample > 24 then .error .unsupportedDepth
  else if st.numChannels > 2 then .error .unsupportedChannels
  else if st.isEofReached = true then .error .unexpectedEof
  else .ok ()

/-- Method `WavReader::enoughSamplesLeft()`, in `size_t` arithmetic. -/
def enoughSamplesLeft (st : WavReader α) : Bool :=
  let numBytes := st.bitsPerSample / 8
  if (st.chk.pos + st.mBufferSize * numBytes * st.numChannels) % 2 ^ 64 > st.chk.size then false
  else true

/-- The statement `if(numChannels == maxNumOfChannels) bufferToFillR[index] = sampleCh1;` of
`WavReader::copyToBuffer`. The scratch buffer holds the floats it was allocated with: a store at
or beyond its end is `Failure.outOfBounds`, a store through the null pointer
`Failure.nullDeref`. Returns the scratch buffer after the statement. -/
def storeScratch (st : WavReader α) (index : Nat) (sampleCh1 : α) :
    Except Failure (Option (List α)) :=
  if (st.numChannels : Int) = maxNumOfChannels then
    match st.bufferToFillR with
    | some r =>
      if index < r.length then .ok (some (r.set index sampleCh1)) else .error .outOfBounds
    | none => .error .nullDeref
  else .ok st.bufferToFillR

/-- Body of the `while` loop of `WavReader::copyToBuffer`: reads the bytes of one frame, converts
them and stores the samples at `index`. `sampleCh0` and `sampleCh1` are assigned in every
iteration that reads them, so they are not carried between iterations. The list `bufferToFill`
stands for the `mBufferSize` floats at the pointer of the caller. -/
def copyFrame (bytesToRead : Nat) (st : WavReader α) (index : Nat) (bufferToFill : List α) :
    Except Failure (WavReader α × List α) :=
  let numBytes := st.bitsPerSample / 8
  -- read sample bytes to the buffer
  match read st.wavFile bytesToRead (some st.chk) with
  | .error e => .error e
  | .ok (buffer, f, parent) =>
    -- need to convert the bytes to float in 2 cases: 16 bit and 24 bit
    if st.bitsPerSample = 16 ∨ st.bitsPerSample = 24 then
      let convert : List Byte → α :=
        if st.bitsPerSample = 16 then convert16BitsToFloat else convert24BitsToFloat
      let sampleCh0 := convert buffer
      let sampleCh1 := convert (buffer.drop numBytes)
      match storeScratch st index sampleCh1 with
      | .error e => .error e
      | .ok scratch =>
        .ok ({ st with
                wavFile := f
                chk := parent.getD st.chk
                bufferToFillR := scratch
                numSamplesRead := st.numSamplesRead + 1 },
             bufferToFill.set index sampleCh0)
    else .error .exitProcess

/-- The `while` loop of `WavReader::copyToBuffer`, in `size_t` arithmetic; one unit of `fuel`
per evaluation of the loop condition. -/
def copyLoop (bytesToRead numSamplesToCopy : Nat) :
    Nat → WavReader α → Nat → Nat → List α → Except Failure (WavReader α × List α)
  | 0, _, _, _, _ => .error .outOfFuel
  | fuel + 1, st, dataBytesRead, index, bufferToFill =>
    let numBytes := st.bitsPerSample / 8
    if (dataBytesRead + bytesToRead) % 2 ^ 64
        < (numSamplesToCopy * numBytes * st.numChannels + 1) % 2 ^ 64 then
      match copyFrame bytesToRead st index bufferToFill with
      | .error e => .error e
      | .ok (st1, bufferToFill1) =>
        copyLoop bytesToRead numSamplesToCopy fuel st1
          ((dataBytesRead + bytesToRead) % 2 ^ 64) (index + 1) bufferToFill1
    else .ok (st, bufferToFill)

/-- Method `WavReader::copyToBuffer(bytesToRead, bufferToFill, numSamplesToCopy)`. -/
def copyToBuffer (st : WavReader α) (bytesToRead : Nat) (bufferToFill : List α)
    (numSamplesToCopy : Nat) : Except Failure (WavReader α × List α) :=
  if bytesToRead > MAX_READ_BUF_LEN then .error .inadequateBuffer
  else
    -- clear bufferToFill before use; the second `memset` clears `bufferToFill` again
    let cleared := memsetZero bufferToFill st.mBufferSize
    let cleared1 := if st.bufferToFillR.isSome then memsetZero cleared st.mBufferSize else cleared
    copyLoop bytesToRead numSamplesToCopy (numSamplesToCopy + 1) st 0 0 cleared1

/-- Method `WavReader::fillDataBuffer(bufferToFill, enoughSamplesToFillBuffer)`. -/
def fillDataBuffer (st : WavReader α) (bufferToFill : List α)
    (enoughSamplesToFillBuffer : Bool) : Except Failure (WavReader α × List α) :=
  match checkForExceptions st 0 st.mBufferSize with
  | .error e => .error e
  | .ok _ =>
    let numBytes := st.bitsPerSample / 8
    let bytesToRead := numBytes * st.numChannels
    if enoughSamplesToFillBuffer then copyToBuffer st bytesToRead bufferToFill st.mBufferSize
    else
      let samplesLeft := ((st.chk.size + 4294967296 - st.chk.pos) % 4294967296) / bytesToRead
      copyToBuffer st bytesToRead bufferToFill samplesLeft

/-- The statement `memcpy(bufferToFill, bufferToFillR, mBufferSize * sizeof(float));` of
`WavReader::getNextAudioBlock`. The scratch buffer holds the floats it was allocated with: when
these are fewer than `mBufferSize` the copy reads beyond its end, `Failure.outOfBounds`; a copy
from the null pointer is `Failure.nullDeref`. Returns the buffer of the caller after the
statement. -/
def copyScratch (st : WavReader α) (bufferToFill : List α) : Except Failure (List α) :=
  match st.bufferToFillR with
  | some r =>
    if r.length < st.mBufferSize then .error .outOfBounds
    else .ok (memcpy bufferToFill 0 r 0 st.mBufferSize)
  | none => .error .nullDeref

/-- Method `WavReader::getNextAudioBlock(bufferToFill, channel, bufferSize)`. The buffer of the
caller is `none` for `nullptr`, else its `bufferSize` floats; `uninit` is the content of freshly
allocated memory. Returns the new state, the returned `bool` and the buffer of the caller
after the call. -/
def getNextAudioBlock (uninit : Nat → α) (st : WavReader α) (bufferToFill : Option (List α))
    (channel : Int) (bufferSize : Nat) : Except Failure (WavReader α × Bool × List α) :=
  match bufferToFill with
  | none => .ok (st, false, [])
  | some buf =>
    let st1 :=
      if st.numChannels > 1 ∧ st.bufferToFillR.isNone then
        { st with bufferToFillR := some ((List.range bufferSize).map uninit) }
      else st
    match checkForExceptions st1 channel bufferSize with
    | .error e => .error e
    | .ok _ =>
      let st2 := { st1 with mBufferSize := bufferSize }
      let step0 : Except Failure (WavReader α × List α) :=
        if channel = 0 then
          if enoughSamplesLeft st2 then fillDataBuffer st2 buf true
          else
            match fillDataBuffer st2 buf false with
            | .error e => .error e
            | .ok (st3, buf3) => .ok ({ st3 with isEofLReached := true }, buf3)
        else .ok (st2, buf)
      match step0 with
      | .error e => .error e
      | .ok (st4, buf4) =>
        if channel = maxNumOfChannels - 1 then
          match copyScratch st4 buf4 with
          | .error e => .error e
          | .ok buf5 =>
            .ok ({ st4 with isEofReached := st4.isEofLReached || st4.isEofReached }, true, buf5)
        else .ok (st4, true, buf4)

end Reader

/-! ## Chunk scanner, format scan and data scan (`WavReader.cpp`) -/

/-- Value of an unsigned integer whose bytes in memory are the given ones (little-endian
host). -/
def leValue : List Byte → Nat
  | [] => 0
  | b :: bs => b.val + 256 * leValue bs

/-- The `n` bytes in memory of an unsigned integer (little-endian host). -/
def leBytes : Nat → Nat → List Byte
  | 0, _ => []
  | n + 1, v => ⟨v % 256, Nat.mod_lt _ (by decide)⟩ :: leBytes n (v / 256)

/-- Call `fwrite(ptr, size, 1, f)`: the bytes go to the current position of the file, over
what is there, and the position moves behind them. -/
def OutFile.fwrite (f : OutFile) (bytes : List Byte) : OutFile :=
  { content :=
      f.content.take f.fpos ++ List.replicate (f.fpos - f.content.length) 0 ++ bytes ++
        f.content.drop (f.fpos + bytes.length)
    fpos := f.fpos + bytes.length }

/-- Call `fseek(f, offset, 0)`. -/
def OutFile.fseek (f : OutFile) (offset : Nat) : OutFile :=
  { f with fpos := offset }

/-- Method `WavReader::skip(f, size, parent)`: moves the get position forward by `size` (the
seek succeeds on a good stream, also beyond the end of the file) and adds `size` to
`parent->pos`. -/
def skip (f : IfStream) (size : Nat) (parent : Option chunkHdr) :
    Except Failure (IfStream × Option chunkHdr) :=
  if f.good = false then .error .unableToRead
  else
    .ok ({ f with gpos := f.gpos + size },
      parent.map fun p => { p with pos := (p.pos + size) % 4294967296 })

/-- Method `WavReader::isChunkID(c, id1, id2, id3, id4)`. -/
def isChunkID (c : chunkHdr) (id1 id2 id3 id4 : Byte) : Bool :=
  (c.id.getD 0 0 == id1) && (c.id.getD 1 0 == id2) && (c.id.getD 2 0 == id3) &&
    (c.id.getD 3 0 == id4)

/-- Method `WavReader::read(f, c, parent)`, the overload that reads a chunk header: four bytes
of id, four bytes of size, and `pos` set to 0. -/
def readHeader (f : IfStream) (parent : Option chunkHdr) :
    Except Failure (chunkHdr × IfStream × Option chunkHdr) :=
  match read f 4 parent with
  | .error e => .error e
  | .ok (id, f1, parent1) =>
    match read f1 4 parent1 with
    | .error e => .error e
    | .ok (size, f2, parent2) => .ok ({ id := id, size := leValue size, pos := 0 }, f2, parent2)

section Scanner

variable {α : Type}

/-- A `fwrite` to `outWavFile`. A write through a null `FILE*` is left out. -/
def fwriteOut (st : WavReader α) (bytes : List Byte) : WavReader α :=
  { st with outWavFile := st.outWavFile.map fun o => o.fwrite bytes }

/-- The guarded write `if(writeToOutput) fwrite(...)`. -/
def writeIf (st : WavReader α) (bytes : List Byte) : WavReader α :=
  if st.writeToOutput then fwriteOut st bytes else st

/-- The call `read(wavFile, &member, n, &chk)` followed by
`if(writeToOutput) fwrite(&member, n, 1, outWavFile)`, for a member of `n` bytes; `store`
assigns the member. -/
def readMember (n : Nat) (store : WavReader α → Nat → WavReader α) (st : WavReader α) :
    Except Failure (WavReader α) :=
  match read st.wavFile n (some st.chk) with
  | .error e => .error e
  | .ok (b, f, parent) =>
    .ok (writeIf (store { st with wavFile := f, chk := parent.getD st.chk } (leValue b)) b)

/-- The call `read(wavFile, chk, &wave)`: the next sub chunk header. -/
def readSubChunk (st : WavReader α) : Except Failure (WavReader α) :=
  match readHeader st.wavFile (some st.wave) with
  | .error e => .error e
  | .ok (c, f, parent) => .ok { st with chk := c, wavFile := f, wave := parent.getD st.wave }

/-- The call `skip(wavFile, size, &chk)`. -/
def skipInChk (size : Nat) (st : WavReader α) : Except Failure (WavReader α) :=
  match skip st.wavFile size (some st.chk) with
  | .error e => .error e
  | .ok (f, parent) => .ok { st with wavFile := f, chk := parent.getD st.chk }

/-- The call `skip(wavFile, size, &wave)`. -/
def skipInWave (size : Nat) (st : WavReader α) : Except Failure (WavReader α) :=
  match skip st.wavFile size (some st.wave) with
  | .error e => .error e
  | .ok (f, parent) => .ok { st with wavFile := f, wave := parent.getD st.wave }

/-- The statement `wave.pos += chk.pos`, in `unsigned int` arithmetic. -/
def addChkPos (st : WavReader α) : WavReader α :=
  { st with wave := { st.wave with pos := (st.wave.pos + st.chk.pos) % 4294967296 } }

/-- The statements that `updateInfo` and `findDataPosition` both run on a chunk they do not
need: `skip(wavFile, chk.size, &chk)`, then `wave.pos += chk.pos`, then one more byte skipped
when `chk.size` is odd. -/
def skipChunk (st : WavReader α) : Except Failure (WavReader α) :=
  match skipInChk st.chk.size st with
  | .error e => .error e
  | .ok st1 =>
    if st1.chk.size % 2 = 1 then skipInWave 1 (addChkPos st1) else .ok (addChkPos st1)

/-- Method `WavReader::checkForRiffHeader`. -/
def checkForRiffHeader (st : WavReader α) : Except Failure (WavReader α) :=
  match readHeader st.wavFile none with
  | .error e => .error e
  | .ok (c, f, _) =>
    if isChunkID c 82 73 70 70 then .ok { st with riff := c, wavFile := f }
    else .error .notRiff

/-- Method `WavReader::readToWaveChunkHeader`. -/
def readToWaveChunkHeader (st : WavReader α) : Except Failure (WavReader α) :=
  match read st.wavFile 4 (some st.riff) with
  | .error e => .error e
  | .ok (id, f, parent) =>
    .ok { st with
          wavFile := f
          riff := parent.getD st.riff
          wave := { id := id, size := (st.riff.size + 4294967296 - 4) % 4294967296, pos := 0 } }

/-- Method `WavReader::getInfo`: the five leading fields of the fmt chunk. -/
def getInfo (st : WavReader α) : Except Failure (WavReader α) :=
  readMember 2 (fun s v => { s with audioFormat := v }) st >>=
  readMember 2 (fun s v => { s with numChannels := v }) >>=
  readMember 4 (fun s v => { s with sampleRate := v }) >>=
  readMember 4 (fun s v => { s with byteRate := v }) >>=
  readMember 2 (fun s v => { s with blockAlign := v })

/-- The extension bytes of the fmt chunk in `updateInfo`: `extraSize` bytes are read into a
buffer `xbuf`; `fwrite(&xbuf, extraSize, 1, outWavFile)` then writes `extraSize` bytes that
start at the pointer variable itself, here the bytes `stack 0, stack 1, ...`. -/
def readExtension (stack : Nat → Byte) (st : WavReader α) : Except Failure (WavReader α) :=
  if st.extraSize > 0 then
    match read st.wavFile st.extraSize (some st.chk) with
    | .error e => .error e
    | .ok (_, f, parent) =>
      .ok (writeIf { st with wavFile := f, chk := parent.getD st.chk }
        ((List.range st.extraSize).map stack))
  else .ok st

/-- The branch of `updateInfo` taken for a chunk with id `fmt `, up to its `break`. -/
def fmtChunk (stack : Nat → Byte) (st : WavReader α) : Except Failure (WavReader α) :=
  let st1 := writeIf (writeIf { st with fmtPosition := st.chk.size } [102, 109, 116, 32])
    (leBytes 4 st.chk.size)
  -- a file should only have one fmt chunk
  if st1.fmtFound then .error .extraFmt
  else
    getInfo { st1 with fmtFound := true } >>=
    (fun s => if s.chk.size ≥ 16 then readMember 2 (fun s v => { s with bitsPerSample := v }) s
      else .ok s) >>=
    (fun s =>
      if s.chk.size ≥ 18 then
        readMember 2 (fun s v => { s with extraSize := v }) s >>= readExtension stack
      else .ok s) >>=
    -- if there are any further extra bytes in the fmt header chunk, skip
    (fun s =>
      if s.chk.pos < s.chk.size then
        skipInChk ((s.chk.size + 4294967296 - s.chk.pos) % 4294967296) s
      else .ok s)

/-- The `while(wave.pos < wave.size)` loop of `WavReader::updateInfo`; one unit of `fuel` per
evaluation of the loop condition. -/
def updateInfoLoop (stack : Nat → Byte) : Nat → WavReader α → Except Failure (WavReader α)
  | 0, _ => .error .outOfFuel
  | fuel + 1, st =>
    if st.wave.pos < st.wave.size then
      match readSubChunk st with
      | .error e => .error e
      | .ok st1 =>
        -- check to see if this is a fmt sub chunk
        if isChunkID st1.chk 102 109 116 32 then fmtChunk stack st1
        else
          match skipChunk st1 with
          | .error e => .error e
          | .ok st2 => updateInfoLoop stack fuel st2
    else .ok st

/-- Method `WavReader::updateInfo`. Every iteration of its loop reads eight bytes, so the
length of the input bounds the number of iterations. -/
def updateInfo (stack : Nat → Byte) (st : WavReader α) : Except Failure (WavReader α) :=
  updateInfoLoop stack (st.wavFile.content.length + 1) st

/-- The statements of `findDataPosition` for a chunk with id `data`. -/
def dataChunk (st : WavReader α) : WavReader α :=
  let st1 := { st with dataPosition := st.chk.size }
  if st1.writeToOutput then
    let st2 := fwriteOut st1 [100, 97, 116, 97]
    fwriteOut
      { st2 with
        dataHdrSizeOffset := (st2.outWavFile.map fun o => o.fpos).getD 0
        srcDataSize := st2.chk.size }
      (leBytes 4 st2.chk.size)
  else st1

/-- The `while(!isChunkID(chk, 'd', 'a', 't', 'a'))` loop of `WavReader::findDataPosition`;
one unit of `fuel` per evaluation of the loop condition. -/
def findDataLoop : Nat → WavReader α → Except Failure (WavReader α)
  | 0, _ => .error .outOfFuel
  | fuel + 1, st =>
    if isChunkID st.chk 100 97 116 97 = false then
      match readSubChunk st with
      | .error e => .error e
      | .ok st1 =>
        if isChunkID st1.chk 100 97 116 97 then .ok (dataChunk st1)
        else
          match skipChunk st1 with
          | .error e => .error e
          | .ok st2 => findDataLoop fuel st2
    else .ok st

/-- Method `WavReader::findDataPosition`. Every iteration of its loop reads eight bytes, so the
length of the input bounds the number of iterations. -/
def findDataPosition (st : WavReader α) : Except Failure (WavReader α) :=
  findDataLoop (st.wavFile.content.length + 1) st

/-- Method `WavReader::load(filePath)`, with `file` the stream that `wavFile.open` yields.
Returns the state and the returned `bool`. -/
def load (stack : Nat → Byte) (st : WavReader α) (file : IfStream) :
    Except Failure (WavReader α × Bool) :=
  checkForRiffHeader { st with wavFile := file } >>= readToWaveChunkHeader >>=
  updateInfo stack >>= findDataPosition >>= fun s => .ok (s, s.wavFile.good)

/-- Method `WavReader::load(filePath, outputFile)`, with `file` the stream that `wavFile.open`
yields and `out` the file that `fopen` yields (`none` when it fails). Returns the state and the
returned `bool`. -/
def loadWithOutput (stack : Nat → Byte) (st : WavReader α) (file : IfStream)
    (out : Option OutFile) : Except Failure (WavReader α × Bool) :=
  checkForRiffHeader { st with writeToOutput := true, wavFile := file, outWavFile := out } >>=
  readToWaveChunkHeader >>=
  (fun s =>
    let s1 := fwriteOut s (s.riff.id.take 4)
    let s2 := fwriteOut
      { s1 with
        srcRiffSize := s1.riff.size
        riffSizeOffset := (s1.outWavFile.map fun o => o.fpos).getD 0
        srcDataSize := 0 }
      (leBytes 4 s1.riff.size)
    -- check to make sure the chunk ID is 'W' 'A' 'V' 'E'
    if isChunkID s2.wave 87 65 86 69 = false then .error .notWave
    else .ok (fwriteOut s2 [87, 65, 86, 69])) >>=
  updateInfo stack >>= findDataPosition >>=
  fun s => .ok (s, s.wavFile.good && s.outWavFile.isSome)

/-- Method `WavReader::getNumSamplesPerChannel`: `8 * chk.size / bitsPerSample` in `unsigned int`
arithmetic, then divided by `numChannels`. -/
def getNumSamplesPerChannel (st : WavReader α) : Nat :=
  (8 * st.chk.size) % 4294967296 / st.bitsPerSample / st.numChannels

/-- Destructor `WavReader::~WavReader`, as far as the output file goes: the data size and the
RIFF size are patched at the remembered offsets. Returns the bytes of the closed output file,
`none` when there is no output file. -/
def destroy (st : WavReader α) : Option (List Byte) :=
  st.outWavFile.map fun out =>
    let new_data_size :=
      (st.writtenSamples * (st.bitsPerSample / 8) * st.numChannels) % 4294967296
    let out1 := (out.fseek st.dataHdrSizeOffset).fwrite (leBytes 4 new_data_size)
    let new_riff_size :=
      ((st.srcRiffSize + 18446744073709551616
          - (st.srcDataSize + 4294967296 - new_data_size) % 4294967296)
        % 18446744073709551616) % 4294967296
    ((out1.fseek st.riffSizeOffset).fwrite (leBytes 4 new_riff_size)).content

/-- A newly constructed `WavReader`: the members that have a default member initialiser hold it;
the chunk headers and the fmt fields have none and hold what `garbage` holds. -/
def newReader (garbage : WavReader α) : WavReader α :=
  { garbage with
    fmtFound := false
    wavFile := ⟨[], 0, false⟩
    outWavFile := none
    srcRiffSize := 0
    srcDataSize := 0
    dataHdrSizeOffset := 0
    riffSizeOffset := 0
    writtenSamples := 0
    mBufferSize := 0
    numSamplesRead := 0
    isEofLReached := false
    isEofReached := false
    bufferToFillR := none
    writeToOutput := false
    headerDataSizeOffset := 0
    fmtPosition := 0
    dataPosition := 0 }

end Scanner

/-! ## WAV stream writer (`WavReader.cpp`) -/

section Writer

variable {α : Type} [LinearOrderedField α] [FloorRing α]

/-- The `for` loops of `WavReader::writeToFile`: the bytes written for the sample counters
`0 .. buffSize - 1`. In the 16-bit loop the second sample of a frame is written when the member
`bufferToFillR` is not null, in the 24-bit loop when the argument `bufferToFileR` is not
null. -/
def writeSamples (st : WavReader α) (bufferToFileL : List α) (bufferToFileR : Option (List α))
    (buffSize : Int) : Except Failure (List Byte) :=
  if st.bitsPerSample = 16 then
    if 0 < buffSize ∧ st.bufferToFillR.isSome ∧ bufferToFileR.isNone then .error .nullDeref
    else
      .ok ((List.range buffSize.toNat).flatMap fun writeSampleCtr =>
        sampleToFile st.bitsPerSample (clamp (bufferToFileL.getD writeSampleCtr 0) (-1) 1) ++
          (if st.bufferToFillR.isSome then
            sampleToFile st.bitsPerSample
              (clamp ((bufferToFileR.getD []).getD writeSampleCtr 0) (-1) 1)
          else []))
  else if st.bitsPerSample = 24 then
    .ok ((List.range buffSize.toNat).flatMap fun writeSampleCtr =>
      convertFloatTo24Bits (clamp (bufferToFileL.getD writeSampleCtr 0) (-1) 1) ++
        (match bufferToFileR with
          | some r => convertFloatTo24Bits (clamp (r.getD writeSampleCtr 0) (-1) 1)
          | none => []))
  else .ok []

/-- Method `WavReader::writeToFile(bufferToFileL, bufferToFileR, bufferSize)`; a buffer is `none`
for `nullptr`. `buffSize` is an `int`, `remainingSamples` a `size_t`. Returns the state and
the returned `bool`. -/
def writeToFile (st : WavReader α) (bufferToFileL bufferToFileR : Option (List α))
    (bufferSize : Nat) : Except Failure (WavReader α × Bool) :=
  match bufferToFileL with
  | none => .ok (st, false)
  | some bufL =>
    let remainingSamples :=
      (getNumSamplesPerChannel st + 18446744073709551616 - st.writtenSamples)
        % 18446744073709551616
    let st1 := { st with mBufferSize := bufferSize }
    let buffSize : Int :=
      toInt32 (if remainingSamples < st1.mBufferSize then remainingSamples else st1.mBufferSize)
    match writeSamples st1 bufL bufferToFileR buffSize with
    | .error e => .error e
    | .ok bytes =>
      .ok ({ fwriteOut st1 bytes with
              writtenSamples :=
                ((st1.writtenSamples : Int) + buffSize).toNat % 18446744073709551616 },
           true)

end Writer

/-! ## Hann overlap-add filter (`HannFilter.cpp`) -/

/-- Data members of `WS::HannFilter`. -/
structure HannFilter (α : Type) where
  /-- Window length `mWindowSize` -/
  mWindowSize : Nat
  /-- Hop length `mHopSize`, set to `filterWindowSize / 2` by the constructor -/
  mHopSize : Nat
  /-- Buffer `mOverlapBuffer`, allocated with `filterWindowSize` floats -/
  mOverlapBuffer : List α
  /-- Buffer `mModelInputBuffer`, allocated with `filterWindowSize` floats -/
  mModelInputBuffer : List α

section Hann

variable {α : Type} [Field α] {σ : Type}

/-- The `multiplier` of `HannFilter::applyFilterInternal` at index `s`:
`0.5f * (1 - std::cos(2 * Pi * s / (mWindowSize - 1)))`, for a given cosine function and
value of `Pi`. -/
def hannMultiplier (cos : α → α) (pi : α) (mWindowSize s : Nat) : α :=
  (1 / 2) * (1 - cos (2 * pi * (s : α) / ((mWindowSize - 1 : Nat) : α)))

/-- Method `HannFilter::applyFilterInternal`. The transform `model.process(input, output)` is a
function of the internal state of the model and the input window, returning the new model state and the
output window. The result is `none` when the call returns `false`; otherwise the new filter
state, the new model state and the `mHopSize` samples stored to `outSamples`. -/
def applyFilterInternal (cos : α → α) (pi : α) (process : σ → List α → σ × List α)
    (f : HannFilter α) (model : σ) (dataSamples : List α) (sampleCnt : Nat) :
    Option (HannFilter α × σ × List α) :=
  if sampleCnt ≠ f.mHopSize then none
  else
    -- old input to the first half of the model input buffer, new samples to the second half
    let input1 := memcpy f.mModelInputBuffer 0 f.mModelInputBuffer f.mHopSize f.mHopSize
    let input2 := memcpy input1 f.mHopSize dataSamples 0 f.mHopSize
    -- `windowOut` is zero-initialised, then written by the model
    let r := process model input2
    let windowOut0 : List α := (List.range f.mWindowSize).map fun s => r.2.getD s 0
    let windowOut : List α :=
      (List.range f.mWindowSize).map fun s =>
        windowOut0.getD s 0 * hannMultiplier cos pi f.mWindowSize s
    -- add to the first half of the overlap buffer
    let outSamples : List α :=
      (List.range f.mHopSize).map fun s => f.mOverlapBuffer.getD s 0 + windowOut.getD s 0
    let overlap1 := memcpy f.mOverlapBuffer 0 outSamples 0 f.mHopSize
    -- copy to overlap buffer for next hop
    let overlap2 := memcpy overlap1 0 windowOut f.mHopSize f.mHopSize
    some ({ f with mModelInputBuffer := input2, mOverlapBuffer := overlap2 }, r.1, outSamples)

/-- Successive calls of `applyFilterInternal`, one per input hop, each with
`sampleCnt = mHopSize` as `applyFilter` passes it; the emitted hops in call order. -/
def runHops (cos : α → α) (pi : α) (process : σ → List α → σ × List α) :
    HannFilter α → σ → List (List α) → Option (HannFilter α × σ × List (List α))
  | f, model, [] => some (f, model, [])
  | f, model, x :: xs =>
    match applyFilterInternal cos pi process f model x f.mHopSize with
    | none => none
    | some (f1, model1, out) =>
      match runHops cos pi process f1 model1 xs with
      | none => none
      | some (f2, model2, outs) => some (f2, model2, out :: outs)

end Hann

/-! ## Construction of the Hann filter and the whole-window call (`HannFilter.cpp`) -/

section HannWindow

variable {α : Type} [Field α] {σ : Type}

/-- Call `std::memset(buf, 0, n)` on a float buffer, with `n` a count of bytes and
`sizeof(float) = 4`: the first `n / 4` floats become `0.0`. When `n` is not a multiple of 4 the
first `n % 4` bytes of the next float are cleared as well; the byte layout of a float is not
modelled, so that float becomes `clearedLow (n % 4) x` for its old value `x`. -/
def memsetBytes (clearedLow : Nat → α → α) (buf : List α) (n : Nat) : List α :=
  (List.range buf.length).map fun i =>
    if i < n / 4 then 0
    else if i = n / 4 ∧ n % 4 ≠ 0 then clearedLow (n % 4) (buf.getD i 0)
    else buf.getD i 0

/-- Constructor `HannFilter::HannFilter(filterWindowSize)`. The two buffers come from
`new float[filterWindowSize]`, which leaves them uninitialised (`uninitOverlap`, `uninitInput`
are the contents of the fresh memory); each is then passed to `std::memset` with the byte count
`mWindowSize`. -/
def newHannFilter (clearedLow : Nat → α → α) (uninitOverlap uninitInput : Nat → α)
    (filterWindowSize : Nat) : HannFilter α :=
  { mWindowSize := filterWindowSize
    mHopSize := filterWindowSize / 2
    mOverlapBuffer :=
      memsetBytes clearedLow ((List.range filterWindowSize).map uninitOverlap) filterWindowSize
    mModelInputBuffer :=
      memsetBytes clearedLow ((List.range filterWindowSize).map uninitInput) filterWindowSize }

/-- Method `HannFilter::applyFilter(dataSamples, sampleCnt, model, outSamples)`: two calls of
`applyFilterInternal`, on the first and on the second `mHopSize` samples of `dataSamples`,
storing to `outSamples` and to `outSamples + mHopSize`. Returns the filter, the model state, the
buffer `outSamples` after the call and the returned `bool`. -/
def applyFilter (cos : α → α) (pi : α) (process : σ → List α → σ × List α)
    (f : HannFilter α) (model : σ) (dataSamples : List α) (sampleCnt : Nat)
    (outSamples : List α) : HannFilter α × σ × List α × Bool :=
  if sampleCnt ≠ f.mWindowSize then (f, model, outSamples, false)
  else
    -- process first half of data [0 - mHopSize] in dataSamples
    match applyFilterInternal cos pi process f model dataSamples f.mHopSize with
    | none => (f, model, outSamples, false)
    | some (f1, model1, out1) =>
      let outSamples1 := memcpy outSamples 0 out1 0 f.mHopSize
      -- process second half of data [mHopSize - mWindowSize] in dataSamples
      match applyFilterInternal cos pi process f1 model1 (dataSamples.drop f1.mHopSize)
          f1.mHopSize with
      | none => (f1, model1, outSamples1, false)
      | some (f2, model2, out2) =>
        (f2, model2, memcpy outSamples1 f1.mHopSize out2 0 f1.mHopSize, true)

end HannWindow

/-! ## Running average (`Average.h`) -/

/-- Data members of `TL::LibCore::Average<TYPE>`. The iterator `_currentIt` is its distance from
`_history.begin()`. -/
structure Average (α : Type) where
  /-- Iterator into `_history` -/
  _currentIt : Nat
  /-- Degree of exponential averaging -/
  _aveExp : α
  /-- Length of moving window, an `int` -/
  _maxLength : Int
  /-- Set when the iterator wrapped around -/
  _histLooped : Bool
  /-- Index of the slot written last, an `int` -/
  _histIdx : Int
  /-- Data history storage -/
  _history : List α
  /-- Sum of the values in the history -/
  _aveSumHist : α
  /-- Sum of the squares of the values in the history -/
  _aveSumSquaredHist : α
  /-- Exponential average -/
  _aveExpHist : α

section Averager

variable {α : Type} [Field α]

/-- Default constructor `Average<TYPE>::Average()`; the iterator is value-initialised. -/
def newAverage : Average α :=
  { _currentIt := 0, _aveExp := 0, _maxLength := 0, _histLooped := false, _histIdx := -1,
    _history := [], _aveSumHist := 0, _aveSumSquaredHist := 0, _aveExpHist := 0 }

/-- Method `Average<TYPE>::clear()`. -/
def Average.clear (a : Average α) : Average α :=
  { a with
    _history := List.replicate a._maxLength.toNat 0
    _currentIt := 0
    _histIdx := -1
    _histLooped := false
    -- reset sums
    _aveSumHist := 0
    _aveSumSquaredHist := 0
    _aveExpHist := 0 }

/-- Method `Average<TYPE>::init(histLength, expAveraging)`. -/
def Average.init (a : Average α) (histLength : Int) (expAveraging : α) : Average α :=
  Average.clear { a with _maxLength := histLength, _aveExp := expAveraging }

/-- Method `Average<TYPE>::add(in)`. The loads and the store go through the iterator after its
step; when it then points to no element of the history (as after `init(0)`, which leaves the
history empty) they are undefined in the source, `Failure.outOfBounds`. -/
def Average.add (a : Average α) (x : α) : Except Failure (Average α) :=
  let a1 :=
    if a._histIdx ≥ -1 then
      -- cycle through list
      if a._currentIt + 1 = a._history.length then
        { a with _currentIt := 0, _histIdx := -1, _histLooped := true }
      else { a with _currentIt := a._currentIt + 1 }
    else a
  let a2 := { a1 with _histIdx := a1._histIdx + 1 }
  if a2._currentIt < a2._history.length then
    let old := a2._history.getD a2._currentIt 0
    .ok { a2 with
      -- replace old value with new value in history sum
      _aveSumHist := a2._aveSumHist - old + x
      -- replace old value with new value squared
      _aveSumSquaredHist := a2._aveSumSquaredHist - old * old + x * x
      -- compute exponential averaging
      _aveExpHist := x * a2._aveExp + a2._aveExpHist * (1 - a2._aveExp)
      -- store value
      _history := a2._history.set a2._currentIt x }
  else .error .outOfBounds

end Averager

section AveragerQueries

variable {α : Type} [Field α]

/-- The position of the iterator at which `Average<TYPE>::add` loads and stores: `_currentIt`
after the increment, set back to `_history.begin()` when it meets `_history.end()`. -/
def Average.addSlot (a : Average α) : Nat :=
  if a._histIdx ≥ -1 then
    if a._currentIt + 1 = a._history.length then 0 else a._currentIt + 1
  else a._currentIt

/-- Method `Average<TYPE>::getLastValue()`: `*_currentIt`. A load through the iterator when it
points to no element of the history is undefined in the source, `Failure.outOfBounds`. -/
def Average.getLastValue (a : Average α) : Except Failure α :=
  if a._currentIt < a._history.length then .ok (a._history.getD a._currentIt 0)
  else .error .outOfBounds

/-- Method `Average<TYPE>::computeMean()`. -/
def Average.computeMean (a : Average α) : α :=
  if a._maxLength > 0 then
    let histCnt : Int := a._histIdx + 1
    if histCnt = 0 ∧ a._histLooped = false then a._aveSumHist * 0
    else if a._histLooped = false then a._aveSumHist / (histCnt : α)
    else a._aveSumHist / (a._maxLength : α)
  else 0

end AveragerQueries

/-! ## File processing loop (`StreamManager.cpp`) -/

/-- The input stream that `wavFile.open` yields for a file with the given bytes. -/
def openFile (content : List Byte) : IfStream := ⟨content, 0, true⟩

/-- The local variables of `StreamManager::processFile` that its loop works on. -/
structure ProcessState (α σ : Type) where
  /-- State of the transform `*audioModel` -/
  audioModel : σ
  /-- The reader and writer `streamer` -/
  streamer : WavReader α
  /-- Input block of channel 0, `samplesBufferSize` floats -/
  bufferL : List α
  /-- Input block of channel 1, `samplesBufferSize` floats -/
  bufferR : List α
  /-- Flag `fileCreated` -/
  fileCreated : Bool
  /-- Filter of channel 0 -/
  hannL : HannFilter α
  /-- Filter of channel 1 -/
  hannR : HannFilter α
  /-- Processed window of channel 0, `samplesBufferSize` floats -/
  chan0Output : List α
  /-- Processed window of channel 1, `samplesBufferSize` floats -/
  chan1Output : List α
  /-- Counter `outputSamples`, a `u64` -/
  outputSamples : Nat
  /-- The statistics collaborator `averager` -/
  averager : Average α

section Process

variable {α : Type} [LinearOrderedField α] [FloorRing α] {σ : Type}

/-- The statements of `StreamManager::processFile` between the call of `load` and the loop: the
buffers are allocated zero-filled, the two filters are constructed (`hannL`, `hannR` are what
the constructor yields) and the averager is initialised with `totalSamples / 1000`, converted
to `int`. -/
def processFileInit (streamer : WavReader α) (audioModel : σ) (samplesBufferSize : Nat)
    (hannL hannR : HannFilter α) : ProcessState α σ :=
  { audioModel := audioModel
    streamer := streamer
    bufferL := List.replicate samplesBufferSize 0
    bufferR := List.replicate samplesBufferSize 0
    fileCreated := false
    hannL := hannL
    hannR := hannR
    chan0Output := List.replicate samplesBufferSize 0
    chan1Output := List.replicate samplesBufferSize 0
    outputSamples := 0
    averager := Average.init newAverage (toInt32 (getNumSamplesPerChannel streamer / 1000)) 0 }

/-- Body of the `while` loop of `StreamManager::processFile`. `numChannels` is the local variable
read from the streamer before the loop, `duration` the time measured for the transform of
channel 0 in this iteration. Returns the state and `false` when the loop is left by `break`.
Console output is left out. -/
def processFileBody (cos : α → α) (pi : α) (process : σ → List α → σ × List α)
    (uninit : Nat → α) (samplesBufferSize numChannels : Nat) (duration : α)
    (p : ProcessState α σ) : Except Failure (ProcessState α σ × Bool) :=
  -- on last call, reminder unused samples are set to 0
  match getNextAudioBlock uninit p.streamer (some p.bufferL) 0 samplesBufferSize with
  | .error e => .error e
  | .ok (s1, ok1, bufferL) =>
    if ok1 = false then .ok ({ p with streamer := s1, bufferL := bufferL }, false)
    else
      match (if numChannels > 1 then
          getNextAudioBlock uninit s1 (some p.bufferR) 1 samplesBufferSize
        else .ok (s1, true, p.bufferR) : Except Failure (WavReader α × Bool × List α)) with
      | .error e => .error e
      | .ok (s2, ok2, bufferR) =>
        if ok2 = false then
          .ok ({ p with streamer := s2, bufferL := bufferL, bufferR := bufferR }, false)
        else
          -- apply Hann windowing and process using the AudioModel
          let fL := applyFilter cos pi process p.hannL p.audioModel bufferL samplesBufferSize
            p.chan0Output
          match p.averager.add duration with
          | .error e => .error e
          | .ok averager =>
            let fR :=
              if numChannels > 1 then
                applyFilter cos pi process p.hannR fL.2.1 bufferR samplesBufferSize p.chan1Output
              else (p.hannR, fL.2.1, p.chan1Output, true)
            -- the first audio block has a delay of half samplesBufferSize: only the second half
            -- of the processed block is written
            match (if p.outputSamples = 0 then
                writeToFile s2 (some (fL.2.2.1.drop (samplesBufferSize / 2)))
                  (if numChannels > 1 then some (fR.2.2.1.drop (samplesBufferSize / 2)) else none)
                  (samplesBufferSize / 2)
              else
                writeToFile s2 (some fL.2.2.1)
                  (if numChannels > 1 then some fR.2.2.1 else none) samplesBufferSize) with
            | .error e => .error e
            | .ok (s3, written) =>
              .ok ({ audioModel := fR.2.1
                     streamer := s3
                     bufferL := bufferL
                     bufferR := bufferR
                     fileCreated := p.fileCreated && written
                     hannL := fL.1
                     hannR := fR.1
                     chan0Output := fL.2.2.1
                     chan1Output := fR.2.2.1
                     outputSamples :=
                       (s3.writtenSamples + samplesBufferSize / 2) % 18446744073709551616
                     averager := averager }, true)

/-- One evaluation of the loop condition `outputSamples < totalSamples` of
`StreamManager::processFile` and, when it holds, one run of the loop body. Returns the state and
whether the loop goes on. -/
def processFilePass (cos : α → α) (pi : α) (process : σ → List α → σ × List α)
    (uninit : Nat → α) (samplesBufferSize numChannels totalSamples : Nat) (duration : α)
    (p : ProcessState α σ) : Except Failure (ProcessState α σ × Bool) :=
  if p.outputSamples < totalSamples then
    processFileBody cos pi process uninit samplesBufferSize numChannels duration p
  else .ok (p, false)

/-- The `while` loop of `StreamManager::processFile`; one unit of `fuel` per evaluation of the
loop condition, `durations k` the time measured in the pass `k`. Returns the state at the end
of the loop. -/
def processFileLoop (cos : α → α) (pi : α) (process : σ → List α → σ × List α)
    (uninit : Nat → α) (samplesBufferSize numChannels totalSamples : Nat) :
    Nat → (Nat → α) → ProcessState α σ → Except Failure (ProcessState α σ)
  | 0, _, _ => .error .outOfFuel
  | fuel + 1, durations, p =>
    match processFilePass cos pi process uninit samplesBufferSize numChannels totalSamples
        (durations 0) p with
    | .error e => .error e
    | .ok (p1, true) =>
      processFileLoop cos pi process uninit samplesBufferSize numChannels totalSamples fuel
        (fun k => durations (k + 1)) p1
    | .ok (p1, false) => .ok p1

/-- Function `StreamManager::processFile` from the call of `load` on, for a prepared transform
with frame length `samplesBufferSize`: the streamer is loaded on the input with an output file,
the local variables are set up and the loop runs. `heap k` is the content of the `k`-th block of
fresh heap memory. Returns `none` when `load` returns `false` (the function then returns 1),
else the state at the end of the loop. -/
def processFile (cos : α → α) (pi : α) (process : σ → List α → σ × List α)
    (stack : Nat → Byte) (garbage : WavReader α) (clearedLow : Nat → α → α) (heap : Nat → Nat → α)
    (audioModel : σ) (samplesBufferSize : Nat) (input : List Byte) (out : Option OutFile)
    (durations : Nat → α) (fuel : Nat) : Except Failure (Option (ProcessState α σ)) :=
  match loadWithOutput stack (newReader garbage) (openFile input) out with
  | .error e => .error e
  | .ok (streamer, ok) =>
    if ok = false then .ok none
    else
      match processFileLoop cos pi process (heap 4) samplesBufferSize streamer.numChannels
          (getNumSamplesPerChannel streamer) fuel durations
          (processFileInit streamer audioModel samplesBufferSize
            (newHannFilter clearedLow (heap 0) (heap 1) samplesBufferSize)
            (newHannFilter clearedLow (heap 2) (heap 3) samplesBufferSize)) with
      | .error e => .error e
      | .ok p => .ok (some p)

end Process

/-! ## Vocabulary of the statements -/

section Vocabulary

variable {α : Type} [LinearOrderedField α]

/-- Bytes of one interleaved frame, `(bitsPerSample / 8) * numChannels`. -/
def frameBytes (st : WavReader α) : Nat := (st.bitsPerSample / 8) * st.numChannels

/-- The `i`-th whole frame at or after the get position of the input stream. -/
def frameAt (st : WavReader α) (i : Nat) : List Byte :=
  (st.wavFile.content.drop (st.wavFile.gpos + i * frameBytes st)).take (frameBytes st)

/-- The sample of channel `ch` decoded from the bytes of one frame, at the depth of the stream. -/
def decodeSample (st : WavReader α) (ch : Nat) (frame : List Byte) : α :=
  if st.bitsPerSample = 16 then convert16BitsToFloat (frame.drop (ch * (st.bitsPerSample / 8)))
  else convert24BitsToFloat (frame.drop (ch * (st.bitsPerSample / 8)))

/-- Successive stores `buf[idx] = v0, buf[idx + 1] = v1, ...`. -/
def storeFrom (buf : List α) (idx : Nat) : List α → List α
  | [] => buf
  | v :: vs => storeFrom (buf.set idx v) (idx + 1) vs

/-- The reader after `r` whole frames were copied by `copyToBuffer`, the first one stored at
index `idx`: stream and chunk positions advanced, the channel-1 samples stored in the scratch
buffer of a stereo stream. -/
def afterRead (st : WavReader α) (r idx : Nat) : WavReader α :=
  { st with
    wavFile := { st.wavFile with gpos := st.wavFile.gpos + r * frameBytes st }
    chk := { st.chk with pos := st.chk.pos + r * frameBytes st }
    numSamplesRead := st.numSamplesRead + r
    bufferToFillR :=
      if st.numChannels = 2 then
        st.bufferToFillR.map fun R =>
          storeFrom R idx ((List.range r).map fun i => decodeSample st 1 (frameAt st i))
      else st.bufferToFillR }

/-- The reader once `getNextAudioBlock` has allocated the channel-1 scratch buffer (when there
is more than one channel and none exists yet) and recorded the block length. -/
def withBlock (uninit : Nat → α) (st : WavReader α) (bufferSize : Nat) : WavReader α :=
  { (if st.numChannels > 1 ∧ st.bufferToFillR.isNone then
      { st with bufferToFillR := some ((List.range bufferSize).map uninit) }
    else st) with mBufferSize := bufferSize }

/-- A stream on which block reads are supported: the fmt chunk was parsed, the depth is 16 or
24 bits, there are one or two channels, the input stream is good, and the `unsigned int`
size of the data chunk header is in range. -/
def Supported (st : WavReader α) : Prop :=
  st.fmtFound = true ∧ (st.bitsPerSample = 16 ∨ st.bitsPerSample = 24) ∧
  (st.numChannels = 1 ∨ st.numChannels = 2) ∧ st.wavFile.good = true ∧
  st.chk.size < 4294967296

/-- A sequence of `getNextAudioBlock` calls, each given as the buffer of the caller, the channel
and the block length; the returned flag and buffer of every call, in order. -/
def readBlocks (uninit : Nat → α) :
    WavReader α → List (List α × Int × Nat) →
      Except Failure (WavReader α × List (Bool × List α))
  | st, [] => .ok (st, [])
  | st, (buf, channel, bufferSize) :: calls =>
    match getNextAudioBlock uninit st (some buf) channel bufferSize with
    | .error e => .error e
    | .ok (st1, ok, out) =>
      match readBlocks uninit st1 calls with
      | .error e => .error e
      | .ok (st2, outs) => .ok (st2, (ok, out) :: outs)

/-- The failure that ended a computation, if one did. -/
def failureOf {β : Type} : Except Failure β → Option Failure
  | .error e => some e
  | .ok _ => none

/-- A loaded stream at the start of its data chunk: `size` bytes of sample data declared,
`numCh` channels at `bits` bits per sample, the input positioned at `gpos`. -/
def streamAt (content : List Byte) (gpos size numCh bits : Nat) : WavReader α :=
  { riff := ⟨[82, 73, 70, 70], size + 36, 4⟩, wave := ⟨[87, 65, 86, 69], size + 32, 32⟩,
    chk := ⟨[100, 97, 116, 97], size, 0⟩, fmtFound := true,
    wavFile := ⟨content, gpos, true⟩, sampleRate := 44100,
    byteRate := 44100 * numCh * (bits / 8), audioFormat := 1, numChannels := numCh,
    blockAlign := numCh * (bits / 8), bitsPerSample := bits, extraSize := 0,
    outWavFile := none, srcRiffSize := 0, srcDataSize := 0, dataHdrSizeOffset := 0,
    riffSizeOffset := 0, writtenSamples := 0, mBufferSize := 0, numSamplesRead := 0,
    isEofLReached := false, isEofReached := false, bufferToFillR := none,
    writeToOutput := false, headerDataSizeOffset := 0, fmtPosition := 16,
    dataPosition := size }

/-- A chunk as it lies in a RIFF container: four bytes of id, the 32-bit size of the payload,
the payload, and one pad byte when the size is odd. -/
def riffChunk (id payload : List Byte) : List Byte :=
  id ++ leBytes 4 payload.length ++ payload ++ (if payload.length % 2 = 1 then [0] else [])

/-- The sixteen bytes of a PCM fmt payload: format 1, the channel count, the sample rate, the
byte rate, the block alignment and the bit depth. -/
def pcmFormat (numCh rate bits : Nat) : List Byte :=
  leBytes 2 1 ++ leBytes 2 numCh ++ leBytes 4 rate ++ leBytes 4 (rate * numCh * (bits / 8)) ++
    leBytes 2 (numCh * (bits / 8)) ++ leBytes 2 bits

/-- A RIFF file: the id `RIFF`, the size of form type plus body, the form type and the body. -/
def riffFile (form body : List Byte) : List Byte :=
  [82, 73, 70, 70] ++ leBytes 4 (4 + body.length) ++ form ++ body

/-- The bytes of a 16-bit mono PCM file at 44100 Hz: a fmt chunk of sixteen bytes and a data
chunk with the given bytes. -/
def monoFile16 (data : List Byte) : List Byte :=
  riffFile [87, 65, 86, 69]
    (riffChunk [102, 109, 116, 32] (pcmFormat 1 44100 16) ++ riffChunk [100, 97, 116, 97] data)

/-- The bytes of `T` 16-bit samples that count up from 0: the sample `i` is `i`. -/
def rampSamples16 (T : Nat) : List Byte :=
  (List.range T).flatMap fun i => leBytes 2 i

/-- The fmt fields and the size of the current chunk, as a reader reports them: `audioFormat`,
`numChannels`, `sampleRate`, `byteRate`, `blockAlign`, `bitsPerSample`, `chk.size`. -/
def formatOf {α : Type} (st : WavReader α) : List Nat :=
  [st.audioFormat, st.numChannels, st.sampleRate, st.byteRate, st.blockAlign, st.bitsPerSample,
    st.chk.size]

/-- A reader whose members without default initialiser hold zeros and empty ids. -/
def blankReader {α : Type} : WavReader α :=
  { riff := ⟨[], 0, 0⟩, wave := ⟨[], 0, 0⟩, chk := ⟨[], 0, 0⟩, fmtFound := false,
    wavFile := ⟨[], 0, false⟩, sampleRate := 0, byteRate := 0, audioFormat := 0,
    numChannels := 0, blockAlign := 0, bitsPerSample := 0, extraSize := 0,
    outWavFile := none, srcRiffSize := 0, srcDataSize := 0, dataHdrSizeOffset := 0,
    riffSizeOffset := 0, writtenSamples := 0, mBufferSize := 0, numSamplesRead := 0,
    isEofLReached := false, isEofReached := false, bufferToFillR := none,
    writeToOutput := false, headerDataSizeOffset := 0, fmtPosition := 0, dataPosition := 0 }

/-- The calls `load` makes before the data scan: `checkForRiffHeader`, `readToWaveChunkHeader`
and `updateInfo`. -/
def formatScan {α : Type} (stack : Nat → Byte) (st : WavReader α) (file : IfStream) :
    Except Failure (WavReader α) :=
  checkForRiffHeader { st with wavFile := file } >>= readToWaveChunkHeader >>= updateInfo stack

/-- A sequence of `writeToFile` calls, each given as the two buffers and the count. -/
def writeBlocks {α : Type} [LinearOrderedField α] [FloorRing α] :
    WavReader α → List (Option (List α) × Option (List α) × Nat) → Except Failure (WavReader α)
  | st, [] => .ok st
  | st, (bufL, bufR, n) :: calls =>
    match writeToFile st bufL bufR n with
    | .error e => .error e
    | .ok (st1, _) => writeBlocks st1 calls

/-- A writer session: `load(filePath, outputFile)` on a new reader, a sequence of `writeToFile`
calls, then the destructor. Returns the state at destruction and the bytes of the output
file. -/
def writeSession {α : Type} [LinearOrderedField α] [FloorRing α] (stack : Nat → Byte)
    (garbage : WavReader α) (input : List Byte)
    (calls : List (Option (List α) × Option (List α) × Nat)) :
    Except Failure (WavReader α × List Byte) :=
  match loadWithOutput stack (newReader garbage) (openFile input) (some ⟨[], 0⟩) with
  | .error e => .error e
  | .ok (st, _) =>
    match writeBlocks st calls with
    | .error e => .error e
    | .ok st1 => .ok (st1, (destroy st1).getD [])

/-- A reader session: `load(filePath)` on a new reader, then a sequence of `getNextAudioBlock`
calls. Returns the flag and the buffer of every call. -/
def readSession {α : Type} [LinearOrderedField α] (stack : Nat → Byte) (uninit : Nat → α)
    (garbage : WavReader α) (input : List Byte) (calls : List (List α × Int × Nat)) :
    Except Failure (List (Bool × List α)) :=
  match load stack (newReader garbage) (openFile input) with
  | .error e => .error e
  | .ok (st, _) =>
    match readBlocks uninit st calls with
    | .error e => .error e
    | .ok (_, outs) => .ok outs

/-- The seven fmt fields of a reader in the order of the chunk: `audioFormat`, `numChannels`,
`sampleRate`, `byteRate`, `blockAlign`, `bitsPerSample`, `extraSize`. -/
def fmtFields {α : Type} (st : WavReader α) : List Nat :=
  [st.audioFormat, st.numChannels, st.sampleRate, st.byteRate, st.blockAlign, st.bitsPerSample,
    st.extraSize]

/-- A sequence of chunks, each given as id and payload, as they lie one after the other in a
RIFF container. -/
def riffChunks (chunks : List (List Byte × List Byte)) : List Byte :=
  chunks.flatMap fun c => riffChunk c.1 c.2

/-- The part of a reader that the chunk scanner works on: the input stream, the current chunk
header, the WAVE chunk header, the fmt flag and the fmt fields. -/
def scanState {α : Type} (st : WavReader α) : IfStream × chunkHdr × chunkHdr × Bool × List Nat :=
  (st.wavFile, st.chk, st.wave, st.fmtFound, fmtFields st)

/-- A stream laid out as a RIFF header with the size field `riffSize`, a form type, the chunks
`pre`, a fmt chunk with payload `P`, the chunks `post`, and the bytes `tail`. -/
def waveStream (riffSize : Nat) (form : List Byte) (pre : List (List Byte × List Byte))
    (P : List Byte) (post : List (List Byte × List Byte)) (tail : List Byte) : List Byte :=
  [82, 73, 70, 70] ++ leBytes 4 riffSize ++ form ++ riffChunks pre ++
    riffChunk [102, 109, 116, 32] P ++ riffChunks post ++ tail

/-- The stream `F` with the bytes `U` inserted at offset `d` and the size field of its RIFF
header (the bytes 4 to 7) set to `riffSize`. -/
def insertChunk (F : List Byte) (d : Nat) (U : List Byte) (riffSize : Nat) : List Byte :=
  F.take 4 ++ leBytes 4 riffSize ++ (F.drop 8).take (d - 8) ++ U ++ F.drop d

/-- What a call returns to its caller: the failure, or the result without the reader. -/
def outputOf {α β : Type} : Except Failure (WavReader α × β) → Except Failure β
  | .error e => .error e
  | .ok (_, b) => .ok b

/-- The reader on another input: the bytes of the stream, the size of the RIFF chunk and the
size of the WAVE chunk replaced. -/
def withInput {α : Type} (st : WavReader α) (content : List Byte) (riffSize waveSize : Nat) :
    WavReader α :=
  { st with
    wavFile := { st.wavFile with content := content }
    riff := { st.riff with size := riffSize }
    wave := { st.wave with size := waveSize } }

/-- Between the offsets `a` and `d`, which lies inside the input `c'`, every read returns the
same bytes from `c'` as from `c`. -/
def AgreeOn (c c' : List Byte) (a d : Nat) : Prop :=
  d ≤ c'.length ∧ ∀ g n, a ≤ g → g + n ≤ d → (c'.drop g).take n = (c.drop g).take n

/-- A step of the scanner that keeps the input and the size of the WAVE chunk, never moves the
get position back, and runs alike on the reader of a second input as long as it ends at or
before the offset `d`. -/
def Stable {α : Type} (c c' : List Byte) (a d riffSize waveSize : Nat)
    (f : WavReader α → Except Failure (WavReader α)) : Prop :=
  ∀ s r, f s = .ok r → s.wavFile.content = c → a ≤ s.wavFile.gpos →
    r.wavFile.content = c ∧ s.wavFile.gpos ≤ r.wavFile.gpos ∧ r.wave.size = s.wave.size ∧
    (r.wavFile.gpos ≤ d →
      f (withInput s c' riffSize waveSize) = .ok (withInput r c' riffSize waveSize))

/-- The reader on an input in which the bytes not yet read lie `k` bytes further on: the bytes
of the stream replaced, the get position moved by `k`, and the RIFF and WAVE chunk headers
replaced. -/
def rebased {α : Type} (st : WavReader α) (content : List Byte) (k : Nat)
    (riff wave : chunkHdr) : WavReader α :=
  { st with
    wavFile := ⟨content, st.wavFile.gpos + k, st.wavFile.good⟩
    riff := riff
    wave := wave }

/-- The outcome of a call with the reader in it replaced through `φ`. -/
def mapReader {α β : Type} (φ : WavReader α → WavReader α) :
    Except Failure (WavReader α × β) → Except Failure (WavReader α × β)
  | .error e => .error e
  | .ok (s, b) => .ok (φ s, b)

/-- The input `c'` holds from offset `d + k` on what the input `c` holds from offset `d` on. -/
def ShiftedBy (c c' : List Byte) (k d : Nat) : Prop :=
  c'.length = c.length + k ∧ ∀ g, d ≤ g → c'.drop (g + k) = c.drop g

end Vocabulary

/-! ## Vocabulary of the statements on the loop of `processFile` -/

section LoopVocabulary

/-- The part of a reader that the block reads and the writes work on and that the scanner leaves
as it is: `writtenSamples`, `mBufferSize`, `numSamplesRead`, the two end flags and the scratch
buffer. -/
def blockState {α : Type} (st : WavReader α) : Nat × Nat × Nat × Bool × Bool × Option (List α) :=
  (st.writtenSamples, st.mBufferSize, st.numSamplesRead, st.isEofLReached, st.isEofReached,
    st.bufferToFillR)

/-- The step `f` leaves the part `P` of the reader as it is. -/
def Keeps {α β : Type} (P : WavReader α → β) (f : WavReader α → Except Failure (WavReader α)) :
    Prop :=
  ∀ s r, f s = .ok r → P r = P s

/-- The first `i` passes of the loop of `StreamManager::processFile`: the state after them and
whether the loop goes on; no pass is run once the loop was left. -/
def processFilePasses {α σ : Type} [LinearOrderedField α] [FloorRing α] (cos : α → α) (pi : α)
    (process : σ → List α → σ × List α) (uninit : Nat → α)
    (samplesBufferSize numChannels totalSamples : Nat) :
    Nat → (Nat → α) → ProcessState α σ → Except Failure (ProcessState α σ × Bool)
  | 0, _, p => .ok (p, true)
  | i + 1, durations, p =>
    match processFilePass cos pi process uninit samplesBufferSize numChannels totalSamples
        (durations 0) p with
    | .error e => .error e
    | .ok (p1, true) =>
      processFilePasses cos pi process uninit samplesBufferSize numChannels totalSamples i
        (fun k => durations (k + 1)) p1
    | .ok (p1, false) => .ok (p1, false)

/-- The state of `StreamManager::processFile` at the head of its loop after `k` passes, for the
frame length `N`, the sample count `T` and the streamer `s0` as `load` left it: the input
buffer holds `N` floats; the format, the input and the data chunk size are those of `s0`; a
mono stream has no scratch buffer, and a scratch buffer that exists was allocated with at least
`N` floats; the counters are 0 before the first pass, and after it
`writtenSamples = min T (N / 2 + (k - 1) * N)` and `outputSamples = writtenSamples + N / 2`;
and as long as the loop goes on, `k` whole blocks were read and no end flag is set. -/
def AtPass {α σ : Type} [LinearOrderedField α] (N T : Nat) (s0 : WavReader α) (k : Nat)
    (p : ProcessState α σ) : Prop :=
  p.bufferL.length = N ∧
  p.streamer.fmtFound = true ∧ p.streamer.bitsPerSample = s0.bitsPerSample ∧
  p.streamer.numChannels = s0.numChannels ∧ p.streamer.wavFile.good = true ∧
  p.streamer.wavFile.content = s0.wavFile.content ∧ p.streamer.chk.size = s0.chk.size ∧
  ((s0.numChannels = 1 → p.streamer.bufferToFillR = none) ∧
    (∀ R, p.streamer.bufferToFillR = some R → N ≤ R.length)) ∧
  p.streamer.writtenSamples = (if k = 0 then 0 else min T (N / 2 + (k - 1) * N)) ∧
  p.outputSamples = (if k = 0 then 0 else p.streamer.writtenSamples + N / 2) ∧
  (p.outputSamples < T →
    p.streamer.chk.pos = k * N * frameBytes s0 ∧
    p.streamer.wavFile.gpos = s0.wavFile.gpos + k * N * frameBytes s0 ∧
    p.streamer.isEofLReached = false ∧ p.streamer.isEofReached = false)

/-- The averager can take a value: its history is not empty, its iterator points to an element
of the history, and `_histIdx` is at least -1, so that `add` steps the iterator cyclically. -/
def AverageReady {α : Type} (a : Average α) : Prop :=
  1 ≤ a._history.length ∧ -1 ≤ a._histIdx ∧ a._currentIt < a._history.length

end LoopVocabulary

section WriterVocabulary

/-- The part of a reader that the writer and the destructor work on and that the block reads
leave as it is: the output file, the two remembered offsets, the two sizes of the source and the
counter `writtenSamples`. -/
def writerState {α : Type} (st : WavReader α) :
    Option OutFile × Nat × Nat × Nat × Nat × Nat :=
  (st.outWavFile, st.dataHdrSizeOffset, st.riffSizeOffset, st.srcRiffSize, st.srcDataSize,
    st.writtenSamples)

/-- The step `f` carries the property `Q` of the reader on. -/
def Carries {α : Type} (Q : WavReader α → Prop)
    (f : WavReader α → Except Failure (WavReader α)) : Prop :=
  ∀ s r, f s = .ok r → Q s → Q r

/-- The header is being copied to an output file whose position is its end, at least 12 bytes
from its start, and the RIFF size field was written at offset 4. -/
def CopiesHeader {α : Type} (st : WavReader α) : Prop :=
  st.writeToOutput = true ∧ st.riffSizeOffset = 4 ∧
    ∃ o, st.outWavFile = some o ∧ o.fpos = o.content.length ∧ 12 ≤ o.fpos

end WriterVocabulary

section FilterVocabulary

variable {α : Type} [LinearOrderedField α]

/-- The sample of channel 0 in frame `n` of the data chunk of the loaded stream `st`, and `0.0`
beyond the whole frames of the chunk. -/
def inputSample (st : WavReader α) (n : Nat) : α :=
  if n < st.chk.size / frameBytes st then decodeSample st 0 (frameAt st n) else 0

/-- The input of channel 0 behind one window of `N` zeros. -/
def delayedSample (st : WavReader α) (N m : Nat) : α :=
  if m < N then 0 else inputSample st (m - N)

/-- The filter of channel 0 and the buffer `chan0Output` at the head of the loop of
`processFile` after `k` passes, for a mono stream, the identity transform and a filter that
started with zeroed buffers: the model input buffer holds the last block read, the first half
of the overlap buffer the weighted second half of that block, and after the first pass
`chan0Output` holds the input of one hop earlier, each sample times the sum of the two
multipliers of its index in the hop. -/
def AtHann {σ : Type} (cos : α → α) (pi : α) (N : Nat) (s0 : WavReader α) (k : Nat)
    (p : ProcessState α σ) : Prop :=
  p.hannL.mWindowSize = N ∧ p.hannL.mHopSize = N / 2 ∧
  p.hannL.mModelInputBuffer.length = N ∧ p.hannL.mOverlapBuffer.length = N ∧
  p.chan0Output.length = N ∧
  (∀ j, j < N → p.hannL.mModelInputBuffer.getD j 0 = delayedSample s0 N (k * N + j)) ∧
  (∀ s, s < N / 2 →
    p.hannL.mOverlapBuffer.getD s 0
      = hannMultiplier cos pi N (N / 2 + s) * delayedSample s0 N (k * N + N / 2 + s)) ∧
  (1 ≤ k → ∀ t, t < N →
    p.chan0Output.getD t 0
      = (hannMultiplier cos pi N (t % (N / 2)) + hannMultiplier cos pi N (t % (N / 2) + N / 2))
          * delayedSample s0 N ((k - 1) * N + N / 2 + t))

end FilterVocabulary

/-! ## Properties: machine integers and sample codec -/

theorem byteAt_lt (b : List Byte) (i : Nat) : byteAt b i < 256 := (b.getD i 0).isLt

theorem lor_shift8 (hi lo : Nat) (h : lo < 256) : (hi <<< 8) ||| lo = 256 * hi + lo := by
  have := Nat.mul_add_lt_is_or (i := 8) (b := lo) (by simpa using h) hi
  rw [Nat.shiftLeft_eq, Nat.mul_comm]
  simpa using this.symm

theorem int16OfBytes_pair (b0 b1 : Byte) :
    int16OfBytes [b0, b1] = toInt16 ((256 * b1.val + b0.val : Nat) : Int) := by
  unfold int16OfBytes
  have h0 : byteAt [b0, b1] 0 = b0.val := rfl
  have h1 : byteAt [b0, b1] 1 = b1.val := rfl
  rw [h0, h1, lor_shift8 _ _ b0.isLt]

theorem int16OfBytes_toUInt8 (t : Int) (hlo : -32768 ≤ t) (hhi : t ≤ 32767) :
    int16OfBytes [toUInt8 t, toUInt8 (t >>> (8 : Nat))] = t := by
  rw [int16OfBytes_pair]
  have hs : t >>> (8 : Nat) = t / 256 := by rw [Int.shiftRight_eq_div_pow]; norm_num
  simp only [toUInt8, toInt16, hs]
  have e1 : (((t / 256) % 256).toNat : Int) = (t / 256) % 256 :=
    Int.toNat_of_nonneg (by omega)
  have e0 : ((t % 256).toNat : Int) = t % 256 := Int.toNat_of_nonneg (by omega)
  push_cast [e1, e0]
  omega

theorem truncToInt_of_nonneg {α : Type} [LinearOrderedField α] [FloorRing α] {x : α} (hx : 0 ≤ x) :
    0 ≤ truncToInt x ∧ (truncToInt x : α) ≤ x ∧ x < truncToInt x + 1 := by
  unfold truncToInt
  rw [if_pos hx]
  exact ⟨Int.floor_nonneg.mpr hx, Int.floor_le x, Int.lt_floor_add_one x⟩

theorem truncToInt_of_neg {α : Type} [LinearOrderedField α] [FloorRing α] {x : α} (hx : x < 0) :
    truncToInt x ≤ 0 ∧ x ≤ (truncToInt x : α) ∧ (truncToInt x : α) < x + 1 := by
  unfold truncToInt
  rw [if_neg (not_le.mpr hx)]
  refine ⟨?_, Int.le_ceil x, Int.ceil_lt_add_one x⟩
  rw [Int.ceil_le]
  exact_mod_cast hx.le

theorem clamp_of_mem {α : Type} [LinearOrderedField α]
    {x : α} (h1 : -1 ≤ x) (h2 : x ≤ 1) : clamp x (-1) 1 = x := by
  unfold clamp
  rw [min_eq_left h2, max_eq_left h1]


/-- Claim C6, as amended. For every `x` in `[-1, 1]`, decoding with `convert16BitsToFloat` the
two bytes that the 16-bit write path (`clamp`, then `sampleToFile`) stores for `x` gives a value
whose distance from `clamp(x, -1, 1)` is less than two quantization steps, `2 / 32768`. -/
theorem roundTrip16_within_two_steps {α : Type} [LinearOrderedField α]
    [FloorRing α] (x : α) (h1 : -1 ≤ x) (h2 : x ≤ 1) :
    |convert16BitsToFloat (sampleToFile 16 (clamp x (-1) 1)) - clamp x (-1) 1| < 2 / 32768 := by
  rw [clamp_of_mem h1 h2]
  unfold sampleToFile convert16BitsToFloat
  rw [if_pos rfl]
  rcases le_or_lt 0 x with hx | hx
  · have hy : (0 : α) ≤ x * 32767 := by positivity
    obtain ⟨t0, tl, tu⟩ := truncToInt_of_nonneg hy
    have hle : (truncToInt (x * 32767) : α) ≤ 32767 := by linarith
    have hle' : truncToInt (x * 32767) ≤ 32767 := by exact_mod_cast hle
    have e16 : toInt16 (truncToInt (x * 32767)) = truncToInt (x * 32767) := by
      unfold toInt16; omega
    rw [e16, int16OfBytes_toUInt8 _ (by omega) hle', abs_lt]
    constructor <;> linarith
  · have hy : x * 32767 < 0 := by nlinarith
    obtain ⟨t0, tl, tu⟩ := truncToInt_of_neg hy
    have hge : (-32767 : α) ≤ (truncToInt (x * 32767) : α) := by linarith
    have hge' : -32767 ≤ truncToInt (x * 32767) := by exact_mod_cast hge
    have e16 : toInt16 (truncToInt (x * 32767)) = truncToInt (x * 32767) := by
      unfold toInt16; omega
    rw [e16, int16OfBytes_toUInt8 _ (by omega) (by omega), abs_lt]
    constructor <;> linarith


/-- Claim C10. For every byte pair `(b0, b1)`, `convert16BitsToFloat` returns `v / 32768` where
`v` is the twos-complement signed 16-bit value of the little-endian word `b0 + 256 * b1`:
the word itself when it is below `32768`, the word minus `65536` otherwise. -/
theorem convert16BitsToFloat_eq {α : Type} [LinearOrderedField α] (b0 b1 : Byte) :
    (convert16BitsToFloat [b0, b1] : α) =
      ((if b0.val + 256 * b1.val < 32768 then (b0.val + 256 * b1.val : Int)
        else (b0.val + 256 * b1.val : Int) - 65536 : Int) : α) / 32768 := by
  unfold convert16BitsToFloat
  rw [int16OfBytes_pair]
  have hb0 := b0.isLt
  have hb1 := b1.isLt
  have : toInt16 ((256 * b1.val + b0.val : Nat) : Int) =
      (if b0.val + 256 * b1.val < 32768 then (b0.val + 256 * b1.val : Int)
        else (b0.val + 256 * b1.val : Int) - 65536 : Int) := by
    unfold toInt16
    split_ifs <;> omega
  rw [this]

/-! ## Properties: Hann overlap-add -/

theorem getD_map_range {α : Type} [Zero α] (n : Nat) (g : Nat → α) (s : Nat) (hs : s < n) :
    ((List.range n).map g).getD s 0 = g s := by
  rw [List.getD_eq_getElem _ _ (by simpa using hs)]
  simp

theorem historyShift {α : Type} [Zero α] (H x : List α) (hop : Nat) (hH : H.length = 2 * hop)
    (hx : x.length = hop) :
    memcpy (memcpy H 0 H hop hop) hop x 0 hop = H.drop hop ++ x := by
  have h1 : (H.drop hop).length = hop := by simp [hH]; omega
  have e1 : memcpy H 0 H hop hop = H.drop hop ++ H.drop hop := by
    simp only [memcpy, List.take_zero, List.nil_append, Nat.zero_add]
    rw [List.take_of_length_le (by omega)]
  rw [e1]
  simp only [memcpy, List.drop_zero]
  have t1 : (H.drop hop ++ H.drop hop).take hop = H.drop hop := by
    rw [List.take_append_of_le_length (by omega)]
    exact List.take_of_length_le (by omega)
  have t2 : x.take hop = x := List.take_of_length_le (by omega)
  have t3 : (H.drop hop ++ H.drop hop).drop (hop + hop) = [] :=
    List.drop_of_length_le (by rw [List.length_append]; omega)
  rw [t1, t2, t3, List.append_nil]

theorem applyFilterInternal_step {α : Type} [Field α] {σ : Type}
    (cos : α → α) (pi : α) (process : σ → List α → σ × List α)
    (f : HannFilter α) (model : σ) (x : List α)
    (hN : f.mWindowSize = 2 * f.mHopSize)
    (hH : f.mModelInputBuffer.length = f.mWindowSize)
    (hO : f.mHopSize ≤ f.mOverlapBuffer.length)
    (hx : x.length = f.mHopSize) :
    ∃ f1 out,
      applyFilterInternal cos pi process f model x f.mHopSize
        = some (f1, (process model (f.mModelInputBuffer.drop f.mHopSize ++ x)).1, out) ∧
      f1.mWindowSize = f.mWindowSize ∧ f1.mHopSize = f.mHopSize ∧
      f1.mModelInputBuffer = f.mModelInputBuffer.drop f.mHopSize ++ x ∧
      out.length = f.mHopSize ∧
      f1.mOverlapBuffer.length = f.mOverlapBuffer.length ∧
      ∀ s, s < f.mHopSize →
        out.getD s 0 = f.mOverlapBuffer.getD s 0 +
          hannMultiplier cos pi f.mWindowSize s *
            (process model (f.mModelInputBuffer.drop f.mHopSize ++ x)).2.getD s 0 ∧
        f1.mOverlapBuffer.getD s 0 =
          hannMultiplier cos pi f.mWindowSize (f.mHopSize + s) *
            (process model (f.mModelInputBuffer.drop f.mHopSize ++ x)).2.getD (f.mHopSize + s) 0 := by
  have hshift := historyShift f.mModelInputBuffer x f.mHopSize (by omega) hx
  unfold applyFilterInternal
  rw [if_neg (by simp)]
  simp only [hshift]
  refine ⟨_, _, rfl, rfl, rfl, rfl, by simp, ?_, ?_⟩
  · simp [memcpy]; omega
  · intro s hs
    have hsN : s < f.mWindowSize := by omega
    have hsN2 : f.mHopSize + s < f.mWindowSize := by omega
    constructor
    · rw [getD_map_range _ _ _ hs, getD_map_range _ _ _ hsN, getD_map_range _ _ _ hsN]
      ring
    · simp only [memcpy, List.take_zero, List.nil_append, Nat.zero_add, List.drop_zero]
      rw [List.getD_append _ _ _ _ (by simp; omega)]
      rw [List.getD_eq_getElem _ _ (by simp; omega)]
      simp only [List.getElem_take, List.getElem_drop, List.getElem_map, List.getElem_range]
      rw [getD_map_range _ _ _ hsN2]
      ring

theorem runHops_identity {α : Type} [Field α] {σ : Type}
    (cos : α → α) (pi : α) (model : σ) (hop : Nat) :
    ∀ (xs : List (List α)) (f : HannFilter α) (prev : List α),
      f.mHopSize = hop → f.mWindowSize = 2 * hop →
      f.mModelInputBuffer.length = 2 * hop → hop ≤ f.mOverlapBuffer.length →
      prev.length = hop → f.mModelInputBuffer.drop hop = prev →
      (∀ s, s < hop → f.mOverlapBuffer.getD s 0 =
        hannMultiplier cos pi (2 * hop) (hop + s) * prev.getD s 0) →
      (∀ x ∈ xs, x.length = hop) →
      ∃ f1 outs, runHops cos pi (fun (m : σ) (w : List α) => (m, w)) f model xs
          = some (f1, model, outs) ∧
        outs.length = xs.length ∧
        ∀ k, k < xs.length → ∀ s, s < hop →
          (outs.getD k []).getD s 0 =
            (hannMultiplier cos pi (2 * hop) s + hannMultiplier cos pi (2 * hop) (hop + s)) *
              ((prev :: xs).getD k []).getD s 0 := by
  intro xs
  induction xs with
  | nil =>
    intro f prev _ _ _ _ _ _ _ _
    exact ⟨f, [], rfl, rfl, fun k hk => absurd hk (Nat.not_lt_zero k)⟩
  | cons x xs ih =>
    intro f prev hhop hN hH hO hprev hdrop hov hxs
    have hx : x.length = hop := hxs x (List.mem_cons_self _ _)
    obtain ⟨f1, out, hstep, h1N, h1hop, h1H, hout, h1O, hvals⟩ :=
      applyFilterInternal_step cos pi (fun (m : σ) (w : List α) => (m, w)) f model x
        (by omega) (by omega) (by omega) (by omega)
    rw [hhop] at h1hop h1H hout hvals hstep
    rw [hN] at hvals
    rw [hdrop] at h1H hvals hstep
    have hd1 : f1.mModelInputBuffer.drop hop = x := by
      rw [h1H, List.drop_left' hprev]
    obtain ⟨f2, outs, hrun, hlen, hrest⟩ := ih f1 x h1hop (by omega)
      (by rw [h1H, List.length_append]; omega) (by omega) hx hd1
      (fun s hs => by
        rw [(hvals s hs).2]
        simp only
        rw [List.getD_append_right _ _ _ _ (by omega)]
        congr 2
        omega)
      (fun y hy => hxs y (List.mem_cons_of_mem _ hy))
    refine ⟨f2, out :: outs, ?_, by simp [hlen], ?_⟩
    · simp only [runHops]
      rw [hhop, hstep]
      simp only []
      rw [hrun]
    · intro k hk s hs
      cases k with
      | zero =>
        simp only [List.getD_cons_zero]
        rw [(hvals s hs).1, hov s hs]
        simp only
        rw [List.getD_append _ _ _ _ (by omega)]
        ring
      | succ k =>
        simp only [List.getD_cons_succ]
        have := hrest k (by simpa using hk) s hs
        rw [this]

/-- Claim C4, as amended. For every even window size `N ≥ 2` (hop `N / 2`), the identity
transform, both buffers initially zero and every sequence of input hops of length `N / 2`, all
calls of `applyFilterInternal` succeed and the `k`-th emitted hop, `k ≥ 2`, is the input hop
`x_(k-1)` multiplied index by index by the gain `w(s) + w(s + N / 2)` of the multipliers `w` used
by the code (over every field, in particular over the reals with the real cosine). -/
theorem overlapAdd_identity_gain {α : Type} [Field α] {σ : Type}
    (cos : α → α) (pi : α) (model : σ) (N : Nat) (xs : List (List α))
    (hN : 2 ≤ N) (heven : N % 2 = 0) (hxs : ∀ x ∈ xs, x.length = N / 2) :
    ∃ f1 outs,
      runHops cos pi (fun (m : σ) (w : List α) => (m, w))
          ⟨N, N / 2, List.replicate N 0, List.replicate N 0⟩ model xs
        = some (f1, model, outs) ∧
      outs.length = xs.length ∧
      ∀ k, k + 1 < xs.length → ∀ s, s < N / 2 →
        (outs.getD (k + 1) []).getD s 0 =
          (hannMultiplier cos pi N s + hannMultiplier cos pi N (s + N / 2)) *
            (xs.getD k []).getD s 0 := by
  have h2 : N = 2 * (N / 2) := by omega
  obtain ⟨f1, outs, hrun, hlen, hvals⟩ :=
    runHops_identity cos pi model (N / 2) xs
      ⟨N, N / 2, List.replicate N 0, List.replicate N 0⟩ (List.replicate (N / 2) 0)
      rfl h2 (by simpa using h2) (by simp; omega) (by simp)
      (by simp only [List.drop_replicate]; congr 1; omega)
      (fun s hs => by
        rw [List.getD_eq_getElem _ _ (by simpa using (by omega : s < N)),
          List.getD_eq_getElem _ _ (by simpa using hs)]
        simp)
      hxs
  refine ⟨f1, outs, hrun, hlen, fun k hk s hs => ?_⟩
  rw [hvals (k + 1) hk s hs, ← h2, Nat.add_comm (N / 2) s]
  rfl

theorem hann_two : hannMultiplier Real.cos Real.pi 2 0 = 0 ∧
    hannMultiplier Real.cos Real.pi 2 1 = 0 := by
  constructor <;> simp [hannMultiplier]

/-- Claim C4 fails as stated. The Hann multipliers of the code do not satisfy
`w(s) + w(s + N / 2) = 1` for every even `N ≥ 2`: for `N = 2` both multipliers are `0`, and with
the identity transform and zero buffers the second emitted hop for the input hops `[1], [1]` is
`[0]`, not the first input hop `[1]`. -/
theorem hann_overlapAdd_not_unity :
    ¬ (∀ N : Nat, 2 ≤ N → N % 2 = 0 → ∀ s, s < N / 2 →
        hannMultiplier Real.cos Real.pi N s + hannMultiplier Real.cos Real.pi N (s + N / 2) = 1) ∧
    (runHops Real.cos Real.pi (fun (m : Unit) (w : List ℝ) => (m, w))
        ⟨2, 1, [0, 0], [0, 0]⟩ () [[1], [1]]).map (fun r => r.2.2) = some [[0], [0]] := by
  constructor
  · intro h
    have := h 2 (by norm_num) (by norm_num) 0 (by norm_num)
    simp [hann_two.1, hann_two.2] at this
  · have r1 : List.range 1 = [0] := rfl
    have r2 : List.range 2 = [0, 1] := rfl
    simp [runHops, applyFilterInternal, memcpy, r1, r2, hann_two.1, hann_two.2]

/-- Instance of `overlapAdd_identity_gain` for `N = 2` over the reals and the input hops
`[1], [1]`. -/
theorem overlapAdd_identity_gain_witness :
    ∃ f1 outs,
      runHops Real.cos Real.pi (fun (m : Unit) (w : List ℝ) => (m, w))
          ⟨2, 2 / 2, List.replicate 2 0, List.replicate 2 0⟩ () [[1], [1]]
        = some (f1, (), outs) ∧
      outs.length = [[(1:ℝ)], [1]].length ∧
      ∀ k, k + 1 < [[(1:ℝ)], [1]].length → ∀ s, s < 2 / 2 →
        (outs.getD (k + 1) []).getD s 0 =
          (hannMultiplier Real.cos Real.pi 2 s + hannMultiplier Real.cos Real.pi 2 (s + 2 / 2)) *
            ([[(1:ℝ)], [1]].getD k []).getD s 0 :=
  overlapAdd_identity_gain Real.cos Real.pi () 2 [[1], [1]] (by norm_num) (by norm_num) (by simp)

/-! ## Properties: block reads -/

theorem storeFrom_length {α : Type} (vals : List α) : ∀ (buf : List α) (idx : Nat),
    (storeFrom buf idx vals).length = buf.length := by
  induction vals with
  | nil => intro buf idx; rfl
  | cons v vs ih => intro buf idx; simp [storeFrom, ih]

theorem storeFrom_getD {α : Type} [Zero α] (vals : List α) : ∀ (buf : List α) (idx j : Nat),
    idx + vals.length ≤ buf.length →
    (storeFrom buf idx vals).getD j 0 =
      if idx ≤ j ∧ j < idx + vals.length then vals.getD (j - idx) 0 else buf.getD j 0 := by
  induction vals with
  | nil => intro buf idx j _; rw [if_neg (by simp)]; rfl
  | cons v vs ih =>
    intro buf idx j h
    simp only [List.length_cons] at h
    simp only [storeFrom, List.length_cons]
    rw [ih _ _ _ (by simp; omega)]
    by_cases h1 : idx + 1 ≤ j ∧ j < idx + 1 + vs.length
    · rw [if_pos h1, if_pos (by omega)]
      have : j - idx = (j - (idx + 1)) + 1 := by omega
      rw [this, List.getD_cons_succ]
    · rw [if_neg h1]
      by_cases h2 : j = idx
      · subst h2
        rw [if_pos (by omega), Nat.sub_self, List.getD_cons_zero,
          List.getD_eq_getElem _ _ (by simp; omega)]
        simp
      · rw [if_neg (by omega)]
        simp only [List.getD_eq_getElem?_getD]
        rw [List.getElem?_set_ne (by omega)]

theorem frameBytes_pos {α : Type} [LinearOrderedField α]
    (st : WavReader α) (hb : st.bitsPerSample = 16 ∨ st.bitsPerSample = 24)
    (hc : st.numChannels = 1 ∨ st.numChannels = 2) :
    2 ≤ frameBytes st ∧ frameBytes st ≤ 6 := by
  unfold frameBytes
  rcases hb with hb | hb <;> rcases hc with hc | hc <;> rw [hb, hc] <;> decide

theorem decodeSample_zero {α : Type} [LinearOrderedField α] (st : WavReader α) (frame : List Byte) :
    decodeSample st 0 frame =
      (if st.bitsPerSample = 16 then convert16BitsToFloat else convert24BitsToFloat) frame := by
  unfold decodeSample
  split_ifs <;> simp

theorem decodeSample_one {α : Type} [LinearOrderedField α] (st : WavReader α) (frame : List Byte) :
    decodeSample st 1 frame =
      (if st.bitsPerSample = 16 then convert16BitsToFloat else convert24BitsToFloat)
        (frame.drop (st.bitsPerSample / 8)) := by
  unfold decodeSample
  split_ifs <;> simp

theorem afterRead_one {α : Type} [LinearOrderedField α] (st : WavReader α) (idx : Nat)
    (hc : st.numChannels = 1 ∨ st.numChannels = 2) :
    ({ st with
        wavFile := { st.wavFile with gpos := st.wavFile.gpos + frameBytes st }
        chk := { st.chk with pos := st.chk.pos + frameBytes st }
        bufferToFillR :=
          if (st.numChannels : Int) = maxNumOfChannels then
            st.bufferToFillR.map fun r => r.set idx (decodeSample st 1 (frameAt st 0))
          else st.bufferToFillR
        numSamplesRead := st.numSamplesRead + 1 } : WavReader α) = afterRead st 1 idx := by
  apply WavReader.ext
  case chk =>
    show ({ st.chk with pos := st.chk.pos + frameBytes st } : chunkHdr)
      = { st.chk with pos := st.chk.pos + 1 * frameBytes st }
    rw [Nat.one_mul]
  case wavFile =>
    show ({ st.wavFile with gpos := st.wavFile.gpos + frameBytes st } : IfStream)
      = { st.wavFile with gpos := st.wavFile.gpos + 1 * frameBytes st }
    rw [Nat.one_mul]
  case bufferToFillR =>
    show (if (st.numChannels : Int) = maxNumOfChannels then
        st.bufferToFillR.map fun r => r.set idx (decodeSample st 1 (frameAt st 0))
      else st.bufferToFillR) =
      (if st.numChannels = 2 then
        st.bufferToFillR.map fun R => storeFrom R idx [decodeSample st 1 (frameAt st 0)]
      else st.bufferToFillR)
    rcases hc with hc | hc
    · rw [if_neg (by rw [hc]; decide), if_neg (by rw [hc]; decide)]
    · rw [if_pos (by rw [hc]; rfl), if_pos hc]
      rfl
  all_goals rfl

theorem decodeSample_afterRead {α : Type} [LinearOrderedField α]
    (st : WavReader α) (idx ch i : Nat) :
    decodeSample (afterRead st 1 idx) ch (frameAt (afterRead st 1 idx) i) =
      decodeSample st ch (frameAt st (i + 1)) := by
  have e : st.wavFile.gpos + 1 * frameBytes st + i * frameBytes st =
      st.wavFile.gpos + (i + 1) * frameBytes st := by ring
  show (if st.bitsPerSample = 16 then _ else _) = (if st.bitsPerSample = 16 then _ else _)
  show (if st.bitsPerSample = 16 then
      convert16BitsToFloat (((st.wavFile.content.drop
        (st.wavFile.gpos + 1 * frameBytes st + i * frameBytes st)).take (frameBytes st)).drop _)
    else convert24BitsToFloat (((st.wavFile.content.drop
        (st.wavFile.gpos + 1 * frameBytes st + i * frameBytes st)).take (frameBytes st)).drop _)) = _
  rw [e]
  rfl

theorem decodeSamples_succ {α : Type} [LinearOrderedField α] (st : WavReader α) (idx ch r : Nat) :
    (List.range (r + 1)).map (fun i => decodeSample st ch (frameAt st i)) =
      decodeSample st ch (frameAt st 0) ::
        (List.range r).map (fun i =>
          decodeSample (afterRead st 1 idx) ch (frameAt (afterRead st 1 idx) i)) := by
  rw [List.range_succ_eq_map, List.map_cons, List.map_map]
  exact congrArg _ (List.map_congr_left fun i _ => (decodeSample_afterRead st idx ch i).symm)

theorem afterRead_succ {α : Type} [LinearOrderedField α] (st : WavReader α) (r idx : Nat) :
    afterRead (afterRead st 1 idx) r (idx + 1) = afterRead st (r + 1) idx := by
  have hfb : frameBytes (afterRead st 1 idx) = frameBytes st := rfl
  apply WavReader.ext
  case chk =>
    show ({ st.chk with pos := st.chk.pos + 1 * frameBytes st + r * frameBytes st } : chunkHdr)
      = { st.chk with pos := st.chk.pos + (r + 1) * frameBytes st }
    rw [Nat.add_assoc, ← Nat.add_mul, Nat.add_comm 1 r]
  case wavFile =>
    show ({ st.wavFile with gpos := st.wavFile.gpos + 1 * frameBytes st + r * frameBytes st }
      : IfStream) = { st.wavFile with gpos := st.wavFile.gpos + (r + 1) * frameBytes st }
    rw [Nat.add_assoc, ← Nat.add_mul, Nat.add_comm 1 r]
  case numSamplesRead =>
    show st.numSamplesRead + 1 + r = st.numSamplesRead + (r + 1)
    ring
  case bufferToFillR =>
    show (if st.numChannels = 2 then
        (if st.numChannels = 2 then
          st.bufferToFillR.map fun R => storeFrom R idx [decodeSample st 1 (frameAt st 0)]
        else st.bufferToFillR).map fun R => storeFrom R (idx + 1) ((List.range r).map fun i =>
          decodeSample (afterRead st 1 idx) 1 (frameAt (afterRead st 1 idx) i))
      else (if st.numChannels = 2 then
          st.bufferToFillR.map fun R => storeFrom R idx [decodeSample st 1 (frameAt st 0)]
        else st.bufferToFillR)) =
      (if st.numChannels = 2 then
        st.bufferToFillR.map fun R =>
          storeFrom R idx ((List.range (r + 1)).map fun i => decodeSample st 1 (frameAt st i))
      else st.bufferToFillR)
    rw [decodeSamples_succ st idx 1 r]
    split_ifs
    · rw [Option.map_map]; rfl
    · rfl
  all_goals rfl

/-- The store to the scratch buffer, when it returns, has stored within the buffer. -/
theorem storeScratch_inv {α : Type} [LinearOrderedField α] (st : WavReader α) (idx : Nat)
    (v : α) (x : Option (List α)) (h : storeScratch st idx v = .ok x) :
    x = (if (st.numChannels : Int) = maxNumOfChannels then
        st.bufferToFillR.map fun r => r.set idx v
      else st.bufferToFillR) ∧
    ((st.numChannels : Int) = maxNumOfChannels →
      ∃ R, st.bufferToFillR = some R ∧ idx < R.length) := by
  unfold storeScratch at h
  by_cases hc : (st.numChannels : Int) = maxNumOfChannels
  · rw [if_pos hc] at h ⊢
    cases hR : st.bufferToFillR with
    | none =>
      rw [hR] at h
      cases h
    | some R =>
      rw [hR] at h
      simp only [] at h
      by_cases hi : idx < R.length
      · rw [if_pos hi] at h
        simp only [Except.ok.injEq] at h
        exact ⟨h.symm, fun _ => ⟨R, rfl, hi⟩⟩
      · rw [if_neg hi] at h
        cases h
  · rw [if_neg hc] at h ⊢
    simp only [Except.ok.injEq] at h
    exact ⟨h.symm, fun h2 => absurd h2 hc⟩

/-- The store to the scratch buffer returns when the scratch buffer of a stereo stream exists and
holds the index. -/
theorem storeScratch_ok {α : Type} [LinearOrderedField α] (st : WavReader α) (idx : Nat) (v : α)
    (hR : st.numChannels = 2 → ∃ R, st.bufferToFillR = some R ∧ idx < R.length) :
    storeScratch st idx v =
      .ok (if (st.numChannels : Int) = maxNumOfChannels then
          st.bufferToFillR.map fun r => r.set idx v
        else st.bufferToFillR) := by
  unfold storeScratch
  by_cases hc : (st.numChannels : Int) = maxNumOfChannels
  · have h2 : st.numChannels = 2 := by
      unfold maxNumOfChannels at hc
      omega
    obtain ⟨R, e1, e2⟩ := hR h2
    rw [if_pos hc, if_pos hc, e1]
    simp only []
    rw [if_pos e2]
    rfl
  · rw [if_neg hc, if_neg hc]

theorem copyFrame_spec {α : Type} [LinearOrderedField α]
    (B : Nat) (st : WavReader α) (idx : Nat) (buf : List α)
    (hb : st.bitsPerSample = 16 ∨ st.bitsPerSample = 24)
    (hc : st.numChannels = 1 ∨ st.numChannels = 2)
    (hBd : frameBytes st = B) (hg : st.wavFile.good = true)
    (hfile : st.wavFile.gpos + B ≤ st.wavFile.content.length)
    (hpos : st.chk.pos + B < 4294967296)
    (hR : st.numChannels = 2 → ∃ R, st.bufferToFillR = some R ∧ idx < R.length) :
    copyFrame B st idx buf =
      .ok (afterRead st 1 idx, buf.set idx (decodeSample st 0 (frameAt st 0))) := by
  have hread : read st.wavFile B (some st.chk) =
      .ok (frameAt st 0, { st.wavFile with gpos := st.wavFile.gpos + B },
        some { st.chk with pos := st.chk.pos + B }) := by
    unfold read
    rw [if_neg (by simp [hg]), if_neg (by omega)]
    simp only [frameAt, Nat.zero_mul, Nat.add_zero, Option.map_some', hBd]
    rw [Nat.mod_eq_of_lt (by omega)]
  unfold copyFrame
  simp only [hread, if_pos hb, Option.getD_some]
  rw [← decodeSample_one, ← decodeSample_zero, storeScratch_ok st idx _ hR]
  simp only []
  rw [← afterRead_one st idx hc, hBd]

/-- Result of the read loop of `copyToBuffer` when `r` whole frames are still to be copied and
the input holds them. -/
theorem copyLoop_spec {α : Type} [LinearOrderedField α] (B nTot : Nat) :
    ∀ (r fuel : Nat) (st : WavReader α) (dread idx : Nat) (buf : List α),
      r + 1 ≤ fuel →
      (st.bitsPerSample = 16 ∨ st.bitsPerSample = 24) →
      (st.numChannels = 1 ∨ st.numChannels = 2) →
      frameBytes st = B →
      dread + r * B = nTot * B →
      nTot * B + B < 2 ^ 64 →
      st.wavFile.good = true →
      st.wavFile.gpos + r * B ≤ st.wavFile.content.length →
      st.chk.pos + r * B < 4294967296 →
      (st.numChannels = 2 → ∃ R, st.bufferToFillR = some R ∧ idx + r ≤ R.length) →
      copyLoop B nTot fuel st dread idx buf =
        .ok (afterRead st r idx,
             storeFrom buf idx ((List.range r).map fun i => decodeSample st 0 (frameAt st i))) := by
  intro r
  induction r with
  | zero =>
    intro fuel st dread idx buf hf hb hc hBd hd hL hg hfile hpos _
    obtain ⟨fuel, rfl⟩ : ∃ k, fuel = k + 1 := ⟨fuel - 1, by omega⟩
    simp only [Nat.zero_mul, Nat.add_zero] at hd
    have hB := (frameBytes_pos st hb hc).1
    rw [hBd] at hB
    have hcond : ¬ ((dread + B) % 2 ^ 64
        < (nTot * (st.bitsPerSample / 8) * st.numChannels + 1) % 2 ^ 64) := by
      have e : nTot * (st.bitsPerSample / 8) * st.numChannels = nTot * B := by
        rw [← hBd]; unfold frameBytes; ring
      rw [e, Nat.mod_eq_of_lt (by omega), Nat.mod_eq_of_lt (by omega)]
      omega
    unfold copyLoop
    simp only [hcond, if_false]
    cases st
    simp [storeFrom, afterRead]
  | succ r ih =>
    intro fuel st dread idx buf hf hb hc hBd hd hL hg hfile hpos hR
    obtain ⟨fuel, rfl⟩ : ∃ k, fuel = k + 1 := ⟨fuel - 1, by omega⟩
    have hB := frameBytes_pos st hb hc
    rw [hBd] at hB
    have hmul : (r + 1) * B = r * B + B := by ring
    rw [hmul] at hd hfile hpos
    have hcond : (dread + B) % 2 ^ 64
        < (nTot * (st.bitsPerSample / 8) * st.numChannels + 1) % 2 ^ 64 := by
      have e : nTot * (st.bitsPerSample / 8) * st.numChannels = nTot * B := by
        rw [← hBd]; unfold frameBytes; ring
      rw [e, Nat.mod_eq_of_lt (by omega), Nat.mod_eq_of_lt (by omega)]
      omega
    unfold copyLoop
    simp only [hcond, if_true]
    have hR1 : st.numChannels = 2 → ∃ R, st.bufferToFillR = some R ∧ idx < R.length := by
      intro h2
      obtain ⟨R, e1, e2⟩ := hR h2
      exact ⟨R, e1, by omega⟩
    have hR2 : (afterRead st 1 idx).numChannels = 2 →
        ∃ R, (afterRead st 1 idx).bufferToFillR = some R ∧ idx + 1 + r ≤ R.length := by
      intro h2
      have h2' : st.numChannels = 2 := h2
      obtain ⟨R, e1, e2⟩ := hR h2'
      refine ⟨storeFrom R idx [decodeSample st 1 (frameAt st 0)], ?_, ?_⟩
      · show (if st.numChannels = 2 then
            st.bufferToFillR.map fun R => storeFrom R idx
              ((List.range 1).map fun i => decodeSample st 1 (frameAt st i))
          else st.bufferToFillR) = _
        rw [if_pos h2', e1]
        rfl
      · rw [storeFrom_length]
        omega
    rw [copyFrame_spec B st idx buf hb hc hBd hg (by omega) (by omega) hR1]
    simp only []
    rw [Nat.mod_eq_of_lt (by omega)]
    have hgp : (afterRead st 1 idx).wavFile.gpos = st.wavFile.gpos + frameBytes st := by
      show st.wavFile.gpos + 1 * frameBytes st = _; rw [Nat.one_mul]
    have hcp : (afterRead st 1 idx).chk.pos = st.chk.pos + frameBytes st := by
      show st.chk.pos + 1 * frameBytes st = _; rw [Nat.one_mul]
    have hlen : (afterRead st 1 idx).wavFile.content.length = st.wavFile.content.length := rfl
    rw [ih fuel (afterRead st 1 idx) (dread + B) (idx + 1) _ (by omega) hb hc hBd (by omega) hL hg
      (by rw [hgp, hlen, hBd]; omega) (by rw [hcp, hBd]; omega) hR2]
    rw [afterRead_succ, decodeSamples_succ st idx 0 r]
    rfl

theorem checkForExceptions_ok {α : Type} [LinearOrderedField α]
    (st : WavReader α) (channel : Int) (n : Nat)
    (hch : channel ≤ (st.numChannels : Int) - 1) (hn : n ≠ 0) (hf : st.fmtFound = true)
    (hb : st.bitsPerSample ≤ 24) (hc : st.numChannels ≤ 2) (he : st.isEofReached = false) :
    checkForExceptions st channel n = .ok () := by
  unfold checkForExceptions
  rw [if_neg (by omega), if_neg hn, if_neg (by simp [hf]), if_neg (by omega), if_neg (by omega),
    if_neg (by simp [he])]

theorem withBlock_fields {α : Type} [LinearOrderedField α]
    (uninit : Nat → α) (st : WavReader α) (n : Nat) :
    (withBlock uninit st n).numChannels = st.numChannels ∧
    (withBlock uninit st n).bitsPerSample = st.bitsPerSample ∧
    (withBlock uninit st n).fmtFound = st.fmtFound ∧
    (withBlock uninit st n).isEofReached = st.isEofReached ∧
    (withBlock uninit st n).isEofLReached = st.isEofLReached ∧
    (withBlock uninit st n).chk = st.chk ∧
    (withBlock uninit st n).wavFile = st.wavFile ∧
    (withBlock uninit st n).mBufferSize = n := by
  unfold withBlock
  split_ifs <;> exact ⟨rfl, rfl, rfl, rfl, rfl, rfl, rfl, rfl⟩

theorem withBlock_scratch {α : Type} [LinearOrderedField α]
    (uninit : Nat → α) (st : WavReader α) (n : Nat)
    (h2 : st.numChannels = 2) (hR : ∀ R, st.bufferToFillR = some R → n ≤ R.length) :
    ∃ R, (withBlock uninit st n).bufferToFillR = some R ∧ n ≤ R.length := by
  unfold withBlock
  cases hbuf : st.bufferToFillR with
  | none =>
    refine ⟨(List.range n).map uninit, ?_, by simp⟩
    rw [if_pos ⟨by omega, by simp⟩]
  | some R =>
    refine ⟨R, ?_, hR R hbuf⟩
    rw [if_neg (by simp)]
    exact hbuf

theorem fillDataBuffer_full {α : Type} [LinearOrderedField α]
    (st : WavReader α) (buf : List α) (n : Nat)
    (hs : Supported st) (he : st.isEofReached = false) (hn : 1 ≤ n) (hbuf : buf.length = n)
    (hm : st.mBufferSize = n)
    (hleft : st.chk.pos + n * frameBytes st ≤ st.chk.size)
    (hfile : st.wavFile.gpos + n * frameBytes st ≤ st.wavFile.content.length)
    (hR : st.numChannels = 2 → ∃ R, st.bufferToFillR = some R ∧ n ≤ R.length) :
    fillDataBuffer st buf true =
      .ok (afterRead st n 0,
        storeFrom (List.replicate n 0) 0
          ((List.range n).map fun i => decodeSample st 0 (frameAt st i))) := by
  obtain ⟨hf, hb, hc, hg, hsz⟩ := hs
  have hB := frameBytes_pos st hb hc
  have hchk := checkForExceptions_ok st 0 n (by rcases hc with h | h <;> rw [h] <;> decide)
    (by omega) hf (by rcases hb with h | h <;> omega) (by rcases hc with h | h <;> omega) he
  have hclr : memsetZero buf n = List.replicate n 0 := by
    unfold memsetZero
    rw [List.drop_of_length_le (by omega), List.append_nil]
  have hclr2 : memsetZero (List.replicate n (0 : α)) n = List.replicate n 0 := by
    unfold memsetZero
    rw [List.drop_of_length_le (by simp), List.append_nil]
  have hn32 : n * frameBytes st < 4294967296 := by omega
  have hnn : n ≤ n * frameBytes st := Nat.le_mul_of_pos_right n (by omega)
  unfold fillDataBuffer
  rw [hm, hchk]
  simp only [if_true]
  unfold copyToBuffer
  rw [if_neg (by show ¬ (frameBytes st > MAX_READ_BUF_LEN); unfold MAX_READ_BUF_LEN; omega)]
  simp only [hm, hclr]
  have hcl : (if st.bufferToFillR.isSome = true then memsetZero (List.replicate n (0 : α)) n
      else List.replicate n 0) = List.replicate n 0 := by
    split_ifs
    · exact hclr2
    · rfl
  rw [hcl]
  exact copyLoop_spec (frameBytes st) n n (n + 1) st 0 0 _ (le_refl _) hb hc rfl (by omega)
    (by omega) hg hfile (by omega) (by rw [Nat.zero_add]; exact hR)

theorem getNextAudioBlock_unfold {α : Type} [LinearOrderedField α]
    (uninit : Nat → α) (st : WavReader α) (buf : List α)
    (channel : Int) (n : Nat)
    (hchk : checkForExceptions (withBlock uninit st n) channel n = .ok ()) :
    getNextAudioBlock uninit st (some buf) channel n =
      match (if channel = 0 then
          if enoughSamplesLeft (withBlock uninit st n) then
            fillDataBuffer (withBlock uninit st n) buf true
          else
            match fillDataBuffer (withBlock uninit st n) buf false with
            | .error e => .error e
            | .ok (st3, buf3) => .ok ({ st3 with isEofLReached := true }, buf3)
        else .ok (withBlock uninit st n, buf) : Except Failure (WavReader α × List α)) with
      | .error e => .error e
      | .ok (st4, buf4) =>
        if channel = maxNumOfChannels - 1 then
          match copyScratch st4 buf4 with
          | .error e => .error e
          | .ok buf5 =>
            .ok ({ st4 with isEofReached := st4.isEofLReached || st4.isEofReached }, true, buf5)
        else .ok (st4, true, buf4) := by
  have hchk' : checkForExceptions
      (if st.numChannels > 1 ∧ st.bufferToFillR.isNone then
        { st with bufferToFillR := some ((List.range n).map uninit) }
       else st) channel n = .ok () := hchk
  unfold getNextAudioBlock
  simp only [hchk']
  rfl

theorem enoughSamplesLeft_true {α : Type} [LinearOrderedField α]
    (st : WavReader α) (n : Nat) (hs : Supported st)
    (hm : st.mBufferSize = n) (hleft : st.chk.pos + n * frameBytes st ≤ st.chk.size) :
    enoughSamplesLeft st = true := by
  obtain ⟨_, _, _, _, hsz⟩ := hs
  have e : st.mBufferSize * (st.bitsPerSample / 8) * st.numChannels = n * frameBytes st := by
    rw [hm]; unfold frameBytes; ring
  unfold enoughSamplesLeft
  simp only [e]
  rw [Nat.mod_eq_of_lt (by omega), if_neg (by omega)]

theorem getNextAudioBlock_ch0_full {α : Type} [LinearOrderedField α]
    (uninit : Nat → α) (st : WavReader α) (buf : List α) (n : Nat)
    (hs : Supported st) (he : st.isEofReached = false) (hn : 1 ≤ n) (hbuf : buf.length = n)
    (hR : ∀ R, st.bufferToFillR = some R → n ≤ R.length)
    (hleft : st.chk.pos + n * frameBytes st ≤ st.chk.size)
    (hfile : st.wavFile.gpos + n * frameBytes st ≤ st.wavFile.content.length) :
    getNextAudioBlock uninit st (some buf) 0 n =
      .ok (afterRead (withBlock uninit st n) n 0, true,
        storeFrom (List.replicate n 0) 0
          ((List.range n).map fun i => decodeSample st 0 (frameAt st i))) := by
  obtain ⟨w1, w2, w3, w4, _, w6, w7, w8⟩ := withBlock_fields uninit st n
  have hfb : frameBytes (withBlock uninit st n) = frameBytes st := by
    unfold frameBytes; rw [w1, w2]
  have hs' : Supported (withBlock uninit st n) := by
    unfold Supported; rw [w1, w2, w3, w6, w7]; exact hs
  have hdec : ∀ i, decodeSample (withBlock uninit st n) 0 (frameAt (withBlock uninit st n) i)
      = decodeSample st 0 (frameAt st i) := by
    intro i; unfold decodeSample frameAt; rw [w2, w7, hfb]
  obtain ⟨hf, hb, hc, hg, hsz⟩ := hs
  have hchk := checkForExceptions_ok (withBlock uninit st n) 0 n
    (by rw [w1]; rcases hc with h | h <;> rw [h] <;> decide)
    (by omega) (by rw [w3]; exact hf) (by rw [w2]; rcases hb with h | h <;> omega)
    (by rw [w1]; rcases hc with h | h <;> omega) (by rw [w4]; exact he)
  rw [getNextAudioBlock_unfold uninit st buf 0 n hchk, if_pos rfl,
    enoughSamplesLeft_true _ n hs' w8 (by rw [w6, hfb]; exact hleft), if_pos rfl,
    fillDataBuffer_full _ buf n hs' (by rw [w4]; exact he) hn hbuf w8
      (by rw [w6, hfb]; exact hleft) (by rw [w7, hfb]; exact hfile)
      (fun h2 => withBlock_scratch uninit st n (by rw [← w1]; exact h2) hR)]
  simp only [hdec]
  rw [if_neg (by decide)]

theorem getNextAudioBlock_ch1 {α : Type} [LinearOrderedField α]
    (uninit : Nat → α) (st : WavReader α) (buf : List α) (n : Nat)
    (R : List α) (h2 : st.numChannels = 2) (hR : st.bufferToFillR = some R)
    (hRl : n ≤ R.length)
    (hf : st.fmtFound = true) (hb : st.bitsPerSample ≤ 24) (he : st.isEofReached = false)
    (hn : 1 ≤ n) :
    getNextAudioBlock uninit st (some buf) 1 n =
      .ok ({ st with mBufferSize := n, isEofReached := st.isEofLReached || st.isEofReached },
        true, memcpy buf 0 R 0 n) := by
  have hw : withBlock uninit st n = { st with mBufferSize := n } := by
    unfold withBlock
    rw [if_neg (by simp [hR])]
  have hchk : checkForExceptions (withBlock uninit st n) 1 n = .ok () := by
    rw [hw]
    exact checkForExceptions_ok _ 1 n (by show (1 : Int) ≤ (st.numChannels : Int) - 1; omega)
      (by omega) hf hb (by show st.numChannels ≤ 2; omega) he
  rw [getNextAudioBlock_unfold uninit st buf 1 n hchk, if_neg (by decide), hw]
  simp only []
  rw [if_pos (by decide)]
  unfold copyScratch
  simp only [hR]
  rw [if_neg (by omega)]

/-- A whole block read on a reader whose channel-1 scratch buffer, when it exists, holds at
least `n` floats. For a loaded 16-bit or 24-bit, mono or stereo stream that has not signalled
its end, whose data chunk has at least `n ≥ 1` whole frames left at data position `chk.pos` (the
bytes being present in the input), `getNextAudioBlock(buf, 0, n)` returns `true`, sets `buf[i]`
to the decoded channel-0 sample of frame `i` for every `i < n`, and advances the data position
(and the input position) by exactly `n * frameBytes`; for stereo, the immediately following
`getNextAudioBlock(buf1, 1, n)` returns `true` with the decoded channel-1 samples of those same
`n` frames and does not advance the position. -/
theorem getNextAudioBlock_reads_block {α : Type} [LinearOrderedField α]
    (uninit : Nat → α) (st : WavReader α) (buf : List α)
    (n : Nat) (hs : Supported st) (he : st.isEofReached = false) (hn : 1 ≤ n)
    (hbuf : buf.length = n) (hR : ∀ R, st.bufferToFillR = some R → n ≤ R.length)
    (hleft : st.chk.pos + n * frameBytes st ≤ st.chk.size)
    (hfile : st.wavFile.gpos + n * frameBytes st ≤ st.wavFile.content.length) :
    ∃ st1 out0,
      getNextAudioBlock uninit st (some buf) 0 n = .ok (st1, true, out0) ∧
      out0.length = n ∧
      (∀ i, i < n → out0.getD i 0 = decodeSample st 0 (frameAt st i)) ∧
      st1.chk.pos = st.chk.pos + n * frameBytes st ∧
      st1.wavFile.gpos = st.wavFile.gpos + n * frameBytes st ∧
      (st.numChannels = 2 → ∀ buf1 : List α, buf1.length = n →
        ∃ st2 out1,
          getNextAudioBlock uninit st1 (some buf1) 1 n = .ok (st2, true, out1) ∧
          out1.length = n ∧
          (∀ i, i < n → out1.getD i 0 = decodeSample st 1 (frameAt st i)) ∧
          st2.chk.pos = st1.chk.pos ∧ st2.wavFile.gpos = st1.wavFile.gpos) := by
  obtain ⟨w1, w2, w3, w4, _, w6, w7, w8⟩ := withBlock_fields uninit st n
  have hfb : frameBytes (withBlock uninit st n) = frameBytes st := by
    unfold frameBytes; rw [w1, w2]
  have hdec : ∀ i, decodeSample (withBlock uninit st n) 1 (frameAt (withBlock uninit st n) i)
      = decodeSample st 1 (frameAt st i) := by
    intro i; unfold decodeSample frameAt; rw [w2, w7, hfb]
  have hget : ∀ (ch : Nat) (buf0 : List α), n ≤ buf0.length → ∀ i, i < n →
      (storeFrom buf0 0 ((List.range n).map fun i => decodeSample st ch (frameAt st i))).getD i 0
        = decodeSample st ch (frameAt st i) := by
    intro ch buf0 hl i hi
    rw [storeFrom_getD _ _ _ _ (by simpa using hl), if_pos (by simp; omega), Nat.sub_zero,
      getD_map_range _ _ _ hi]
  refine ⟨_, _, getNextAudioBlock_ch0_full uninit st buf n hs he hn hbuf hR hleft hfile, ?_,
    fun i hi => hget 0 _ (by simp) i hi, ?_, ?_, ?_⟩
  · rw [storeFrom_length, List.length_replicate]
  · show (withBlock uninit st n).chk.pos + n * frameBytes (withBlock uninit st n) = _
    rw [w6, hfb]
  · show (withBlock uninit st n).wavFile.gpos + n * frameBytes (withBlock uninit st n) = _
    rw [w7, hfb]
  · intro h2 buf1 hbuf1
    obtain ⟨R, hRs, hRl⟩ := withBlock_scratch uninit st n h2 hR
    have hR1 : (afterRead (withBlock uninit st n) n 0).bufferToFillR =
        some (storeFrom R 0 ((List.range n).map fun i => decodeSample st 1 (frameAt st i))) := by
      show (if (withBlock uninit st n).numChannels = 2 then _ else _) = _
      rw [if_pos (by rw [w1]; exact h2), hRs]
      simp only [Option.map_some', hdec]
    obtain ⟨hf, hb, _, _, _⟩ := hs
    refine ⟨_, _, getNextAudioBlock_ch1 uninit _ buf1 n _ (by show (withBlock uninit st n).numChannels = 2; rw [w1]; exact h2) hR1
      (by rw [storeFrom_length]; exact hRl)
      (by show (withBlock uninit st n).fmtFound = true; rw [w3]; exact hf)
      (by show (withBlock uninit st n).bitsPerSample ≤ 24; rw [w2]; rcases hb with h | h <;> omega)
      (by show (withBlock uninit st n).isEofReached = false; rw [w4]; exact he) hn, ?_, ?_, rfl, rfl⟩
    · simp [memcpy, storeFrom_length]
      omega
    · intro i hi
      simp only [memcpy, List.take_zero, List.nil_append, List.drop_zero, Nat.zero_add]
      rw [List.getD_append _ _ _ _ (by simp [storeFrom_length]; omega),
        List.getD_eq_getElem _ _ (by simp [storeFrom_length]; omega), List.getElem_take,
        ← List.getD_eq_getElem _ 0]
      exact hget 1 R hRl i hi

/-! ## Further properties of the code -/

/-- The 16-bit decoder is normalized: every byte pair decodes to a value in `[-1, 1]`. -/
theorem convert16BitsToFloat_mem {α : Type} [LinearOrderedField α] (b0 b1 : Byte) :
    (-1 : α) ≤ convert16BitsToFloat [b0, b1] ∧ (convert16BitsToFloat [b0, b1] : α) ≤ 1 := by
  have hlo : -32768 ≤ int16OfBytes [b0, b1] := by
    rw [int16OfBytes_pair]; unfold toInt16; omega
  have hhi : int16OfBytes [b0, b1] ≤ 32768 := by
    rw [int16OfBytes_pair]; unfold toInt16; omega
  have hlo' : (-32768 : α) ≤ (int16OfBytes [b0, b1] : α) := by exact_mod_cast hlo
  have hhi' : (int16OfBytes [b0, b1] : α) ≤ 32768 := by exact_mod_cast hhi
  unfold convert16BitsToFloat
  constructor
  · rw [le_div_iff₀ (by norm_num)]; linarith
  · rw [div_le_iff₀ (by norm_num)]; linarith

/-- On the 16-bit write path clamping prevents wrap-around: for every `x` the scaled and
truncated integer lies in `[-32767, 32767]` and the two stored bytes read back as that
integer. -/
theorem encode16_in_range {α : Type} [LinearOrderedField α] [FloorRing α] (x : α) :
    -32767 ≤ truncToInt (clamp x (-1) 1 * 32767) ∧ truncToInt (clamp x (-1) 1 * 32767) ≤ 32767 ∧
    int16OfBytes (sampleToFile 16 (clamp x (-1) 1)) = truncToInt (clamp x (-1) 1 * 32767) := by
  have hc1 : (-1 : α) ≤ clamp x (-1) 1 := le_max_right _ _
  have hc2 : clamp x (-1) 1 ≤ (1 : α) := max_le (min_le_right _ _) (by norm_num)
  generalize clamp x (-1) 1 = c at hc1 hc2
  have hrange : -32767 ≤ truncToInt (c * 32767) ∧ truncToInt (c * 32767) ≤ 32767 := by
    rcases le_or_lt 0 c with hx | hx
    · obtain ⟨t0, tl, _⟩ := truncToInt_of_nonneg (show (0 : α) ≤ c * 32767 by positivity)
      have hle : (truncToInt (c * 32767) : α) ≤ 32767 := by linarith
      exact ⟨by omega, by exact_mod_cast hle⟩
    · obtain ⟨t0, tl, _⟩ := truncToInt_of_neg (show c * 32767 < 0 by nlinarith)
      have hge : (-32767 : α) ≤ (truncToInt (c * 32767) : α) := by linarith
      exact ⟨by exact_mod_cast hge, by omega⟩
  refine ⟨hrange.1, hrange.2, ?_⟩
  have e16 : toInt16 (truncToInt (c * 32767)) = truncToInt (c * 32767) := by
    unfold toInt16; omega
  unfold sampleToFile
  rw [if_pos rfl, e16, int16OfBytes_toUInt8 _ (by omega) hrange.2]

/-- At index 0 the gain `w(0) + w(N / 2)` of the Hann multipliers of the code is below 1 for
every even window size `N ≥ 2`, over the reals. -/
theorem hann_gain_zero_lt_one (N : Nat) (hN : 2 ≤ N) (heven : N % 2 = 0) :
    hannMultiplier Real.cos Real.pi N 0 + hannMultiplier Real.cos Real.pi N (0 + N / 2) < 1 := by
  obtain ⟨k, rfl⟩ : ∃ k, N = 2 * (k + 1) := ⟨N / 2 - 1, by omega⟩
  have hk : (2 * (k + 1)) / 2 = k + 1 := by omega
  have hd : ((2 * (k + 1) - 1 : Nat) : ℝ) = 2 * (k : ℝ) + 1 := by
    have : 2 * (k + 1) - 1 = 2 * k + 1 := by omega
    rw [this]; push_cast; ring
  have hpos : (0 : ℝ) < 2 * (k : ℝ) + 1 := by positivity
  have h0 : hannMultiplier Real.cos Real.pi (2 * (k + 1)) 0 = 0 := by
    simp [hannMultiplier]
  have harg : 2 * Real.pi * (((0 + (k + 1) : Nat)) : ℝ) / (2 * (k : ℝ) + 1)
      = Real.pi / (2 * (k : ℝ) + 1) + Real.pi := by
    push_cast
    field_simp
    ring
  have ht0 : 0 < Real.pi / (2 * (k : ℝ) + 1) := div_pos Real.pi_pos hpos
  have ht1 : Real.pi / (2 * (k : ℝ) + 1) < 2 * Real.pi := by
    rw [div_lt_iff₀ hpos]
    have : (0 : ℝ) ≤ k := Nat.cast_nonneg k
    nlinarith [Real.pi_pos]
  have hne : Real.cos (Real.pi / (2 * (k : ℝ) + 1)) ≠ 1 := by
    intro h
    have := (Real.cos_eq_one_iff_of_lt_of_lt (by linarith [Real.pi_pos]) ht1).mp h
    linarith
  have hlt : Real.cos (Real.pi / (2 * (k : ℝ) + 1)) < 1 :=
    lt_of_le_of_ne (Real.cos_le_one _) hne
  rw [h0, hk]
  unfold hannMultiplier
  rw [hd, harg, Real.cos_add_pi]
  linarith

/-- Once `isEofReached` is set, every call with a buffer, a channel of the stream and a
non-zero count throws "unexpected eof reading from file". -/
theorem getNextAudioBlock_after_eof {α : Type} [LinearOrderedField α] (uninit : Nat → α)
    (st : WavReader α) (buf : List α) (channel : Int) (n : Nat)
    (he : st.isEofReached = true) (hch : channel ≤ (st.numChannels : Int) - 1) (hn : n ≠ 0)
    (hf : st.fmtFound = true) (hb : st.bitsPerSample ≤ 24) (hc : st.numChannels ≤ 2) :
    getNextAudioBlock uninit st (some buf) channel n = .error .unexpectedEof := by
  obtain ⟨w1, w2, w3, w4, _, _, _, _⟩ := withBlock_fields uninit st n
  have hchk : checkForExceptions
      (if st.numChannels > 1 ∧ st.bufferToFillR.isNone then
        { st with bufferToFillR := some ((List.range n).map uninit) }
       else st) channel n = .error .unexpectedEof := by
    show checkForExceptions { withBlock uninit st n with mBufferSize := st.mBufferSize }
      channel n = _
    unfold checkForExceptions
    show (if channel > ((withBlock uninit st n).numChannels : Int) - 1 then _
      else if n = 0 then _
      else if (withBlock uninit st n).fmtFound = false then _
      else if (withBlock uninit st n).bitsPerSample > 24 then _
      else if (withBlock uninit st n).numChannels > 2 then _
      else if (withBlock uninit st n).isEofReached = true then _ else _) = _
    rw [w1, w2, w3, w4, if_neg (by omega), if_neg hn, if_neg (by simp [hf]), if_neg (by omega),
      if_neg (by omega), if_pos he]
  unfold getNextAudioBlock
  simp only [hchk]

/-- A short final block. When only `m < n` whole frames remain, `getNextAudioBlock(buf, 0, n)`
returns `true`, marks `isEofLReached`, and the buffer holds the `m` decoded channel-0 samples
followed by `0.0` up to index `n - 1`. On a stereo stream the following
`getNextAudioBlock(buf1, 1, n)` returns `true` and marks `isEofReached`; its buffer holds the
`m` decoded channel-1 samples, and at every index from `m` to `n - 1` the value the scratch
buffer held before the block was read. -/
theorem getNextAudioBlock_short_block {α : Type} [LinearOrderedField α] (uninit : Nat → α)
    (st : WavReader α) (buf : List α) (n m : Nat)
    (hs : Supported st) (he : st.isEofReached = false) (hn61 : n < 2 ^ 61)
    (hbuf : buf.length = n) (hR : ∀ R, st.bufferToFillR = some R → n ≤ R.length)
    (hpos : st.chk.pos ≤ st.chk.size)
    (hm : (st.chk.size - st.chk.pos) / frameBytes st = m) (hmn : m < n)
    (hfile : st.wavFile.gpos + m * frameBytes st ≤ st.wavFile.content.length) :
    ∃ st1 out0,
      getNextAudioBlock uninit st (some buf) 0 n = .ok (st1, true, out0) ∧
      st1.isEofLReached = true ∧ out0.length = n ∧
      (∀ i, i < n → out0.getD i 0 = if i < m then decodeSample st 0 (frameAt st i) else 0) ∧
      (st.numChannels = 2 → ∀ R0, (withBlock uninit st n).bufferToFillR = some R0 →
        ∀ buf1 : List α, buf1.length = n →
        ∃ st2 out1,
          getNextAudioBlock uninit st1 (some buf1) 1 n = .ok (st2, true, out1) ∧
          st2.isEofReached = true ∧ out1.length = n ∧
          ∀ i, i < n →
            out1.getD i 0 = if i < m then decodeSample st 1 (frameAt st i) else R0.getD i 0) := by
  obtain ⟨w1, w2, w3, w4, _, w6, w7, w8⟩ := withBlock_fields uninit st n
  have hfb : frameBytes (withBlock uninit st n) = frameBytes st := by
    unfold frameBytes; rw [w1, w2]
  have hdec : ∀ ch i, decodeSample (withBlock uninit st n) ch (frameAt (withBlock uninit st n) i)
      = decodeSample st ch (frameAt st i) := by
    intro ch i; unfold decodeSample frameAt; rw [w2, w7, hfb]
  obtain ⟨hf, hb, hc, hg, hsz⟩ := hs
  have hB := frameBytes_pos st hb hc
  have hdm := Nat.div_add_mod (st.chk.size - st.chk.pos) (frameBytes st)
  have hml := Nat.mod_lt (st.chk.size - st.chk.pos) (show 0 < frameBytes st by omega)
  rw [hm] at hdm
  have e1 : m * frameBytes st = frameBytes st * m := Nat.mul_comm _ _
  have e2 : n * frameBytes st = frameBytes st * n := Nat.mul_comm _ _
  have hnm : frameBytes st * (m + 1) ≤ frameBytes st * n := Nat.mul_le_mul_left _ hmn
  have hn6 : frameBytes st * n ≤ 6 * n := Nat.mul_le_mul_right _ hB.2
  rw [Nat.mul_succ] at hnm
  rw [e1] at hfile
  have hchk := checkForExceptions_ok (withBlock uninit st n) 0 n
    (by rw [w1]; rcases hc with h | h <;> rw [h] <;> decide)
    (by omega) (by rw [w3]; exact hf) (by rw [w2]; rcases hb with h | h <;> omega)
    (by rw [w1]; rcases hc with h | h <;> omega) (by rw [w4]; exact he)
  have hnot : enoughSamplesLeft (withBlock uninit st n) = false := by
    have e : (withBlock uninit st n).mBufferSize * ((withBlock uninit st n).bitsPerSample / 8)
        * (withBlock uninit st n).numChannels = frameBytes st * n := by
      rw [w8, w1, w2]; unfold frameBytes; ring
    unfold enoughSamplesLeft
    simp only [e, w6]
    rw [Nat.mod_eq_of_lt (by omega), if_pos (by omega)]
  have hclr : memsetZero buf n = List.replicate n 0 := by
    unfold memsetZero
    rw [List.drop_of_length_le (by omega), List.append_nil]
  have hclr2 : memsetZero (List.replicate n (0 : α)) n = List.replicate n 0 := by
    unfold memsetZero
    rw [List.drop_of_length_le (by simp), List.append_nil]
  have hcl : (if (withBlock uninit st n).bufferToFillR.isSome = true then
      memsetZero (List.replicate n (0 : α)) n else List.replicate n 0) = List.replicate n 0 := by
    split_ifs
    · exact hclr2
    · rfl
  have hleft : ((withBlock uninit st n).chk.size + 4294967296 - (withBlock uninit st n).chk.pos)
      % 4294967296 / ((withBlock uninit st n).bitsPerSample / 8
        * (withBlock uninit st n).numChannels) = m := by
    rw [w6, w2, w1, ← hm]
    have : (st.chk.size + 4294967296 - st.chk.pos) % 4294967296 = st.chk.size - st.chk.pos := by
      omega
    rw [this]
    rfl
  have hfill : fillDataBuffer (withBlock uninit st n) buf false =
      .ok (afterRead (withBlock uninit st n) m 0,
        storeFrom (List.replicate n 0) 0
          ((List.range m).map fun i => decodeSample st 0 (frameAt st i))) := by
    unfold fillDataBuffer
    rw [w8, hchk]
    simp only [Bool.false_eq_true, if_false, hleft]
    unfold copyToBuffer
    rw [if_neg (by show ¬ (frameBytes (withBlock uninit st n) > MAX_READ_BUF_LEN);
                   rw [hfb]; unfold MAX_READ_BUF_LEN; omega)]
    simp only [w8, hclr, hcl]
    have hv : (fun i => decodeSample st 0 (frameAt st i)) = fun i =>
        decodeSample (withBlock uninit st n) 0 (frameAt (withBlock uninit st n) i) :=
      funext fun i => (hdec 0 i).symm
    rw [hv]
    exact copyLoop_spec (frameBytes (withBlock uninit st n)) m m (m + 1) _ 0 0 _ (le_refl _)
      (by rw [w2]; exact hb) (by rw [w1]; exact hc) rfl (by omega)
      (by rw [hfb, e1]; omega) (by rw [w7]; exact hg) (by rw [w7, hfb, e1]; exact hfile)
      (by rw [w6, hfb, e1]; omega)
      (by
        intro h2
        obtain ⟨R, hRs, hRl⟩ := withBlock_scratch uninit st n (by rw [← w1]; exact h2) hR
        exact ⟨R, hRs, by omega⟩)
  have hget : ∀ (ch : Nat) (buf0 : List α), n ≤ buf0.length → ∀ i, i < n →
      (storeFrom buf0 0 ((List.range m).map fun i => decodeSample st ch (frameAt st i))).getD i 0
        = if i < m then decodeSample st ch (frameAt st i) else buf0.getD i 0 := by
    intro ch buf0 hl i hi
    rw [storeFrom_getD _ _ _ _ (by simp; omega)]
    by_cases him : i < m
    · rw [if_pos (by simp; omega), if_pos him, Nat.sub_zero, getD_map_range _ _ _ him]
    · rw [if_neg (by simp; omega), if_neg him]
  refine ⟨{ afterRead (withBlock uninit st n) m 0 with isEofLReached := true },
    storeFrom (List.replicate n 0) 0 ((List.range m).map fun i => decodeSample st 0 (frameAt st i)),
    ?_, rfl, ?_, ?_, ?_⟩
  · rw [getNextAudioBlock_unfold uninit st buf 0 n hchk, if_pos rfl, hnot]
    simp only [Bool.false_eq_true, if_false, hfill]
    rw [if_neg (by decide)]
  · rw [storeFrom_length, List.length_replicate]
  · intro i hi
    rw [hget 0 _ (by simp) i hi, List.getD_eq_getElem _ _ (by simpa using hi)]
    simp
  · intro h2 R0 hR0 buf1 hbuf1
    obtain ⟨R, hRs, hRl⟩ := withBlock_scratch uninit st n h2 hR
    rw [hR0] at hRs
    cases hRs
    have hR1 : ({ afterRead (withBlock uninit st n) m 0 with isEofLReached := true }
        : WavReader α).bufferToFillR =
        some (storeFrom R0 0 ((List.range m).map fun i => decodeSample st 1 (frameAt st i))) := by
      show (if (withBlock uninit st n).numChannels = 2 then _ else _) = _
      rw [if_pos (by rw [w1]; exact h2), hR0]
      simp only [Option.map_some', hdec]
    refine ⟨_, _, getNextAudioBlock_ch1 uninit _ buf1 n _
      (by show (withBlock uninit st n).numChannels = 2; rw [w1]; exact h2) hR1
      (by rw [storeFrom_length]; exact hRl)
      (by show (withBlock uninit st n).fmtFound = true; rw [w3]; exact hf)
      (by show (withBlock uninit st n).bitsPerSample ≤ 24; rw [w2]; rcases hb with h | h <;> omega)
      (by show (withBlock uninit st n).isEofReached = false; rw [w4]; exact he) (by omega),
      rfl, ?_, ?_⟩
    · simp [memcpy, storeFrom_length]
      omega
    · intro i hi
      simp only [memcpy, List.take_zero, List.nil_append, List.drop_zero, Nat.zero_add]
      rw [List.getD_append _ _ _ _ (by simp [storeFrom_length]; omega),
        List.getD_eq_getElem _ _ (by simp [storeFrom_length]; omega), List.getElem_take,
        ← List.getD_eq_getElem _ 0]
      exact hget 1 R0 hRl i hi

/-! ## Properties: chunk scanner, format scan and data scan -/

theorem read_ok (f : IfStream) (n : Nat) (parent : Option chunkHdr) (hg : f.good = true)
    (hlen : f.gpos + n ≤ f.content.length) :
    read f n parent =
      .ok ((f.content.drop f.gpos).take n, { f with gpos := f.gpos + n },
        parent.map fun p => { p with pos := (p.pos + n) % 4294967296 }) := by
  unfold read
  rw [if_neg (by simp [hg]), if_neg (by omega)]

theorem read_zero (f : IfStream) (parent : Option chunkHdr) (hg : f.good = true) :
    read f 0 parent =
      .ok ((f.content.drop f.gpos).take 0, { f with gpos := f.gpos + 0 },
        parent.map fun p => { p with pos := (p.pos + 0) % 4294967296 }) := by
  unfold read
  rw [if_neg (by simp [hg]), if_neg (by omega)]

theorem scanState_writeIf {α : Type} (st : WavReader α) (b : List Byte) :
    scanState (writeIf st b) = scanState st := by
  unfold writeIf
  split <;> rfl

theorem readMember_scan {α : Type} (n i : Nat) (store : WavReader α → Nat → WavReader α)
    (st : WavReader α) (c : List Byte) (g : Nat) (k : chunkHdr) (w : chunkHdr) (b : Bool)
    (l : List Nat)
    (hst : scanState st = (⟨c, g, true⟩, k, w, b, l)) (hlen : g + n ≤ c.length)
    (hstore : ∀ s v, scanState (store s v)
      = (s.wavFile, s.chk, s.wave, s.fmtFound, (fmtFields s).set i v)) :
    ∃ r, readMember n store st = .ok r ∧
      scanState r = (⟨c, g + n, true⟩, { k with pos := (k.pos + n) % 4294967296 }, w, b,
        l.set i (leValue ((c.drop g).take n))) := by
  simp only [scanState, Prod.mk.injEq] at hst
  obtain ⟨hf, hk, hw, hb, hl⟩ := hst
  unfold readMember
  rw [read_ok st.wavFile n _ (by rw [hf]) (by rw [hf]; exact hlen)]
  refine ⟨_, rfl, ?_⟩
  rw [scanState_writeIf, hstore]
  simp only [Option.map_some', Option.getD_some, hf, hk, hw, hb]
  rw [← hl]
  rfl

theorem skipInChk_scan {α : Type} (n : Nat)
    (st : WavReader α) (c : List Byte) (g : Nat) (k : chunkHdr) (w : chunkHdr) (b : Bool)
    (l : List Nat)
    (hst : scanState st = (⟨c, g, true⟩, k, w, b, l)) :
    ∃ r, skipInChk n st = .ok r ∧
      scanState r = (⟨c, g + n, true⟩, { k with pos := (k.pos + n) % 4294967296 }, w, b, l) := by
  simp only [scanState, Prod.mk.injEq] at hst
  obtain ⟨hf, hk, hw, hb, hl⟩ := hst
  unfold skipInChk skip
  rw [if_neg (by rw [hf]; simp)]
  refine ⟨_, rfl, ?_⟩
  simp only [scanState, Option.map_some', Option.getD_some, hf, hk, hw, hb]
  rw [← hl]
  rfl

theorem skipInWave_scan {α : Type} (n : Nat)
    (st : WavReader α) (c : List Byte) (g : Nat) (k : chunkHdr) (w : chunkHdr) (b : Bool)
    (l : List Nat)
    (hst : scanState st = (⟨c, g, true⟩, k, w, b, l)) :
    ∃ r, skipInWave n st = .ok r ∧
      scanState r = (⟨c, g + n, true⟩, k, { w with pos := (w.pos + n) % 4294967296 }, b, l) := by
  simp only [scanState, Prod.mk.injEq] at hst
  obtain ⟨hf, hk, hw, hb, hl⟩ := hst
  unfold skipInWave skip
  rw [if_neg (by rw [hf]; simp)]
  refine ⟨_, rfl, ?_⟩
  simp only [scanState, Option.map_some', Option.getD_some, hf, hk, hw, hb]
  rw [← hl]
  rfl

theorem bumpPos_twice (parent : Option chunkHdr) (m n : Nat) :
    (parent.map fun p : chunkHdr => { p with pos := (p.pos + m) % 4294967296 }).map
        (fun p : chunkHdr => { p with pos := (p.pos + n) % 4294967296 })
      = parent.map fun p : chunkHdr => { p with pos := (p.pos + (m + n)) % 4294967296 } := by
  cases parent with
  | none => rfl
  | some p =>
    simp only [Option.map_some', Option.some.injEq]
    congr 1
    omega

theorem readHeader_ok (f : IfStream) (parent : Option chunkHdr) (hg : f.good = true)
    (hlen : f.gpos + 8 ≤ f.content.length) :
    readHeader f parent =
      .ok ({ id := (f.content.drop f.gpos).take 4,
             size := leValue ((f.content.drop (f.gpos + 4)).take 4), pos := 0 },
        { f with gpos := f.gpos + 8 },
        parent.map fun p => { p with pos := (p.pos + 8) % 4294967296 }) := by
  unfold readHeader
  rw [read_ok f 4 parent hg (by omega)]
  simp only []
  rw [read_ok { f with gpos := f.gpos + 4 } 4 _ hg
    (by show f.gpos + 4 + 4 ≤ f.content.length; omega)]
  simp only [bumpPos_twice]

theorem readSubChunk_scan {α : Type}
    (st : WavReader α) (c : List Byte) (g : Nat) (k : chunkHdr) (w : chunkHdr) (b : Bool)
    (l : List Nat)
    (hst : scanState st = (⟨c, g, true⟩, k, w, b, l)) (hlen : g + 8 ≤ c.length) :
    ∃ r, readSubChunk st = .ok r ∧
      scanState r = (⟨c, g + 8, true⟩,
        ⟨(c.drop g).take 4, leValue ((c.drop (g + 4)).take 4), 0⟩,
        { w with pos := (w.pos + 8) % 4294967296 }, b, l) := by
  simp only [scanState, Prod.mk.injEq] at hst
  obtain ⟨hf, hk, hw, hb, hl⟩ := hst
  unfold readSubChunk
  rw [readHeader_ok st.wavFile _ (by rw [hf]) (by rw [hf]; exact hlen)]
  refine ⟨_, rfl, ?_⟩
  simp only [scanState, Option.map_some', Option.getD_some, hf, hw, hb]
  rw [← hl]
  rfl

theorem skipChunk_scan {α : Type}
    (st : WavReader α) (c : List Byte) (g : Nat) (k : chunkHdr) (w : chunkHdr) (b : Bool)
    (l : List Nat)
    (hst : scanState st = (⟨c, g, true⟩, k, w, b, l)) :
    ∃ r, skipChunk st = .ok r ∧
      scanState r = (⟨c, g + k.size + k.size % 2, true⟩,
        { k with pos := (k.pos + k.size) % 4294967296 },
        { w with pos :=
            ((w.pos + (k.pos + k.size) % 4294967296) % 4294967296 + k.size % 2) % 4294967296 },
        b, l) := by
  have hk : st.chk = k := by
    simp only [scanState, Prod.mk.injEq] at hst
    exact hst.2.1
  obtain ⟨r1, h1, hr1⟩ := skipInChk_scan k.size st c g k w b l hst
  have hr1c : r1.chk.size = k.size := by
    simp only [scanState, Prod.mk.injEq] at hr1
    rw [hr1.2.1]
  have h2 : scanState (addChkPos r1)
      = (⟨c, g + k.size, true⟩, { k with pos := (k.pos + k.size) % 4294967296 },
          { w with pos := (w.pos + (k.pos + k.size) % 4294967296) % 4294967296 }, b, l) := by
    simp only [scanState, Prod.mk.injEq] at hr1 ⊢
    obtain ⟨hf, hk1, hw, hb, hl⟩ := hr1
    refine ⟨hf, hk1, ?_, hb, ?_⟩
    · show ({ r1.wave with pos := (r1.wave.pos + r1.chk.pos) % 4294967296 } : chunkHdr) = _
      rw [hw, hk1]
    · rw [← hl]; rfl
  unfold skipChunk
  rw [hk, h1]
  show ∃ r, (if r1.chk.size % 2 = 1 then skipInWave 1 (addChkPos r1)
    else Except.ok (addChkPos r1)) = .ok r ∧ _
  rw [hr1c]
  rcases Nat.mod_two_eq_zero_or_one k.size with h0 | h0
  · rw [if_neg (by omega)]
    refine ⟨_, rfl, ?_⟩
    rw [h2, h0]
    simp only [Prod.mk.injEq, true_and, and_true, Nat.add_zero]
    congr 1
    exact (Nat.mod_mod _ _).symm
  · rw [if_pos h0]
    obtain ⟨r2, hr2, hs2⟩ := skipInWave_scan 1 _ c (g + k.size) _ _ b l h2
    refine ⟨r2, hr2, ?_⟩
    rw [hs2, h0]

theorem ok_bind {ε β γ : Type} (a : β) (f : β → Except ε γ) : (Except.ok a >>= f) = f a := rfl

theorem getInfo_scan {α : Type}
    (st : WavReader α) (c : List Byte) (g : Nat) (k : chunkHdr) (w : chunkHdr) (b : Bool)
    (l : List Nat)
    (hst : scanState st = (⟨c, g, true⟩, k, w, b, l)) (hlen : g + 14 ≤ c.length) :
    ∃ r, getInfo st = .ok r ∧
      scanState r = (⟨c, g + 14, true⟩, { k with pos := (k.pos + 14) % 4294967296 }, w, b,
        ((((l.set 0 (leValue ((c.drop g).take 2))).set 1 (leValue ((c.drop (g + 2)).take 2))).set 2
          (leValue ((c.drop (g + 4)).take 4))).set 3 (leValue ((c.drop (g + 8)).take 4))).set 4
          (leValue ((c.drop (g + 12)).take 2))) := by
  obtain ⟨r1, h1, s1⟩ := readMember_scan 2 0 (fun s v => { s with audioFormat := v }) st c g k w b l
    hst (by omega) (fun s v => rfl)
  obtain ⟨r2, h2, s2⟩ := readMember_scan 2 1 (fun s v => { s with numChannels := v }) r1 c _ _ w b _
    s1 (by omega) (fun s v => rfl)
  obtain ⟨r3, h3, s3⟩ := readMember_scan 4 2 (fun s v => { s with sampleRate := v }) r2 c _ _ w b _
    s2 (by omega) (fun s v => rfl)
  obtain ⟨r4, h4, s4⟩ := readMember_scan 4 3 (fun s v => { s with byteRate := v }) r3 c _ _ w b _
    s3 (by omega) (fun s v => rfl)
  obtain ⟨r5, h5, s5⟩ := readMember_scan 2 4 (fun s v => { s with blockAlign := v }) r4 c _ _ w b _
    s4 (by omega) (fun s v => rfl)
  refine ⟨r5, ?_, ?_⟩
  · unfold getInfo
    rw [h1, ok_bind, h2, ok_bind, h3, ok_bind, h4, ok_bind, h5]
  · rw [s5]
    simp only [Prod.mk.injEq, IfStream.mk.injEq, chunkHdr.mk.injEq, true_and, and_true]
    omega

theorem readExtension_scan {α : Type} (stack : Nat → Byte)
    (st : WavReader α) (c : List Byte) (g e : Nat) (k : chunkHdr) (w : chunkHdr) (b : Bool)
    (l : List Nat)
    (hst : scanState st = (⟨c, g, true⟩, k, w, b, l)) (he : st.extraSize = e)
    (hlen : g + e ≤ c.length) (hk : k.pos + e < 4294967296) :
    ∃ r, readExtension stack st = .ok r ∧
      scanState r = (⟨c, g + e, true⟩, { k with pos := k.pos + e }, w, b, l) := by
  subst he
  unfold readExtension
  by_cases h0 : st.extraSize > 0
  · rw [if_pos h0]
    have hst2 := hst
    simp only [scanState, Prod.mk.injEq] at hst2
    obtain ⟨hf, hk1, hw, hb, hl⟩ := hst2
    rw [read_ok st.wavFile st.extraSize _ (by rw [hf]) (by rw [hf]; exact hlen)]
    refine ⟨_, rfl, ?_⟩
    rw [scanState_writeIf]
    show (({ st.wavFile with gpos := st.wavFile.gpos + st.extraSize } : IfStream),
      ({ st.chk with pos := (st.chk.pos + st.extraSize) % 4294967296 } : chunkHdr), st.wave,
      st.fmtFound, fmtFields st) = _
    rw [hf, hk1, hw, hb, hl, Nat.mod_eq_of_lt hk]
  · rw [if_neg h0]
    have h00 : st.extraSize = 0 := by omega
    refine ⟨st, rfl, ?_⟩
    rw [hst, h00]
    rfl

theorem scanState_setFmtFound {α : Type} (st : WavReader α) (f : IfStream) (k w : chunkHdr)
    (b : Bool) (l : List Nat) (hst : scanState st = (f, k, w, b, l)) :
    scanState { st with fmtFound := true } = (f, k, w, true, l) := by
  simp only [scanState, Prod.mk.injEq] at hst
  obtain ⟨hf, hk1, hw, _, hl⟩ := hst
  show (st.wavFile, st.chk, st.wave, true, fmtFields st) = _
  rw [hf, hk1, hw, hl]

theorem leValue_lt (l : List Byte) : leValue l < 256 ^ l.length := by
  induction l with
  | nil => simp [leValue]
  | cons b bs ih =>
    have hb := b.isLt
    simp only [leValue, List.length_cons, pow_succ]
    omega

theorem leValue_take_two_lt (l : List Byte) : leValue (l.take 2) < 65536 := by
  have h := leValue_lt (l.take 2)
  have h2 : (l.take 2).length ≤ 2 := by simp
  calc leValue (l.take 2) < 256 ^ (l.take 2).length := h
    _ ≤ 256 ^ 2 := Nat.pow_le_pow_right (by decide) h2
    _ = 65536 := by norm_num

theorem skipRest_scan {α : Type}
    (s : WavReader α) (c : List Byte) (g sz p : Nat) (id : List Byte) (w : chunkHdr) (b : Bool)
    (l : List Nat)
    (hs : scanState s = (⟨c, g, true⟩, ⟨id, sz, p⟩, w, b, l))
    (hsz : sz < 4294967296) (hp : p < 4294967296) :
    ∃ r, (if s.chk.pos < s.chk.size then
            skipInChk ((s.chk.size + 4294967296 - s.chk.pos) % 4294967296) s
          else .ok s) = .ok r ∧
      scanState r = (⟨c, g + (max sz p - p), true⟩, ⟨id, sz, max sz p⟩, w, b, l) := by
  have hk : s.chk = ⟨id, sz, p⟩ := by
    simp only [scanState, Prod.mk.injEq] at hs
    exact hs.2.1
  have hk1 : s.chk.pos = p := by rw [hk]
  have hk2 : s.chk.size = sz := by rw [hk]
  rw [hk1, hk2]
  by_cases hlt : p < sz
  · rw [if_pos hlt]
    obtain ⟨r, hr, sr⟩ := skipInChk_scan ((sz + 4294967296 - p) % 4294967296) s c g _ w b l hs
    refine ⟨r, hr, ?_⟩
    rw [sr]
    have e1 : (sz + 4294967296 - p) % 4294967296 = sz - p := by omega
    have e2 : max sz p = sz := by omega
    rw [e1, e2]
    simp only [Prod.mk.injEq, chunkHdr.mk.injEq, true_and, and_true]
    omega
  · rw [if_neg hlt]
    refine ⟨s, rfl, ?_⟩
    have e2 : max sz p = p := by omega
    rw [hs, e2]
    simp

theorem fmtTail_scan {α : Type} (stack : Nat → Byte)
    (st1 : WavReader α) (c : List Byte) (g sz : Nat) (id : List Byte) (w : chunkHdr)
    (l : List Nat)
    (hst : scanState st1 = (⟨c, g, true⟩, ⟨id, sz, 0⟩, w, false, l))
    (hsz : sz < 4294967296)
    (hlen : g + (if sz ≥ 18 then 18 + leValue ((c.drop (g + 16)).take 2)
                  else if sz ≥ 16 then 16 else 14) ≤ c.length) :
    ∃ r, (if st1.fmtFound then Except.error Failure.extraFmt
      else
        getInfo { st1 with fmtFound := true } >>=
        (fun s => if s.chk.size ≥ 16 then readMember 2 (fun s v => { s with bitsPerSample := v }) s
          else .ok s) >>=
        (fun s =>
          if s.chk.size ≥ 18 then
            readMember 2 (fun s v => { s with extraSize := v }) s >>= readExtension stack
          else .ok s) >>=
        (fun s =>
          if s.chk.pos < s.chk.size then
            skipInChk ((s.chk.size + 4294967296 - s.chk.pos) % 4294967296) s
          else .ok s)) = .ok r ∧
      scanState r =
        (⟨c, g + max sz (if sz ≥ 18 then 18 + leValue ((c.drop (g + 16)).take 2)
                  else if sz ≥ 16 then 16 else 14), true⟩,
          ⟨id, sz, max sz (if sz ≥ 18 then 18 + leValue ((c.drop (g + 16)).take 2)
                  else if sz ≥ 16 then 16 else 14)⟩, w, true,
          if sz ≥ 18 then
            ((((((l.set 0 (leValue ((c.drop g).take 2))).set 1
              (leValue ((c.drop (g + 2)).take 2))).set 2
              (leValue ((c.drop (g + 4)).take 4))).set 3 (leValue ((c.drop (g + 8)).take 4))).set 4
              (leValue ((c.drop (g + 12)).take 2))).set 5
              (leValue ((c.drop (g + 14)).take 2))).set 6 (leValue ((c.drop (g + 16)).take 2))
          else if sz ≥ 16 then
            (((((l.set 0 (leValue ((c.drop g).take 2))).set 1
              (leValue ((c.drop (g + 2)).take 2))).set 2
              (leValue ((c.drop (g + 4)).take 4))).set 3 (leValue ((c.drop (g + 8)).take 4))).set 4
              (leValue ((c.drop (g + 12)).take 2))).set 5
              (leValue ((c.drop (g + 14)).take 2))
          else
            ((((l.set 0 (leValue ((c.drop g).take 2))).set 1
              (leValue ((c.drop (g + 2)).take 2))).set 2
              (leValue ((c.drop (g + 4)).take 4))).set 3 (leValue ((c.drop (g + 8)).take 4))).set 4
              (leValue ((c.drop (g + 12)).take 2))) := by
  have hff : st1.fmtFound = false := by
    simp only [scanState, Prod.mk.injEq] at hst
    exact hst.2.2.2.1
  rw [hff, if_neg (by simp)]
  have h14 : g + 14 ≤ c.length := by
    split_ifs at hlen <;> omega
  obtain ⟨r1, h1, s1⟩ := getInfo_scan { st1 with fmtFound := true } c g _ w true l
    (scanState_setFmtFound st1 _ _ _ _ _ hst) h14
  rw [h1, ok_bind]
  have s1k : r1.chk = ⟨id, sz, 14⟩ := by
    simp only [scanState, Prod.mk.injEq] at s1
    rw [s1.2.1]
  have hsz1 : r1.chk.size = sz := by rw [s1k]
  have s1n : scanState r1 = (⟨c, g + 14, true⟩, ⟨id, sz, 14⟩, w, true,
      ((((l.set 0 (leValue ((c.drop g).take 2))).set 1
              (leValue ((c.drop (g + 2)).take 2))).set 2
              (leValue ((c.drop (g + 4)).take 4))).set 3 (leValue ((c.drop (g + 8)).take 4))).set 4
              (leValue ((c.drop (g + 12)).take 2))) := by
    rw [s1]
    rfl
  rw [hsz1]
  by_cases h16 : sz ≥ 16
  · rw [if_pos h16]
    have hl16 : g + 16 ≤ c.length := by
      split_ifs at hlen <;> omega
    obtain ⟨r2, h2, s2⟩ := readMember_scan 2 5 (fun s v => { s with bitsPerSample := v }) r1 c _ _ w
      true _ s1n (by omega) (fun s v => rfl)
    rw [h2, ok_bind]
    have s2k : r2.chk = ⟨id, sz, 16⟩ := by
      simp only [scanState, Prod.mk.injEq] at s2
      rw [s2.2.1]
    have hsz2 : r2.chk.size = sz := by rw [s2k]
    rw [hsz2]
    by_cases h18 : sz ≥ 18
    · rw [if_pos h18]
      rw [if_pos h18] at hlen
      obtain ⟨r3, h3, s3⟩ := readMember_scan 2 6 (fun s v => { s with extraSize := v }) r2 c _ _ w
        true _ s2 (by omega) (fun s v => rfl)
      rw [h3, ok_bind]
      have he := leValue_take_two_lt (c.drop (g + 2 + 2 + 4 + 4 + 2 + 2))
      have hl7 : l.length = 7 := by
        simp only [scanState, Prod.mk.injEq] at hst
        rw [← hst.2.2.2.2]
        rfl
      have he3 : r3.extraSize = leValue ((c.drop (g + 14 + 2)).take 2) := by
        simp only [scanState, Prod.mk.injEq] at s3
        have := congrArg (fun x => x.getD 6 0) s3.2.2.2.2
        simpa [fmtFields, hl7] using this
      obtain ⟨r4, h4, s4⟩ := readExtension_scan stack r3 c _ _ _ w true _ s3 he3
        (by have : g + 14 + 2 = g + 16 := by omega
            rw [this]; omega)
        (by have : g + 14 + 2 = g + 2 + 2 + 4 + 4 + 2 + 2 := by omega
            rw [this]; show (14 + 2) % 4294967296 + 2 + _ < _;  omega)
      rw [h4, ok_bind]
      have e16 : g + 14 + 2 = g + 16 := by omega
      rw [e16] at s4 he3
      have e16b : g + 2 + 2 + 4 + 4 + 2 + 2 = g + 16 := by omega
      rw [e16b] at he
      obtain ⟨r5, h5, s5⟩ := skipRest_scan r4 c _ sz (18 + leValue ((c.drop (g + 16)).take 2)) id w
        true _ (by rw [s4]; rfl) hsz (by omega)
      refine ⟨r5, h5, ?_⟩
      rw [s5, if_pos h18, if_pos h18]
      simp only [Prod.mk.injEq, chunkHdr.mk.injEq, IfStream.mk.injEq, true_and, and_true]
      omega
    · rw [if_neg h18, ok_bind]
      obtain ⟨r5, h5, s5⟩ := skipRest_scan r2 c _ sz 16 id w true _ (by rw [s2]; rfl) hsz (by omega)
      refine ⟨r5, h5, ?_⟩
      rw [s5, if_neg h18, if_pos h16, if_neg h18, if_pos h16]
      simp only [Prod.mk.injEq, chunkHdr.mk.injEq, IfStream.mk.injEq, true_and, and_true]
      omega
  · rw [if_neg h16, ok_bind, hsz1, if_neg (by omega), ok_bind]
    obtain ⟨r5, h5, s5⟩ := skipRest_scan r1 c _ sz 14 id w true _ s1n hsz (by omega)
    refine ⟨r5, h5, ?_⟩
    rw [s5, if_neg (by omega), if_neg h16, if_neg (by omega), if_neg h16]
    simp only [Prod.mk.injEq, chunkHdr.mk.injEq, IfStream.mk.injEq, true_and, and_true]
    omega

theorem leBytes_length : ∀ (n v : Nat), (leBytes n v).length = n
  | 0, _ => rfl
  | n + 1, v => by simp [leBytes, leBytes_length n]

theorem leValue_leBytes : ∀ (n v : Nat), v < 256 ^ n → leValue (leBytes n v) = v
  | 0, v, h => by
    simp at h
    simp [leBytes, leValue, h]
  | n + 1, v, h => by
    have h1 : v / 256 < 256 ^ n := by
      rw [Nat.div_lt_iff_lt_mul (by decide)]
      rw [pow_succ] at h
      exact h
    simp only [leBytes, leValue, leValue_leBytes n _ h1]
    omega

theorem drop_split (c : List Byte) (g : Nat) (X Y : List Byte) (h : c.drop g = X ++ Y) :
    (c.drop g).take X.length = X ∧ c.drop (g + X.length) = Y := by
  refine ⟨by rw [h]; simp, ?_⟩
  rw [← List.drop_drop, h]
  simp

theorem drop_length (c : List Byte) (g : Nat) (X : List Byte) (h : c.drop g = X)
    (hpos : 0 < X.length) : g + X.length = c.length := by
  have hl := congrArg List.length h
  simp only [List.length_drop] at hl
  omega

theorem riffChunk_length (id payload : List Byte) (hid : id.length = 4) :
    (riffChunk id payload).length = 8 + payload.length + payload.length % 2 := by
  unfold riffChunk
  rcases Nat.mod_two_eq_zero_or_one payload.length with h | h
  · simp [h, hid, leBytes_length]; omega
  · simp [h, hid, leBytes_length]; omega

/-- One chunk that is not needed: its header is read and the chunk is skipped whole. -/
theorem skipOne_scan_any {α : Type} (s : WavReader α) (c : List Byte) (g : Nat) (k w : chunkHdr)
    (b : Bool) (l : List Nat) (id payload Y : List Byte)
    (hs : scanState s = (⟨c, g, true⟩, k, w, b, l))
    (hrem : c.drop g = riffChunk id payload ++ Y)
    (hid : id.length = 4) (hlen : payload.length < 4294967296) :
    ∃ r1 r2 p, readSubChunk s = .ok r1 ∧ r1.chk = ⟨id, payload.length, 0⟩ ∧
      skipChunk r1 = .ok r2 ∧
      scanState r2 = (⟨c, g + (riffChunk id payload).length, true⟩,
        ⟨id, payload.length, payload.length⟩, { w with pos := p }, b, l) ∧
      (w.pos + (riffChunk id payload).length < 4294967296 →
        p = w.pos + (riffChunk id payload).length) := by
  have hL := riffChunk_length id payload hid
  have hrem2 : c.drop g = id ++ (leBytes 4 payload.length ++ (payload ++
      ((if payload.length % 2 = 1 then [0] else []) ++ Y))) := by
    rw [hrem]
    simp [riffChunk, List.append_assoc]
  have hclen : g + 8 ≤ c.length := by
    have := drop_length c g _ hrem (by rw [List.length_append]; omega)
    rw [List.length_append] at this
    omega
  obtain ⟨hid1, hrest⟩ := drop_split c g _ _ hrem2
  rw [hid] at hid1 hrest
  obtain ⟨hsz1, _⟩ := drop_split c (g + 4) _ _ hrest
  rw [leBytes_length] at hsz1
  obtain ⟨r1, h1, s1⟩ := readSubChunk_scan s c g k w b l hs hclen
  rw [hid1, hsz1, leValue_leBytes 4 _ (by norm_num; exact hlen)] at s1
  obtain ⟨r2, h2, s2⟩ := skipChunk_scan r1 c _ _ _ b l s1
  refine ⟨r1, r2, (((w.pos + 8) % 4294967296 + (0 + payload.length) % 4294967296) % 4294967296
      + payload.length % 2) % 4294967296, h1, ?_, h2, ?_, ?_⟩
  · simp only [scanState, Prod.mk.injEq] at s1
    exact s1.2.1
  · rw [s2, hL]
    simp only [Prod.mk.injEq, chunkHdr.mk.injEq, IfStream.mk.injEq, true_and, and_true]
    omega
  · intro hw
    rw [hL] at hw ⊢
    omega

theorem skipOne_scan {α : Type} (s : WavReader α) (c : List Byte) (g : Nat) (k w : chunkHdr)
    (b : Bool) (l : List Nat) (id payload Y : List Byte)
    (hs : scanState s = (⟨c, g, true⟩, k, w, b, l))
    (hrem : c.drop g = riffChunk id payload ++ Y)
    (hid : id.length = 4) (hlen : payload.length < 4294967296)
    (hw : w.pos + (riffChunk id payload).length < 4294967296) :
    ∃ r1 r2, readSubChunk s = .ok r1 ∧ r1.chk = ⟨id, payload.length, 0⟩ ∧
      skipChunk r1 = .ok r2 ∧
      scanState r2 = (⟨c, g + (riffChunk id payload).length, true⟩,
        ⟨id, payload.length, payload.length⟩,
        { w with pos := w.pos + (riffChunk id payload).length }, b, l) := by
  obtain ⟨r1, r2, p, h1, hk, h2, s2, hp⟩ := skipOne_scan_any s c g k w b l id payload Y hs hrem
    hid hlen
  rw [hp hw] at s2
  exact ⟨r1, r2, h1, hk, h2, s2⟩

theorem isChunkID_iff (c : chunkHdr) (i1 i2 i3 i4 : Byte) (h : c.id.length = 4) :
    isChunkID c i1 i2 i3 i4 = true ↔ c.id = [i1, i2, i3, i4] := by
  obtain ⟨id, size, pos⟩ := c
  match id, h with
  | [a, b, c, d], _ =>
    simp [isChunkID, and_assoc]

theorem riffChunks_cons (ch : List Byte × List Byte) (pre : List (List Byte × List Byte)) :
    riffChunks (ch :: pre) = riffChunk ch.1 ch.2 ++ riffChunks pre := by
  simp [riffChunks]

theorem riffChunks_length_ge (pre : List (List Byte × List Byte))
    (hpre : ∀ ch ∈ pre, ch.1.length = 4) : 8 * pre.length ≤ (riffChunks pre).length := by
  induction pre with
  | nil => simp
  | cons ch pre ih =>
    rw [riffChunks_cons, List.length_append, riffChunk_length _ _ (hpre ch (by simp)),
      List.length_cons]
    have := ih (fun x hx => hpre x (by simp [hx]))
    omega

/-- The loop of `updateInfo` skips every chunk that is not a fmt chunk while the extent of
the WAVE chunk is not used up. -/
theorem updateInfoLoop_skips {α : Type} (stack : Nat → Byte) :
    ∀ (pre : List (List Byte × List Byte)) (fuel : Nat) (s : WavReader α) (c : List Byte) (g : Nat)
      (k w : chunkHdr) (b : Bool) (l : List Nat) (Y : List Byte),
      scanState s = (⟨c, g, true⟩, k, w, b, l) →
      c.drop g = riffChunks pre ++ Y →
      (∀ ch ∈ pre, ch.1.length = 4 ∧ ch.1 ≠ [102, 109, 116, 32] ∧ ch.2.length < 4294967296) →
      w.pos + (riffChunks pre).length ≤ w.size → w.size < 4294967296 →
      ∃ s1 k1, updateInfoLoop stack (fuel + pre.length) s = updateInfoLoop stack fuel s1 ∧
        scanState s1 = (⟨c, g + (riffChunks pre).length, true⟩, k1,
          { w with pos := w.pos + (riffChunks pre).length }, b, l)
  | [], fuel, s, c, g, k, w, b, l, Y, hs, _, _, _, _ => by
    refine ⟨s, k, rfl, ?_⟩
    rw [hs]
    simp [riffChunks]
  | ch :: pre, fuel, s, c, g, k, w, b, l, Y, hs, hrem, hpre, hext, hws => by
    obtain ⟨hid, hne, hlen⟩ := hpre ch (by simp)
    have hL := riffChunk_length ch.1 ch.2 hid
    rw [riffChunks_cons, List.length_append] at hext
    rw [riffChunks_cons, List.append_assoc] at hrem
    obtain ⟨r1, r2, h1, hk1, h2, s2⟩ := skipOne_scan s c g k w b l ch.1 ch.2 _ hs hrem hid hlen
      (by omega)
    obtain ⟨_, hrem2⟩ := drop_split c g _ _ hrem
    obtain ⟨s1, k1, hloop, hs1⟩ := updateInfoLoop_skips stack pre fuel r2 c _ _ _ b l Y s2 hrem2
      (fun x hx => hpre x (by simp [hx])) (by show w.pos + _ + _ ≤ w.size; omega) hws
    refine ⟨s1, k1, ?_, ?_⟩
    · rw [← hloop]
      have hw : s.wave = w := by
        simp only [scanState, Prod.mk.injEq] at hs
        exact hs.2.2.1
      show updateInfoLoop stack ((fuel + pre.length) + 1) s = _
      rw [updateInfoLoop, hw, if_pos (by omega), h1]
      simp only []
      rw [if_neg, h2]
      rw [Bool.not_eq_true, ← Bool.not_eq_true, isChunkID_iff _ _ _ _ _ (by rw [hk1]; exact hid),
        hk1]
      exact hne
    · rw [hs1, riffChunks_cons, List.length_append]
      simp only [Prod.mk.injEq, chunkHdr.mk.injEq, IfStream.mk.injEq, true_and, and_true]
      omega

theorem fmtChunk_scan {α : Type} (stack : Nat → Byte) (st : WavReader α) (c : List Byte)
    (g sz : Nat) (id : List Byte) (w : chunkHdr) (l : List Nat)
    (hst : scanState st = (⟨c, g, true⟩, ⟨id, sz, 0⟩, w, false, l))
    (hsz : sz < 4294967296)
    (hlen : g + (if sz ≥ 18 then 18 + leValue ((c.drop (g + 16)).take 2)
                  else if sz ≥ 16 then 16 else 14) ≤ c.length) :
    ∃ r, fmtChunk stack st = .ok r ∧
      scanState r =
        (⟨c, g + max sz (if sz ≥ 18 then 18 + leValue ((c.drop (g + 16)).take 2)
                  else if sz ≥ 16 then 16 else 14), true⟩,
          ⟨id, sz, max sz (if sz ≥ 18 then 18 + leValue ((c.drop (g + 16)).take 2)
                  else if sz ≥ 16 then 16 else 14)⟩, w, true,
          if sz ≥ 18 then
            ((((((l.set 0 (leValue ((c.drop g).take 2))).set 1
              (leValue ((c.drop (g + 2)).take 2))).set 2
              (leValue ((c.drop (g + 4)).take 4))).set 3 (leValue ((c.drop (g + 8)).take 4))).set 4
              (leValue ((c.drop (g + 12)).take 2))).set 5
              (leValue ((c.drop (g + 14)).take 2))).set 6 (leValue ((c.drop (g + 16)).take 2))
          else if sz ≥ 16 then
            (((((l.set 0 (leValue ((c.drop g).take 2))).set 1
              (leValue ((c.drop (g + 2)).take 2))).set 2
              (leValue ((c.drop (g + 4)).take 4))).set 3 (leValue ((c.drop (g + 8)).take 4))).set 4
              (leValue ((c.drop (g + 12)).take 2))).set 5
              (leValue ((c.drop (g + 14)).take 2))
          else
            ((((l.set 0 (leValue ((c.drop g).take 2))).set 1
              (leValue ((c.drop (g + 2)).take 2))).set 2
              (leValue ((c.drop (g + 4)).take 4))).set 3 (leValue ((c.drop (g + 8)).take 4))).set 4
              (leValue ((c.drop (g + 12)).take 2))) :=
  fmtTail_scan stack
    (writeIf (writeIf { st with fmtPosition := st.chk.size } [102, 109, 116, 32])
      (leBytes 4 st.chk.size))
    c g sz id w l
    (by rw [scanState_writeIf, scanState_writeIf]; exact hst) hsz hlen

theorem drop_add (c : List Byte) (g n : Nat) : c.drop (g + n) = (c.drop g).drop n := by
  rw [List.drop_drop]

/-- The fields that `updateInfo` decodes and the place where it stops, for a stream in which
chunks that are not fmt chunks precede a fmt chunk of declared size `sz` followed by the
bytes `T`. -/
theorem updateInfo_scan {α : Type} (stack : Nat → Byte) (st : WavReader α) (c : List Byte)
    (g sz : Nat) (pre : List (List Byte × List Byte)) (T : List Byte)
    (hf : st.wavFile = ⟨c, g, true⟩) (hff : st.fmtFound = false)
    (hrem : c.drop g = riffChunks pre ++ ([102, 109, 116, 32] ++ (leBytes 4 sz ++ T)))
    (hpre : ∀ ch ∈ pre, ch.1.length = 4 ∧ ch.1 ≠ [102, 109, 116, 32] ∧ ch.2.length < 4294967296)
    (hext : st.wave.pos + (riffChunks pre).length < st.wave.size)
    (hws : st.wave.size < 4294967296) (hsz : sz < 4294967296)
    (hlen : (if sz ≥ 18 then 18 + leValue ((T.drop 16).take 2)
              else if sz ≥ 16 then 16 else 14) ≤ T.length) :
    ∃ r, updateInfo stack st = .ok r ∧
      scanState r =
        (⟨c, g + (riffChunks pre).length + 8 +
            max sz (if sz ≥ 18 then 18 + leValue ((T.drop 16).take 2)
              else if sz ≥ 16 then 16 else 14), true⟩,
          ⟨[102, 109, 116, 32], sz, max sz (if sz ≥ 18 then 18 + leValue ((T.drop 16).take 2)
              else if sz ≥ 16 then 16 else 14)⟩,
          { st.wave with pos := (st.wave.pos + (riffChunks pre).length + 8) % 4294967296 }, true,
          [leValue (T.take 2), leValue ((T.drop 2).take 2), leValue ((T.drop 4).take 4),
            leValue ((T.drop 8).take 4), leValue ((T.drop 12).take 2),
            if sz ≥ 16 then leValue ((T.drop 14).take 2) else st.bitsPerSample,
            if sz ≥ 18 then leValue ((T.drop 16).take 2) else st.extraSize]) := by
  have hs : scanState st = (⟨c, g, true⟩, st.chk, st.wave, false, fmtFields st) := by
    show (st.wavFile, st.chk, st.wave, st.fmtFound, fmtFields st) = _
    rw [hf, hff]
  have hpre4 : ∀ ch ∈ pre, ch.1.length = 4 := fun ch h => (hpre ch h).1
  have hge := riffChunks_length_ge pre hpre4
  have hcl : g + ((riffChunks pre).length + (8 + T.length)) = c.length := by
    have := drop_length c g _ hrem (by simp [leBytes_length])
    rw [← this]
    simp only [List.length_append, leBytes_length, List.length_cons, List.length_nil]
    omega
  obtain ⟨s1, k1, hloop, hs1⟩ := updateInfoLoop_skips stack pre
    (c.length + 1 - pre.length) st c g st.chk st.wave false (fmtFields st) _ hs hrem hpre
    (by omega) hws
  obtain ⟨_, hrem1⟩ := drop_split c g _ _ hrem
  obtain ⟨hid, hrem2⟩ := drop_split c _ _ _ hrem1
  obtain ⟨hsize, hrem3⟩ := drop_split c _ _ _ hrem2
  rw [leBytes_length] at hsize hrem3
  simp only [List.length_cons, List.length_nil, Nat.zero_add, Nat.reduceAdd] at hid hrem2 hsize hrem3
  obtain ⟨r1, h1, sr1⟩ := readSubChunk_scan s1 c _ _ _ false _ hs1 (by omega)
  rw [hid, hsize, leValue_leBytes 4 sz (by norm_num; exact hsz)] at sr1
  have hT : ∀ n, c.drop (g + (riffChunks pre).length + 8 + n) = T.drop n := by
    intro n
    rw [drop_add, ← hrem3]
  have hT0 : c.drop (g + (riffChunks pre).length + 8) = T := by
    have := hT 0
    simpa using this
  obtain ⟨r, hr, sr⟩ := fmtChunk_scan stack r1 c _ sz _ _ _ sr1 hsz
    (by rw [hT]; omega)
  refine ⟨r, ?_, ?_⟩
  · unfold updateInfo
    rw [hf]
    show updateInfoLoop stack (c.length + 1) st = _
    have hfu : c.length + 1 = (c.length + 1 - pre.length - 1 + 1) + pre.length := by omega
    have hfu2 : c.length + 1 - pre.length = (c.length + 1 - pre.length - 1) + 1 := by omega
    rw [hfu2] at hloop
    rw [hfu, hloop, updateInfoLoop]
    have hw1 : s1.wave = { st.wave with pos := st.wave.pos + (riffChunks pre).length } := by
      simp only [scanState, Prod.mk.injEq] at hs1
      exact hs1.2.2.1
    rw [hw1, if_pos (by show st.wave.pos + _ < st.wave.size; exact hext), h1]
    simp only []
    have hk1 : r1.chk = ⟨[102, 109, 116, 32], sz, 0⟩ := by
      simp only [scanState, Prod.mk.injEq] at sr1
      exact sr1.2.1
    rw [if_pos, hr]
    rw [isChunkID_iff _ _ _ _ _ (by rw [hk1]; rfl), hk1]
  · rw [sr]
    simp only [hT, hT0]
    rw [Prod.mk.injEq, Prod.mk.injEq, Prod.mk.injEq, Prod.mk.injEq]
    refine ⟨rfl, rfl, rfl, rfl, ?_⟩
    by_cases h18 : sz ≥ 18
    · rw [if_pos h18, if_pos h18, if_pos (by omega)]
      simp [fmtFields, List.set]
    · rw [if_neg h18, if_neg h18]
      by_cases h16 : sz ≥ 16
      · rw [if_pos h16, if_pos h16]
        simp [fmtFields, List.set]
      · rw [if_neg h16, if_neg h16]
        simp [fmtFields, List.set]

theorem read_eof (f : IfStream) (n : Nat) (parent : Option chunkHdr) (hg : f.good = true)
    (hn : 0 < n) (hlen : f.content.length < f.gpos + n) :
    read f n parent = .error .unexpectedEof := by
  unfold read
  rw [if_neg (by simp [hg]), if_pos ⟨hn, hlen⟩]

theorem readHeader_eof (f : IfStream) (parent : Option chunkHdr) (hg : f.good = true)
    (hlen : f.content.length < f.gpos + 8) : readHeader f parent = .error .unexpectedEof := by
  unfold readHeader
  by_cases h4 : f.content.length < f.gpos + 4
  · rw [read_eof f 4 parent hg (by decide) h4]
  · rw [read_ok f 4 parent hg (by omega)]
    simp only []
    rw [read_eof { f with gpos := f.gpos + 4 } 4 _ hg (by decide)
      (by show f.content.length < f.gpos + 4 + 4; omega)]

theorem readSubChunk_eof {α : Type} (s : WavReader α) (c : List Byte) (g : Nat)
    (hf : s.wavFile = ⟨c, g, true⟩) (hlen : c.length < g + 8) :
    readSubChunk s = .error .unexpectedEof := by
  unfold readSubChunk
  rw [readHeader_eof s.wavFile _ (by rw [hf]) (by rw [hf]; exact hlen)]

theorem scanState_dataChunk {α : Type} (s : WavReader α) :
    scanState (dataChunk s) = scanState s := by
  unfold dataChunk
  simp only []
  split <;> rfl

/-- The loop of `findDataPosition` skips every chunk that is not a data chunk, whatever the
extent of the WAVE chunk is. -/
theorem findDataLoop_skips {α : Type} :
    ∀ (post : List (List Byte × List Byte)) (fuel : Nat) (s : WavReader α) (c : List Byte) (g : Nat)
      (k w : chunkHdr) (b : Bool) (l : List Nat) (Y : List Byte),
      scanState s = (⟨c, g, true⟩, k, w, b, l) →
      isChunkID k 100 97 116 97 = false →
      c.drop g = riffChunks post ++ Y →
      (∀ ch ∈ post, ch.1.length = 4 ∧ ch.1 ≠ [100, 97, 116, 97] ∧ ch.2.length < 4294967296) →
      ∃ s1 k1 p1, findDataLoop (fuel + post.length) s = findDataLoop fuel s1 ∧
        scanState s1 = (⟨c, g + (riffChunks post).length, true⟩, k1, { w with pos := p1 }, b, l) ∧
        isChunkID k1 100 97 116 97 = false
  | [], fuel, s, c, g, k, w, b, l, Y, hs, hk, _, _ => by
    refine ⟨s, k, w.pos, rfl, ?_, hk⟩
    rw [hs]
    simp [riffChunks]
  | ch :: post, fuel, s, c, g, k, w, b, l, Y, hs, hk, hrem, hpost => by
    obtain ⟨hid, hne, hlen⟩ := hpost ch (by simp)
    rw [riffChunks_cons, List.append_assoc] at hrem
    obtain ⟨r1, r2, p, h1, hk1, h2, s2, _⟩ := skipOne_scan_any s c g k w b l ch.1 ch.2 _ hs hrem
      hid hlen
    obtain ⟨_, hrem2⟩ := drop_split c g _ _ hrem
    have hnd : isChunkID (⟨ch.1, ch.2.length, ch.2.length⟩ : chunkHdr) 100 97 116 97 = false := by
      rw [← Bool.not_eq_true, isChunkID_iff _ _ _ _ _ hid]
      exact hne
    obtain ⟨s1, k1, p1, hloop, hs1, hk1n⟩ := findDataLoop_skips post fuel r2 c _ _
      { w with pos := p } b l Y s2 hnd hrem2 (fun x hx => hpost x (by simp [hx]))
    refine ⟨s1, k1, p1, ?_, ?_, hk1n⟩
    · rw [← hloop]
      have hkk : s.chk = k := by
        simp only [scanState, Prod.mk.injEq] at hs
        exact hs.2.1
      show findDataLoop ((fuel + post.length) + 1) s = _
      rw [findDataLoop, hkk, if_pos hk, h1]
      simp only []
      rw [if_neg, h2]
      rw [isChunkID_iff _ _ _ _ _ (by rw [hk1]; exact hid), hk1]
      exact hne
    · rw [hs1, riffChunks_cons, List.length_append]
      simp only [Prod.mk.injEq, chunkHdr.mk.injEq, IfStream.mk.injEq, true_and, and_true]
      omega

/-- The two header reads of `load`: the RIFF header and the form type. -/
theorem headers_scan {α : Type} (s0 : WavReader α) (c : List Byte) (R : Nat)
    (form body : List Byte) (hf : s0.wavFile = ⟨c, 0, true⟩)
    (hc : c = [82, 73, 70, 70] ++ (leBytes 4 R ++ (form ++ body)))
    (hform : form.length = 4) (hR : R < 4294967296) :
    ∃ s, (checkForRiffHeader s0 >>= readToWaveChunkHeader) = .ok s ∧
      scanState s = (⟨c, 12, true⟩, s0.chk, ⟨form, (R + 4294967296 - 4) % 4294967296, 0⟩,
        s0.fmtFound, fmtFields s0) ∧
      s.riff = ⟨[82, 73, 70, 70], R, 4⟩ ∧ c.drop 12 = body := by
  have hd0 : c.drop 0 = [82, 73, 70, 70] ++ (leBytes 4 R ++ (form ++ body)) := by
    rw [List.drop_zero]; exact hc
  have hlen : c.length = 12 + body.length := by
    rw [hc]
    simp only [List.length_append, leBytes_length, List.length_cons, List.length_nil, hform]
    omega
  obtain ⟨hid, hrem1⟩ := drop_split c 0 _ _ hd0
  obtain ⟨hsize, hrem2⟩ := drop_split c _ _ _ hrem1
  obtain ⟨hfm, hrem3⟩ := drop_split c _ _ _ hrem2
  simp only [List.length_cons, List.length_nil, Nat.zero_add, Nat.reduceAdd, leBytes_length,
    hform] at hid hsize hfm hrem3
  have h1 : checkForRiffHeader s0
      = .ok { s0 with riff := ⟨[82, 73, 70, 70], R, 0⟩, wavFile := ⟨c, 8, true⟩ } := by
    unfold checkForRiffHeader
    rw [readHeader_ok s0.wavFile none (by rw [hf]) (by rw [hf]; show 0 + 8 ≤ c.length; omega)]
    simp only []
    rw [hf]
    simp only [Nat.zero_add]
    rw [hid, hsize, leValue_leBytes 4 R (by norm_num; exact hR)]
    rfl
  rw [h1, ok_bind]
  unfold readToWaveChunkHeader
  rw [read_ok _ 4 _ (by rfl) (by show 8 + 4 ≤ c.length; omega)]
  refine ⟨_, rfl, ?_, ?_, hrem3⟩
  · show ((⟨c, 8 + 4, true⟩ : IfStream), s0.chk,
      (⟨(c.drop 8).take 4, (R + 4294967296 - 4) % 4294967296, 0⟩ : chunkHdr), s0.fmtFound,
      fmtFields s0) = _
    rw [hfm]
  · rfl

theorem take_drop_append (P rest : List Byte) (off n : Nat) (h : off + n ≤ P.length) :
    ((P ++ rest).drop off).take n = (P.drop off).take n := by
  rw [List.drop_append_of_le_length (by omega), List.take_append_of_le_length]
  rw [List.length_drop]
  omega

theorem load_of_steps {α : Type} (stack : Nat → Byte) (st0 : WavReader α) (file : IfStream)
    (s1 s2 s3 : WavReader α)
    (h1 : (checkForRiffHeader { st0 with wavFile := file } >>= readToWaveChunkHeader) = .ok s1)
    (h2 : updateInfo stack s1 = .ok s2) (h3 : findDataPosition s2 = .ok s3) :
    load stack st0 file = .ok (s3, s3.wavFile.good) := by
  unfold load
  rw [h1, ok_bind, h2, ok_bind, h3, ok_bind]

theorem load_of_steps_error {α : Type} (stack : Nat → Byte) (st0 : WavReader α) (file : IfStream)
    (s1 s2 : WavReader α) (e : Failure)
    (h1 : (checkForRiffHeader { st0 with wavFile := file } >>= readToWaveChunkHeader) = .ok s1)
    (h2 : updateInfo stack s1 = .ok s2) (h3 : findDataPosition s2 = .error e) :
    load stack st0 file = .error e := by
  unfold load
  rw [h1, ok_bind, h2, ok_bind, h3]
  rfl

/-- The format scan and the skipping part of the data scan on a stream laid out as
`waveStream`: the reader arrives at `tail` with the fmt fields decoded. -/
theorem load_reaches_tail {α : Type} (stack : Nat → Byte) (st0 : WavReader α) (R : Nat)
    (form : List Byte) (pre : List (List Byte × List Byte)) (P : List Byte)
    (post : List (List Byte × List Byte)) (tail : List Byte)
    (hff : st0.fmtFound = false) (hform : form.length = 4) (hR : R < 4294967296)
    (hpre : ∀ ch ∈ pre, ch.1.length = 4 ∧ ch.1 ≠ [102, 109, 116, 32] ∧ ch.2.length < 4294967296)
    (hext : (riffChunks pre).length < (R + 4294967296 - 4) % 4294967296)
    (hP : 14 ≤ P.length) (hP2 : P.length < 4294967296) (heven : P.length % 2 = 0)
    (hfit : 18 ≤ P.length → 18 + leValue ((P.drop 16).take 2) ≤ P.length)
    (hpost : ∀ ch ∈ post, ch.1.length = 4 ∧ ch.1 ≠ [100, 97, 116, 97] ∧
      ch.2.length < 4294967296) :
    ∃ s1 s2 s3 k w fuel,
      (checkForRiffHeader { st0 with wavFile := openFile (waveStream R form pre P post tail) } >>=
        readToWaveChunkHeader) = .ok s1 ∧
      updateInfo stack s1 = .ok s2 ∧
      findDataPosition s2 = findDataLoop (fuel + 1) s3 ∧
      scanState s3 = (⟨waveStream R form pre P post tail,
          12 + (riffChunks pre).length + 8 + P.length + (riffChunks post).length, true⟩, k, w,
        true,
        [leValue (P.take 2), leValue ((P.drop 2).take 2), leValue ((P.drop 4).take 4),
          leValue ((P.drop 8).take 4), leValue ((P.drop 12).take 2),
          if P.length ≥ 16 then leValue ((P.drop 14).take 2) else st0.bitsPerSample,
          if P.length ≥ 18 then leValue ((P.drop 16).take 2) else st0.extraSize]) ∧
      isChunkID k 100 97 116 97 = false ∧
      (waveStream R form pre P post tail).drop
        (12 + (riffChunks pre).length + 8 + P.length + (riffChunks post).length) = tail ∧
      (waveStream R form pre P post tail).length
        = 12 + (riffChunks pre).length + 8 + P.length + (riffChunks post).length + tail.length := by
  generalize hF : waveStream R form pre P post tail = F
  have hc : F = [82, 73, 70, 70] ++ (leBytes 4 R ++ (form ++ (riffChunks pre ++
      ([102, 109, 116, 32] ++ (leBytes 4 P.length ++ (P ++ (riffChunks post ++ tail))))))) := by
    rw [← hF]
    unfold waveStream riffChunk
    rw [if_neg (by omega)]
    simp only [List.append_assoc, List.append_nil]
  have hFlen : F.length
      = 12 + (riffChunks pre).length + 8 + P.length + (riffChunks post).length + tail.length := by
    rw [hc]
    simp only [List.length_append, leBytes_length, List.length_cons, List.length_nil, hform]
    omega
  obtain ⟨s1, h1, hs1, _, hbody⟩ := headers_scan { st0 with wavFile := openFile F } F R form _ rfl
    hc hform hR
  have hs1n : scanState s1 = (⟨F, 12, true⟩, st0.chk,
      ⟨form, (R + 4294967296 - 4) % 4294967296, 0⟩, false, fmtFields st0) := by
    rw [hs1]
    show (_, st0.chk, _, st0.fmtFound, fmtFields st0) = _
    rw [hff]
  simp only [scanState, Prod.mk.injEq] at hs1n
  obtain ⟨hf1, _, hw1, hff1, hl1⟩ := hs1n
  have hcons : (if P.length ≥ 18 then 18 + leValue (((P ++ (riffChunks post ++ tail)).drop 16).take 2)
      else if P.length ≥ 16 then 16 else 14) ≤ P.length := by
    split_ifs with h18 h16
    · rw [take_drop_append P _ 16 2 (by omega)]
      exact hfit h18
    · omega
    · omega
  obtain ⟨s2, h2, hs2⟩ := updateInfo_scan stack s1 F 12 P.length pre
    (P ++ (riffChunks post ++ tail)) hf1 hff1 hbody hpre
    (by rw [hw1]; show 0 + _ < (R + 4294967296 - 4) % 4294967296; omega)
    (by rw [hw1]; show (R + 4294967296 - 4) % 4294967296 < _; omega) hP2
    (by rw [List.length_append]; omega)
  rw [Nat.max_eq_left hcons] at hs2
  obtain ⟨_, hrem1⟩ := drop_split F 12 _ _ hbody
  obtain ⟨_, hrem2⟩ := drop_split F _ _ _ hrem1
  obtain ⟨_, hrem3⟩ := drop_split F _ _ _ hrem2
  obtain ⟨_, hrem4⟩ := drop_split F _ _ _ hrem3
  simp only [List.length_cons, List.length_nil, Nat.zero_add, Nat.reduceAdd, leBytes_length]
    at hrem4
  have hg : 12 + (riffChunks pre).length + 4 + 4 + P.length
      = 12 + (riffChunks pre).length + 8 + P.length := by omega
  rw [hg] at hrem4
  have hpost4 : ∀ ch ∈ post, ch.1.length = 4 := fun ch h => (hpost ch h).1
  have hge := riffChunks_length_ge post hpost4
  obtain ⟨s3, k, p, h3, hs3, hk⟩ := findDataLoop_skips post (F.length - post.length + 1) s2 F _
    ⟨[102, 109, 116, 32], P.length, P.length⟩ _ true _ tail hs2
    (by rw [← Bool.not_eq_true,
          isChunkID_iff ⟨[102, 109, 116, 32], P.length, P.length⟩ _ _ _ _ rfl]
        show ¬ ([102, 109, 116, 32] : List Byte) = [100, 97, 116, 97]
        decide) hrem4 hpost
  obtain ⟨_, hrem5⟩ := drop_split F _ _ _ hrem4
  refine ⟨s1, s2, s3, k, s3.wave, F.length - post.length, h1, h2, ?_, ?_, hk, hrem5, hFlen⟩
  · rw [← h3]
    unfold findDataPosition
    have hf2 : s2.wavFile.content = F := by
      simp only [scanState, Prod.mk.injEq] at hs2
      rw [hs2.1]
    rw [hf2]
    congr 1
    omega
  · have hb : s1.bitsPerSample = st0.bitsPerSample := by
      have := congrArg (fun x => x.getD 5 0) hl1
      simpa [fmtFields] using this
    have hx : s1.extraSize = st0.extraSize := by
      have := congrArg (fun x => x.getD 6 0) hl1
      simpa [fmtFields] using this
    have t0 : (P ++ (riffChunks post ++ tail)).take 2 = P.take 2 := by
      have := take_drop_append P (riffChunks post ++ tail) 0 2 (by omega)
      simpa using this
    have h5 : (if P.length ≥ 16 then leValue (((P ++ (riffChunks post ++ tail)).drop 14).take 2)
          else s1.bitsPerSample)
        = (if P.length ≥ 16 then leValue ((P.drop 14).take 2) else st0.bitsPerSample) := by
      split_ifs with h16
      · rw [take_drop_append P _ 14 2 (by omega)]
      · exact hb
    have h6 : (if P.length ≥ 18 then leValue (((P ++ (riffChunks post ++ tail)).drop 16).take 2)
          else s1.extraSize)
        = (if P.length ≥ 18 then leValue ((P.drop 16).take 2) else st0.extraSize) := by
      split_ifs with h18
      · rw [take_drop_append P _ 16 2 (by omega)]
      · exact hx
    rw [t0, take_drop_append P _ 2 2 (by omega), take_drop_append P _ 4 4 (by omega),
      take_drop_append P _ 8 4 (by omega), take_drop_append P _ 12 2 (by omega), h5, h6] at hs3
    simp only [scanState, Prod.mk.injEq] at hs3
    obtain ⟨a1, a2, _, a4, a5⟩ := hs3
    show (s3.wavFile, s3.chk, s3.wave, s3.fmtFound, fmtFields s3) = _
    rw [a1, a2, a4, a5]

theorem checkForRiffHeader_notRiff {α : Type} (st : WavReader α) (content : List Byte)
    (h8 : 8 ≤ content.length) (hid : content.take 4 ≠ [82, 73, 70, 70]) :
    checkForRiffHeader { st with wavFile := openFile content } = .error .notRiff := by
  unfold checkForRiffHeader
  have hr := readHeader_ok (openFile content) none rfl (by simpa [openFile] using h8)
  simp only [openFile] at hr
  simp only [openFile, hr]
  rw [if_neg]
  rw [isChunkID_iff _ _ _ _ _ (by simp; omega)]
  simpa using hid

/-! ## Properties: block reads on an input whose data lies further on -/

theorem read_rebased (c c' : List Byte) (k d g n : Nat) (good : Bool) (parent : Option chunkHdr)
    (hsh : ShiftedBy c c' k d) (hg : d ≤ g) :
    read ⟨c', g + k, good⟩ n parent =
      match read ⟨c, g, good⟩ n parent with
      | .error e => .error e
      | .ok (b, f, p) => .ok (b, ⟨c', f.gpos + k, f.good⟩, p) := by
  obtain ⟨hlen, hdrop⟩ := hsh
  cases good with
  | false => rfl
  | true =>
    by_cases hn : n = 0
    · subst hn
      rw [read_zero ⟨c', g + k, true⟩ parent rfl, read_zero ⟨c, g, true⟩ parent rfl]
      rfl
    by_cases hl : c.length < g + n
    · rw [read_eof ⟨c', g + k, true⟩ n parent rfl (by omega)
          (by show c'.length < g + k + n; rw [hlen]; omega),
        read_eof ⟨c, g, true⟩ n parent rfl (by omega) hl]
    · rw [read_ok ⟨c', g + k, true⟩ n parent rfl (by show g + k + n ≤ c'.length; rw [hlen]; omega),
        read_ok ⟨c, g, true⟩ n parent rfl (by show g + n ≤ c.length; omega)]
      show Except.ok (List.take n (List.drop (g + k) c'), (⟨c', g + k + n, true⟩ : IfStream), _)
        = Except.ok (_, (⟨c', g + n + k, true⟩ : IfStream), _)
      rw [hdrop g hg]
      have e : g + k + n = g + n + k := by omega
      rw [e]

theorem read_gpos (f f1 : IfStream) (n : Nat) (parent p : Option chunkHdr) (b : List Byte)
    (h : read f n parent = .ok (b, f1, p)) :
    f1.content = f.content ∧ f1.gpos = f.gpos + n ∧ f1.good = f.good := by
  unfold read at h
  split_ifs at h
  simp only [Except.ok.injEq, Prod.mk.injEq] at h
  obtain ⟨_, h1, _⟩ := h
  rw [← h1]
  exact ⟨rfl, rfl, rfl⟩

theorem copyFrame_rebased {α : Type} [LinearOrderedField α] (c c' : List Byte) (k d : Nat)
    (rf wv : chunkHdr) (hsh : ShiftedBy c c' k d) (B : Nat) (s : WavReader α) (idx : Nat)
    (buf : List α) (hc : s.wavFile.content = c) (hg : d ≤ s.wavFile.gpos) :
    copyFrame B (rebased s c' k rf wv) idx buf
      = mapReader (fun r => rebased r c' k rf wv) (copyFrame B s idx buf) := by
  have hr := read_rebased c c' k d s.wavFile.gpos B s.wavFile.good (some s.chk) hsh hg
  have e0 : s.wavFile = ⟨c, s.wavFile.gpos, s.wavFile.good⟩ := by
    rw [← hc]
  unfold copyFrame
  have e1 : (rebased s c' k rf wv).wavFile = ⟨c', s.wavFile.gpos + k, s.wavFile.good⟩ := rfl
  have e2 : (rebased s c' k rf wv).chk = s.chk := rfl
  have e3 : (rebased s c' k rf wv).bitsPerSample = s.bitsPerSample := rfl
  rw [e1, e2, e3, hr, e0]
  cases hread : read ⟨c, s.wavFile.gpos, s.wavFile.good⟩ B (some s.chk) with
  | error e => rfl
  | ok x =>
    obtain ⟨b, f, p⟩ := x
    simp only []
    by_cases hb : s.bitsPerSample = 16 ∨ s.bitsPerSample = 24
    · rw [if_pos hb, if_pos hb]
      have es : ∀ v, storeScratch (rebased s c' k rf wv) idx v = storeScratch s idx v :=
        fun _ => rfl
      rw [es]
      cases storeScratch s idx
        ((if s.bitsPerSample = 16 then convert16BitsToFloat else convert24BitsToFloat)
          (List.drop (s.bitsPerSample / 8) b)) with
      | error e => rfl
      | ok x => rfl
    · rw [if_neg hb, if_neg hb]
      rfl

theorem copyFrame_inv {α : Type} [LinearOrderedField α] (B : Nat) (s r : WavReader α) (idx : Nat)
    (buf out : List α) (h : copyFrame B s idx buf = .ok (r, out)) :
    r.wavFile.content = s.wavFile.content ∧ s.wavFile.gpos ≤ r.wavFile.gpos := by
  unfold copyFrame at h
  cases hread : read s.wavFile B (some s.chk) with
  | error e => rw [hread] at h; cases h
  | ok x =>
    obtain ⟨b, f, p⟩ := x
    rw [hread] at h
    simp only [] at h
    obtain ⟨h1, h2, _⟩ := read_gpos _ _ _ _ _ _ hread
    by_cases hb : s.bitsPerSample = 16 ∨ s.bitsPerSample = 24
    · rw [if_pos hb] at h
      cases hsc : storeScratch s idx
        ((if s.bitsPerSample = 16 then convert16BitsToFloat else convert24BitsToFloat)
          (List.drop (s.bitsPerSample / 8) b)) with
      | error e => rw [hsc] at h; cases h
      | ok x =>
        rw [hsc] at h
        simp only [Except.ok.injEq, Prod.mk.injEq] at h
        rw [← h.1]
        exact ⟨h1, by show s.wavFile.gpos ≤ f.gpos; omega⟩
    · rw [if_neg hb] at h
      cases h

theorem copyLoop_rebased {α : Type} [LinearOrderedField α] (c c' : List Byte) (k d : Nat)
    (rf wv : chunkHdr) (hsh : ShiftedBy c c' k d) (B N : Nat) :
    ∀ (fuel : Nat) (s : WavReader α) (dbr idx : Nat) (buf : List α),
      s.wavFile.content = c → d ≤ s.wavFile.gpos →
      copyLoop B N fuel (rebased s c' k rf wv) dbr idx buf
          = mapReader (fun r => rebased r c' k rf wv) (copyLoop B N fuel s dbr idx buf) ∧
        ∀ r out, copyLoop B N fuel s dbr idx buf = .ok (r, out) →
          r.wavFile.content = c ∧ d ≤ r.wavFile.gpos
  | 0, s, dbr, idx, buf, _, _ => by
    refine ⟨rfl, ?_⟩
    intro r out h
    cases h
  | fuel + 1, s, dbr, idx, buf, hc, hg => by
    have e3 : (rebased s c' k rf wv).bitsPerSample = s.bitsPerSample := rfl
    have e4 : (rebased s c' k rf wv).numChannels = s.numChannels := rfl
    rw [copyLoop, copyLoop, e3, e4, copyFrame_rebased c c' k d rf wv hsh B s idx buf hc hg]
    by_cases hcond : (dbr + B) % 2 ^ 64 < (N * (s.bitsPerSample / 8) * s.numChannels + 1) % 2 ^ 64
    · rw [if_pos hcond, if_pos hcond]
      cases hf : copyFrame B s idx buf with
      | error e =>
        refine ⟨rfl, ?_⟩
        intro r out h
        cases h
      | ok x =>
        obtain ⟨s1, b1⟩ := x
        obtain ⟨i1, i2⟩ := copyFrame_inv B s s1 idx buf b1 hf
        obtain ⟨ih1, ih2⟩ := copyLoop_rebased c c' k d rf wv hsh B N fuel s1
          ((dbr + B) % 2 ^ 64) (idx + 1) b1 (by rw [i1, hc]) (by omega)
        exact ⟨ih1, ih2⟩
    · rw [if_neg hcond, if_neg hcond]
      refine ⟨rfl, ?_⟩
      intro r out h
      simp only [Except.ok.injEq, Prod.mk.injEq] at h
      rw [← h.1]
      exact ⟨hc, hg⟩

theorem copyToBuffer_rebased {α : Type} [LinearOrderedField α] (c c' : List Byte) (k d : Nat)
    (rf wv : chunkHdr) (hsh : ShiftedBy c c' k d) (s : WavReader α) (B : Nat) (buf : List α)
    (N : Nat) (hc : s.wavFile.content = c) (hg : d ≤ s.wavFile.gpos) :
    copyToBuffer (rebased s c' k rf wv) B buf N
        = mapReader (fun r => rebased r c' k rf wv) (copyToBuffer s B buf N) ∧
      ∀ r out, copyToBuffer s B buf N = .ok (r, out) →
        r.wavFile.content = c ∧ d ≤ r.wavFile.gpos := by
  unfold copyToBuffer
  by_cases hB : B > MAX_READ_BUF_LEN
  · rw [if_pos hB, if_pos hB]
    refine ⟨rfl, ?_⟩
    intro r out h
    cases h
  · rw [if_neg hB, if_neg hB]
    exact copyLoop_rebased c c' k d rf wv hsh B N (N + 1) s 0 0 _ hc hg

theorem checkForExceptions_rebased {α : Type} [LinearOrderedField α] (c' : List Byte) (k : Nat)
    (rf wv : chunkHdr) (s : WavReader α) (channel : Int) (n : Nat) :
    checkForExceptions (rebased s c' k rf wv) channel n = checkForExceptions s channel n := rfl

theorem fillDataBuffer_rebased {α : Type} [LinearOrderedField α] (c c' : List Byte) (k d : Nat)
    (rf wv : chunkHdr) (hsh : ShiftedBy c c' k d) (s : WavReader α) (buf : List α)
    (enough : Bool) (hc : s.wavFile.content = c) (hg : d ≤ s.wavFile.gpos) :
    fillDataBuffer (rebased s c' k rf wv) buf enough
        = mapReader (fun r => rebased r c' k rf wv) (fillDataBuffer s buf enough) ∧
      ∀ r out, fillDataBuffer s buf enough = .ok (r, out) →
        r.wavFile.content = c ∧ d ≤ r.wavFile.gpos := by
  unfold fillDataBuffer
  have e5 : (rebased s c' k rf wv).mBufferSize = s.mBufferSize := rfl
  rw [e5, checkForExceptions_rebased]
  cases hchk : checkForExceptions s 0 s.mBufferSize with
  | error e =>
    refine ⟨rfl, ?_⟩
    intro r out h
    cases h
  | ok u =>
    simp only []
    cases enough with
    | true =>
      exact copyToBuffer_rebased c c' k d rf wv hsh s _ buf _ hc hg
    | false =>
      exact copyToBuffer_rebased c c' k d rf wv hsh s _ buf _ hc hg

theorem getNextAudioBlock_checked_error {α : Type} [LinearOrderedField α]
    (uninit : Nat → α) (st : WavReader α) (buf : List α)
    (channel : Int) (n : Nat) (e : Failure)
    (hchk : checkForExceptions (withBlock uninit st n) channel n = .error e) :
    getNextAudioBlock uninit st (some buf) channel n = .error e := by
  have hchk' : checkForExceptions
      (if st.numChannels > 1 ∧ st.bufferToFillR.isNone then
        { st with bufferToFillR := some ((List.range n).map uninit) }
       else st) channel n = .error e := hchk
  unfold getNextAudioBlock
  simp only [hchk']

theorem withBlock_rebased {α : Type} [LinearOrderedField α] (uninit : Nat → α) (c' : List Byte)
    (k : Nat) (rf wv : chunkHdr) (s : WavReader α) (n : Nat) :
    withBlock uninit (rebased s c' k rf wv) n = rebased (withBlock uninit s n) c' k rf wv := by
  unfold withBlock
  have e1 : (rebased s c' k rf wv).numChannels = s.numChannels := rfl
  have e2 : (rebased s c' k rf wv).bufferToFillR = s.bufferToFillR := rfl
  rw [e1, e2]
  split_ifs <;> rfl

theorem withBlock_wavFile {α : Type} [LinearOrderedField α] (uninit : Nat → α)
    (s : WavReader α) (n : Nat) : (withBlock uninit s n).wavFile = s.wavFile := by
  unfold withBlock
  split_ifs <;> rfl

theorem getNextAudioBlock_rebased {α : Type} [LinearOrderedField α] (c c' : List Byte) (k d : Nat)
    (rf wv : chunkHdr) (hsh : ShiftedBy c c' k d) (uninit : Nat → α) (s : WavReader α)
    (bufferToFill : Option (List α)) (channel : Int) (n : Nat)
    (hc : s.wavFile.content = c) (hg : d ≤ s.wavFile.gpos) :
    getNextAudioBlock uninit (rebased s c' k rf wv) bufferToFill channel n
        = mapReader (fun r => rebased r c' k rf wv)
            (getNextAudioBlock uninit s bufferToFill channel n) ∧
      ∀ r b out, getNextAudioBlock uninit s bufferToFill channel n = .ok (r, b, out) →
        r.wavFile.content = c ∧ d ≤ r.wavFile.gpos := by
  cases bufferToFill with
  | none =>
    refine ⟨rfl, ?_⟩
    intro r b out h
    unfold getNextAudioBlock at h
    simp only [Except.ok.injEq, Prod.mk.injEq] at h
    rw [← h.1]
    exact ⟨hc, hg⟩
  | some buf =>
    have hwc : (withBlock uninit s n).wavFile.content = c := by rw [withBlock_wavFile, hc]
    have hwg : d ≤ (withBlock uninit s n).wavFile.gpos := by rw [withBlock_wavFile]; exact hg
    cases hchk : checkForExceptions (withBlock uninit s n) channel n with
    | error e =>
      rw [getNextAudioBlock_checked_error uninit s buf channel n e hchk,
        getNextAudioBlock_checked_error uninit _ buf channel n e
          (by rw [withBlock_rebased, checkForExceptions_rebased]; exact hchk)]
      refine ⟨rfl, ?_⟩
      intro r b out h
      cases h
    | ok u =>
      rw [getNextAudioBlock_unfold uninit s buf channel n hchk,
        getNextAudioBlock_unfold uninit _ buf channel n
          (by rw [withBlock_rebased, checkForExceptions_rebased]; exact hchk),
        withBlock_rebased]
      have e6 : enoughSamplesLeft (rebased (withBlock uninit s n) c' k rf wv)
          = enoughSamplesLeft (withBlock uninit s n) := rfl
      rw [e6]
      obtain ⟨ft, fti⟩ := fillDataBuffer_rebased c c' k d rf wv hsh (withBlock uninit s n) buf
        true hwc hwg
      obtain ⟨ff, ffi⟩ := fillDataBuffer_rebased c c' k d rf wv hsh (withBlock uninit s n) buf
        false hwc hwg
      rw [ft, ff]
      by_cases h0 : channel = 0
      · simp only [h0, if_true]
        cases hen : enoughSamplesLeft (withBlock uninit s n) with
        | true =>
          simp only [if_true]
          cases hfd : fillDataBuffer (withBlock uninit s n) buf true with
          | error e =>
            refine ⟨rfl, ?_⟩
            intro r b out h
            cases h
          | ok x =>
            obtain ⟨s4, b4⟩ := x
            obtain ⟨i1, i2⟩ := fti s4 b4 hfd
            simp only [mapReader]
            split_ifs with hh
            · exact absurd hh (by decide)
            · refine ⟨rfl, ?_⟩
              intro r b out h
              simp only [Except.ok.injEq, Prod.mk.injEq] at h
              rw [← h.1]
              exact ⟨i1, i2⟩
        | false =>
          simp only [Bool.false_eq_true, if_false]
          cases hfd : fillDataBuffer (withBlock uninit s n) buf false with
          | error e =>
            refine ⟨rfl, ?_⟩
            intro r b out h
            cases h
          | ok x =>
            obtain ⟨s4, b4⟩ := x
            obtain ⟨i1, i2⟩ := ffi s4 b4 hfd
            simp only [mapReader]
            split_ifs with hh
            · exact absurd hh (by decide)
            · refine ⟨rfl, ?_⟩
              intro r b out h
              simp only [Except.ok.injEq, Prod.mk.injEq] at h
              rw [← h.1]
              exact ⟨i1, i2⟩
      · simp only [h0, if_false]
        have ecs : ∀ (x : WavReader α) (b : List α),
            copyScratch (rebased x c' k rf wv) b = copyScratch x b := fun _ _ => rfl
        split_ifs
        · rw [ecs]
          cases hcs : copyScratch (withBlock uninit s n) buf with
          | error e =>
            refine ⟨rfl, ?_⟩
            intro r b out h
            cases h
          | ok b5 =>
            refine ⟨rfl, ?_⟩
            intro r b out h
            simp only [Except.ok.injEq, Prod.mk.injEq] at h
            rw [← h.1]
            exact ⟨hwc, hwg⟩
        · refine ⟨rfl, ?_⟩
          intro r b out h
          simp only [Except.ok.injEq, Prod.mk.injEq] at h
          rw [← h.1]
          exact ⟨hwc, hwg⟩

theorem readBlocks_rebased {α : Type} [LinearOrderedField α] (c c' : List Byte) (k d : Nat)
    (rf wv : chunkHdr) (hsh : ShiftedBy c c' k d) (uninit : Nat → α) :
    ∀ (calls : List (List α × Int × Nat)) (s : WavReader α),
      s.wavFile.content = c → d ≤ s.wavFile.gpos →
      readBlocks uninit (rebased s c' k rf wv) calls
        = mapReader (fun r => rebased r c' k rf wv) (readBlocks uninit s calls)
  | [], s, _, _ => rfl
  | (buf, channel, n) :: calls, s, hc, hg => by
    obtain ⟨h1, h2⟩ := getNextAudioBlock_rebased c c' k d rf wv hsh uninit s (some buf) channel n
      hc hg
    rw [readBlocks, readBlocks, h1]
    cases hgn : getNextAudioBlock uninit s (some buf) channel n with
    | error e => rfl
    | ok x =>
      obtain ⟨s1, b, out⟩ := x
      obtain ⟨i1, i2⟩ := h2 s1 b out hgn
      simp only [mapReader]
      rw [readBlocks_rebased c c' k d rf wv hsh uninit calls s1 i1 i2]
      cases readBlocks uninit s1 calls with
      | error e => rfl
      | ok y => rfl

/-! ## Properties: the scanner on an input with a chunk inserted -/

theorem read_inv (f : IfStream) (n : Nat) (parent : Option chunkHdr)
    (x : List Byte × IfStream × Option chunkHdr) (h : read f n parent = .ok x) :
    f.good = true ∧ (0 < n → f.gpos + n ≤ f.content.length) ∧
      x = ((f.content.drop f.gpos).take n, { f with gpos := f.gpos + n },
        parent.map fun p => { p with pos := (p.pos + n) % 4294967296 }) := by
  unfold read at h
  split_ifs at h with h1 h2
  simp only [Except.ok.injEq] at h
  refine ⟨?_, fun hn => by
    have h3 : ¬ f.content.length < f.gpos + n := fun hc => h2 ⟨hn, hc⟩
    omega, h.symm⟩
  cases hg : f.good
  · exact absurd hg h1
  · rfl

theorem skip_inv (f : IfStream) (n : Nat) (parent : Option chunkHdr)
    (x : IfStream × Option chunkHdr) (h : skip f n parent = .ok x) :
    f.good = true ∧
      x = ({ f with gpos := f.gpos + n },
        parent.map fun p => { p with pos := (p.pos + n) % 4294967296 }) := by
  unfold skip at h
  split_ifs at h with h1
  simp only [Except.ok.injEq] at h
  refine ⟨?_, h.symm⟩
  cases hg : f.good
  · exact absurd hg h1
  · rfl

theorem skip_ok (f : IfStream) (n : Nat) (parent : Option chunkHdr) (hg : f.good = true) :
    skip f n parent = .ok ({ f with gpos := f.gpos + n },
        parent.map fun p => { p with pos := (p.pos + n) % 4294967296 }) := by
  unfold skip
  rw [if_neg (by simp [hg])]

/-- A read that succeeds on the first input and ends inside the window succeeds alike on the
second input. -/
theorem read_agree (c c' : List Byte) (a d : Nat) (hag : AgreeOn c c' a d) (f : IfStream)
    (n : Nat) (parent : Option chunkHdr) (x : List Byte × IfStream × Option chunkHdr)
    (h : read f n parent = .ok x) (hc : f.content = c) (ha : a ≤ f.gpos)
    (hd : f.gpos + n ≤ d) :
    read { f with content := c' } n parent = .ok (x.1, { x.2.1 with content := c' }, x.2.2) := by
  obtain ⟨hg, hlen, hx⟩ := read_inv f n parent x h
  obtain ⟨hdl, hbytes⟩ := hag
  rw [read_ok { f with content := c' } n parent hg (by show f.gpos + n ≤ c'.length; omega), hx]
  show Except.ok ((c'.drop f.gpos).take n, _, _) = Except.ok ((f.content.drop f.gpos).take n, _, _)
  rw [hbytes f.gpos n ha hd, hc]

theorem error_bind {ε β γ : Type} (e : ε) (f : β → Except ε γ) :
    (Except.error e >>= f) = Except.error e := rfl

theorem Stable_bind {α : Type} {c c' : List Byte} {a d R W : Nat}
    {f g : WavReader α → Except Failure (WavReader α)}
    (hf : Stable c c' a d R W f) (hg : Stable c c' a d R W g) :
    Stable c c' a d R W (fun s => f s >>= g) := by
  intro s r h hc ha
  simp only [] at h
  cases hfs : f s with
  | error e =>
    rw [hfs, error_bind] at h
    cases h
  | ok m =>
    rw [hfs, ok_bind] at h
    obtain ⟨m1, m2, m3, m4⟩ := hf s m hfs hc ha
    obtain ⟨r1, r2, r3, r4⟩ := hg m r h m1 (by omega)
    refine ⟨r1, by omega, by rw [r3, m3], ?_⟩
    intro hd
    show (f (withInput s c' R W) >>= g) = _
    rw [m4 (by omega), ok_bind, r4 hd]

theorem Stable_ite {α : Type} {c c' : List Byte} {a d R W : Nat}
    {f g : WavReader α → Except Failure (WavReader α)} (p : WavReader α → Prop)
    [DecidablePred p] (hp : ∀ s, p (withInput s c' R W) ↔ p s)
    (hf : Stable c c' a d R W f) (hg : Stable c c' a d R W g) :
    Stable c c' a d R W (fun s => if p s then f s else g s) := by
  intro s r h hc ha
  simp only [] at h
  by_cases hps : p s
  · rw [if_pos hps] at h
    obtain ⟨r1, r2, r3, r4⟩ := hf s r h hc ha
    refine ⟨r1, r2, r3, ?_⟩
    intro hd
    show (if p (withInput s c' R W) then _ else _) = _
    rw [if_pos ((hp s).2 hps), r4 hd]
  · rw [if_neg hps] at h
    obtain ⟨r1, r2, r3, r4⟩ := hg s r h hc ha
    refine ⟨r1, r2, r3, ?_⟩
    intro hd
    show (if p (withInput s c' R W) then _ else _) = _
    rw [if_neg (fun hh => hps ((hp s).1 hh)), r4 hd]

theorem Stable_map {α : Type} {c c' : List Byte} {a d R W : Nat}
    (h : WavReader α → WavReader α) (hw : ∀ s, (h s).wavFile = s.wavFile)
    (hv : ∀ s, (h s).wave.size = s.wave.size)
    (hcomm : ∀ s, h (withInput s c' R W) = withInput (h s) c' R W) :
    Stable c c' a d R W (fun s => .ok (h s)) := by
  intro s r hr hc ha
  simp only [Except.ok.injEq] at hr
  subst hr
  refine ⟨by rw [hw, hc], by rw [hw], hv s, ?_⟩
  intro _
  show Except.ok (h (withInput s c' R W)) = _
  rw [hcomm]

theorem withInput_writeIf {α : Type} (s : WavReader α) (c' : List Byte) (R W : Nat)
    (b : List Byte) : writeIf (withInput s c' R W) b = withInput (writeIf s b) c' R W := by
  unfold writeIf
  have e : (withInput s c' R W).writeToOutput = s.writeToOutput := rfl
  rw [e]
  split <;> rfl

theorem writeIf_wavFile {α : Type} (s : WavReader α) (b : List Byte) :
    (writeIf s b).wavFile = s.wavFile := by
  unfold writeIf
  split <;> rfl

theorem writeIf_wave {α : Type} (s : WavReader α) (b : List Byte) :
    (writeIf s b).wave = s.wave := by
  unfold writeIf
  split <;> rfl

theorem Stable_readMember {α : Type} {c c' : List Byte} {a d R W : Nat}
    (hag : AgreeOn c c' a d) (n : Nat) (store : WavReader α → Nat → WavReader α)
    (hw : ∀ s v, (store s v).wavFile = s.wavFile) (hv : ∀ s v, (store s v).wave = s.wave)
    (hcomm : ∀ s v, store (withInput s c' R W) v = withInput (store s v) c' R W) :
    Stable c c' a d R W (readMember n store) := by
  intro s r h hc ha
  unfold readMember at h
  cases hread : read s.wavFile n (some s.chk) with
  | error e =>
    rw [hread] at h
    cases h
  | ok x =>
    rw [hread] at h
    simp only [Except.ok.injEq] at h
    obtain ⟨hg, hlen, hx⟩ := read_inv _ _ _ _ hread
    subst h
    have hwf : (writeIf (store { s with wavFile := x.2.1, chk := x.2.2.getD s.chk }
        (leValue x.1)) x.1).wavFile = x.2.1 := by
      rw [writeIf_wavFile, hw]
    have hx21 : x.2.1 = { s.wavFile with gpos := s.wavFile.gpos + n } := by rw [hx]
    refine ⟨?_, ?_, ?_, ?_⟩
    · rw [hwf, hx21]; exact hc
    · rw [hwf, hx21]; show s.wavFile.gpos ≤ s.wavFile.gpos + n; omega
    · rw [writeIf_wave, hv]
    · intro hd
      rw [hwf, hx21] at hd
      have hr := read_agree c c' a d hag s.wavFile n (some s.chk) x hread hc ha hd
      unfold readMember
      have e1 : (withInput s c' R W).wavFile = { s.wavFile with content := c' } := rfl
      have e2 : (withInput s c' R W).chk = s.chk := rfl
      rw [e1, e2, hr]
      simp only [Except.ok.injEq]
      rw [← withInput_writeIf, ← hcomm]
      rfl

theorem Stable_skipInChk {α : Type} {c c' : List Byte} {a d R W : Nat}
    (sz : WavReader α → Nat) (hsz : ∀ s, sz (withInput s c' R W) = sz s) :
    Stable c c' a d R W (fun s => skipInChk (sz s) s) := by
  intro s r h hc ha
  simp only [] at h
  unfold skipInChk at h
  cases hsk : skip s.wavFile (sz s) (some s.chk) with
  | error e =>
    rw [hsk] at h
    cases h
  | ok x =>
    rw [hsk] at h
    simp only [Except.ok.injEq] at h
    obtain ⟨hg, hx⟩ := skip_inv _ _ _ _ hsk
    subst h
    subst hx
    refine ⟨hc, by show s.wavFile.gpos ≤ s.wavFile.gpos + sz s; omega, rfl, ?_⟩
    intro _
    show skipInChk (sz (withInput s c' R W)) (withInput s c' R W) = _
    rw [hsz]
    unfold skipInChk
    have e1 : (withInput s c' R W).wavFile = ⟨c', s.wavFile.gpos, s.wavFile.good⟩ := rfl
    have e2 : (withInput s c' R W).chk = s.chk := rfl
    rw [e1, e2, skip_ok ⟨c', s.wavFile.gpos, s.wavFile.good⟩ _ _ hg]
    rfl

theorem Stable_skipInWave {α : Type} {c c' : List Byte} {a d R W : Nat} (n : Nat) :
    Stable c c' a d R W (skipInWave n : WavReader α → Except Failure (WavReader α)) := by
  intro s r h hc ha
  unfold skipInWave at h
  cases hsk : skip s.wavFile n (some s.wave) with
  | error e =>
    rw [hsk] at h
    cases h
  | ok x =>
    rw [hsk] at h
    simp only [Except.ok.injEq] at h
    obtain ⟨hg, hx⟩ := skip_inv _ _ _ _ hsk
    subst h
    subst hx
    refine ⟨hc, by show s.wavFile.gpos ≤ s.wavFile.gpos + n; omega, rfl, ?_⟩
    intro _
    unfold skipInWave
    have e1 : (withInput s c' R W).wavFile = ⟨c', s.wavFile.gpos, s.wavFile.good⟩ := rfl
    rw [e1, skip_ok ⟨c', s.wavFile.gpos, s.wavFile.good⟩ _ _ hg]
    rfl

theorem readHeader_inv (f : IfStream) (parent : Option chunkHdr)
    (x : chunkHdr × IfStream × Option chunkHdr) (h : readHeader f parent = .ok x) :
    f.good = true ∧ f.gpos + 8 ≤ f.content.length := by
  unfold readHeader at h
  cases h1 : read f 4 parent with
  | error e =>
    rw [h1] at h
    cases h
  | ok y =>
    rw [h1] at h
    simp only [] at h
    obtain ⟨hg, _, hy⟩ := read_inv _ _ _ _ h1
    cases h2 : read y.2.1 4 y.2.2 with
    | error e =>
      rw [h2] at h
      cases h
    | ok z =>
      obtain ⟨_, hl, _⟩ := read_inv _ _ _ _ h2
      rw [hy] at hl
      exact ⟨hg, by
        have : f.gpos + 4 + 4 ≤ f.content.length := hl (by decide)
        omega⟩

theorem Stable_readSubChunk {α : Type} {c c' : List Byte} {a d R W : Nat}
    (hag : AgreeOn c c' a d) :
    Stable c c' a d R W (readSubChunk : WavReader α → Except Failure (WavReader α)) := by
  intro s r h hc ha
  unfold readSubChunk at h
  cases hrd : readHeader s.wavFile (some s.wave) with
  | error e =>
    rw [hrd] at h
    cases h
  | ok x =>
    obtain ⟨hg, hlen⟩ := readHeader_inv _ _ _ hrd
    rw [readHeader_ok _ _ hg hlen] at h
    simp only [Except.ok.injEq] at h
    subst h
    refine ⟨hc, by show s.wavFile.gpos ≤ s.wavFile.gpos + 8; omega, rfl, ?_⟩
    intro hd
    have hd8 : s.wavFile.gpos + 8 ≤ d := hd
    obtain ⟨hdl, hbytes⟩ := hag
    unfold readSubChunk
    have e1 : (withInput s c' R W).wavFile = ⟨c', s.wavFile.gpos, s.wavFile.good⟩ := rfl
    have e2 : (withInput s c' R W).wave = ⟨s.wave.id, W, s.wave.pos⟩ := rfl
    rw [e1, e2, readHeader_ok ⟨c', s.wavFile.gpos, s.wavFile.good⟩ _ hg
      (by show s.wavFile.gpos + 8 ≤ c'.length; omega)]
    simp only [Except.ok.injEq]
    have b1 := hbytes s.wavFile.gpos 4 ha (by omega)
    have b2 := hbytes (s.wavFile.gpos + 4) 4 (by omega) (by omega)
    rw [← hc] at b1 b2
    show (_ : WavReader α) = _
    rw [b1, b2]
    rfl

theorem Stable_readExtension {α : Type} {c c' : List Byte} {a d R W : Nat}
    (hag : AgreeOn c c' a d) (stack : Nat → Byte) :
    Stable c c' a d R W (readExtension stack : WavReader α → Except Failure (WavReader α)) := by
  intro s r h hc ha
  unfold readExtension at h
  by_cases h0 : s.extraSize > 0
  · rw [if_pos h0] at h
    cases hread : read s.wavFile s.extraSize (some s.chk) with
    | error e =>
      rw [hread] at h
      cases h
    | ok x =>
      rw [hread] at h
      simp only [Except.ok.injEq] at h
      obtain ⟨hg, hlen, hx⟩ := read_inv _ _ _ _ hread
      subst h
      have hx21 : x.2.1 = { s.wavFile with gpos := s.wavFile.gpos + s.extraSize } := by rw [hx]
      refine ⟨?_, ?_, ?_, ?_⟩
      · rw [writeIf_wavFile]; show x.2.1.content = c; rw [hx21]; exact hc
      · rw [writeIf_wavFile]; show s.wavFile.gpos ≤ x.2.1.gpos; rw [hx21]
        show s.wavFile.gpos ≤ s.wavFile.gpos + s.extraSize; omega
      · rw [writeIf_wave]
      · intro hd
        rw [writeIf_wavFile] at hd
        have hd2 : x.2.1.gpos ≤ d := hd
        rw [hx21] at hd2
        have hr := read_agree c c' a d hag s.wavFile s.extraSize (some s.chk) x hread hc ha hd2
        unfold readExtension
        have e0 : (withInput s c' R W).extraSize = s.extraSize := rfl
        have e1 : (withInput s c' R W).wavFile = { s.wavFile with content := c' } := rfl
        have e2 : (withInput s c' R W).chk = s.chk := rfl
        rw [e0, if_pos h0, e1, e2, hr]
        simp only [Except.ok.injEq]
        rw [← withInput_writeIf]
        rfl
  · rw [if_neg h0] at h
    simp only [Except.ok.injEq] at h
    subst h
    refine ⟨hc, le_refl _, rfl, ?_⟩
    intro _
    unfold readExtension
    have e0 : (withInput s c' R W).extraSize = s.extraSize := rfl
    rw [e0, if_neg h0]

theorem skipChunk_eq {α : Type} :
    (skipChunk : WavReader α → Except Failure (WavReader α)) =
      fun s => (fun s => skipInChk s.chk.size s) s >>= fun s1 =>
        if s1.chk.size % 2 = 1 then (fun s => Except.ok (addChkPos s)) s1 >>= skipInWave 1
        else Except.ok (addChkPos s1) := by
  funext s
  unfold skipChunk
  beta_reduce
  cases skipInChk s.chk.size s with
  | error e => rfl
  | ok s1 => rfl

theorem Stable_skipChunk {α : Type} {c c' : List Byte} {a d R W : Nat} :
    Stable c c' a d R W (skipChunk : WavReader α → Except Failure (WavReader α)) := by
  rw [skipChunk_eq]
  exact Stable_bind (Stable_skipInChk (fun s => s.chk.size) (fun s => rfl))
    (Stable_ite (fun s => s.chk.size % 2 = 1) (fun s => Iff.rfl)
      (Stable_bind (Stable_map addChkPos (fun s => rfl) (fun s => rfl) (fun s => rfl))
        (Stable_skipInWave 1))
      (Stable_map addChkPos (fun s => rfl) (fun s => rfl) (fun s => rfl)))

theorem Stable_getInfo {α : Type} {c c' : List Byte} {a d R W : Nat}
    (hag : AgreeOn c c' a d) :
    Stable c c' a d R W (getInfo : WavReader α → Except Failure (WavReader α)) := by
  have h : (getInfo : WavReader α → Except Failure (WavReader α)) = fun s =>
      (fun s => (fun s => (fun s =>
        readMember 2 (fun s v => { s with audioFormat := v }) s >>=
        readMember 2 (fun s v => { s with numChannels := v })) s >>=
        readMember 4 (fun s v => { s with sampleRate := v })) s >>=
        readMember 4 (fun s v => { s with byteRate := v })) s >>=
        readMember 2 (fun s v => { s with blockAlign := v }) := by
    funext s
    rfl
  rw [h]
  exact Stable_bind (Stable_bind (Stable_bind (Stable_bind
    (Stable_readMember hag 2 _ (fun s v => rfl) (fun s v => rfl) (fun s v => rfl))
    (Stable_readMember hag 2 _ (fun s v => rfl) (fun s v => rfl) (fun s v => rfl)))
    (Stable_readMember hag 4 _ (fun s v => rfl) (fun s v => rfl) (fun s v => rfl)))
    (Stable_readMember hag 4 _ (fun s v => rfl) (fun s v => rfl) (fun s v => rfl)))
    (Stable_readMember hag 2 _ (fun s v => rfl) (fun s v => rfl) (fun s v => rfl))

theorem Stable_error {α : Type} {c c' : List Byte} {a d R W : Nat} (e : Failure) :
    Stable c c' a d R W (fun _ : WavReader α => Except.error e) := by
  intro s r h
  cases h

theorem Stable_ok {α : Type} {c c' : List Byte} {a d R W : Nat} :
    Stable c c' a d R W (fun s : WavReader α => Except.ok s) :=
  Stable_map (fun s => s) (fun _ => rfl) (fun _ => rfl) (fun _ => rfl)

theorem writeIf_fmtFound {α : Type} (s : WavReader α) (b : List Byte) :
    (writeIf s b).fmtFound = s.fmtFound := by
  unfold writeIf
  split <;> rfl

theorem fmtChunk_eq {α : Type} (stack : Nat → Byte) :
    (fmtChunk stack : WavReader α → Except Failure (WavReader α)) =
      fun st => (fun s => (fun s => (fun s =>
        (fun s : WavReader α => if s.fmtFound = true then Except.error Failure.extraFmt
          else Except.ok
            { writeIf (writeIf { s with fmtPosition := s.chk.size } [102, 109, 116, 32])
                (leBytes 4 s.chk.size) with fmtFound := true }) s >>= getInfo) s >>=
        (fun s => if s.chk.size ≥ 16 then readMember 2 (fun s v => { s with bitsPerSample := v }) s
          else .ok s)) s >>=
        (fun s =>
          if s.chk.size ≥ 18 then
            (fun s => readMember 2 (fun s v => { s with extraSize := v }) s >>=
              readExtension stack) s
          else .ok s)) st >>=
        (fun s =>
          if s.chk.pos < s.chk.size then
            (fun s => skipInChk ((s.chk.size + 4294967296 - s.chk.pos) % 4294967296) s) s
          else .ok s) := by
  funext st
  unfold fmtChunk
  beta_reduce
  have e : (writeIf (writeIf { st with fmtPosition := st.chk.size } [102, 109, 116, 32])
      (leBytes 4 st.chk.size)).fmtFound = st.fmtFound := by
    rw [writeIf_fmtFound, writeIf_fmtFound]
  simp only [e]
  cases st.fmtFound with
  | true => rfl
  | false => rfl

theorem Stable_fmtChunk {α : Type} {c c' : List Byte} {a d R W : Nat}
    (hag : AgreeOn c c' a d) (stack : Nat → Byte) :
    Stable c c' a d R W (fmtChunk stack : WavReader α → Except Failure (WavReader α)) := by
  rw [fmtChunk_eq]
  refine Stable_bind (Stable_bind (Stable_bind (Stable_bind ?_ (Stable_getInfo hag)) ?_) ?_) ?_
  · refine Stable_ite (fun s => s.fmtFound = true) (fun s => Iff.rfl) (Stable_error _)
      (Stable_map _ ?_ ?_ ?_)
    · intro s
      show (writeIf (writeIf { s with fmtPosition := s.chk.size } [102, 109, 116, 32])
        (leBytes 4 s.chk.size)).wavFile = _
      rw [writeIf_wavFile, writeIf_wavFile]
    · intro s
      show (writeIf (writeIf { s with fmtPosition := s.chk.size } [102, 109, 116, 32])
        (leBytes 4 s.chk.size)).wave.size = _
      rw [writeIf_wave, writeIf_wave]
    · intro s
      have e1 : withInput { writeIf (writeIf { s with fmtPosition := s.chk.size }
            [102, 109, 116, 32]) (leBytes 4 s.chk.size) with fmtFound := true } c' R W
          = { withInput (writeIf (writeIf { s with fmtPosition := s.chk.size }
            [102, 109, 116, 32]) (leBytes 4 s.chk.size)) c' R W with fmtFound := true } := rfl
      rw [e1, ← withInput_writeIf, ← withInput_writeIf]
      rfl
  · exact Stable_ite (fun s => s.chk.size ≥ 16) (fun s => Iff.rfl)
      (Stable_readMember hag 2 _ (fun s v => rfl) (fun s v => rfl) (fun s v => rfl)) Stable_ok
  · exact Stable_ite (fun s => s.chk.size ≥ 18) (fun s => Iff.rfl)
      (Stable_bind
        (Stable_readMember hag 2 _ (fun s v => rfl) (fun s v => rfl) (fun s v => rfl))
        (Stable_readExtension hag stack)) Stable_ok
  · exact Stable_ite (fun s => s.chk.pos < s.chk.size) (fun s => Iff.rfl)
      (Stable_skipInChk (fun s => (s.chk.size + 4294967296 - s.chk.pos) % 4294967296)
        (fun s => rfl)) Stable_ok

theorem readSubChunk_inv {α : Type} (s r : WavReader α) (h : readSubChunk s = .ok r) :
    s.wavFile.good = true ∧ s.wavFile.gpos + 8 ≤ s.wavFile.content.length ∧
      r = { s with
            chk := ⟨(s.wavFile.content.drop s.wavFile.gpos).take 4,
              leValue ((s.wavFile.content.drop (s.wavFile.gpos + 4)).take 4), 0⟩
            wavFile := { s.wavFile with gpos := s.wavFile.gpos + 8 }
            wave := { s.wave with pos := (s.wave.pos + 8) % 4294967296 } } := by
  unfold readSubChunk at h
  cases hrd : readHeader s.wavFile (some s.wave) with
  | error e =>
    rw [hrd] at h
    cases h
  | ok x =>
    obtain ⟨hg, hlen⟩ := readHeader_inv _ _ _ hrd
    rw [readHeader_ok _ _ hg hlen] at h
    simp only [Except.ok.injEq] at h
    exact ⟨hg, hlen, h.symm⟩

theorem skipChunk_good {α : Type} (s r : WavReader α) (h : skipChunk s = .ok r) :
    s.wavFile.good = true := by
  unfold skipChunk skipInChk at h
  cases hsk : skip s.wavFile s.chk.size (some s.chk) with
  | error e =>
    rw [hsk] at h
    cases h
  | ok x => exact (skip_inv _ _ _ _ hsk).1

/-- What `skipChunk` leaves as it is and how far it moves the get position. -/
theorem skipChunk_inv {α : Type} (s r : WavReader α) (h : skipChunk s = .ok r) :
    r.wavFile = { s.wavFile with gpos := s.wavFile.gpos + s.chk.size + s.chk.size % 2 } ∧
      r.chk.id = s.chk.id ∧ r.fmtFound = s.fmtFound := by
  have hg := skipChunk_good s r h
  have hs : scanState s = (⟨s.wavFile.content, s.wavFile.gpos, true⟩, s.chk, s.wave, s.fmtFound,
      fmtFields s) := by
    show (s.wavFile, _, _, _, _) = _
    rw [← hg]
  obtain ⟨r1, h1, s1⟩ := skipChunk_scan s _ _ _ _ _ _ hs
  rw [h] at h1
  simp only [Except.ok.injEq] at h1
  subst h1
  simp only [scanState, Prod.mk.injEq] at s1
  obtain ⟨a1, a2, _, a4, _⟩ := s1
  refine ⟨?_, by rw [a2], a4⟩
  rw [a1, ← hg]

theorem keepsId_bind {α : Type} (f g : WavReader α → Except Failure (WavReader α))
    (hf : ∀ s r, f s = .ok r → r.chk.id = s.chk.id)
    (hg : ∀ s r, g s = .ok r → r.chk.id = s.chk.id) :
    ∀ s r, (fun s => f s >>= g) s = .ok r → r.chk.id = s.chk.id := by
  intro s r h
  simp only [] at h
  cases hfs : f s with
  | error e =>
    rw [hfs, error_bind] at h
    cases h
  | ok m =>
    rw [hfs, ok_bind] at h
    rw [hg m r h, hf s m hfs]

theorem keepsId_ite {α : Type} (f g : WavReader α → Except Failure (WavReader α))
    (p : WavReader α → Prop) [DecidablePred p]
    (hf : ∀ s r, f s = .ok r → r.chk.id = s.chk.id)
    (hg : ∀ s r, g s = .ok r → r.chk.id = s.chk.id) :
    ∀ s r, (fun s => if p s then f s else g s) s = .ok r → r.chk.id = s.chk.id := by
  intro s r h
  simp only [] at h
  split_ifs at h
  · exact hf s r h
  · exact hg s r h

theorem keepsId_ok {α : Type} :
    ∀ s r : WavReader α, (fun s => Except.ok s : WavReader α → Except Failure (WavReader α)) s
      = .ok r → r.chk.id = s.chk.id := by
  intro s r h
  simp only [Except.ok.injEq] at h
  rw [h]

theorem writeIf_chk {α : Type} (s : WavReader α) (b : List Byte) :
    (writeIf s b).chk = s.chk := by
  unfold writeIf
  split <;> rfl

theorem keepsId_readMember {α : Type} (n : Nat) (store : WavReader α → Nat → WavReader α)
    (hk : ∀ s v, (store s v).chk = s.chk) :
    ∀ s r, readMember n store s = .ok r → r.chk.id = s.chk.id := by
  intro s r h
  unfold readMember at h
  cases hread : read s.wavFile n (some s.chk) with
  | error e =>
    rw [hread] at h
    cases h
  | ok x =>
    rw [hread] at h
    simp only [Except.ok.injEq] at h
    obtain ⟨_, _, hx⟩ := read_inv _ _ _ _ hread
    subst h
    rw [writeIf_chk, hk, hx]
    rfl

theorem keepsId_readExtension {α : Type} (stack : Nat → Byte) :
    ∀ s r : WavReader α, readExtension stack s = .ok r → r.chk.id = s.chk.id := by
  intro s r h
  unfold readExtension at h
  split_ifs at h
  · cases hread : read s.wavFile s.extraSize (some s.chk) with
    | error e =>
      rw [hread] at h
      cases h
    | ok x =>
      rw [hread] at h
      simp only [Except.ok.injEq] at h
      obtain ⟨_, _, hx⟩ := read_inv _ _ _ _ hread
      subst h
      rw [writeIf_chk, hx]
      rfl
  · simp only [Except.ok.injEq] at h
    rw [h]

theorem keepsId_skipInChk {α : Type} (sz : WavReader α → Nat) :
    ∀ s r : WavReader α, (fun s => skipInChk (sz s) s) s = .ok r → r.chk.id = s.chk.id := by
  intro s r h
  simp only [] at h
  unfold skipInChk at h
  cases hsk : skip s.wavFile (sz s) (some s.chk) with
  | error e =>
    rw [hsk] at h
    cases h
  | ok x =>
    rw [hsk] at h
    simp only [Except.ok.injEq] at h
    obtain ⟨_, hx⟩ := skip_inv _ _ _ _ hsk
    subst h
    rw [hx]
    rfl

theorem keepsId_getInfo {α : Type} :
    ∀ s r : WavReader α, getInfo s = .ok r → r.chk.id = s.chk.id := by
  have h : (getInfo : WavReader α → Except Failure (WavReader α)) = fun s =>
      (fun s => (fun s => (fun s =>
        readMember 2 (fun s v => { s with audioFormat := v }) s >>=
        readMember 2 (fun s v => { s with numChannels := v })) s >>=
        readMember 4 (fun s v => { s with sampleRate := v })) s >>=
        readMember 4 (fun s v => { s with byteRate := v })) s >>=
        readMember 2 (fun s v => { s with blockAlign := v }) := by
    funext s
    rfl
  rw [h]
  exact keepsId_bind _ _ (keepsId_bind _ _ (keepsId_bind _ _ (keepsId_bind _ _
    (keepsId_readMember 2 _ (fun s v => rfl))
    (keepsId_readMember 2 _ (fun s v => rfl)))
    (keepsId_readMember 4 _ (fun s v => rfl)))
    (keepsId_readMember 4 _ (fun s v => rfl)))
    (keepsId_readMember 2 _ (fun s v => rfl))

theorem keepsId_fmtChunk {α : Type} (stack : Nat → Byte) :
    ∀ s r : WavReader α, fmtChunk stack s = .ok r → r.chk.id = s.chk.id := by
  rw [fmtChunk_eq]
  refine keepsId_bind _ _ (keepsId_bind _ _ (keepsId_bind _ _ (keepsId_bind _ _ ?_
    keepsId_getInfo) ?_) ?_) ?_
  · intro s r h
    simp only [] at h
    split_ifs at h
    simp only [Except.ok.injEq] at h
    subst h
    show (writeIf (writeIf { s with fmtPosition := s.chk.size } [102, 109, 116, 32])
        (leBytes 4 s.chk.size)).chk.id = _
    rw [writeIf_chk, writeIf_chk]
  · exact keepsId_ite _ _ (fun s => s.chk.size ≥ 16) (keepsId_readMember 2 _ (fun s v => rfl))
      keepsId_ok
  · exact keepsId_ite _ _ (fun s => s.chk.size ≥ 18)
      (keepsId_bind _ _ (keepsId_readMember 2 _ (fun s v => rfl)) (keepsId_readExtension stack))
      keepsId_ok
  · exact keepsId_ite _ _ (fun s => s.chk.pos < s.chk.size)
      (keepsId_skipInChk (fun s => (s.chk.size + 4294967296 - s.chk.pos) % 4294967296))
      keepsId_ok

/-- The loop of `updateInfo` runs alike on the second input when it ends in a fmt chunk at or
before the offset `d` and the extent of the WAVE chunk is not smaller there. -/
theorem updateInfoLoop_stable {α : Type} {c c' : List Byte} {a d R W : Nat}
    (hag : AgreeOn c c' a d) (stack : Nat → Byte) :
    ∀ (fuel : Nat) (s r : WavReader α), updateInfoLoop stack fuel s = .ok r →
      s.wavFile.content = c → a ≤ s.wavFile.gpos → s.fmtFound = false → r.fmtFound = true →
      s.wave.size ≤ W →
      r.wavFile.content = c ∧ s.wavFile.gpos ≤ r.wavFile.gpos ∧
        isChunkID r.chk 102 109 116 32 = true ∧
        (r.wavFile.gpos ≤ d → ∀ fuel1, fuel ≤ fuel1 →
          updateInfoLoop stack fuel1 (withInput s c' R W) = .ok (withInput r c' R W))
  | 0, s, r, h, _, _, _, _, _ => by cases h
  | fuel + 1, s, r, h, hc, ha, hf0, hf1, hW => by
    rw [updateInfoLoop] at h
    by_cases hcond : s.wave.pos < s.wave.size
    · rw [if_pos hcond] at h
      cases hrd : readSubChunk s with
      | error e =>
        rw [hrd] at h
        cases h
      | ok s1 =>
        rw [hrd] at h
        simp only [] at h
        obtain ⟨m1, m2, m3, m4⟩ := @Stable_readSubChunk α c c' a d R W hag s s1 hrd hc ha
        obtain ⟨_, _, hs1⟩ := readSubChunk_inv s s1 hrd
        have hcond' : (withInput s c' R W).wave.pos < (withInput s c' R W).wave.size := by
          show s.wave.pos < W
          omega
        by_cases hid : isChunkID s1.chk 102 109 116 32 = true
        · rw [if_pos hid] at h
          obtain ⟨r1, r2, _, r4⟩ := @Stable_fmtChunk α c c' a d R W hag stack s1 r h m1 (by omega)
          refine ⟨r1, by omega, ?_, ?_⟩
          · have := keepsId_fmtChunk stack s1 r h
            unfold isChunkID at hid ⊢
            rw [this]
            exact hid
          · intro hd fuel1 hfu
            obtain ⟨f2, rfl⟩ : ∃ f2, fuel1 = f2 + 1 := ⟨fuel1 - 1, by omega⟩
            rw [updateInfoLoop, if_pos hcond', m4 (le_trans r2 hd)]
            simp only []
            have hid' : isChunkID (withInput s1 c' R W).chk 102 109 116 32 = true := hid
            rw [if_pos hid', r4 hd]
        · rw [if_neg hid] at h
          cases hsk : skipChunk s1 with
          | error e =>
            rw [hsk] at h
            cases h
          | ok s2 =>
            rw [hsk] at h
            simp only [] at h
            obtain ⟨k1, k2, k3, k4⟩ := @Stable_skipChunk α c c' a d R W s1 s2 hsk m1 (by omega)
            obtain ⟨_, _, kf⟩ := skipChunk_inv s1 s2 hsk
            have hf2 : s2.fmtFound = false := by
              rw [kf, hs1]
              exact hf0
            obtain ⟨i1, i2, i3, i4⟩ := @updateInfoLoop_stable α c c' a d R W hag stack fuel s2 r h k1
              (by omega)
              hf2 hf1 (by rw [k3, m3]; exact hW)
            refine ⟨i1, by omega, i3, ?_⟩
            intro hd fuel1 hfu
            obtain ⟨f2, rfl⟩ : ∃ f2, fuel1 = f2 + 1 := ⟨fuel1 - 1, by omega⟩
            rw [updateInfoLoop, if_pos hcond', m4 (le_trans k2 (le_trans i2 hd))]
            simp only []
            have hid' : ¬ isChunkID (withInput s1 c' R W).chk 102 109 116 32 = true := hid
            rw [if_neg hid', k4 (le_trans i2 hd)]
            simp only []
            exact i4 hd f2 (by omega)
    · rw [if_neg hcond] at h
      simp only [Except.ok.injEq] at h
      rw [← h, hf0] at hf1
      cases hf1

theorem readSubChunk_ok {α : Type} (s : WavReader α) (hg : s.wavFile.good = true)
    (hlen : s.wavFile.gpos + 8 ≤ s.wavFile.content.length) :
    readSubChunk s = .ok { s with
            chk := ⟨(s.wavFile.content.drop s.wavFile.gpos).take 4,
              leValue ((s.wavFile.content.drop (s.wavFile.gpos + 4)).take 4), 0⟩
            wavFile := { s.wavFile with gpos := s.wavFile.gpos + 8 }
            wave := { s.wave with pos := (s.wave.pos + 8) % 4294967296 } } := by
  unfold readSubChunk
  rw [readHeader_ok _ _ hg hlen]
  rfl

theorem skipChunk_ok {α : Type} (s : WavReader α) (hg : s.wavFile.good = true) :
    ∃ p, skipChunk s = .ok { s with
            wavFile := { s.wavFile with gpos := s.wavFile.gpos + s.chk.size + s.chk.size % 2 }
            chk := { s.chk with pos := (s.chk.pos + s.chk.size) % 4294967296 }
            wave := { s.wave with pos := p } } := by
  unfold skipChunk skipInChk
  rw [skip_ok _ _ _ hg]
  simp only []
  rcases Nat.mod_two_eq_zero_or_one s.chk.size with h0 | h0
  · refine ⟨(s.wave.pos + (s.chk.pos + s.chk.size) % 4294967296) % 4294967296, ?_⟩
    rw [if_neg (by show ¬ s.chk.size % 2 = 1; omega), h0]
    rfl
  · refine ⟨((s.wave.pos + (s.chk.pos + s.chk.size) % 4294967296) % 4294967296 + 1)
      % 4294967296, ?_⟩
    rw [if_pos (by show s.chk.size % 2 = 1; exact h0), h0]
    unfold skipInWave
    rw [skip_ok _ _ _ (by show s.wavFile.good = true; exact hg)]
    rfl

theorem dataChunk_rebased {α : Type} (s : WavReader α) (c' : List Byte) (k : Nat)
    (rf wv : chunkHdr) :
    dataChunk (rebased s c' k rf wv) = rebased (dataChunk s) c' k rf wv := by
  unfold dataChunk
  simp only []
  have e : (rebased s c' k rf wv).writeToOutput = s.writeToOutput := rfl
  rw [e]
  split <;> rfl

theorem dataChunk_fields {α : Type} (s : WavReader α) :
    (dataChunk s).wavFile = s.wavFile ∧ (dataChunk s).fmtFound = s.fmtFound ∧
      (dataChunk s).chk = s.chk := by
  unfold dataChunk
  simp only []
  split <;> exact ⟨rfl, rfl, rfl⟩

theorem readSubChunk_at {α : Type} (s : WavReader α) (c : List Byte) (g : Nat)
    (hf : s.wavFile = ⟨c, g, true⟩) (hlen : g + 8 ≤ c.length) :
    readSubChunk s = .ok { s with
            chk := ⟨(c.drop g).take 4, leValue ((c.drop (g + 4)).take 4), 0⟩
            wavFile := ⟨c, g + 8, true⟩
            wave := ⟨s.wave.id, s.wave.size, (s.wave.pos + 8) % 4294967296⟩ } := by
  have h := readSubChunk_ok s (by rw [hf]) (by rw [hf]; exact hlen)
  rw [hf] at h
  exact h

theorem skipChunk_at {α : Type} (s : WavReader α) (c : List Byte) (g : Nat) (k : chunkHdr)
    (hf : s.wavFile = ⟨c, g, true⟩) (hk : s.chk = k) :
    ∃ p, skipChunk s = .ok { s with
            wavFile := ⟨c, g + k.size + k.size % 2, true⟩
            chk := ⟨k.id, k.size, (k.pos + k.size) % 4294967296⟩
            wave := ⟨s.wave.id, s.wave.size, p⟩ } := by
  obtain ⟨p, h⟩ := skipChunk_ok s (by rw [hf])
  rw [hf, hk] at h
  exact ⟨p, h⟩

theorem isChunkID_congr (k1 k2 : chunkHdr) (h : k1.id = k2.id) (i1 i2 i3 i4 : Byte) :
    isChunkID k1 i1 i2 i3 i4 = isChunkID k2 i1 i2 i3 i4 := by
  unfold isChunkID
  rw [h]

/-- The loop of `findDataPosition` on the input with a chunk inserted before the data chunk
header at offset `d`: it skips the inserted chunk and ends at the same data chunk header. -/
theorem findDataLoop_inserted {α : Type} {c c' : List Byte} {a d R W : Nat}
    (hag : AgreeOn c c' a d) (id payload : List Byte)
    (hins : c'.drop d = riffChunk id payload ++ c.drop d)
    (hid : id.length = 4) (hne : id ≠ [100, 97, 116, 97]) (hlen : payload.length < 4294967296) :
    ∀ (fuel : Nat) (s r : WavReader α), findDataLoop fuel s = .ok r →
      s.wavFile.content = c → a ≤ s.wavFile.gpos → isChunkID s.chk 100 97 116 97 = false →
      s.wavFile.gpos + 8 ≤ r.wavFile.gpos ∧ r.wavFile.content = c ∧ r.wavFile.good = true ∧
        r.fmtFound = s.fmtFound ∧
        (r.wavFile.gpos = d + 8 → ∀ fuel1, fuel + 1 ≤ fuel1 →
          ∃ rf wv, findDataLoop fuel1 (withInput s c' R W)
            = .ok (rebased r c' (riffChunk id payload).length rf wv))
  | 0, s, r, h, _, _, _ => by cases h
  | fuel + 1, s, r, h, hc, ha, hk => by
    rw [findDataLoop, if_pos hk] at h
    cases hrd : readSubChunk s with
    | error e =>
      rw [hrd] at h
      cases h
    | ok s1 =>
      rw [hrd] at h
      simp only [] at h
      obtain ⟨m1, m2, m3, m4⟩ := @Stable_readSubChunk α c c' a d R W hag s s1 hrd hc ha
      obtain ⟨hgood, hl8, hs1⟩ := readSubChunk_inv s s1 hrd
      have hg1 : s1.wavFile.gpos = s.wavFile.gpos + 8 := by rw [hs1]
      have hgood1 : s1.wavFile.good = true := by rw [hs1]; exact hgood
      have hfm1 : s1.fmtFound = s.fmtFound := by rw [hs1]
      have hk' : isChunkID (withInput s c' R W).chk 100 97 116 97 = false := hk
      by_cases hdat : isChunkID s1.chk 100 97 116 97 = true
      · rw [if_pos hdat] at h
        simp only [Except.ok.injEq] at h
        obtain ⟨d1, d2, d3⟩ := dataChunk_fields s1
        subst h
        refine ⟨by rw [d1]; omega, by rw [d1]; exact m1, by rw [d1]; exact hgood1,
          by rw [d2]; exact hfm1, ?_⟩
        intro hd fuel1 hfu
        rw [d1, hg1] at hd
        have hgd : s.wavFile.gpos = d := by omega
        have hL := riffChunk_length id payload hid
        have hrem2 : c'.drop d = id ++ (leBytes 4 payload.length ++ (payload ++
            ((if payload.length % 2 = 1 then [0] else []) ++ c.drop d))) := by
          rw [hins]
          simp [riffChunk, List.append_assoc]
        obtain ⟨hid1, hrest⟩ := drop_split c' d _ _ hrem2
        rw [hid] at hid1 hrest
        obtain ⟨hsz1, _⟩ := drop_split c' (d + 4) _ _ hrest
        rw [leBytes_length] at hsz1
        obtain ⟨_, hafter⟩ := drop_split c' d _ _ hins
        have hcl : d + 8 ≤ c.length := by
          rw [← hc, ← hgd]
          exact hl8
        have hc'l : d + (riffChunk id payload).length + 8 ≤ c'.length := by
          have := congrArg List.length hafter
          simp only [List.length_drop] at this
          omega
        obtain ⟨f2, rfl⟩ : ∃ f2, fuel1 = f2 + 1 + 1 := ⟨fuel1 - 2, by omega⟩
        have hf0 : (withInput s c' R W).wavFile = ⟨c', d, true⟩ := by
          show (⟨c', s.wavFile.gpos, s.wavFile.good⟩ : IfStream) = _
          rw [hgd, hgood]
        have e1 := readSubChunk_at (withInput s c' R W) c' d hf0 (by omega)
        rw [hid1, hsz1, leValue_leBytes 4 _ (by norm_num; exact hlen)] at e1
        obtain ⟨p, e2⟩ := skipChunk_at _ c' (d + 8) ⟨id, payload.length, 0⟩
          (rfl : ({ withInput s c' R W with
            chk := ⟨id, payload.length, 0⟩
            wavFile := ⟨c', d + 8, true⟩
            wave := ⟨(withInput s c' R W).wave.id, (withInput s c' R W).wave.size,
              ((withInput s c' R W).wave.pos + 8) % 4294967296⟩ } : WavReader α).wavFile = _)
          rfl
        have e3 := readSubChunk_at _ c' (d + (riffChunk id payload).length)
          (show ({ ({ withInput s c' R W with
            chk := ⟨id, payload.length, 0⟩
            wavFile := ⟨c', d + 8, true⟩
            wave := ⟨(withInput s c' R W).wave.id, (withInput s c' R W).wave.size,
              ((withInput s c' R W).wave.pos + 8) % 4294967296⟩ } : WavReader α) with
            wavFile := ⟨c', d + 8 + payload.length + payload.length % 2, true⟩
            chk := ⟨id, payload.length, (0 + payload.length) % 4294967296⟩
            wave := ⟨(withInput s c' R W).wave.id, (withInput s c' R W).wave.size, p⟩ }
              : WavReader α).wavFile = _ by
            show (⟨c', d + 8 + payload.length + payload.length % 2, true⟩ : IfStream) = _
            rw [hL]
            congr 1
            omega) (by omega)
        have hb1 : (c'.drop (d + (riffChunk id payload).length)).take 4 = (c.drop d).take 4 := by
          rw [hafter]
        have hb2 : (c'.drop (d + (riffChunk id payload).length + 4)).take 4
            = (c.drop (d + 4)).take 4 := by
          rw [drop_add, hafter, ← drop_add]
        rw [hb1, hb2] at e3
        have hnd1 : ¬ isChunkID (⟨id, payload.length, 0⟩ : chunkHdr) 100 97 116 97 = true := by
          rw [isChunkID_iff _ _ _ _ _ hid]
          exact hne
        have hnd2 : isChunkID (⟨id, payload.length, (0 + payload.length) % 4294967296⟩ : chunkHdr)
            100 97 116 97 = false := by
          rw [← Bool.not_eq_true, isChunkID_iff _ _ _ _ _ hid]
          exact hne
        have hs1c : s1.chk = ⟨(c.drop d).take 4, leValue ((c.drop (d + 4)).take 4), 0⟩ := by
          rw [hs1]
          show (⟨(s.wavFile.content.drop s.wavFile.gpos).take 4,
            leValue ((s.wavFile.content.drop (s.wavFile.gpos + 4)).take 4), 0⟩ : chunkHdr) = _
          rw [hc, hgd]
        refine ⟨⟨s.riff.id, R, s.riff.pos⟩,
          ⟨s.wave.id, W, (p + 8) % 4294967296⟩, ?_⟩
        rw [findDataLoop, if_pos hk', e1]
        simp only []
        rw [if_neg hnd1, e2]
        simp only []
        rw [findDataLoop, if_pos hnd2, e3]
        simp only []
        rw [← hs1c, if_pos hdat, ← dataChunk_rebased]
        congr 2
        subst hs1
        apply WavReader.ext <;> first | rfl | skip
        · show (⟨c', d + (riffChunk id payload).length + 8, true⟩ : IfStream)
            = ⟨c', s.wavFile.gpos + 8 + (riffChunk id payload).length, s.wavFile.good⟩
          rw [hgd, hgood]
          congr 1
          omega
      · rw [if_neg hdat] at h
        cases hsk : skipChunk s1 with
        | error e =>
          rw [hsk] at h
          cases h
        | ok s2 =>
          rw [hsk] at h
          simp only [] at h
          obtain ⟨k1, k2, k3, k4⟩ := @Stable_skipChunk α c c' a d R W s1 s2 hsk m1 (by omega)
          obtain ⟨_, kid, kf⟩ := skipChunk_inv s1 s2 hsk
          have hk2 : isChunkID s2.chk 100 97 116 97 = false := by
            rw [isChunkID_congr s2.chk s1.chk kid]
            exact Bool.eq_false_iff.mpr hdat
          obtain ⟨i1, i2, i3, i4, i5⟩ := findDataLoop_inserted hag id payload hins hid hne hlen
            fuel s2 r h k1 (by omega) hk2
          refine ⟨by omega, i2, i3, by rw [i4, kf, hfm1], ?_⟩
          intro hd fuel1 hfu
          obtain ⟨f2, rfl⟩ : ∃ f2, fuel1 = f2 + 1 := ⟨fuel1 - 1, by omega⟩
          obtain ⟨rf, wv, hfin⟩ := i5 hd f2 (by omega)
          refine ⟨rf, wv, ?_⟩
          rw [findDataLoop, if_pos hk', m4 (by omega)]
          simp only []
          have hdat' : ¬ isChunkID (withInput s1 c' R W).chk 100 97 116 97 = true := hdat
          rw [if_neg hdat', k4 (by omega)]
          exact hfin

theorem checkForRiffHeader_inv {α : Type} (s r : WavReader α)
    (h : checkForRiffHeader s = .ok r) :
    s.wavFile.good = true ∧ s.wavFile.gpos + 8 ≤ s.wavFile.content.length ∧
      isChunkID ⟨(s.wavFile.content.drop s.wavFile.gpos).take 4,
        leValue ((s.wavFile.content.drop (s.wavFile.gpos + 4)).take 4), 0⟩ 82 73 70 70 = true ∧
      r = { s with
            riff := ⟨(s.wavFile.content.drop s.wavFile.gpos).take 4,
              leValue ((s.wavFile.content.drop (s.wavFile.gpos + 4)).take 4), 0⟩
            wavFile := { s.wavFile with gpos := s.wavFile.gpos + 8 } } := by
  unfold checkForRiffHeader at h
  cases hrd : readHeader s.wavFile none with
  | error e =>
    rw [hrd] at h
    cases h
  | ok x =>
    obtain ⟨hg, hlen⟩ := readHeader_inv _ _ _ hrd
    rw [readHeader_ok _ _ hg hlen] at h
    simp only [] at h
    split_ifs at h with hriff
    simp only [Except.ok.injEq] at h
    exact ⟨hg, hlen, hriff, h.symm⟩

theorem checkForRiffHeader_ok {α : Type} (s : WavReader α) (hg : s.wavFile.good = true)
    (hlen : s.wavFile.gpos + 8 ≤ s.wavFile.content.length)
    (hriff : isChunkID ⟨(s.wavFile.content.drop s.wavFile.gpos).take 4,
        leValue ((s.wavFile.content.drop (s.wavFile.gpos + 4)).take 4), 0⟩ 82 73 70 70 = true) :
    checkForRiffHeader s = .ok { s with
            riff := ⟨(s.wavFile.content.drop s.wavFile.gpos).take 4,
              leValue ((s.wavFile.content.drop (s.wavFile.gpos + 4)).take 4), 0⟩
            wavFile := { s.wavFile with gpos := s.wavFile.gpos + 8 } } := by
  unfold checkForRiffHeader
  rw [readHeader_ok _ _ hg hlen]
  simp only []
  rw [if_pos hriff]

theorem readToWaveChunkHeader_inv {α : Type} (s r : WavReader α)
    (h : readToWaveChunkHeader s = .ok r) :
    s.wavFile.good = true ∧ s.wavFile.gpos + 4 ≤ s.wavFile.content.length ∧
      r = { s with
            wavFile := { s.wavFile with gpos := s.wavFile.gpos + 4 }
            riff := { s.riff with pos := (s.riff.pos + 4) % 4294967296 }
            wave := ⟨(s.wavFile.content.drop s.wavFile.gpos).take 4,
              (s.riff.size + 4294967296 - 4) % 4294967296, 0⟩ } := by
  unfold readToWaveChunkHeader at h
  cases hrd : read s.wavFile 4 (some s.riff) with
  | error e =>
    rw [hrd] at h
    cases h
  | ok x =>
    obtain ⟨hg, hlen, hx⟩ := read_inv _ _ _ _ hrd
    rw [hrd] at h
    simp only [Except.ok.injEq] at h
    subst hx
    exact ⟨hg, hlen (by decide), h.symm⟩

theorem readToWaveChunkHeader_ok {α : Type} (s : WavReader α) (hg : s.wavFile.good = true)
    (hlen : s.wavFile.gpos + 4 ≤ s.wavFile.content.length) :
    readToWaveChunkHeader s = .ok { s with
            wavFile := { s.wavFile with gpos := s.wavFile.gpos + 4 }
            riff := { s.riff with pos := (s.riff.pos + 4) % 4294967296 }
            wave := ⟨(s.wavFile.content.drop s.wavFile.gpos).take 4,
              (s.riff.size + 4294967296 - 4) % 4294967296, 0⟩ } := by
  unfold readToWaveChunkHeader
  rw [read_ok _ _ _ hg hlen]
  rfl

/-- The two header reads of `load` on a second input that starts with the same four bytes,
carries the size field `R` and holds the same form type. -/
theorem headers_stable {α : Type} (st0 s2 : WavReader α) (F F' : List Byte) (R : Nat)
    (h : (checkForRiffHeader { st0 with wavFile := ⟨F, 0, true⟩ } >>= readToWaveChunkHeader)
      = .ok s2)
    (hlen : 12 ≤ F'.length) (hid : F'.take 4 = F.take 4)
    (hsize : leValue ((F'.drop 4).take 4) = R)
    (hform : (F'.drop 8).take 4 = (F.drop 8).take 4) :
    (checkForRiffHeader { st0 with wavFile := ⟨F', 0, true⟩ } >>= readToWaveChunkHeader)
        = .ok (withInput s2 F' R ((R + 4294967296 - 4) % 4294967296)) ∧
      s2.wavFile = ⟨F, 12, true⟩ ∧ 12 ≤ F.length ∧ s2.fmtFound = st0.fmtFound ∧
      s2.wave.size = (leValue ((F.drop 4).take 4) + 4294967296 - 4) % 4294967296 := by
  cases h1 : checkForRiffHeader ({ st0 with wavFile := ⟨F, 0, true⟩ } : WavReader α) with
  | error e =>
    rw [h1, error_bind] at h
    cases h
  | ok s1 =>
    rw [h1, ok_bind] at h
    obtain ⟨_, a2, a3, a4⟩ := checkForRiffHeader_inv _ s1 h1
    obtain ⟨_, b2, b4⟩ := readToWaveChunkHeader_inv s1 s2 h
    subst a4
    subst b4
    have a3' : isChunkID ⟨(F.drop 0).take 4, leValue ((F.drop (0 + 4)).take 4), 0⟩
        82 73 70 70 = true := a3
    have b2' : 0 + 8 + 4 ≤ F.length := b2
    have hriff' : isChunkID ⟨(F'.drop 0).take 4, leValue ((F'.drop (0 + 4)).take 4), 0⟩
        82 73 70 70 = true := by
      rw [← a3']
      unfold isChunkID
      simp only [List.drop_zero]
      rw [hid]
    have c1 := checkForRiffHeader_ok ({ st0 with wavFile := ⟨F', 0, true⟩ } : WavReader α) rfl
      (by show 0 + 8 ≤ F'.length; omega) hriff'
    rw [c1, ok_bind]
    have c2 := readToWaveChunkHeader_ok
      ({ ({ st0 with wavFile := ⟨F', 0, true⟩ } : WavReader α) with
            riff := ⟨(F'.drop 0).take 4, leValue ((F'.drop (0 + 4)).take 4), 0⟩
            wavFile := ⟨F', 0 + 8, true⟩ } : WavReader α) rfl
      (by show 0 + 8 + 4 ≤ F'.length; omega)
    refine ⟨?_, rfl, by omega, rfl, rfl⟩
    rw [c2]
    congr 1
    apply WavReader.ext <;> first | rfl | skip
    · show (⟨(F'.drop 0).take 4, leValue ((F'.drop (0 + 4)).take 4), (0 + 4) % 4294967296⟩
          : chunkHdr)
        = ⟨(F.drop 0).take 4, R, (0 + 4) % 4294967296⟩
      simp only [List.drop_zero, Nat.zero_add]
      rw [hid, hsize]
    · show (⟨(F'.drop (0 + 8)).take 4,
          (leValue ((F'.drop (0 + 4)).take 4) + 4294967296 - 4) % 4294967296, 0⟩ : chunkHdr)
        = ⟨(F.drop (0 + 8)).take 4, (R + 4294967296 - 4) % 4294967296, 0⟩
      simp only [Nat.zero_add]
      rw [hform, hsize]

theorem outputOf_mapReader {α β : Type} (φ : WavReader α → WavReader α)
    (x : Except Failure (WavReader α × β)) : outputOf (mapReader φ x) = outputOf x := by
  cases x with
  | error e => rfl
  | ok y => rfl

theorem load_inv {α : Type} (stack : Nat → Byte) (st0 st : WavReader α) (file : IfStream)
    (b : Bool) (h : load stack st0 file = .ok (st, b)) :
    ∃ s2 s, (checkForRiffHeader { st0 with wavFile := file } >>= readToWaveChunkHeader) = .ok s2 ∧
      updateInfo stack s2 = .ok s ∧ findDataPosition s = .ok st ∧ b = st.wavFile.good := by
  unfold load at h
  cases h1 : (checkForRiffHeader { st0 with wavFile := file } >>= readToWaveChunkHeader) with
  | error e =>
    rw [h1, error_bind, error_bind, error_bind] at h
    cases h
  | ok s2 =>
    rw [h1, ok_bind] at h
    cases h2 : updateInfo stack s2 with
    | error e =>
      rw [h2, error_bind, error_bind] at h
      cases h
    | ok s =>
      rw [h2, ok_bind] at h
      cases h3 : findDataPosition s with
      | error e =>
        rw [h3, error_bind] at h
        cases h
      | ok r =>
        rw [h3, ok_bind] at h
        simp only [Except.ok.injEq, Prod.mk.injEq] at h
        obtain ⟨e1, e2⟩ := h
        subst e1
        exact ⟨s2, s, rfl, h2, h3, e2.symm⟩

theorem findDataLoop_fmtFound {α : Type} :
    ∀ (fuel : Nat) (s r : WavReader α), findDataLoop fuel s = .ok r → r.fmtFound = s.fmtFound
  | 0, s, r, h => by cases h
  | fuel + 1, s, r, h => by
    rw [findDataLoop] at h
    split_ifs at h with hk
    · cases hrd : readSubChunk s with
      | error e =>
        rw [hrd] at h
        cases h
      | ok s1 =>
        rw [hrd] at h
        simp only [] at h
        obtain ⟨_, _, hs1⟩ := readSubChunk_inv s s1 hrd
        have hf1 : s1.fmtFound = s.fmtFound := by rw [hs1]
        split_ifs at h with hdat
        · simp only [Except.ok.injEq] at h
          rw [← h, (dataChunk_fields s1).2.1, hf1]
        · cases hsk : skipChunk s1 with
          | error e =>
            rw [hsk] at h
            cases h
          | ok s2 =>
            rw [hsk] at h
            simp only [] at h
            rw [findDataLoop_fmtFound fuel s2 r h, (skipChunk_inv s1 s2 hsk).2.2, hf1]
    · simp only [Except.ok.injEq] at h
      rw [h]

theorem isChunkID_fmt_not_data (k : chunkHdr) (h : isChunkID k 102 109 116 32 = true) :
    isChunkID k 100 97 116 97 = false := by
  unfold isChunkID at h ⊢
  simp only [Bool.and_eq_true, beq_iff_eq] at h
  rw [h.1.1.1]
  rfl

theorem leBytes_leValue : ∀ (l : List Byte), leBytes l.length (leValue l) = l
  | [] => rfl
  | b :: bs => by
    have hb := b.isLt
    simp only [List.length_cons, leBytes, leValue]
    have h1 : (b.val + 256 * leValue bs) % 256 = b.val := by omega
    have h2 : (b.val + 256 * leValue bs) / 256 = leValue bs := by omega
    rw [h2, leBytes_leValue bs]
    congr 1
    exact Fin.ext h1

theorem drop_append_len (A Y : List Byte) (n m : Nat) (h : A.length = n) :
    (A ++ Y).drop (n + m) = Y.drop m := by
  subst h
  exact List.drop_append m

/-- The layout of the stream with a chunk inserted, as three parts. -/
theorem insertChunk_parts (F : List Byte) (d : Nat) (U : List Byte) (R : Nat)
    (hd8 : 8 ≤ d) (hdF : d ≤ F.length) :
    ∃ X X1 B D, insertChunk F d U R = X1 ++ (B ++ (U ++ D)) ∧ F = X ++ (B ++ D) ∧
      X1.length = 8 ∧ X.length = 8 ∧ 8 + B.length = d ∧ D = F.drop d ∧
      X1 = F.take 4 ++ leBytes 4 R := by
  refine ⟨F.take 8, F.take 4 ++ leBytes 4 R, (F.drop 8).take (d - 8), F.drop d,
    by simp [insertChunk, List.append_assoc], ?_, ?_, ?_, ?_, rfl, rfl⟩
  · have h1 : (F.drop 8).take (d - 8) ++ F.drop d = F.drop 8 := by
      have : F.drop d = (F.drop 8).drop (d - 8) := by
        rw [List.drop_drop]
        congr 1
        omega
      rw [this, List.take_append_drop]
    rw [h1, List.take_append_drop]
  · simp only [List.length_append, List.length_take, leBytes_length]
    omega
  · simp only [List.length_take]
    omega
  · simp only [List.length_take, List.length_drop]
    omega

theorem insertChunk_agree (F : List Byte) (d : Nat) (U : List Byte) (R : Nat)
    (hd8 : 8 ≤ d) (hdF : d ≤ F.length) : AgreeOn F (insertChunk F d U R) 8 d := by
  obtain ⟨X, X1, B, D, h1, h2, l1, l2, l3, _, _⟩ := insertChunk_parts F d U R hd8 hdF
  constructor
  · rw [h1]
    simp only [List.length_append]
    omega
  · intro g n hg hgn
    obtain ⟨m, rfl⟩ : ∃ m, g = 8 + m := ⟨g - 8, by omega⟩
    have e1 : (insertChunk F d U R).drop (8 + m) = (B ++ (U ++ D)).drop m := by
      rw [h1, drop_append_len X1 _ 8 _ l1]
    have e2 : F.drop (8 + m) = (B ++ D).drop m := by
      conv_lhs => rw [h2]
      rw [drop_append_len X _ 8 _ l2]
    rw [e1, e2, take_drop_append _ _ _ _ (by omega), take_drop_append _ _ _ _ (by omega)]

theorem insertChunk_shift (F : List Byte) (d : Nat) (U : List Byte) (R : Nat)
    (hd8 : 8 ≤ d) (hdF : d ≤ F.length) :
    (insertChunk F d U R).drop d = U ++ F.drop d ∧
      ShiftedBy F (insertChunk F d U R) U.length d := by
  obtain ⟨X, X1, B, D, h1, h2, l1, l2, l3, hD, _⟩ := insertChunk_parts F d U R hd8 hdF
  have hdrop : (insertChunk F d U R).drop d = U ++ F.drop d := by
    rw [h1, ← hD, ← l3, drop_append_len X1 _ 8 _ l1]
    have := drop_append_len B (U ++ D) B.length 0 rfl
    simp at this
    simp
  refine ⟨hdrop, ?_, ?_⟩
  · rw [h1]
    conv_rhs => rw [h2]
    simp only [List.length_append]
    omega
  · intro g hg
    have : g + U.length = d + (U.length + (g - d)) := by omega
    rw [this, drop_add, hdrop, drop_append_len U _ U.length _ rfl, ← drop_add]
    congr 1
    omega

theorem insertChunk_header (F : List Byte) (d : Nat) (U : List Byte) (R : Nat)
    (hR : R < 4294967296) (hF : 12 ≤ F.length) (hd : 12 ≤ d) (hdF : d ≤ F.length) :
    (insertChunk F d U R).take 4 = F.take 4 ∧
      leValue (((insertChunk F d U R).drop 4).take 4) = R ∧
      ((insertChunk F d U R).drop 8).take 4 = (F.drop 8).take 4 := by
  obtain ⟨hdl, hag⟩ := insertChunk_agree F d U R (by omega) hdF
  have hparts : insertChunk F d U R
      = F.take 4 ++ (leBytes 4 R ++ ((F.drop 8).take (d - 8) ++ (U ++ F.drop d))) := by
    simp [insertChunk, List.append_assoc]
  have h4 : (F.take 4).length = 4 := by
    simp only [List.length_take]
    omega
  refine ⟨?_, ?_, ?_⟩
  · rw [hparts, List.take_append_of_le_length (by omega), List.take_take]
    simp
  · have : ((insertChunk F d U R).drop 4).take 4 = leBytes 4 R := by
      rw [hparts]
      have e := drop_append_len (F.take 4)
        (leBytes 4 R ++ ((F.drop 8).take (d - 8) ++ (U ++ F.drop d))) 4 0 h4
      rw [Nat.add_zero, List.drop_zero] at e
      rw [e, List.take_append_of_le_length (by rw [leBytes_length]),
        List.take_of_length_le (by rw [leBytes_length])]
    rw [this, leValue_leBytes 4 R (by norm_num; exact hR)]
  · exact hag 8 4 (le_refl _) (by omega)

theorem insertChunk_same (F : List Byte) (d : Nat) (U : List Byte)
    (hd8 : 8 ≤ d) (hdF : d ≤ F.length) :
    insertChunk F d U (leValue ((F.drop 4).take 4)) = F.take d ++ U ++ F.drop d := by
  have hl : ((F.drop 4).take 4).length = 4 := by
    simp only [List.length_take, List.length_drop]
    omega
  have h1 : leBytes 4 (leValue ((F.drop 4).take 4)) = (F.drop 4).take 4 := by
    have := leBytes_leValue ((F.drop 4).take 4)
    rw [hl] at this
    exact this
  have h2 : F.take 4 ++ (F.drop 4).take 4 = F.take 8 := by
    have := List.take_add F 4 4
    rw [this]
  have h3 : F.take 8 ++ (F.drop 8).take (d - 8) = F.take d := by
    have := List.take_add F 8 (d - 8)
    have e : 8 + (d - 8) = d := by omega
    rw [e] at this
    rw [this]
  unfold insertChunk
  rw [h1, h2, h3]

theorem headers_inv {α : Type} (st0 s2 : WavReader α) (F : List Byte)
    (h : (checkForRiffHeader { st0 with wavFile := ⟨F, 0, true⟩ } >>= readToWaveChunkHeader)
      = .ok s2) :
    s2.wavFile = ⟨F, 12, true⟩ ∧ 12 ≤ F.length ∧ s2.fmtFound = st0.fmtFound := by
  cases h1 : checkForRiffHeader ({ st0 with wavFile := ⟨F, 0, true⟩ } : WavReader α) with
  | error e =>
    rw [h1, error_bind] at h
    cases h
  | ok s1 =>
    rw [h1, ok_bind] at h
    obtain ⟨_, a2, a3, a4⟩ := checkForRiffHeader_inv _ s1 h1
    obtain ⟨_, b2, b4⟩ := readToWaveChunkHeader_inv s1 s2 h
    subst a4
    subst b4
    have b2' : 0 + 8 + 4 ≤ F.length := b2
    exact ⟨rfl, by omega, rfl⟩

theorem findDataLoop_basic {α : Type} :
    ∀ (fuel : Nat) (s r : WavReader α), findDataLoop fuel s = .ok r →
      isChunkID s.chk 100 97 116 97 = false →
      s.wavFile.gpos + 8 ≤ r.wavFile.gpos ∧ r.wavFile.content = s.wavFile.content ∧
        r.wavFile.gpos ≤ r.wavFile.content.length
  | 0, s, r, h, _ => by cases h
  | fuel + 1, s, r, h, hk => by
    rw [findDataLoop, if_pos hk] at h
    cases hrd : readSubChunk s with
    | error e =>
      rw [hrd] at h
      cases h
    | ok s1 =>
      rw [hrd] at h
      simp only [] at h
      obtain ⟨_, hl8, hs1⟩ := readSubChunk_inv s s1 hrd
      have hw1 : s1.wavFile = { s.wavFile with gpos := s.wavFile.gpos + 8 } := by rw [hs1]
      split_ifs at h with hdat
      · simp only [Except.ok.injEq] at h
        rw [← h, (dataChunk_fields s1).1, hw1]
        exact ⟨le_refl _, rfl, hl8⟩
      · cases hsk : skipChunk s1 with
        | error e =>
          rw [hsk] at h
          cases h
        | ok s2 =>
          rw [hsk] at h
          simp only [] at h
          obtain ⟨kw, kid, _⟩ := skipChunk_inv s1 s2 hsk
          have hk2 : isChunkID s2.chk 100 97 116 97 = false := by
            rw [isChunkID_congr s2.chk s1.chk kid]
            exact Bool.eq_false_iff.mpr hdat
          obtain ⟨i1, i2, i3⟩ := findDataLoop_basic fuel s2 r h hk2
          rw [kw, hw1] at i1 i2
          refine ⟨?_, i2, i3⟩
          have : s.wavFile.gpos + 8 + s1.chk.size + s1.chk.size % 2 + 8 ≤ r.wavFile.gpos := i1
          omega

/-! ## Properties: the writer and the close -/

theorem read_within (f : IfStream) (n : Nat) (parent : Option chunkHdr) (hg : f.good = true)
    (hn : n ≤ f.content.length - f.gpos) :
    read f n parent =
      .ok ((f.content.drop f.gpos).take n, { f with gpos := f.gpos + n },
        parent.map fun p => { p with pos := (p.pos + n) % 4294967296 }) := by
  unfold read
  rw [if_neg (by simp [hg]), if_neg (by omega)]

/-- The byte at offset `i` of a file after `fwrite`: a byte of the block written when `i` lies in
it, else the byte that was there (`0` where the file had no byte). -/
theorem fwrite_getD (f : OutFile) (b : List Byte) (i : Nat) :
    (f.fwrite b).content.getD i 0 =
      if f.fpos ≤ i ∧ i < f.fpos + b.length then b.getD (i - f.fpos) 0 else f.content.getD i 0 := by
  unfold OutFile.fwrite
  simp only [List.getD_eq_getElem?_getD, List.append_assoc]
  by_cases h1 : i < f.fpos
  · rw [if_neg (by omega)]
    by_cases h2 : i < f.content.length
    · rw [List.getElem?_append_left (by simp; omega), List.getElem?_take_of_lt h1]
    · rw [List.getElem?_append_right (by simp; omega),
        List.getElem?_append_left (by simp; omega)]
      simp only [List.length_take]
      rw [List.getElem?_replicate, if_pos (by omega),
        List.getElem?_eq_none (by omega)]
      rfl
  · have hl : (List.take f.fpos f.content ++ List.replicate (f.fpos - f.content.length) 0).length
        = f.fpos := by
      simp only [List.length_append, List.length_take, List.length_replicate]
      omega
    rw [← List.append_assoc, List.getElem?_append_right (by rw [hl]; omega), hl]
    by_cases h3 : i < f.fpos + b.length
    · rw [if_pos ⟨by omega, h3⟩, List.getElem?_append_left (by omega)]
    · rw [if_neg (by omega), List.getElem?_append_right (by omega), List.getElem?_drop]
      congr 2
      omega

theorem fwrite_length (f : OutFile) (b : List Byte) :
    (f.fwrite b).content.length = max f.content.length (f.fpos + b.length) := by
  unfold OutFile.fwrite
  simp only [List.length_append, List.length_take, List.length_replicate, List.length_drop]
  omega

theorem fseek_content (f : OutFile) (off : Nat) : (f.fseek off).content = f.content := rfl

theorem fseek_fpos (f : OutFile) (off : Nat) : (f.fseek off).fpos = off := rfl

/-- A block of `n` bytes that a file holds at offset `off`, read off byte by byte. -/
theorem block_of_getD (c b : List Byte) (off : Nat) (hlen : off + b.length ≤ c.length)
    (h : ∀ i, i < b.length → c.getD (off + i) 0 = b.getD i 0) :
    (c.drop off).take b.length = b := by
  apply List.ext_getElem
  · simp only [List.length_take, List.length_drop]
    omega
  · intro i h1 h2
    have := h i h2
    rw [List.getD_eq_getElem _ _ (by omega), List.getD_eq_getElem _ _ h2] at this
    rw [List.getElem_take, List.getElem_drop]
    exact this

/-- The bytes of the closed output file: every byte of the data size written by the destructor
that the RIFF size written after it does not cover. -/
theorem destroy_getD {α : Type} (st : WavReader α) (out : OutFile)
    (hout : st.outWavFile = some out) :
    ∃ c, destroy st = some c ∧ st.dataHdrSizeOffset + 4 ≤ c.length ∧
      st.riffSizeOffset + 4 ≤ c.length ∧
      (∀ i, i < 4 →
        ¬ (st.riffSizeOffset ≤ st.dataHdrSizeOffset + i ∧
            st.dataHdrSizeOffset + i < st.riffSizeOffset + 4) →
        c.getD (st.dataHdrSizeOffset + i) 0 =
          (leBytes 4 ((st.writtenSamples * (st.bitsPerSample / 8) * st.numChannels)
            % 4294967296)).getD i 0) ∧
      (∀ i, i < 4 →
        c.getD (st.riffSizeOffset + i) 0 =
          (leBytes 4 (((st.srcRiffSize + 18446744073709551616
            - (st.srcDataSize + 4294967296
                - (st.writtenSamples * (st.bitsPerSample / 8) * st.numChannels) % 4294967296)
              % 4294967296) % 18446744073709551616) % 4294967296)).getD i 0) := by
  unfold destroy
  rw [hout]
  simp only [Option.map_some']
  refine ⟨_, rfl, ?_, ?_, ?_, ?_⟩
  · rw [fwrite_length, fseek_content, fwrite_length, leBytes_length, leBytes_length, fseek_fpos]
    omega
  · rw [fwrite_length, leBytes_length, fseek_fpos]
    omega
  · intro i hi hno
    rw [fwrite_getD, leBytes_length, fseek_fpos, if_neg (by omega), fseek_content, fwrite_getD,
      leBytes_length, fseek_fpos, if_pos (by omega), Nat.add_sub_cancel_left]
  · intro i hi
    rw [fwrite_getD, leBytes_length, fseek_fpos, if_pos (by omega), Nat.add_sub_cancel_left]

/-! ## Properties: the byte budget of the data chunk -/

/-- What one frame read changes: the stream, the position in the chunk, the scratch buffer and
the frame counter. -/
theorem copyFrame_fields {α : Type} [LinearOrderedField α] (B : Nat) (s r : WavReader α)
    (idx : Nat) (buf out : List α) (h : copyFrame B s idx buf = .ok (r, out)) :
    ∃ f R, r = { s with
        wavFile := f
        chk := { s.chk with pos := (s.chk.pos + B) % 4294967296 }
        bufferToFillR := R
        numSamplesRead := s.numSamplesRead + 1 } := by
  unfold copyFrame at h
  cases hread : read s.wavFile B (some s.chk) with
  | error e => rw [hread] at h; cases h
  | ok x =>
    obtain ⟨_, _, hx⟩ := read_inv _ _ _ _ hread
    rw [hread, hx] at h
    simp only [Option.map_some', Option.getD_some] at h
    by_cases hb : s.bitsPerSample = 16 ∨ s.bitsPerSample = 24
    · rw [if_pos hb] at h
      split at h
      · cases h
      · simp only [Except.ok.injEq, Prod.mk.injEq] at h
        exact ⟨_, _, h.1.symm⟩
    · rw [if_neg hb] at h
      cases h

/-- The read loop of `copyToBuffer` stays within the bytes it was asked to copy. -/
theorem copyLoop_budget {α : Type} [LinearOrderedField α] (B N : Nat) :
    ∀ (fuel : Nat) (s r : WavReader α) (dbr idx : Nat) (buf out : List α),
      copyLoop B N fuel s dbr idx buf = .ok (r, out) →
      N * (s.bitsPerSample / 8) * s.numChannels = N * B → 0 < B → dbr ≤ N * B →
      N * B + B < 2 ^ 64 → s.chk.pos + (N * B - dbr) < 4294967296 →
      ∃ f R k p, p ≤ s.chk.pos + (N * B - dbr) ∧ s.chk.pos ≤ p ∧
        r = { s with
          wavFile := f
          chk := { s.chk with pos := p }
          bufferToFillR := R
          numSamplesRead := k }
  | 0, s, r, dbr, idx, buf, out, h, _, _, _, _, _ => by cases h
  | fuel + 1, s, r, dbr, idx, buf, out, h, hfb, hB, hd, hN, hp => by
    rw [copyLoop, hfb, Nat.mod_eq_of_lt (by omega), Nat.mod_eq_of_lt (by omega)] at h
    by_cases hcond : dbr + B < N * B + 1
    · rw [if_pos hcond] at h
      cases hf : copyFrame B s idx buf with
      | error e => rw [hf] at h; cases h
      | ok x =>
        obtain ⟨s1, b1⟩ := x
        rw [hf] at h
        simp only [] at h
        obtain ⟨f1, R1, hs1⟩ := copyFrame_fields B s s1 idx buf b1 hf
        have e1 : s1.chk.pos = (s.chk.pos + B) % 4294967296 := by rw [hs1]
        have e2 : s1.bitsPerSample = s.bitsPerSample := by rw [hs1]
        have e3 : s1.numChannels = s.numChannels := by rw [hs1]
        rw [Nat.mod_eq_of_lt (by omega)] at e1
        obtain ⟨f, R, k, p, i1, i2, i3⟩ := copyLoop_budget B N fuel s1 r (dbr + B) (idx + 1) b1 out
          h (by rw [e2, e3]; exact hfb) hB (by omega) hN (by rw [e1]; omega)
        refine ⟨f, R, k, p, by rw [e1] at i1; omega, by rw [e1] at i2; omega, ?_⟩
        rw [i3, hs1]
    · rw [if_neg hcond] at h
      simp only [Except.ok.injEq, Prod.mk.injEq] at h
      refine ⟨s.wavFile, s.bufferToFillR, s.numSamplesRead, s.chk.pos, by omega, le_refl _, ?_⟩
      rw [← h.1]

theorem enoughSamplesLeft_inv {α : Type} [LinearOrderedField α] (st : WavReader α)
    (h : enoughSamplesLeft st = true)
    (hn : st.chk.pos + st.mBufferSize * frameBytes st < 2 ^ 64) :
    st.chk.pos + st.mBufferSize * frameBytes st ≤ st.chk.size := by
  have e : st.mBufferSize * (st.bitsPerSample / 8) * st.numChannels
      = st.mBufferSize * frameBytes st := by
    unfold frameBytes; rw [Nat.mul_assoc]
  have h' : (if (st.chk.pos + st.mBufferSize * (st.bitsPerSample / 8) * st.numChannels) % 2 ^ 64
      > st.chk.size then false else true) = true := h
  rw [e, Nat.mod_eq_of_lt hn] at h'
  by_contra hgt
  rw [if_pos (by omega)] at h'
  cases h'

theorem fillDataBuffer_budget {α : Type} [LinearOrderedField α] (s r : WavReader α)
    (buf out : List α) (enough : Bool) (h : fillDataBuffer s buf enough = .ok (r, out))
    (hb : s.bitsPerSample = 16 ∨ s.bitsPerSample = 24)
    (hc : s.numChannels = 1 ∨ s.numChannels = 2)
    (hpos : s.chk.pos ≤ s.chk.size) (hsz : s.chk.size < 4294967296)
    (hn : s.mBufferSize < 2 ^ 61)
    (hen : enough = true → s.chk.pos + s.mBufferSize * frameBytes s ≤ s.chk.size) :
    ∃ f R k p, p ≤ s.chk.size ∧ s.chk.pos ≤ p ∧
      r = { s with
        wavFile := f
        chk := { s.chk with pos := p }
        bufferToFillR := R
        numSamplesRead := k } := by
  have hB := frameBytes_pos s hb hc
  unfold fillDataBuffer at h
  cases hchk : checkForExceptions s 0 s.mBufferSize with
  | error e => rw [hchk] at h; cases h
  | ok u =>
    rw [hchk] at h
    simp only [] at h
    have hfb : ∀ N, N * (s.bitsPerSample / 8) * s.numChannels = N * frameBytes s := by
      intro N
      unfold frameBytes
      rw [Nat.mul_assoc]
    have key : ∀ N, N * frameBytes s + frameBytes s < 2 ^ 64 →
        s.chk.pos + N * frameBytes s ≤ s.chk.size →
        copyToBuffer s (frameBytes s) buf N = .ok (r, out) →
        ∃ f R k p, p ≤ s.chk.size ∧ s.chk.pos ≤ p ∧
          r = { s with
            wavFile := f
            chk := { s.chk with pos := p }
            bufferToFillR := R
            numSamplesRead := k } := by
      intro N hN hle hcp
      unfold copyToBuffer at hcp
      split_ifs at hcp with hmax
      all_goals
        (obtain ⟨f, R, k, p, i1, i2, i3⟩ := copyLoop_budget (frameBytes s) N (N + 1) s r 0 0 _ out
          hcp (hfb N) (by omega) (by omega) hN (by omega)
         exact ⟨f, R, k, p, by omega, i2, i3⟩)
    cases enough with
    | true =>
      simp only [if_true] at h
      have h6 : s.mBufferSize * frameBytes s ≤ s.mBufferSize * 6 :=
        Nat.mul_le_mul_left _ hB.2
      exact key s.mBufferSize (by omega) (hen rfl) h
    | false =>
      simp only [Bool.false_eq_true, if_false] at h
      have e : (s.chk.size + 4294967296 - s.chk.pos) % 4294967296 = s.chk.size - s.chk.pos := by
        omega
      rw [e] at h
      have hm := Nat.div_mul_le_self (s.chk.size - s.chk.pos) (frameBytes s)
      change copyToBuffer s (frameBytes s) buf ((s.chk.size - s.chk.pos) / frameBytes s) = _ at h
      exact key _ (by
        have : (s.chk.size - s.chk.pos) / frameBytes s * frameBytes s ≤ s.chk.size := by omega
        omega) (by omega) h

/-- A call of `getNextAudioBlock` with a block length below `2 ^ 61` keeps the position in the data
chunk within the declared size and leaves the chunk header and the format as they are. -/
theorem getNextAudioBlock_budget {α : Type} [LinearOrderedField α] (uninit : Nat → α)
    (s r : WavReader α) (buf out : List α) (channel : Int) (n : Nat) (ok : Bool)
    (h : getNextAudioBlock uninit s (some buf) channel n = .ok (r, ok, out))
    (hb : s.bitsPerSample = 16 ∨ s.bitsPerSample = 24)
    (hc : s.numChannels = 1 ∨ s.numChannels = 2)
    (hpos : s.chk.pos ≤ s.chk.size) (hsz : s.chk.size < 4294967296) (hn : n < 2 ^ 61) :
    r.chk.pos ≤ r.chk.size ∧ s.chk.pos ≤ r.chk.pos ∧ r.chk.size = s.chk.size ∧
      r.chk.id = s.chk.id ∧ r.bitsPerSample = s.bitsPerSample ∧
      r.numChannels = s.numChannels := by
  obtain ⟨w1, w2, w3, w4, _, w6, w7, w8⟩ := withBlock_fields uninit s n
  have hfb : frameBytes (withBlock uninit s n) = frameBytes s := by
    unfold frameBytes; rw [w1, w2]
  have hB := frameBytes_pos s hb hc
  cases hchk : checkForExceptions (withBlock uninit s n) channel n with
  | error e =>
    rw [getNextAudioBlock_checked_error uninit s buf channel n e hchk] at h
    cases h
  | ok u =>
    rw [getNextAudioBlock_unfold uninit s buf channel n hchk] at h
    have hfill : ∀ enough r1 out1,
        fillDataBuffer (withBlock uninit s n) buf enough = .ok (r1, out1) →
        (enough = true → enoughSamplesLeft (withBlock uninit s n) = true) →
        r1.chk.pos ≤ r1.chk.size ∧ s.chk.pos ≤ r1.chk.pos ∧ r1.chk.size = s.chk.size ∧
          r1.chk.id = s.chk.id ∧ r1.bitsPerSample = s.bitsPerSample ∧
          r1.numChannels = s.numChannels := by
      intro enough r1 out1 hf hen
      obtain ⟨f, R, k, p, i1, i2, i3⟩ := fillDataBuffer_budget _ r1 buf out1 enough hf
        (by rw [w2]; exact hb) (by rw [w1]; exact hc) (by rw [w6]; exact hpos)
        (by rw [w6]; exact hsz) (by rw [w8]; exact hn)
        (by
          intro he
          have h6 : n * frameBytes s ≤ n * 6 := Nat.mul_le_mul_left _ hB.2
          exact enoughSamplesLeft_inv _ (hen he) (by rw [w8, w6, hfb]; omega))
      rw [w6] at i1 i2
      subst i3
      exact ⟨by show p ≤ (withBlock uninit s n).chk.size; rw [w6]; exact i1, i2,
        by show (withBlock uninit s n).chk.size = _; rw [w6],
        by show (withBlock uninit s n).chk.id = _; rw [w6], w2, w1⟩
    by_cases hch : channel = 0
    · rw [if_pos hch] at h
      cases hen : enoughSamplesLeft (withBlock uninit s n) with
      | true =>
        rw [hen] at h
        simp only [if_true] at h
        cases hf : fillDataBuffer (withBlock uninit s n) buf true with
        | error e => rw [hf] at h; cases h
        | ok x =>
          obtain ⟨r1, out1⟩ := x
          rw [hf] at h
          simp only [] at h
          have := hfill true r1 out1 hf (fun _ => hen)
          split_ifs at h
          · split at h
            · cases h
            · simp only [Except.ok.injEq, Prod.mk.injEq] at h
              rw [← h.1]
              exact this
          · simp only [Except.ok.injEq, Prod.mk.injEq] at h
            rw [← h.1]
            exact this
      | false =>
        rw [hen] at h
        simp only [Bool.false_eq_true, if_false] at h
        cases hf : fillDataBuffer (withBlock uninit s n) buf false with
        | error e => rw [hf] at h; cases h
        | ok x =>
          obtain ⟨r1, out1⟩ := x
          rw [hf] at h
          simp only [] at h
          have := hfill false r1 out1 hf (fun hc => by cases hc)
          split_ifs at h
          · split at h
            · cases h
            · simp only [Except.ok.injEq, Prod.mk.injEq] at h
              rw [← h.1]
              exact this
          · simp only [Except.ok.injEq, Prod.mk.injEq] at h
            rw [← h.1]
            exact this
    · rw [if_neg hch] at h
      simp only [] at h
      split_ifs at h
      · split at h
        · cases h
        · simp only [Except.ok.injEq, Prod.mk.injEq] at h
          rw [← h.1]
          exact ⟨by show (withBlock uninit s n).chk.pos ≤ (withBlock uninit s n).chk.size;
                    rw [w6]; exact hpos,
            by show _ ≤ (withBlock uninit s n).chk.pos; rw [w6],
            by show (withBlock uninit s n).chk.size = _; rw [w6],
            by show (withBlock uninit s n).chk.id = _; rw [w6], w2, w1⟩
      · simp only [Except.ok.injEq, Prod.mk.injEq] at h
        rw [← h.1]
        exact ⟨by show (withBlock uninit s n).chk.pos ≤ (withBlock uninit s n).chk.size;
                  rw [w6]; exact hpos,
          by show _ ≤ (withBlock uninit s n).chk.pos; rw [w6],
          by show (withBlock uninit s n).chk.size = _; rw [w6],
          by show (withBlock uninit s n).chk.id = _; rw [w6], w2, w1⟩

/-- A sequence of block reads, each with a block length below `2 ^ 61`, keeps the position in
the data chunk within the declared size. -/
theorem readBlocks_budget {α : Type} [LinearOrderedField α] (uninit : Nat → α) :
    ∀ (calls : List (List α × Int × Nat)) (s r : WavReader α) (outs : List (Bool × List α)),
      readBlocks uninit s calls = .ok (r, outs) →
      (∀ c ∈ calls, c.2.2 < 2 ^ 61) →
      (s.bitsPerSample = 16 ∨ s.bitsPerSample = 24) →
      (s.numChannels = 1 ∨ s.numChannels = 2) →
      s.chk.pos ≤ s.chk.size → s.chk.size < 4294967296 →
      r.chk.pos ≤ r.chk.size ∧ s.chk.pos ≤ r.chk.pos ∧ r.chk.size = s.chk.size ∧
        r.chk.id = s.chk.id
  | [], s, r, outs, h, _, _, _, hpos, _ => by
    simp only [readBlocks, Except.ok.injEq, Prod.mk.injEq] at h
    rw [← h.1]
    exact ⟨hpos, le_refl _, rfl, rfl⟩
  | (buf, channel, n) :: calls, s, r, outs, h, hn, hb, hc, hpos, hsz => by
    rw [readBlocks] at h
    cases h1 : getNextAudioBlock uninit s (some buf) channel n with
    | error e => rw [h1] at h; cases h
    | ok x =>
      obtain ⟨s1, ok, out⟩ := x
      rw [h1] at h
      simp only [] at h
      obtain ⟨a1, a2, a3, a4, a5, a6⟩ := getNextAudioBlock_budget uninit s s1 buf out channel n ok
        h1 hb hc hpos hsz (hn _ (List.mem_cons_self _ _))
      cases h2 : readBlocks uninit s1 calls with
      | error e => rw [h2] at h; cases h
      | ok y =>
        obtain ⟨s2, outs2⟩ := y
        rw [h2] at h
        simp only [Except.ok.injEq, Prod.mk.injEq] at h
        obtain ⟨b1, b2, b3, b4⟩ := readBlocks_budget uninit calls s1 s2 outs2 h2
          (fun c hcm => hn c (List.mem_cons_of_mem _ hcm)) (by rw [a5]; exact hb)
          (by rw [a6]; exact hc) a1 (by rw [a3]; exact hsz)
        rw [← h.1]
        exact ⟨b1, le_trans a2 b2, by rw [b3, a3], by rw [b4, a4]⟩

/-! ## Properties: what the scanner leaves as it is -/

theorem Keeps_bind {α β : Type} (P : WavReader α → β)
    (f g : WavReader α → Except Failure (WavReader α)) (hf : Keeps P f) (hg : Keeps P g) :
    Keeps P (fun s => f s >>= g) := by
  intro s r h
  simp only [] at h
  cases hfs : f s with
  | error e =>
    rw [hfs, error_bind] at h
    cases h
  | ok m =>
    rw [hfs, ok_bind] at h
    rw [hg m r h, hf s m hfs]

theorem Keeps_ite {α β : Type} (P : WavReader α → β)
    (f g : WavReader α → Except Failure (WavReader α)) (p : WavReader α → Prop)
    [DecidablePred p] (hf : Keeps P f) (hg : Keeps P g) :
    Keeps P (fun s => if p s then f s else g s) := by
  intro s r h
  simp only [] at h
  split_ifs at h
  · exact hf s r h
  · exact hg s r h

theorem Keeps_ok {α β : Type} (P : WavReader α → β) (φ : WavReader α → WavReader α)
    (h : ∀ s, P (φ s) = P s) : Keeps P (fun s => Except.ok (φ s)) := by
  intro s r hr
  simp only [Except.ok.injEq] at hr
  rw [← hr, h]

theorem blockState_writeIf {α : Type} (s : WavReader α) (b : List Byte) :
    blockState (writeIf s b) = blockState s := by
  unfold writeIf
  split <;> rfl

theorem Keeps_readMember {α : Type} (n : Nat) (store : WavReader α → Nat → WavReader α)
    (hk : ∀ s v, blockState (store s v) = blockState s) :
    Keeps blockState (readMember n store) := by
  intro s r h
  unfold readMember at h
  cases hread : read s.wavFile n (some s.chk) with
  | error e =>
    rw [hread] at h
    cases h
  | ok x =>
    rw [hread] at h
    simp only [Except.ok.injEq] at h
    subst h
    rw [blockState_writeIf, hk]
    rfl

theorem Keeps_readExtension {α : Type} (stack : Nat → Byte) :
    Keeps blockState (readExtension stack : WavReader α → Except Failure (WavReader α)) := by
  intro s r h
  unfold readExtension at h
  split_ifs at h
  · cases hread : read s.wavFile s.extraSize (some s.chk) with
    | error e =>
      rw [hread] at h
      cases h
    | ok x =>
      rw [hread] at h
      simp only [Except.ok.injEq] at h
      subst h
      rw [blockState_writeIf]
      rfl
  · simp only [Except.ok.injEq] at h
    rw [h]

theorem Keeps_skipInChk {α : Type} (sz : WavReader α → Nat) :
    Keeps blockState (fun s : WavReader α => skipInChk (sz s) s) := by
  intro s r h
  simp only [] at h
  unfold skipInChk at h
  cases hsk : skip s.wavFile (sz s) (some s.chk) with
  | error e =>
    rw [hsk] at h
    cases h
  | ok x =>
    rw [hsk] at h
    simp only [Except.ok.injEq] at h
    subst h
    rfl

theorem Keeps_skipInWave {α : Type} (n : Nat) :
    Keeps blockState (skipInWave n : WavReader α → Except Failure (WavReader α)) := by
  intro s r h
  unfold skipInWave at h
  cases hsk : skip s.wavFile n (some s.wave) with
  | error e =>
    rw [hsk] at h
    cases h
  | ok x =>
    rw [hsk] at h
    simp only [Except.ok.injEq] at h
    subst h
    rfl

theorem Keeps_readSubChunk {α : Type} :
    Keeps blockState (readSubChunk : WavReader α → Except Failure (WavReader α)) := by
  intro s r h
  obtain ⟨_, _, hr⟩ := readSubChunk_inv s r h
  rw [hr]
  rfl

theorem Keeps_skipChunk {α : Type} :
    Keeps blockState (skipChunk : WavReader α → Except Failure (WavReader α)) := by
  rw [skipChunk_eq]
  refine Keeps_bind _ _ _ (Keeps_skipInChk _) ?_
  exact Keeps_ite _ _ _ (fun s => s.chk.size % 2 = 1)
    (Keeps_bind _ _ _ (Keeps_ok _ addChkPos (fun _ => rfl)) (Keeps_skipInWave 1))
    (Keeps_ok _ addChkPos (fun _ => rfl))

theorem Keeps_getInfo {α : Type} :
    Keeps blockState (getInfo : WavReader α → Except Failure (WavReader α)) := by
  have h : (getInfo : WavReader α → Except Failure (WavReader α)) = fun s =>
      (fun s => (fun s => (fun s =>
        readMember 2 (fun s v => { s with audioFormat := v }) s >>=
        readMember 2 (fun s v => { s with numChannels := v })) s >>=
        readMember 4 (fun s v => { s with sampleRate := v })) s >>=
        readMember 4 (fun s v => { s with byteRate := v })) s >>=
        readMember 2 (fun s v => { s with blockAlign := v }) := by
    funext s
    rfl
  rw [h]
  exact Keeps_bind _ _ _ (Keeps_bind _ _ _ (Keeps_bind _ _ _ (Keeps_bind _ _ _
    (Keeps_readMember 2 _ (fun s v => rfl))
    (Keeps_readMember 2 _ (fun s v => rfl)))
    (Keeps_readMember 4 _ (fun s v => rfl)))
    (Keeps_readMember 4 _ (fun s v => rfl)))
    (Keeps_readMember 2 _ (fun s v => rfl))

theorem Keeps_fmtChunk {α : Type} (stack : Nat → Byte) :
    Keeps blockState (fmtChunk stack : WavReader α → Except Failure (WavReader α)) := by
  rw [fmtChunk_eq]
  refine Keeps_bind _ _ _ (Keeps_bind _ _ _ (Keeps_bind _ _ _ (Keeps_bind _ _ _ ?_
    Keeps_getInfo) ?_) ?_) ?_
  · intro s r h
    simp only [] at h
    split_ifs at h
    simp only [Except.ok.injEq] at h
    subst h
    show blockState (writeIf (writeIf { s with fmtPosition := s.chk.size } [102, 109, 116, 32])
        (leBytes 4 s.chk.size)) = _
    rw [blockState_writeIf, blockState_writeIf]
    rfl
  · exact Keeps_ite _ _ _ (fun s => s.chk.size ≥ 16) (Keeps_readMember 2 _ (fun s v => rfl))
      (Keeps_ok _ id (fun _ => rfl))
  · exact Keeps_ite _ _ _ (fun s => s.chk.size ≥ 18)
      (Keeps_bind _ _ _ (Keeps_readMember 2 _ (fun s v => rfl)) (Keeps_readExtension stack))
      (Keeps_ok _ id (fun _ => rfl))
  · exact Keeps_ite _ _ _ (fun s => s.chk.pos < s.chk.size)
      (Keeps_skipInChk (fun s => (s.chk.size + 4294967296 - s.chk.pos) % 4294967296))
      (Keeps_ok _ id (fun _ => rfl))

theorem Keeps_updateInfoLoop {α : Type} (stack : Nat → Byte) :
    ∀ fuel, Keeps blockState
      (updateInfoLoop stack fuel : WavReader α → Except Failure (WavReader α))
  | 0 => by
    intro s r h
    cases h
  | fuel + 1 => by
    intro s r h
    rw [updateInfoLoop] at h
    split_ifs at h with hcond
    · cases hrd : readSubChunk s with
      | error e => rw [hrd] at h; cases h
      | ok s1 =>
        rw [hrd] at h
        simp only [] at h
        have k1 := Keeps_readSubChunk s s1 hrd
        split_ifs at h with hid
        · rw [Keeps_fmtChunk stack s1 r h, k1]
        · cases hsk : skipChunk s1 with
          | error e => rw [hsk] at h; cases h
          | ok s2 =>
            rw [hsk] at h
            simp only [] at h
            rw [Keeps_updateInfoLoop stack fuel s2 r h, Keeps_skipChunk s1 s2 hsk, k1]
    · simp only [Except.ok.injEq] at h
      rw [h]

theorem blockState_dataChunk {α : Type} (s : WavReader α) :
    blockState (dataChunk s) = blockState s := by
  unfold dataChunk
  simp only []
  split <;> rfl

/-- The data scan, started on a chunk that is not the data chunk, ends right behind a chunk
header with the id `data`: the current chunk is that header with the position 0, and the stream
is good. It leaves the fmt fields and the block state as they are. -/
theorem findDataLoop_chk {α : Type} :
    ∀ (fuel : Nat) (s r : WavReader α), findDataLoop fuel s = .ok r →
      isChunkID s.chk 100 97 116 97 = false →
      r.chk = ⟨(s.wavFile.content.drop (r.wavFile.gpos - 8)).take 4,
          leValue ((s.wavFile.content.drop (r.wavFile.gpos - 4)).take 4), 0⟩ ∧
        isChunkID r.chk 100 97 116 97 = true ∧ r.wavFile.good = true ∧
        blockState r = blockState s ∧ fmtFields r = fmtFields s
  | 0, s, r, h, _ => by cases h
  | fuel + 1, s, r, h, hk => by
    rw [findDataLoop, if_pos hk] at h
    cases hrd : readSubChunk s with
    | error e =>
      rw [hrd] at h
      cases h
    | ok s1 =>
      rw [hrd] at h
      simp only [] at h
      obtain ⟨hg, hl8, hs1⟩ := readSubChunk_inv s s1 hrd
      have hw1 : s1.wavFile = { s.wavFile with gpos := s.wavFile.gpos + 8 } := by rw [hs1]
      have hc1 : s1.chk = ⟨(s.wavFile.content.drop s.wavFile.gpos).take 4,
          leValue ((s.wavFile.content.drop (s.wavFile.gpos + 4)).take 4), 0⟩ := by rw [hs1]
      have hb1 : blockState s1 = blockState s := by rw [hs1]; rfl
      have hf1 : fmtFields s1 = fmtFields s := by rw [hs1]; rfl
      split_ifs at h with hdat
      · simp only [Except.ok.injEq] at h
        obtain ⟨d1, _, d3⟩ := dataChunk_fields s1
        have hfd : fmtFields (dataChunk s1) = fmtFields s1 := by
          unfold dataChunk
          simp only []
          split <;> rfl
        rw [← h, d3, d1, hw1, blockState_dataChunk, hfd]
        refine ⟨?_, ?_, hg, hb1, hf1⟩
        · rw [hc1]
          show _ = chunkHdr.mk ((s.wavFile.content.drop (s.wavFile.gpos + 8 - 8)).take 4)
            (leValue ((s.wavFile.content.drop (s.wavFile.gpos + 8 - 4)).take 4)) 0
          rw [Nat.add_sub_cancel, show s.wavFile.gpos + 8 - 4 = s.wavFile.gpos + 4 by omega]
        · exact hdat
      · cases hsk : skipChunk s1 with
        | error e =>
          rw [hsk] at h
          cases h
        | ok s2 =>
          rw [hsk] at h
          simp only [] at h
          obtain ⟨kw, kid, _⟩ := skipChunk_inv s1 s2 hsk
          have hk2 : isChunkID s2.chk 100 97 116 97 = false := by
            rw [isChunkID_congr s2.chk s1.chk kid]
            exact Bool.eq_false_iff.mpr hdat
          obtain ⟨i1, i2, i3, i4, i5⟩ := findDataLoop_chk fuel s2 r h hk2
          have hcc : s2.wavFile.content = s.wavFile.content := by rw [kw, hw1]
          have hsf : fmtFields s2 = fmtFields s1 := by
            have hg1 : s1.wavFile.good = true := by rw [hw1]; exact hg
            have hs : scanState s1 = (⟨s1.wavFile.content, s1.wavFile.gpos, true⟩, s1.chk,
                s1.wave, s1.fmtFound, fmtFields s1) := by
              show (s1.wavFile, _, _, _, _) = _
              rw [← hg1]
            obtain ⟨r1, h1, q1⟩ := skipChunk_scan s1 _ _ _ _ _ _ hs
            rw [hsk] at h1
            simp only [Except.ok.injEq] at h1
            subst h1
            simp only [scanState, Prod.mk.injEq] at q1
            exact q1.2.2.2.2
          rw [hcc] at i1
          exact ⟨i1, i2, i3, by rw [i4, Keeps_skipChunk s1 s2 hsk, hb1], by rw [i5, hsf, hf1]⟩

theorem leValue_take_four_lt (l : List Byte) : leValue (l.take 4) < 4294967296 := by
  have h := leValue_lt (l.take 4)
  have h2 : (l.take 4).length ≤ 4 := by simp
  calc leValue (l.take 4) < 256 ^ (l.take 4).length := h
    _ ≤ 256 ^ 4 := Nat.pow_le_pow_right (by decide) h2
    _ = 4294967296 := by norm_num

/-- The format scan and the data scan of a reader on which no fmt chunk was parsed before, when
they succeed with a fmt chunk parsed: the current chunk is the header right before the get
position, its id is `data` and its position 0; the block state is as before. -/
theorem scans_data_header {α : Type} (stack : Nat → Byte) (s2 s st : WavReader α)
    (hu : updateInfo stack s2 = .ok s) (hf : findDataPosition s = .ok st)
    (h0 : s2.fmtFound = false) (hfmt : st.fmtFound = true) :
    st.chk = ⟨(s2.wavFile.content.drop (st.wavFile.gpos - 8)).take 4,
        leValue ((s2.wavFile.content.drop (st.wavFile.gpos - 4)).take 4), 0⟩ ∧
      isChunkID st.chk 100 97 116 97 = true ∧ st.wavFile.good = true ∧
      blockState st = blockState s2 ∧ st.wavFile.content = s2.wavFile.content ∧
      s2.wavFile.gpos + 8 ≤ st.wavFile.gpos ∧ st.wavFile.gpos ≤ s2.wavFile.content.length := by
  have hsf : s.fmtFound = true := by
    rw [← findDataLoop_fmtFound _ s st hf]
    exact hfmt
  have hag0 : AgreeOn s2.wavFile.content s2.wavFile.content 0 0 :=
    ⟨Nat.zero_le _, fun _ _ _ _ => rfl⟩
  obtain ⟨hcs, hgs, hchk, _⟩ := @updateInfoLoop_stable α s2.wavFile.content s2.wavFile.content
    0 0 0 s2.wave.size hag0 stack _ s2 s hu rfl (Nat.zero_le _) h0 hsf (le_refl _)
  have hnd := isChunkID_fmt_not_data s.chk hchk
  obtain ⟨b1, b2, b3⟩ := findDataLoop_basic _ s st hf hnd
  obtain ⟨c1, c2, c3, c4, _⟩ := findDataLoop_chk _ s st hf hnd
  rw [hcs] at c1 b2
  rw [b2] at b3
  exact ⟨c1, c2, c3, by rw [c4, Keeps_updateInfoLoop stack _ s2 s hu], b2, by omega, b3⟩

theorem loadWithOutput_inv {α : Type} (stack : Nat → Byte) (st0 st : WavReader α)
    (file : IfStream) (out : Option OutFile) (b : Bool)
    (h : loadWithOutput stack st0 file out = .ok (st, b)) :
    ∃ s1 s2 s3 s,
      checkForRiffHeader { st0 with writeToOutput := true, wavFile := file, outWavFile := out }
        = .ok s1 ∧
      readToWaveChunkHeader s1 = .ok s2 ∧ updateInfo stack s3 = .ok s ∧
      s3.wavFile = s2.wavFile ∧ s3.fmtFound = s2.fmtFound ∧ blockState s3 = blockState s2 ∧
      findDataPosition s = .ok st ∧
      b = (st.wavFile.good && st.outWavFile.isSome) := by
  unfold loadWithOutput at h
  cases h1 : checkForRiffHeader
      ({ st0 with writeToOutput := true, wavFile := file, outWavFile := out } : WavReader α) with
  | error e =>
    rw [h1, error_bind, error_bind, error_bind, error_bind, error_bind] at h
    cases h
  | ok s1 =>
    rw [h1, ok_bind] at h
    cases h2 : readToWaveChunkHeader s1 with
    | error e =>
      rw [h2, error_bind, error_bind, error_bind, error_bind] at h
      cases h
    | ok s2 =>
      rw [h2, ok_bind] at h
      simp only [] at h
      split_ifs at h with hw
      · rw [error_bind, error_bind, error_bind] at h
        cases h
      · rw [ok_bind] at h
        cases h3 : updateInfo stack (fwriteOut (fwriteOut
            { fwriteOut s2 (s2.riff.id.take 4) with
              srcRiffSize := (fwriteOut s2 (s2.riff.id.take 4)).riff.size
              riffSizeOffset :=
                ((fwriteOut s2 (s2.riff.id.take 4)).outWavFile.map fun o => o.fpos).getD 0
              srcDataSize := 0 }
            (leBytes 4 (fwriteOut s2 (s2.riff.id.take 4)).riff.size)) [87, 65, 86, 69]) with
        | error e =>
          rw [h3, error_bind, error_bind] at h
          cases h
        | ok s =>
          rw [h3, ok_bind] at h
          cases h4 : findDataPosition s with
          | error e =>
            rw [h4, error_bind] at h
            cases h
          | ok r =>
            rw [h4, ok_bind] at h
            simp only [Except.ok.injEq, Prod.mk.injEq] at h
            obtain ⟨e1, e2⟩ := h
            subst e1
            exact ⟨s1, s2, _, s, rfl, h2, h3, rfl, rfl, rfl, h4, e2.symm⟩

/-- The reader that `load(filePath, outputFile)` yields on a reader without a parsed fmt chunk,
when a fmt chunk was parsed: the current chunk is the data chunk header that lies right before
the get position, with the position 0, the stream is good and the block state is as before. -/
theorem loadWithOutput_data_header {α : Type} (stack : Nat → Byte) (st0 st : WavReader α)
    (F : List Byte) (out : Option OutFile) (b : Bool)
    (h : loadWithOutput stack st0 (openFile F) out = .ok (st, b))
    (h0 : st0.fmtFound = false) (hfmt : st.fmtFound = true) :
    st.chk = ⟨(F.drop (st.wavFile.gpos - 8)).take 4,
        leValue ((F.drop (st.wavFile.gpos - 4)).take 4), 0⟩ ∧
      isChunkID st.chk 100 97 116 97 = true ∧ st.wavFile.good = true ∧
      blockState st = blockState st0 ∧ st.wavFile.content = F ∧
      20 ≤ st.wavFile.gpos ∧ st.wavFile.gpos ≤ F.length := by
  obtain ⟨s1, s2, s3, s, h1, h2, hu, e1, e2, e3, hf, _⟩ :=
    loadWithOutput_inv stack st0 st (openFile F) out b h
  obtain ⟨_, _, _, a4⟩ := checkForRiffHeader_inv _ s1 h1
  obtain ⟨_, _, b4⟩ := readToWaveChunkHeader_inv s1 s2 h2
  have hw2 : s2.wavFile = ⟨F, 12, true⟩ ∧ s2.fmtFound = st0.fmtFound ∧
      blockState s2 = blockState st0 := by
    subst b4
    subst a4
    exact ⟨by
      show IfStream.mk F (0 + 8 + 4) (openFile F).good = _
      rfl, rfl, rfl⟩
  obtain ⟨w1, w2, w3⟩ := hw2
  obtain ⟨c1, c2, c3, c4, c5, c6, c7⟩ := scans_data_header stack s3 s st hu hf
    (by rw [e2, w2]; exact h0) hfmt
  rw [e1, w1] at c1 c5 c6 c7
  exact ⟨c1, c2, c3, by rw [c4, e3, w3], c5, by
    have : 12 + 8 ≤ st.wavFile.gpos := c6
    omega, c7⟩

/-- The same for `load(filePath)`. -/
theorem load_data_header {α : Type} (stack : Nat → Byte) (st0 st : WavReader α)
    (F : List Byte) (b : Bool)
    (h : load stack st0 (openFile F) = .ok (st, b))
    (h0 : st0.fmtFound = false) (hfmt : st.fmtFound = true) :
    st.chk = ⟨(F.drop (st.wavFile.gpos - 8)).take 4,
        leValue ((F.drop (st.wavFile.gpos - 4)).take 4), 0⟩ ∧
      isChunkID st.chk 100 97 116 97 = true ∧ st.wavFile.good = true ∧
      blockState st = blockState st0 ∧ st.wavFile.content = F ∧
      20 ≤ st.wavFile.gpos ∧ st.wavFile.gpos ≤ F.length := by
  obtain ⟨s2, s, hh, hu, hf, _⟩ := load_inv stack st0 st (openFile F) b h
  have hh' : (checkForRiffHeader { st0 with wavFile := ⟨F, 0, true⟩ } >>= readToWaveChunkHeader)
      = .ok s2 := hh
  obtain ⟨hw2, _, hf2⟩ := headers_inv st0 s2 F hh'
  have hb2 : blockState s2 = blockState st0 := by
    cases h1 : checkForRiffHeader ({ st0 with wavFile := ⟨F, 0, true⟩ } : WavReader α) with
    | error e =>
      rw [h1, error_bind] at hh'
      cases hh'
    | ok s1 =>
      rw [h1, ok_bind] at hh'
      obtain ⟨_, _, _, a4⟩ := checkForRiffHeader_inv _ s1 h1
      obtain ⟨_, _, b4⟩ := readToWaveChunkHeader_inv s1 s2 hh'
      subst b4
      subst a4
      rfl
  obtain ⟨c1, c2, c3, c4, c5, c6, c7⟩ := scans_data_header stack s2 s st hu hf
    (by rw [hf2]; exact h0) hfmt
  rw [hw2] at c1 c5 c6 c7
  exact ⟨c1, c2, c3, by rw [c4, hb2], c5, by
    have : 12 + 8 ≤ st.wavFile.gpos := c6
    omega, c7⟩

/-! ## Properties: the running average -/

section AverageProps

variable {α : Type} [Field α]

/-- A call of `add` that returns: the slot it used lies within the history, and the fields of
the averager after it. -/
theorem add_fields (a a1 : Average α) (x : α) (h : a.add x = .ok a1) :
    a.addSlot < a._history.length ∧ a1._currentIt = a.addSlot ∧
      a1._history = a._history.set a.addSlot x ∧
      a1._aveSumHist = a._aveSumHist - a._history.getD a.addSlot 0 + x ∧
      a1._maxLength = a._maxLength ∧
      (-1 ≤ a._histIdx →
        a1._histIdx = (if a._currentIt + 1 = a._history.length then 0 else a._histIdx + 1) ∧
        a1._histLooped
          = (if a._currentIt + 1 = a._history.length then true else a._histLooped)) := by
  unfold Average.add at h
  unfold Average.addSlot
  by_cases h1 : a._histIdx ≥ -1
  · by_cases h2 : a._currentIt + 1 = a._history.length
    · simp only [if_pos h1, if_pos h2] at h ⊢
      split_ifs at h with h3
      cases h
      exact ⟨h3, rfl, rfl, rfl, rfl, fun _ => ⟨rfl, rfl⟩⟩
    · simp only [if_pos h1, if_neg h2] at h ⊢
      split_ifs at h with h3
      cases h
      exact ⟨h3, rfl, rfl, rfl, rfl, fun _ => ⟨rfl, rfl⟩⟩
  · simp only [if_neg h1] at h ⊢
    split_ifs at h with h3
    cases h
    exact ⟨h3, rfl, rfl, rfl, rfl, fun h => absurd h h1⟩

/-- A call of `add` whose slot lies within the history returns. -/
theorem add_ok (a : Average α) (x : α) (h : a.addSlot < a._history.length) :
    ∃ a1, a.add x = .ok a1 := by
  unfold Average.addSlot at h
  unfold Average.add
  by_cases h1 : a._histIdx ≥ -1
  · by_cases h2 : a._currentIt + 1 = a._history.length
    · simp only [if_pos h1, if_pos h2] at h ⊢
      rw [if_pos h]
      exact ⟨_, rfl⟩
    · simp only [if_pos h1, if_neg h2] at h ⊢
      rw [if_pos h]
      exact ⟨_, rfl⟩
  · simp only [if_neg h1] at h ⊢
    rw [if_pos h]
    exact ⟨_, rfl⟩

/-- A call of `add` whose slot lies outside the history is undefined in the source. -/
theorem add_error (a : Average α) (x : α) (h : ¬ a.addSlot < a._history.length) :
    a.add x = .error .outOfBounds := by
  unfold Average.addSlot at h
  unfold Average.add
  by_cases h1 : a._histIdx ≥ -1
  · by_cases h2 : a._currentIt + 1 = a._history.length
    · simp only [if_pos h1, if_pos h2] at h ⊢
      rw [if_neg h]
    · simp only [if_pos h1, if_neg h2] at h ⊢
      rw [if_neg h]
  · simp only [if_neg h1] at h ⊢
    rw [if_neg h]

end AverageProps

section AverageProps2

variable {α : Type} [Field α]

theorem succ_mod_cases (n L : Nat) (hL : 0 < L) :
    (n + 1) % L = if n % L + 1 = L then 0 else n % L + 1 := by
  have hlt := Nat.mod_lt n hL
  have hdiv := Nat.div_add_mod n L
  split_ifs with h
  · have e : n + 1 = L * (n / L + 1) := by
      rw [Nat.mul_add, Nat.mul_one]
      omega
    rw [e]
    exact Nat.mul_mod_right _ _
  · have e : n + 1 = L * (n / L) + (n % L + 1) := by omega
    rw [e, Nat.mul_add_mod, Nat.mod_eq_of_lt (by omega)]

theorem succ_mod_ne (n m L : Nat) (h1 : n < m) (h2 : m < n + L) :
    (m + 1) % L ≠ (n + 1) % L := by
  intro h
  have hd : L ∣ (m + 1) - (n + 1) := (Nat.modEq_iff_dvd' (by omega)).mp h.symm
  have := Nat.le_of_dvd (by omega) hd
  omega

theorem getD_set_eq {β : Type} (l : List β) (i j : Nat) (x d : β) (hi : i < l.length) :
    (l.set i x).getD j d = if j = i then x else l.getD j d := by
  rw [List.getD_eq_getElem?_getD, List.getD_eq_getElem?_getD, List.getElem?_set]
  by_cases h : j = i
  · subst h
    simp [hi]
  · rw [if_neg (fun e => h e.symm), if_neg h]

end AverageProps2

section AverageProps3

variable {α : Type} [Field α]

/-- The averager after `init(L)` and the values `xs` added in order, `L ≥ 1`: the iterator stands
at slot `n % L` for `n` values added, the history has looped once `L` values were added, the
slot `(m + 1) % L` holds the entry `m` of the sequence `0, ..., 0, xs` (with `L` zeros) for each of the
last `L` entries, and the running sum is the sum of these entries. -/
theorem average_after_adds (a0 : Average α) (L : Nat) (e : α) (hL : 1 ≤ L) :
    ∀ xs : List α, ∃ A, xs.foldlM Average.add (Average.init a0 (L : Int) e) = .ok A ∧
      A._maxLength = L ∧
      A._history.length = L ∧
      A._currentIt = xs.length % L ∧
      A._histLooped = decide (L ≤ xs.length) ∧
      A._histIdx
        = (if xs.length < L then (xs.length : Int) - 1 else ((xs.length % L : Nat) : Int)) ∧
      (∀ m, xs.length ≤ m → m < xs.length + L →
        A._history.getD ((m + 1) % L) 0 = (List.replicate L 0 ++ xs).getD m 0) ∧
      A._aveSumHist = ((List.replicate L 0 ++ xs).drop xs.length).sum := by
  intro xs
  induction xs using List.reverseRecOn with
  | nil =>
    refine ⟨_, rfl, ?_⟩
    simp only [List.length_nil, List.append_nil, List.drop_zero]
    refine ⟨rfl, by simp [Average.init, Average.clear], by simp [Average.init, Average.clear],
      ?_, ?_, ?_, ?_⟩
    · simp only [Average.init, Average.clear]
      symm
      simp only [decide_eq_false_iff_not]
      omega
    · rw [if_pos (by omega)]
      simp [Average.init, Average.clear]
    · intro m h1 h2
      have hm : (m + 1) % L < L := Nat.mod_lt _ (by omega)
      simp only [Average.init, Average.clear, Int.toNat_ofNat]
      rw [List.getD_eq_getElem _ _ (by simpa using hm), List.getD_eq_getElem _ _ (by simpa using h2)]
      simp
    · simp [Average.init, Average.clear]
  | append_singleton xs x ih =>
    obtain ⟨A, hA, i1, i2, i3, i4, i5, i6, i7⟩ := ih
    rw [List.foldlM_append, hA]
    simp only [List.foldlM_cons, List.foldlM_nil, bind, Except.bind, pure, Except.pure,
      List.length_append, List.length_singleton]
    have hmod := Nat.mod_lt xs.length (by omega : 0 < L)
    have hidx : -1 ≤ A._histIdx := by
      rw [i5]
      split_ifs <;> omega
    have hslot : A.addSlot = (xs.length + 1) % L := by
      unfold Average.addSlot
      rw [if_pos hidx, i2, i3, succ_mod_cases _ _ (by omega)]
    have hslotlt : (xs.length + 1) % L < L := Nat.mod_lt _ (by omega)
    have hsm := succ_mod_cases xs.length L (by omega)
    have hylen : (List.replicate L (0 : α) ++ xs).length = L + xs.length := by simp
    have hmle := Nat.mod_le xs.length L
    have hdrop : (List.replicate L (0 : α) ++ (xs ++ [x])).drop (xs.length + 1)
        = (List.replicate L (0 : α) ++ xs).drop (xs.length + 1) ++ [x] := by
      rw [← List.append_assoc, List.drop_append_of_le_length (by rw [hylen]; omega)]
    obtain ⟨B, hB⟩ := add_ok A x (by rw [hslot, i2]; exact hslotlt)
    obtain ⟨_, f2, f3, f4, f5, f6⟩ := add_fields A B x hB
    obtain ⟨f7, f8⟩ := f6 hidx
    rw [hB]
    refine ⟨B, rfl, by rw [f5, i1], by rw [f3, List.length_set, i2],
      by rw [f2, hslot], ?_, ?_, ?_, ?_⟩
    · rw [f8, i2, i3, i4]
      by_cases hw : xs.length % L + 1 = L
      · rw [if_pos hw]
        symm
        simp only [decide_eq_true_eq]
        omega
      · rw [if_neg hw]
        by_cases hn : xs.length < L
        · have : xs.length % L = xs.length := Nat.mod_eq_of_lt hn
          have e1 : decide (L ≤ xs.length) = false := by simp; omega
          have e2 : decide (L ≤ xs.length + 1) = false := by simp; omega
          rw [e1, e2]
        · have e1 : decide (L ≤ xs.length) = true := by simp; omega
          have e2 : decide (L ≤ xs.length + 1) = true := by simp; omega
          rw [e1, e2]
    · rw [f7, i2, i3, i5]
      by_cases hw : xs.length % L + 1 = L
      · rw [if_pos hw] at hsm ⊢
        have hge : ¬ xs.length + 1 < L := by omega
        rw [if_neg hge, hsm]
        rfl
      · rw [if_neg hw] at hsm ⊢
        by_cases hn : xs.length < L
        · have hme : xs.length % L = xs.length := Nat.mod_eq_of_lt hn
          rw [if_pos hn, if_pos (by omega)]
          push_cast
          ring
        · have hge : ¬ xs.length + 1 < L := by omega
          rw [if_neg hn, if_neg hge, hsm]
          push_cast
          ring
    · intro m h1 h2
      rw [f3, hslot, getD_set_eq _ _ _ _ _ (by rw [i2]; exact hslotlt)]
      by_cases hm : m = xs.length + L
      · subst hm
        have e : (xs.length + L + 1) % L = (xs.length + 1) % L := by
          rw [show xs.length + L + 1 = xs.length + 1 + L by omega, Nat.add_mod_right]
        rw [if_pos e, ← List.append_assoc, List.getD_append_right _ _ _ _ (by rw [hylen]; omega),
          hylen]
        have : xs.length + L - (L + xs.length) = 0 := by omega
        rw [this]
        rfl
      · have hne := succ_mod_ne xs.length m L (by omega) (by omega)
        rw [if_neg hne, ← List.append_assoc, List.getD_append _ _ _ _ (by rw [hylen]; omega)]
        exact i6 m (by omega) (by omega)
    · rw [hdrop, f4, hslot, i6 xs.length (le_refl _) (by omega), i7, List.sum_append]
      have hd : (List.replicate L (0 : α) ++ xs).drop xs.length
          = (List.replicate L (0 : α) ++ xs).getD xs.length 0 ::
            (List.replicate L (0 : α) ++ xs).drop (xs.length + 1) := by
        rw [List.getD_eq_getElem _ _ (by rw [hylen]; omega)]
        exact List.drop_eq_getElem_cons (by rw [hylen]; omega)
      rw [hd]
      simp only [List.sum_cons, List.sum_nil]
      ring

end AverageProps3

/-- On an averager whose history holds `L` entries, with `_histIdx ≥ -1` and the iterator
within the history when there is one, the slot of the next `add` lies within the history exactly
when the history is not empty. -/
theorem addSlot_lt_iff {α : Type} (a : Average α) (L : Nat)
    (h1 : a._history.length = L) (h2 : -1 ≤ a._histIdx) (h3 : L = 0 ∨ a._currentIt < L) :
    a.addSlot < a._history.length ↔ 1 ≤ L := by
  have hs : a.addSlot = if a._currentIt + 1 = L then 0 else a._currentIt + 1 := by
    unfold Average.addSlot
    rw [if_pos h2, h1]
  rw [hs, h1]
  split_ifs <;> omega

section AverageProps4

variable {α : Type} [Field α]

/-- What a call of `add` that returns keeps of an averager whose history holds `L` entries: the
length of the history and `_histIdx ≥ -1`; the iterator then lies within the history. -/
theorem add_keeps_shape (a a1 : Average α) (x : α) (L : Nat) (h : a.add x = .ok a1)
    (h1 : a._history.length = L) (h2 : -1 ≤ a._histIdx) :
    a1._history.length = L ∧ -1 ≤ a1._histIdx ∧ a1._currentIt < L := by
  obtain ⟨f1, f2, f3, _, _, f6⟩ := add_fields a a1 x h
  obtain ⟨f7, _⟩ := f6 h2
  refine ⟨by rw [f3, List.length_set, h1], ?_, by rw [f2, ← h1]; exact f1⟩
  rw [f7]
  split_ifs <;> omega

/-- A call of `add` on an averager that can take a value returns, and the averager can take the
next value. -/
theorem add_ready (a : Average α) (x : α) (h : AverageReady a) :
    ∃ a1, a.add x = .ok a1 ∧ AverageReady a1 := by
  obtain ⟨h1, h2, h3⟩ := h
  obtain ⟨a1, ha⟩ := add_ok a x
    ((addSlot_lt_iff a _ rfl h2 (Or.inr h3)).mpr h1)
  obtain ⟨g1, g2, g3⟩ := add_keeps_shape a a1 x _ ha rfl h2
  exact ⟨a1, ha, by rw [g1]; exact h1, g2, by rw [g1]; exact g3⟩

end AverageProps4

/-! ## Properties: the loop of `processFile` -/

/-- A short final block, with the reader after it: when only `m < n` whole frames remain,
`getNextAudioBlock(buf, 0, n)` copies them, fills up with zeros and marks `isEofLReached`. -/
theorem getNextAudioBlock_ch0_short {α : Type} [LinearOrderedField α] (uninit : Nat → α)
    (st : WavReader α) (buf : List α) (n m : Nat)
    (hs : Supported st) (he : st.isEofReached = false) (hn61 : n < 2 ^ 61)
    (hbuf : buf.length = n) (hR : ∀ R, st.bufferToFillR = some R → n ≤ R.length)
    (hpos : st.chk.pos ≤ st.chk.size)
    (hm : (st.chk.size - st.chk.pos) / frameBytes st = m) (hmn : m < n)
    (hfile : st.wavFile.gpos + m * frameBytes st ≤ st.wavFile.content.length) :
    getNextAudioBlock uninit st (some buf) 0 n =
      .ok ({ afterRead (withBlock uninit st n) m 0 with isEofLReached := true }, true,
        storeFrom (List.replicate n 0) 0
          ((List.range m).map fun i => decodeSample st 0 (frameAt st i))) := by
  obtain ⟨w1, w2, w3, w4, _, w6, w7, w8⟩ := withBlock_fields uninit st n
  have hfb : frameBytes (withBlock uninit st n) = frameBytes st := by
    unfold frameBytes; rw [w1, w2]
  have hdec : ∀ ch i, decodeSample (withBlock uninit st n) ch (frameAt (withBlock uninit st n) i)
      = decodeSample st ch (frameAt st i) := by
    intro ch i; unfold decodeSample frameAt; rw [w2, w7, hfb]
  obtain ⟨hf, hb, hc, hg, hsz⟩ := hs
  have hB := frameBytes_pos st hb hc
  have hdm := Nat.div_add_mod (st.chk.size - st.chk.pos) (frameBytes st)
  have hml := Nat.mod_lt (st.chk.size - st.chk.pos) (show 0 < frameBytes st by omega)
  rw [hm] at hdm
  have e1 : m * frameBytes st = frameBytes st * m := Nat.mul_comm _ _
  have e2 : n * frameBytes st = frameBytes st * n := Nat.mul_comm _ _
  have hnm : frameBytes st * (m + 1) ≤ frameBytes st * n := Nat.mul_le_mul_left _ hmn
  have hn6 : frameBytes st * n ≤ 6 * n := Nat.mul_le_mul_right _ hB.2
  rw [Nat.mul_succ] at hnm
  rw [e1] at hfile
  have hchk := checkForExceptions_ok (withBlock uninit st n) 0 n
    (by rw [w1]; rcases hc with h | h <;> rw [h] <;> decide)
    (by omega) (by rw [w3]; exact hf) (by rw [w2]; rcases hb with h | h <;> omega)
    (by rw [w1]; rcases hc with h | h <;> omega) (by rw [w4]; exact he)
  have hnot : enoughSamplesLeft (withBlock uninit st n) = false := by
    have e : (withBlock uninit st n).mBufferSize * ((withBlock uninit st n).bitsPerSample / 8)
        * (withBlock uninit st n).numChannels = frameBytes st * n := by
      rw [w8, w1, w2]; unfold frameBytes; ring
    unfold enoughSamplesLeft
    simp only [e, w6]
    rw [Nat.mod_eq_of_lt (by omega), if_pos (by omega)]
  have hclr : memsetZero buf n = List.replicate n 0 := by
    unfold memsetZero
    rw [List.drop_of_length_le (by omega), List.append_nil]
  have hclr2 : memsetZero (List.replicate n (0 : α)) n = List.replicate n 0 := by
    unfold memsetZero
    rw [List.drop_of_length_le (by simp), List.append_nil]
  have hcl : (if (withBlock uninit st n).bufferToFillR.isSome = true then
      memsetZero (List.replicate n (0 : α)) n else List.replicate n 0) = List.replicate n 0 := by
    split_ifs
    · exact hclr2
    · rfl
  have hleft : ((withBlock uninit st n).chk.size + 4294967296 - (withBlock uninit st n).chk.pos)
      % 4294967296 / ((withBlock uninit st n).bitsPerSample / 8
        * (withBlock uninit st n).numChannels) = m := by
    rw [w6, w2, w1, ← hm]
    have : (st.chk.size + 4294967296 - st.chk.pos) % 4294967296 = st.chk.size - st.chk.pos := by
      omega
    rw [this]
    rfl
  have hfill : fillDataBuffer (withBlock uninit st n) buf false =
      .ok (afterRead (withBlock uninit st n) m 0,
        storeFrom (List.replicate n 0) 0
          ((List.range m).map fun i => decodeSample st 0 (frameAt st i))) := by
    unfold fillDataBuffer
    rw [w8, hchk]
    simp only [Bool.false_eq_true, if_false, hleft]
    unfold copyToBuffer
    rw [if_neg (by show ¬ (frameBytes (withBlock uninit st n) > MAX_READ_BUF_LEN);
                   rw [hfb]; unfold MAX_READ_BUF_LEN; omega)]
    simp only [w8, hclr, hcl]
    have hv : (fun i => decodeSample st 0 (frameAt st i)) = fun i =>
        decodeSample (withBlock uninit st n) 0 (frameAt (withBlock uninit st n) i) :=
      funext fun i => (hdec 0 i).symm
    rw [hv]
    exact copyLoop_spec (frameBytes (withBlock uninit st n)) m m (m + 1) _ 0 0 _ (le_refl _)
      (by rw [w2]; exact hb) (by rw [w1]; exact hc) rfl (by omega)
      (by rw [hfb, e1]; omega) (by rw [w7]; exact hg) (by rw [w7, hfb, e1]; exact hfile)
      (by rw [w6, hfb, e1]; omega)
      (by
        intro h2
        obtain ⟨R, hRs, hRl⟩ := withBlock_scratch uninit st n (by rw [← w1]; exact h2) hR
        exact ⟨R, hRs, by omega⟩)
  rw [getNextAudioBlock_unfold uninit st buf 0 n hchk, if_pos rfl, hnot]
  simp only [Bool.false_eq_true, if_false, hfill]
  rw [if_neg (by decide)]

theorem withBlock_writer {α : Type} [LinearOrderedField α]
    (uninit : Nat → α) (st : WavReader α) (n : Nat) :
    (withBlock uninit st n).writtenSamples = st.writtenSamples ∧
    (withBlock uninit st n).outWavFile = st.outWavFile ∧
    (st.numChannels = 1 → (withBlock uninit st n).bufferToFillR = st.bufferToFillR) ∧
    (st.numChannels = 2 → ∃ R, (withBlock uninit st n).bufferToFillR = some R) := by
  unfold withBlock
  split_ifs with h
  · refine ⟨rfl, rfl, fun h1 => ?_, fun _ => ⟨_, rfl⟩⟩
    omega
  · refine ⟨rfl, rfl, fun _ => rfl, fun h2 => ?_⟩
    cases hR : st.bufferToFillR with
    | none => exact absurd ⟨by omega, by simp [hR]⟩ h
    | some R => exact ⟨R, rfl⟩

theorem afterRead_scratch {α : Type} [LinearOrderedField α] (st : WavReader α) (r idx : Nat) :
    (st.numChannels = 1 → (afterRead st r idx).bufferToFillR = st.bufferToFillR) ∧
    (∀ R, st.bufferToFillR = some R →
      ∃ R1, (afterRead st r idx).bufferToFillR = some R1 ∧ R1.length = R.length) := by
  refine ⟨fun h1 => ?_, fun R hR => ?_⟩
  · show (if st.numChannels = 2 then _ else _) = _
    rw [if_neg (by omega)]
  · show ∃ R1, (if st.numChannels = 2 then _ else _) = some R1 ∧ _
    split_ifs
    · rw [hR]
      exact ⟨_, rfl, storeFrom_length _ _ _⟩
    · exact ⟨R, hR, rfl⟩

/-- The reads of one pass of the loop of `processFile`: the block of channel 0 and, on a stream
with more than one channel, the block of channel 1. Both calls return `true`; `r` frames are
consumed, the block length `n` or what is left of the data chunk; the format, the size of the
data chunk and what the writer works on stay as they are. -/
theorem readPair {α : Type} [LinearOrderedField α] (uninit : Nat → α) (s : WavReader α)
    (bufL bufR : List α) (n : Nat) (hs : Supported s) (he : s.isEofReached = false)
    (hn1 : 1 ≤ n) (hn : n < 2 ^ 61) (hbuf : bufL.length = n)
    (hR : ∀ R, s.bufferToFillR = some R → n ≤ R.length)
    (hpos : s.chk.pos ≤ s.chk.size)
    (hfile : s.wavFile.gpos + (s.chk.size - s.chk.pos) ≤ s.wavFile.content.length) :
    ∃ s1 s2 outL outR,
      getNextAudioBlock uninit s (some bufL) 0 n = .ok (s1, true, outL) ∧
      (if s.numChannels > 1 then getNextAudioBlock uninit s1 (some bufR) 1 n
        else .ok (s1, true, bufR)) = .ok (s2, true, outR) ∧
      outL.length = n ∧
      s2.fmtFound = true ∧ s2.bitsPerSample = s.bitsPerSample ∧
      s2.numChannels = s.numChannels ∧ s2.wavFile.good = true ∧
      s2.wavFile.content = s.wavFile.content ∧ s2.chk.size = s.chk.size ∧
      s2.writtenSamples = s.writtenSamples ∧ s2.outWavFile = s.outWavFile ∧
      (s.numChannels = 1 → s2.bufferToFillR = s.bufferToFillR) ∧
      (s.numChannels = 2 → ∃ R, s2.bufferToFillR = some R ∧ n ≤ R.length) ∧
      s2.chk.pos = s.chk.pos + min n ((s.chk.size - s.chk.pos) / frameBytes s) * frameBytes s ∧
      s2.wavFile.gpos
        = s.wavFile.gpos + min n ((s.chk.size - s.chk.pos) / frameBytes s) * frameBytes s ∧
      (s.chk.pos + n * frameBytes s ≤ s.chk.size →
        s2.isEofLReached = s.isEofLReached ∧
        s2.isEofReached = (if s.numChannels = 2 then s.isEofLReached else false)) := by
  obtain ⟨w1, w2, w3, w4, w5, w6, w7, w8⟩ := withBlock_fields uninit s n
  obtain ⟨v1, v2, v3, v4⟩ := withBlock_writer uninit s n
  have hfb : frameBytes (withBlock uninit s n) = frameBytes s := by
    unfold frameBytes; rw [w1, w2]
  obtain ⟨hf, hb, hc, hg, hsz⟩ := id hs
  have hB := frameBytes_pos s hb hc
  have hdm := Nat.div_mul_le_self (s.chk.size - s.chk.pos) (frameBytes s)
  -- the reader after the first call, in both cases
  have key : ∀ (r : Nat) (fl : Bool) (outL : List α),
      getNextAudioBlock uninit s (some bufL) 0 n =
        .ok ({ afterRead (withBlock uninit s n) r 0 with
          isEofLReached := fl || (withBlock uninit s n).isEofLReached }, true, outL) →
      outL.length = n →
      r = min n ((s.chk.size - s.chk.pos) / frameBytes s) →
      (s.chk.pos + n * frameBytes s ≤ s.chk.size → fl = false) →
      ∃ s1 s2 outL outR,
        getNextAudioBlock uninit s (some bufL) 0 n = .ok (s1, true, outL) ∧
        (if s.numChannels > 1 then getNextAudioBlock uninit s1 (some bufR) 1 n
          else .ok (s1, true, bufR)) = .ok (s2, true, outR) ∧
        outL.length = n ∧
        s2.fmtFound = true ∧ s2.bitsPerSample = s.bitsPerSample ∧
        s2.numChannels = s.numChannels ∧ s2.wavFile.good = true ∧
        s2.wavFile.content = s.wavFile.content ∧ s2.chk.size = s.chk.size ∧
        s2.writtenSamples = s.writtenSamples ∧ s2.outWavFile = s.outWavFile ∧
        (s.numChannels = 1 → s2.bufferToFillR = s.bufferToFillR) ∧
        (s.numChannels = 2 → ∃ R, s2.bufferToFillR = some R ∧ n ≤ R.length) ∧
        s2.chk.pos
          = s.chk.pos + min n ((s.chk.size - s.chk.pos) / frameBytes s) * frameBytes s ∧
        s2.wavFile.gpos
          = s.wavFile.gpos + min n ((s.chk.size - s.chk.pos) / frameBytes s) * frameBytes s ∧
        (s.chk.pos + n * frameBytes s ≤ s.chk.size →
          s2.isEofLReached = s.isEofLReached ∧
          s2.isEofReached = (if s.numChannels = 2 then s.isEofLReached else false)) := by
    intro r fl outL h1 hl hr hfl
    obtain ⟨a1, a2⟩ := afterRead_scratch (withBlock uninit s n) r 0
    have q1 : ({ afterRead (withBlock uninit s n) r 0 with
          isEofLReached := fl || (withBlock uninit s n).isEofLReached } : WavReader α).chk.pos
        = s.chk.pos + min n ((s.chk.size - s.chk.pos) / frameBytes s) * frameBytes s := by
      show (withBlock uninit s n).chk.pos + r * frameBytes (withBlock uninit s n) = _
      rw [w6, hfb, hr]
    have q2 : ({ afterRead (withBlock uninit s n) r 0 with
          isEofLReached := fl || (withBlock uninit s n).isEofLReached } : WavReader α).wavFile.gpos
        = s.wavFile.gpos + min n ((s.chk.size - s.chk.pos) / frameBytes s) * frameBytes s := by
      show (withBlock uninit s n).wavFile.gpos + r * frameBytes (withBlock uninit s n) = _
      rw [w7, hfb, hr]
    have q3 : ({ afterRead (withBlock uninit s n) r 0 with
          isEofLReached := fl || (withBlock uninit s n).isEofLReached } : WavReader α).fmtFound
        = true := by
      show (withBlock uninit s n).fmtFound = true
      rw [w3]; exact hf
    have q4 : ({ afterRead (withBlock uninit s n) r 0 with
          isEofLReached := fl || (withBlock uninit s n).isEofLReached } : WavReader α).bitsPerSample
        = s.bitsPerSample := w2
    have q5 : ({ afterRead (withBlock uninit s n) r 0 with
          isEofLReached := fl || (withBlock uninit s n).isEofLReached } : WavReader α).numChannels
        = s.numChannels := w1
    have q6 : ({ afterRead (withBlock uninit s n) r 0 with
          isEofLReached := fl || (withBlock uninit s n).isEofLReached } : WavReader α).wavFile.good
        = true := by
      show (withBlock uninit s n).wavFile.good = true
      rw [w7]; exact hg
    have q7 : ({ afterRead (withBlock uninit s n) r 0 with
          isEofLReached := fl || (withBlock uninit s n).isEofLReached }
          : WavReader α).wavFile.content = s.wavFile.content := by
      show (withBlock uninit s n).wavFile.content = _
      rw [w7]
    have q8 : ({ afterRead (withBlock uninit s n) r 0 with
          isEofLReached := fl || (withBlock uninit s n).isEofLReached } : WavReader α).chk.size
        = s.chk.size := by
      show (withBlock uninit s n).chk.size = _
      rw [w6]
    have q9 : ({ afterRead (withBlock uninit s n) r 0 with
          isEofLReached := fl || (withBlock uninit s n).isEofLReached }
          : WavReader α).writtenSamples = s.writtenSamples := v1
    have q10 : ({ afterRead (withBlock uninit s n) r 0 with
          isEofLReached := fl || (withBlock uninit s n).isEofLReached } : WavReader α).outWavFile
        = s.outWavFile := v2
    have q11 : s.numChannels = 1 → ({ afterRead (withBlock uninit s n) r 0 with
          isEofLReached := fl || (withBlock uninit s n).isEofLReached }
          : WavReader α).bufferToFillR = s.bufferToFillR := by
      intro h1c
      show (afterRead (withBlock uninit s n) r 0).bufferToFillR = _
      rw [a1 (by rw [w1]; exact h1c), v3 h1c]
    have q12 : s.numChannels = 2 → ∃ R1, ({ afterRead (withBlock uninit s n) r 0 with
          isEofLReached := fl || (withBlock uninit s n).isEofLReached }
          : WavReader α).bufferToFillR = some R1 ∧ n ≤ R1.length := by
      intro h2c
      obtain ⟨R, hRs, hRl⟩ := withBlock_scratch uninit s n h2c hR
      obtain ⟨R1, hR1, hl1⟩ := a2 R hRs
      exact ⟨R1, hR1, by rw [hl1]; exact hRl⟩
    have q13 : ({ afterRead (withBlock uninit s n) r 0 with
          isEofLReached := fl || (withBlock uninit s n).isEofLReached }
          : WavReader α).isEofLReached = (fl || s.isEofLReached) := by
      show (fl || (withBlock uninit s n).isEofLReached) = _
      rw [w5]
    have q14 : ({ afterRead (withBlock uninit s n) r 0 with
          isEofLReached := fl || (withBlock uninit s n).isEofLReached }
          : WavReader α).isEofReached = false := by
      show (withBlock uninit s n).isEofReached = false
      rw [w4]; exact he
    generalize ({ afterRead (withBlock uninit s n) r 0 with
          isEofLReached := fl || (withBlock uninit s n).isEofLReached } : WavReader α) = X
      at h1 q1 q2 q3 q4 q5 q6 q7 q8 q9 q10 q11 q12 q13 q14
    rcases hc with h1c | h2c
    · -- mono
      refine ⟨X, X, outL, bufR, h1, by rw [if_neg (by omega)], hl, q3, q4, q5, q6, q7, q8, q9,
        q10, q11, fun h2 => by omega, q1, q2, ?_⟩
      intro hfull
      rw [q13, q14, hfl hfull, if_neg (by omega)]
      exact ⟨rfl, rfl⟩
    · -- stereo
      obtain ⟨R1, hR1, hR1l⟩ := q12 h2c
      have hch1 := getNextAudioBlock_ch1 uninit X bufR n R1 (by rw [q5]; exact h2c) hR1 hR1l q3
        (by rw [q4]; rcases hb with h | h <;> omega) q14 hn1
      refine ⟨X, { X with mBufferSize := n, isEofReached := X.isEofLReached || X.isEofReached },
        outL, _, h1, by rw [if_pos (by omega)]; exact hch1, hl, q3, q4, q5, q6, q7, q8, q9, q10,
        fun h1 => by omega, fun _ => ⟨R1, hR1, hR1l⟩, q1, q2, ?_⟩
      intro hfull
      refine ⟨?_, ?_⟩
      · show X.isEofLReached = _
        rw [q13, hfl hfull]
        rfl
      · show (X.isEofLReached || X.isEofReached) = _
        rw [q13, q14, hfl hfull, if_pos h2c]
        simp
  by_cases hfull : s.chk.pos + n * frameBytes s ≤ s.chk.size
  · have hmin : n = min n ((s.chk.size - s.chk.pos) / frameBytes s) := by
      have : n ≤ (s.chk.size - s.chk.pos) / frameBytes s := by
        rw [Nat.le_div_iff_mul_le (by omega)]
        omega
      omega
    have h1 := getNextAudioBlock_ch0_full uninit s bufL n hs he hn1 hbuf hR hfull (by omega)
    exact key n false _ h1 (by rw [storeFrom_length, List.length_replicate]) hmin (fun _ => rfl)
  · have hlt : (s.chk.size - s.chk.pos) / frameBytes s < n := by
      rw [Nat.div_lt_iff_lt_mul (by omega)]
      omega
    have h1 := getNextAudioBlock_ch0_short uninit s bufL n _ hs he hn hbuf hR hpos rfl hlt
      (by omega)
    exact key _ true _ h1 (by rw [storeFrom_length, List.length_replicate]) (by omega)
      (fun h => absurd h hfull)

theorem getNumSamplesPerChannel_lt {α : Type} (st : WavReader α)
    (hb : st.bitsPerSample = 16 ∨ st.bitsPerSample = 24) :
    getNumSamplesPerChannel st < 268435456 := by
  unfold getNumSamplesPerChannel
  have h1 : (8 * st.chk.size) % 4294967296 / st.bitsPerSample < 268435456 := by
    rcases hb with h | h <;> rw [h] <;> omega
  exact lt_of_le_of_lt (Nat.div_le_self _ _) h1

/-- The count of `getNumSamplesPerChannel` does not exceed the whole frames of the data chunk. -/
theorem getNumSamplesPerChannel_le {α : Type} [LinearOrderedField α] (st : WavReader α)
    (hb : st.bitsPerSample = 16 ∨ st.bitsPerSample = 24)
    (hc : st.numChannels = 1 ∨ st.numChannels = 2) :
    getNumSamplesPerChannel st * frameBytes st ≤ st.chk.size := by
  unfold getNumSamplesPerChannel frameBytes
  rcases hb with h | h <;> rcases hc with h' | h' <;> rw [h, h'] <;> omega

/-- Below `2 ^ 29` bytes of data the product `8 * chk.size` does not wrap and the count is the
number of whole frames. -/
theorem getNumSamplesPerChannel_eq {α : Type} [LinearOrderedField α] (st : WavReader α)
    (hb : st.bitsPerSample = 16 ∨ st.bitsPerSample = 24)
    (hc : st.numChannels = 1 ∨ st.numChannels = 2) (hsz : st.chk.size < 536870912) :
    getNumSamplesPerChannel st = st.chk.size / frameBytes st := by
  unfold getNumSamplesPerChannel frameBytes
  rcases hb with h | h <;> rcases hc with h' | h' <;> rw [h, h'] <;> omega

/-- A call of `writeToFile` with a buffer for channel 0, on a writer that has not written more
than the sample count of the source: it returns `true`, the counter grows by the count capped
to what remains, and what the reads work on stays as it is. On the 16-bit path the second buffer
is read whenever the scratch buffer exists, so it has to be given then. -/
theorem writeToFile_spec {α : Type} [LinearOrderedField α] [FloorRing α] (st : WavReader α)
    (bufL : List α) (bufR : Option (List α)) (c : Nat)
    (hb : st.bitsPerSample = 16 ∨ st.bitsPerSample = 24)
    (hW : st.writtenSamples ≤ getNumSamplesPerChannel st)
    (hR : st.bufferToFillR.isSome = true → bufR.isSome = true) :
    ∃ s3, writeToFile st (some bufL) bufR c = .ok (s3, true) ∧
      s3.writtenSamples
        = st.writtenSamples + min (getNumSamplesPerChannel st - st.writtenSamples) c ∧
      s3.fmtFound = st.fmtFound ∧ s3.bitsPerSample = st.bitsPerSample ∧
      s3.numChannels = st.numChannels ∧ s3.wavFile = st.wavFile ∧ s3.chk = st.chk ∧
      s3.isEofLReached = st.isEofLReached ∧ s3.isEofReached = st.isEofReached ∧
      s3.bufferToFillR = st.bufferToFillR := by
  have hT := getNumSamplesPerChannel_lt st hb
  have hrem : (getNumSamplesPerChannel st + 18446744073709551616 - st.writtenSamples)
      % 18446744073709551616 = getNumSamplesPerChannel st - st.writtenSamples := by
    omega
  have hmin : (if getNumSamplesPerChannel st - st.writtenSamples < c then
      ((getNumSamplesPerChannel st - st.writtenSamples : Nat) : Int) else (c : Int))
      = ((min (getNumSamplesPerChannel st - st.writtenSamples) c : Nat) : Int) := by
    split_ifs with h
    · rw [min_eq_left (by omega)]
    · rw [min_eq_right (by omega)]
  have hsmall : min (getNumSamplesPerChannel st - st.writtenSamples) c < 268435456 := by
    omega
  have h32 : toInt32 ((min (getNumSamplesPerChannel st - st.writtenSamples) c : Nat) : Int)
      = ((min (getNumSamplesPerChannel st - st.writtenSamples) c : Nat) : Int) := by
    unfold toInt32
    omega
  have hws : ∃ bytes, writeSamples ({ st with mBufferSize := c } : WavReader α) bufL bufR
      ((min (getNumSamplesPerChannel st - st.writtenSamples) c : Nat) : Int) = .ok bytes := by
    unfold writeSamples
    by_cases h16 : st.bitsPerSample = 16
    · rw [if_pos h16, if_neg]
      · exact ⟨_, rfl⟩
      · rintro ⟨_, h2, h3⟩
        have := hR h2
        rw [Option.isNone_iff_eq_none] at h3
        rw [h3] at this
        cases this
    · rw [if_neg h16]
      split_ifs <;> exact ⟨_, rfl⟩
  obtain ⟨bytes, hbytes⟩ := hws
  have hfin : ((st.writtenSamples : Int)
      + ((min (getNumSamplesPerChannel st - st.writtenSamples) c : Nat) : Int)).toNat
        % 18446744073709551616
      = st.writtenSamples + min (getNumSamplesPerChannel st - st.writtenSamples) c := by
    omega
  refine ⟨{ fwriteOut ({ st with mBufferSize := c } : WavReader α) bytes with
      writtenSamples := st.writtenSamples
        + min (getNumSamplesPerChannel st - st.writtenSamples) c }, ?_, rfl, rfl, rfl, rfl, rfl,
    rfl, rfl, rfl, rfl⟩
  unfold writeToFile
  simp only [hrem, hmin, h32, hbytes, hfin]

theorem getNumSamplesPerChannel_congr {α : Type} (s t : WavReader α)
    (h1 : s.chk.size = t.chk.size) (h2 : s.bitsPerSample = t.bitsPerSample)
    (h3 : s.numChannels = t.numChannels) :
    getNumSamplesPerChannel s = getNumSamplesPerChannel t := by
  unfold getNumSamplesPerChannel
  rw [h1, h2, h3]

/-- At the head of the loop with the loop condition true, the `k` blocks read so far lie within
the sample count. -/
theorem AtPass_blocks {α σ : Type} [LinearOrderedField α] (N T : Nat) (s0 : WavReader α)
    (k : Nat) (p : ProcessState α σ) (hp : AtPass N T s0 k p) (hcond : p.outputSamples < T) :
    k * N ≤ T ∧
      p.streamer.writtenSamples + min (T - p.streamer.writtenSamples) (if k = 0 then N / 2 else N)
        = min T (N / 2 + k * N) := by
  obtain ⟨_, _, _, _, _, _, _, _, i9, i10, _⟩ := hp
  rcases Nat.eq_zero_or_pos k with hk | hk
  · subst hk
    rw [if_pos rfl] at i9 i10 ⊢
    rw [i9]
    omega
  · obtain ⟨j, rfl⟩ : ∃ j, k = j + 1 := ⟨k - 1, by omega⟩
    rw [if_neg (by omega)] at i9 i10 ⊢
    rw [Nat.add_sub_cancel] at i9
    rw [Nat.succ_mul, i9]
    omega

/-- The state after a pass whose reads and whose write went as `readPair` and
`writeToFile_spec` say is that of the head of the loop after one more pass. -/
theorem AtPass_next {α σ : Type} [LinearOrderedField α] (N : Nat) (s0 : WavReader α)
    (k : Nat) (p p1 : ProcessState α σ) (s2 s3 : WavReader α)
    (hb : s0.bitsPerSample = 16 ∨ s0.bitsPerSample = 24)
    (hc : s0.numChannels = 1 ∨ s0.numChannels = 2)
    (hN2 : 2 ≤ N) (hN : N < 4294967296)
    (hp : AtPass N (getNumSamplesPerChannel s0) s0 k p)
    (hcond : p.outputSamples < getNumSamplesPerChannel s0)
    (e1 : p1.streamer = s3) (e2 : p1.bufferL.length = N)
    (e3 : p1.outputSamples = (s3.writtenSamples + N / 2) % 18446744073709551616)
    (a1 : s2.fmtFound = true) (a2 : s2.bitsPerSample = p.streamer.bitsPerSample)
    (a3 : s2.numChannels = p.streamer.numChannels) (a4 : s2.wavFile.good = true)
    (a5 : s2.wavFile.content = p.streamer.wavFile.content)
    (a6 : s2.chk.size = p.streamer.chk.size)
    (a7 : s2.writtenSamples = p.streamer.writtenSamples)
    (a9 : p.streamer.numChannels = 1 → s2.bufferToFillR = p.streamer.bufferToFillR)
    (a10 : ∀ R, s2.bufferToFillR = some R → N ≤ R.length)
    (a11 : s2.chk.pos = p.streamer.chk.pos
      + min N ((p.streamer.chk.size - p.streamer.chk.pos) / frameBytes p.streamer)
        * frameBytes p.streamer)
    (a12 : s2.wavFile.gpos = p.streamer.wavFile.gpos
      + min N ((p.streamer.chk.size - p.streamer.chk.pos) / frameBytes p.streamer)
        * frameBytes p.streamer)
    (a13 : p.streamer.chk.pos + N * frameBytes p.streamer ≤ p.streamer.chk.size →
      s2.isEofLReached = p.streamer.isEofLReached ∧
      s2.isEofReached = (if p.streamer.numChannels = 2 then p.streamer.isEofLReached else false))
    (b1 : s3.writtenSamples = s2.writtenSamples
      + min (getNumSamplesPerChannel s0 - s2.writtenSamples) (if k = 0 then N / 2 else N))
    (b2 : s3.fmtFound = s2.fmtFound) (b3 : s3.bitsPerSample = s2.bitsPerSample)
    (b4 : s3.numChannels = s2.numChannels) (b5 : s3.wavFile = s2.wavFile)
    (b6 : s3.chk = s2.chk) (b7 : s3.isEofLReached = s2.isEofLReached)
    (b8 : s3.isEofReached = s2.isEofReached) (b9 : s3.bufferToFillR = s2.bufferToFillR) :
    AtPass N (getNumSamplesPerChannel s0) s0 (k + 1) p1 := by
  obtain ⟨hkN, hstep⟩ := AtPass_blocks N _ s0 k p hp hcond
  obtain ⟨i1, i2, i3, i4, i5, i6, i7, i8, i9, i10, i11⟩ := hp
  obtain ⟨j1, j2, j3, j4⟩ := i11 hcond
  have hB := frameBytes_pos s0 hb hc
  have hTle := getNumSamplesPerChannel_le s0 hb hc
  have hTlt := getNumSamplesPerChannel_lt s0 hb
  have hfb : frameBytes p.streamer = frameBytes s0 := by
    unfold frameBytes; rw [i3, i4]
  have hw3 : s3.writtenSamples = min (getNumSamplesPerChannel s0) (N / 2 + k * N) := by
    rw [b1, a7]
    exact hstep
  rw [hfb, j1, i7] at a11 a12 a13
  rw [j2] at a12
  rw [i4] at a9 a13
  unfold AtPass
  rw [e1, e2, e3, if_neg (by omega), if_neg (by omega), Nat.add_sub_cancel, b2, b3, b4, b5, b6,
    b7, b8, b9]
  refine ⟨rfl, a1, by rw [a2, i3], by rw [a3, i4], a4, by rw [a5, i6], by rw [a6, i7],
    ⟨fun h1 => by rw [a9 h1, i8.1 h1], a10⟩, hw3, by rw [Nat.mod_eq_of_lt (by omega)], ?_⟩
  intro hnext
  rw [Nat.mod_eq_of_lt (by omega), hw3] at hnext
  have hk1 : (k + 1) * N ≤ getNumSamplesPerChannel s0 := by
    rw [Nat.succ_mul]
    omega
  have hk1fb : (k + 1) * N * frameBytes s0 ≤ getNumSamplesPerChannel s0 * frameBytes s0 :=
    Nat.mul_le_mul_right _ hk1
  have hexp : (k + 1) * N * frameBytes s0 = k * N * frameBytes s0 + N * frameBytes s0 := by
    ring
  have hfull : k * N * frameBytes s0 + N * frameBytes s0 ≤ s0.chk.size := by omega
  have hmin : min N ((s0.chk.size - k * N * frameBytes s0) / frameBytes s0) = N := by
    have : N ≤ (s0.chk.size - k * N * frameBytes s0) / frameBytes s0 := by
      rw [Nat.le_div_iff_mul_le (by omega)]
      omega
    omega
  obtain ⟨f1, f2⟩ := a13 hfull
  rw [hmin] at a11 a12
  refine ⟨by rw [a11, hexp], by rw [a12, hexp]; omega, by rw [f1, j3], ?_⟩
  rw [f2, j3]
  split_ifs <;> rfl

/-- One run of the body of the loop of `processFile`, from the head of the loop after `k`
passes with the loop condition true: no call throws, the loop is not left by `break`, and the
state is that of the head of the loop after `k + 1` passes. -/
theorem processFileBody_spec {α σ : Type} [LinearOrderedField α] [FloorRing α]
    (cos : α → α) (pi : α) (process : σ → List α → σ × List α) (uninit : Nat → α)
    (N : Nat) (s0 : WavReader α) (duration : α) (k : Nat) (p : ProcessState α σ)
    (hb : s0.bitsPerSample = 16 ∨ s0.bitsPerSample = 24)
    (hc : s0.numChannels = 1 ∨ s0.numChannels = 2)
    (hsz : s0.chk.size < 4294967296)
    (hfile : s0.wavFile.gpos + s0.chk.size ≤ s0.wavFile.content.length)
    (hN2 : 2 ≤ N) (hN : N < 4294967296)
    (hp : AtPass N (getNumSamplesPerChannel s0) s0 k p)
    (av : Average α) (hadd : p.averager.add duration = .ok av)
    (hcond : p.outputSamples < getNumSamplesPerChannel s0) :
    ∃ p1, processFileBody cos pi process uninit N s0.numChannels duration p = .ok (p1, true) ∧
      AtPass N (getNumSamplesPerChannel s0) s0 (k + 1) p1 ∧ p1.averager = av := by
  obtain ⟨hkN, _⟩ := AtPass_blocks N _ s0 k p hp hcond
  obtain ⟨i1, i2, i3, i4, i5, i6, i7, i8, i9, i10, i11⟩ := id hp
  obtain ⟨j1, j2, j3, j4⟩ := i11 hcond
  have hB := frameBytes_pos s0 hb hc
  have hTle := getNumSamplesPerChannel_le s0 hb hc
  have hT : getNumSamplesPerChannel p.streamer = getNumSamplesPerChannel s0 :=
    getNumSamplesPerChannel_congr _ _ i7 i3 i4
  have hkfb : k * N * frameBytes s0 ≤ getNumSamplesPerChannel s0 * frameBytes s0 :=
    Nat.mul_le_mul_right _ hkN
  have hs : Supported p.streamer :=
    ⟨i2, by rw [i3]; exact hb, by rw [i4]; exact hc, i5, by rw [i7]; exact hsz⟩
  obtain ⟨s1, s2, outL, outR, r1, r2, r3, a1, a2, a3, a4, a5, a6, a7, _, a9, a10, a11, a12, a13⟩ :=
    readPair uninit p.streamer p.bufferL p.bufferR N hs j4 (by omega) (by omega) i1 i8.2
      (by rw [j1, i7]; omega) (by rw [j2, i7, i6, j1]; omega)
  rw [i4] at r2
  have a10n : ∀ R, s2.bufferToFillR = some R → N ≤ R.length := by
    intro R hR
    rcases hc with h1 | h2
    · rw [a9 (by rw [i4]; exact h1), i8.1 h1] at hR
      cases hR
    · obtain ⟨R1, hR1, hl⟩ := a10 (by rw [i4]; exact h2)
      rw [hR1] at hR
      cases hR
      exact hl
  -- the write
  have hT2 : getNumSamplesPerChannel s2 = getNumSamplesPerChannel s0 := by
    rw [← hT]
    exact getNumSamplesPerChannel_congr _ _ a6 a2 a3
  have hW2 : s2.writtenSamples ≤ getNumSamplesPerChannel s2 := by
    rw [hT2, a7, i9]
    split_ifs
    · omega
    · exact min_le_left _ _
  have hR : ∀ x : List α,
      s2.bufferToFillR.isSome = true →
        (if s0.numChannels > 1 then some x else none : Option (List α)).isSome = true := by
    intro x hsome
    rcases hc with h1 | h2
    · rw [a9 (by rw [i4]; exact h1), i8.1 h1] at hsome
      cases hsome
    · rw [if_pos (by omega)]
      rfl
  have hb2 : s2.bitsPerSample = 16 ∨ s2.bitsPerSample = 24 := by
    rw [a2, i3]; exact hb
  unfold processFileBody
  rw [r1]
  simp only [Bool.true_eq_false, if_false, r2, hadd]
  generalize applyFilter cos pi process p.hannL p.audioModel outL N p.chan0Output = fL
  generalize (if s0.numChannels > 1 then
      applyFilter cos pi process p.hannR fL.2.1 outR N p.chan1Output
    else (p.hannR, fL.2.1, p.chan1Output, true)) = fR
  by_cases hO : p.outputSamples = 0
  · have hk0 : k = 0 := by
      by_contra hk
      rw [if_neg hk] at i10
      omega
    obtain ⟨s3, w0, w1, w2, w3, w4, w5, w6, w7, w8, w9⟩ := writeToFile_spec s2
      (List.drop (N / 2) fL.2.2.1)
      (if s0.numChannels > 1 then some (List.drop (N / 2) fR.2.2.1) else none) (N / 2) hb2 hW2
      (hR _)
    rw [if_pos hO, w0]
    refine ⟨_, rfl, AtPass_next N s0 k p _ s2 s3 hb hc hN2 hN hp hcond rfl r3 rfl a1 a2 a3 a4 a5
      a6 a7 a9 a10n a11 a12 a13 ?_ w2 w3 w4 w5 w6 w7 w8 w9, rfl⟩
    rw [w1, hT2, if_pos hk0]
  · have hk0 : k ≠ 0 := by
      intro hk
      rw [if_pos hk] at i10
      exact hO i10
    obtain ⟨s3, w0, w1, w2, w3, w4, w5, w6, w7, w8, w9⟩ := writeToFile_spec s2 fL.2.2.1
      (if s0.numChannels > 1 then some fR.2.2.1 else none) N hb2 hW2 (hR _)
    rw [if_neg hO, w0]
    refine ⟨_, rfl, AtPass_next N s0 k p _ s2 s3 hb hc hN2 hN hp hcond rfl r3 rfl a1 a2 a3 a4 a5
      a6 a7 a9 a10n a11 a12 a13 ?_ w2 w3 w4 w5 w6 w7 w8 w9, rfl⟩
    rw [w1, hT2, if_neg hk0]

/-- One run of the body of the loop of `processFile` in which `add` fails: both reads return
`true`, and the run ends at the call of `add`, before anything is written. -/
theorem processFileBody_add_error {α σ : Type} [LinearOrderedField α] [FloorRing α]
    (cos : α → α) (pi : α) (process : σ → List α → σ × List α) (uninit : Nat → α)
    (N : Nat) (s0 : WavReader α) (duration : α) (k : Nat) (p : ProcessState α σ)
    (hb : s0.bitsPerSample = 16 ∨ s0.bitsPerSample = 24)
    (hc : s0.numChannels = 1 ∨ s0.numChannels = 2)
    (hsz : s0.chk.size < 4294967296)
    (hfile : s0.wavFile.gpos + s0.chk.size ≤ s0.wavFile.content.length)
    (hN2 : 2 ≤ N) (hN : N < 4294967296)
    (hp : AtPass N (getNumSamplesPerChannel s0) s0 k p)
    (e : Failure) (hadd : p.averager.add duration = .error e)
    (hcond : p.outputSamples < getNumSamplesPerChannel s0) :
    processFileBody cos pi process uninit N s0.numChannels duration p = .error e := by
  obtain ⟨hkN, _⟩ := AtPass_blocks N _ s0 k p hp hcond
  obtain ⟨i1, i2, i3, i4, i5, i6, i7, i8, i9, i10, i11⟩ := id hp
  obtain ⟨j1, j2, j3, j4⟩ := i11 hcond
  have hB := frameBytes_pos s0 hb hc
  have hTle := getNumSamplesPerChannel_le s0 hb hc
  have hkfb : k * N * frameBytes s0 ≤ getNumSamplesPerChannel s0 * frameBytes s0 :=
    Nat.mul_le_mul_right _ hkN
  have hs : Supported p.streamer :=
    ⟨i2, by rw [i3]; exact hb, by rw [i4]; exact hc, i5, by rw [i7]; exact hsz⟩
  obtain ⟨s1, s2, outL, outR, r1, r2, _⟩ :=
    readPair uninit p.streamer p.bufferL p.bufferR N hs j4 (by omega) (by omega) i1 i8.2
      (by rw [j1, i7]; omega) (by rw [j2, i7, i6, j1]; omega)
  rw [i4] at r2
  unfold processFileBody
  rw [r1]
  simp only [Bool.true_eq_false, if_false, r2, hadd]

/-- One run of the body of the loop of `processFile` from the head of the loop with the loop
condition true does not leave the loop by `break`. -/
theorem processFileBody_no_break {α σ : Type} [LinearOrderedField α] [FloorRing α]
    (cos : α → α) (pi : α) (process : σ → List α → σ × List α) (uninit : Nat → α)
    (N : Nat) (s0 : WavReader α) (duration : α) (k : Nat) (p r : ProcessState α σ)
    (hb : s0.bitsPerSample = 16 ∨ s0.bitsPerSample = 24)
    (hc : s0.numChannels = 1 ∨ s0.numChannels = 2)
    (hsz : s0.chk.size < 4294967296)
    (hfile : s0.wavFile.gpos + s0.chk.size ≤ s0.wavFile.content.length)
    (hN2 : 2 ≤ N) (hN : N < 4294967296)
    (hp : AtPass N (getNumSamplesPerChannel s0) s0 k p)
    (hcond : p.outputSamples < getNumSamplesPerChannel s0) :
    processFileBody cos pi process uninit N s0.numChannels duration p ≠ .ok (r, false) := by
  intro h
  cases hadd : p.averager.add duration with
  | error e =>
    rw [processFileBody_add_error cos pi process uninit N s0 duration k p hb hc hsz hfile hN2 hN
      hp e hadd hcond] at h
    cases h
  | ok av =>
    obtain ⟨p1, h1, _⟩ := processFileBody_spec cos pi process uninit N s0 duration k p hb hc hsz
      hfile hN2 hN hp av hadd hcond
    rw [h1] at h
    simp only [Except.ok.injEq, Prod.mk.injEq, Bool.true_eq_false, and_false] at h

/-- One run of the body of the loop of `processFile` that goes on, from the head of the loop
after `k` passes with the loop condition true, leads to the head of the loop after `k + 1`
passes. -/
theorem processFileBody_AtPass {α σ : Type} [LinearOrderedField α] [FloorRing α]
    (cos : α → α) (pi : α) (process : σ → List α → σ × List α) (uninit : Nat → α)
    (N : Nat) (s0 : WavReader α) (duration : α) (k : Nat) (p p1 : ProcessState α σ)
    (hb : s0.bitsPerSample = 16 ∨ s0.bitsPerSample = 24)
    (hc : s0.numChannels = 1 ∨ s0.numChannels = 2)
    (hsz : s0.chk.size < 4294967296)
    (hfile : s0.wavFile.gpos + s0.chk.size ≤ s0.wavFile.content.length)
    (hN2 : 2 ≤ N) (hN : N < 4294967296)
    (hp : AtPass N (getNumSamplesPerChannel s0) s0 k p)
    (hcond : p.outputSamples < getNumSamplesPerChannel s0)
    (h : processFileBody cos pi process uninit N s0.numChannels duration p = .ok (p1, true)) :
    AtPass N (getNumSamplesPerChannel s0) s0 (k + 1) p1 := by
  cases hadd : p.averager.add duration with
  | error e =>
    rw [processFileBody_add_error cos pi process uninit N s0 duration k p hb hc hsz hfile hN2 hN
      hp e hadd hcond] at h
    cases h
  | ok av =>
    obtain ⟨p2, h1, h2, _⟩ := processFileBody_spec cos pi process uninit N s0 duration k p hb hc
      hsz hfile hN2 hN hp av hadd hcond
    rw [h1] at h
    simp only [Except.ok.injEq, Prod.mk.injEq, and_true] at h
    rw [← h]
    exact h2

theorem processFilePass_spec {α σ : Type} [LinearOrderedField α] [FloorRing α]
    (cos : α → α) (pi : α) (process : σ → List α → σ × List α) (uninit : Nat → α)
    (N : Nat) (s0 : WavReader α) (duration : α) (k : Nat) (p : ProcessState α σ)
    (hb : s0.bitsPerSample = 16 ∨ s0.bitsPerSample = 24)
    (hc : s0.numChannels = 1 ∨ s0.numChannels = 2)
    (hsz : s0.chk.size < 4294967296)
    (hfile : s0.wavFile.gpos + s0.chk.size ≤ s0.wavFile.content.length)
    (hN2 : 2 ≤ N) (hN : N < 4294967296)
    (hp : AtPass N (getNumSamplesPerChannel s0) s0 k p)
    (hav : AverageReady p.averager)
    (hcond : p.outputSamples < getNumSamplesPerChannel s0) :
    ∃ p1, processFilePass cos pi process uninit N s0.numChannels (getNumSamplesPerChannel s0)
        duration p = .ok (p1, true) ∧
      AtPass N (getNumSamplesPerChannel s0) s0 (k + 1) p1 ∧ AverageReady p1.averager := by
  unfold processFilePass
  rw [if_pos hcond]
  obtain ⟨av, hadd, hav1⟩ := add_ready p.averager duration hav
  obtain ⟨p1, h1, h2, h3⟩ := processFileBody_spec cos pi process uninit N s0 duration k p hb hc
    hsz hfile hN2 hN hp av hadd hcond
  exact ⟨p1, h1, h2, by rw [h3]; exact hav1⟩

/-- The counters at the head of the loop, as numbers. -/
theorem AtPass_counters {α σ : Type} [LinearOrderedField α] (N T : Nat) (s0 : WavReader α)
    (k : Nat) (p : ProcessState α σ) (hp : AtPass N T s0 k p) :
    p.streamer.writtenSamples = (if k = 0 then 0 else min T (N / 2 + (k - 1) * N)) ∧
      p.outputSamples = (if k = 0 then 0 else min T (N / 2 + (k - 1) * N) + N / 2) := by
  obtain ⟨_, _, _, _, _, _, _, _, i9, i10, _⟩ := hp
  refine ⟨i9, ?_⟩
  rw [i10, i9]
  split_ifs <;> rfl

/-- The loop of `processFile` ends when the averager can take a value: with enough fuel it
returns the state of the head of the loop after some number of passes, at least one, with the
loop condition false. -/
theorem processFileLoop_spec {α σ : Type} [LinearOrderedField α] [FloorRing α]
    (cos : α → α) (pi : α) (process : σ → List α → σ × List α) (uninit : Nat → α)
    (N : Nat) (s0 : WavReader α)
    (hb : s0.bitsPerSample = 16 ∨ s0.bitsPerSample = 24)
    (hc : s0.numChannels = 1 ∨ s0.numChannels = 2)
    (hsz : s0.chk.size < 4294967296)
    (hfile : s0.wavFile.gpos + s0.chk.size ≤ s0.wavFile.content.length)
    (hN2 : 2 ≤ N) (hN : N < 4294967296) (hT1 : 1 ≤ getNumSamplesPerChannel s0) :
    ∀ (fuel k : Nat) (durations : Nat → α) (p : ProcessState α σ),
      AtPass N (getNumSamplesPerChannel s0) s0 k p → AverageReady p.averager →
      getNumSamplesPerChannel s0 - p.outputSamples < fuel →
      ∃ p1 k1, processFileLoop cos pi process uninit N s0.numChannels
          (getNumSamplesPerChannel s0) fuel durations p = .ok p1 ∧
        1 ≤ k1 ∧ k ≤ k1 ∧ AtPass N (getNumSamplesPerChannel s0) s0 k1 p1 ∧
        getNumSamplesPerChannel s0 ≤ p1.outputSamples
  | 0, _, _, _, _, _, hf => by omega
  | fuel + 1, k, durations, p, hp, hav, hf => by
    rw [processFileLoop]
    by_cases hcond : p.outputSamples < getNumSamplesPerChannel s0
    · obtain ⟨p1, h1, hp1, hav1⟩ := processFilePass_spec cos pi process uninit N s0
        (durations 0) k p hb hc hsz hfile hN2 hN hp hav hcond
      rw [h1]
      simp only []
      obtain ⟨_, c2⟩ := AtPass_counters N _ s0 k p hp
      obtain ⟨_, d2⟩ := AtPass_counters N _ s0 (k + 1) p1 hp1
      have hgrow : p.outputSamples < p1.outputSamples := by
        rw [if_neg (by omega), Nat.add_sub_cancel] at d2
        rw [c2] at hcond
        rw [c2, d2]
        rcases Nat.eq_zero_or_pos k with hk | hk
        · rw [if_pos hk]
          omega
        · obtain ⟨j, rfl⟩ : ∃ j, k = j + 1 := ⟨k - 1, by omega⟩
          rw [if_neg (by omega), Nat.add_sub_cancel] at hcond ⊢
          rw [Nat.succ_mul]
          omega
      obtain ⟨p2, k2, e1, e2, e3, e4, e5⟩ := processFileLoop_spec cos pi process uninit N s0 hb hc
        hsz hfile hN2 hN hT1 fuel (k + 1) (fun j => durations (j + 1)) p1 hp1 hav1 (by omega)
      exact ⟨p2, k2, e1, e2, by omega, e4, e5⟩
    · have h1 : processFilePass cos pi process uninit N s0.numChannels
          (getNumSamplesPerChannel s0) (durations 0) p = .ok (p, false) := by
        unfold processFilePass
        rw [if_neg hcond]
      rw [h1]
      simp only []
      refine ⟨p, k, rfl, ?_, le_refl _, hp, by omega⟩
      by_contra hk
      obtain ⟨_, c2⟩ := AtPass_counters N _ s0 k p hp
      rw [if_pos (by omega)] at c2
      omega

/-- The first `i` passes of the loop of `processFile`, from the head of the loop after `k`
passes: they all run when the averager can take a value and the loop condition holds before each
of them. -/
theorem processFilePasses_spec {α σ : Type} [LinearOrderedField α] [FloorRing α]
    (cos : α → α) (pi : α) (process : σ → List α → σ × List α) (uninit : Nat → α)
    (N : Nat) (s0 : WavReader α)
    (hb : s0.bitsPerSample = 16 ∨ s0.bitsPerSample = 24)
    (hc : s0.numChannels = 1 ∨ s0.numChannels = 2)
    (hsz : s0.chk.size < 4294967296)
    (hfile : s0.wavFile.gpos + s0.chk.size ≤ s0.wavFile.content.length)
    (hN2 : 2 ≤ N) (hN : N < 4294967296) (hT1 : 1 ≤ getNumSamplesPerChannel s0) :
    ∀ (i k : Nat) (durations : Nat → α) (p : ProcessState α σ),
      AtPass N (getNumSamplesPerChannel s0) s0 k p → AverageReady p.averager →
      (k + i = 1 ∨ N / 2 + (k + i - 2) * N + N / 2 < getNumSamplesPerChannel s0) →
      ∃ p1, processFilePasses cos pi process uninit N s0.numChannels
          (getNumSamplesPerChannel s0) i durations p = .ok (p1, true) ∧
        AtPass N (getNumSamplesPerChannel s0) s0 (k + i) p1 ∧ AverageReady p1.averager
  | 0, k, _, p, hp, hav, _ => ⟨p, rfl, hp, hav⟩
  | i + 1, k, durations, p, hp, hav, hi => by
    rw [processFilePasses]
    have hcond : p.outputSamples < getNumSamplesPerChannel s0 := by
      obtain ⟨_, c2⟩ := AtPass_counters N _ s0 k p hp
      rw [c2]
      rcases Nat.eq_zero_or_pos k with hk | hk
      · rw [if_pos hk]
        omega
      · obtain ⟨j, rfl⟩ : ∃ j, k = j + 1 := ⟨k - 1, by omega⟩
        rw [if_neg (by omega), Nat.add_sub_cancel]
        have hle : j * N ≤ (j + 1 + (i + 1) - 2) * N := Nat.mul_le_mul_right _ (by omega)
        omega
    obtain ⟨p1, h1, hp1, hav1⟩ := processFilePass_spec cos pi process uninit N s0 (durations 0)
      k p hb hc hsz hfile hN2 hN hp hav hcond
    rw [h1]
    simp only []
    have e : k + (i + 1) = k + 1 + i := by omega
    rw [e] at hi ⊢
    exact processFilePasses_spec cos pi process uninit N s0 hb hc hsz hfile hN2 hN hT1 i (k + 1)
      (fun j => durations (j + 1)) p1 hp1 hav1 hi

/-- The state that `processFile` sets up is that of the head of the loop before the first pass,
when the streamer stands at the start of its data chunk, has written nothing, has no end flag
set and no scratch buffer. -/
theorem processFileInit_AtPass {α σ : Type} [LinearOrderedField α] [FloorRing α]
    (s0 : WavReader α) (audioModel : σ) (N : Nat) (hannL hannR : HannFilter α)
    (hf : s0.fmtFound = true) (hg : s0.wavFile.good = true) (hpos : s0.chk.pos = 0)
    (hblock : blockState s0 = (0, 0, 0, false, false, none)) :
    AtPass N (getNumSamplesPerChannel s0) s0 0
      (processFileInit s0 audioModel N hannL hannR : ProcessState α σ) := by
  simp only [blockState, Prod.mk.injEq] at hblock
  obtain ⟨b1, _, _, b4, b5, b6⟩ := hblock
  have b7 : ∀ R, s0.bufferToFillR = some R → N ≤ R.length := by
    intro R hR
    rw [b6] at hR
    cases hR
  refine ⟨by simp [processFileInit], hf, rfl, rfl, hg, rfl, rfl, ⟨fun _ => b6, b7⟩, b1, rfl, ?_⟩
  intro _
  refine ⟨?_, ?_, b4, b5⟩
  · show s0.chk.pos = _
    rw [hpos]
    simp
  · show s0.wavFile.gpos = _
    simp

/-- The loop of `processFile` after `i` passes that all ran is the loop from the state they
lead to. -/
theorem processFileLoop_passes {α σ : Type} [LinearOrderedField α] [FloorRing α]
    (cos : α → α) (pi : α) (process : σ → List α → σ × List α) (uninit : Nat → α)
    (N c T : Nat) :
    ∀ (i : Nat) (durations : Nat → α) (p p1 : ProcessState α σ),
      processFilePasses cos pi process uninit N c T i durations p = .ok (p1, true) →
      ∀ fuel, processFileLoop cos pi process uninit N c T (i + fuel) durations p
        = processFileLoop cos pi process uninit N c T fuel (fun k => durations (k + i)) p1
  | 0, durations, p, p1, h, fuel => by
    simp only [processFilePasses, Except.ok.injEq, Prod.mk.injEq, and_true] at h
    rw [h, Nat.zero_add]
    rfl
  | i + 1, durations, p, p1, h, fuel => by
    rw [processFilePasses] at h
    have e : i + 1 + fuel = (i + fuel) + 1 := by omega
    rw [e, processFileLoop]
    cases hpass : processFilePass cos pi process uninit N c T (durations 0) p with
    | error e =>
      rw [hpass] at h
      cases h
    | ok x =>
      obtain ⟨p2, b⟩ := x
      rw [hpass] at h
      cases b with
      | false =>
        simp only [Except.ok.injEq, Prod.mk.injEq, Bool.false_eq_true, and_false] at h
      | true =>
        simp only [] at h ⊢
        rw [processFileLoop_passes cos pi process uninit N c T i _ p2 p1 h fuel]
        have : (fun k => (fun k => durations (k + 1)) (k + i)) = fun k => durations (k + (i + 1)) := by
          funext k
          show durations (k + i + 1) = _
          rfl
        rw [this]

/-- What `load(filePath, outputFile)` on a new reader provides for the loop of `processFile`. -/
theorem loadWithOutput_AtPass {α σ : Type} [LinearOrderedField α] [FloorRing α]
    (stack : Nat → Byte) (garbage st : WavReader α) (input : List Byte) (out : Option OutFile)
    (b : Bool) (audioModel : σ) (N : Nat) (hannL hannR : HannFilter α)
    (hload : loadWithOutput stack (newReader garbage) (openFile input) out = .ok (st, b))
    (hfmt : st.fmtFound = true) :
    AtPass N (getNumSamplesPerChannel st) st 0
        (processFileInit st audioModel N hannL hannR : ProcessState α σ) ∧
      st.chk.size < 4294967296 ∧ st.wavFile.content = input := by
  obtain ⟨c1, _, c3, c4, c5, _, _⟩ := loadWithOutput_data_header stack (newReader garbage) st
    input out b hload rfl hfmt
  refine ⟨processFileInit_AtPass st audioModel N hannL hannR hfmt c3 (by rw [c1])
    (by rw [c4]; rfl), ?_, c5⟩
  rw [c1]
  exact leValue_take_four_lt _

/-! ## Properties: one pass of the loop of `processFile`, read off its result -/

/-- A pass of the loop of `processFile` that is not left by `break`: both reads returned `true`,
the window of channel 0 went through `applyFilter`, the measured time was added to the averager,
and `writeToFile` was called with the second half of the processed window and the count `N / 2`
when `outputSamples` was 0, with the whole window and the count `N` otherwise; a buffer for
channel 1 was passed exactly when there is more than one channel. -/
theorem processFileBody_inv {α σ : Type} [LinearOrderedField α] [FloorRing α]
    (cos : α → α) (pi : α) (process : σ → List α → σ × List α) (uninit : Nat → α)
    (N c : Nat) (d : α) (p p1 : ProcessState α σ)
    (h : processFileBody cos pi process uninit N c d p = .ok (p1, true)) :
    ∃ s1 outL s2 outR s3 w Rarg,
      getNextAudioBlock uninit p.streamer (some p.bufferL) 0 N = .ok (s1, true, outL) ∧
      (if c > 1 then getNextAudioBlock uninit s1 (some p.bufferR) 1 N
        else .ok (s1, true, p.bufferR)) = .ok (s2, true, outR) ∧
      (Rarg.isSome = true ↔ c > 1) ∧
      writeToFile s2
        (some (if p.outputSamples = 0 then
            (applyFilter cos pi process p.hannL p.audioModel outL N p.chan0Output).2.2.1.drop (N / 2)
          else (applyFilter cos pi process p.hannL p.audioModel outL N p.chan0Output).2.2.1))
        Rarg (if p.outputSamples = 0 then N / 2 else N) = .ok (s3, w) ∧
      p1.streamer = s3 ∧ p1.bufferL = outL ∧
      p1.hannL = (applyFilter cos pi process p.hannL p.audioModel outL N p.chan0Output).1 ∧
      p1.chan0Output
        = (applyFilter cos pi process p.hannL p.audioModel outL N p.chan0Output).2.2.1 ∧
      p.averager.add d = .ok p1.averager ∧
      p1.outputSamples = (s3.writtenSamples + N / 2) % 18446744073709551616 ∧
      Rarg = (if c > 1 then
          some (if p.outputSamples = 0 then p1.chan1Output.drop (N / 2) else p1.chan1Output)
        else none) ∧
      p1.bufferR = outR ∧
      p1.chan1Output = (if c > 1 then
          (applyFilter cos pi process p.hannR
            (applyFilter cos pi process p.hannL p.audioModel outL N p.chan0Output).2.1 outR N
            p.chan1Output).2.2.1
        else p.chan1Output) := by
  unfold processFileBody at h
  cases h1 : getNextAudioBlock uninit p.streamer (some p.bufferL) 0 N with
  | error e => rw [h1] at h; cases h
  | ok x =>
    obtain ⟨s1, ok1, outL⟩ := x
    rw [h1] at h
    simp only [] at h
    cases ok1 with
    | false => simp at h
    | true =>
      simp only [Bool.true_eq_false, if_false] at h
      cases h2 : (if c > 1 then getNextAudioBlock uninit s1 (some p.bufferR) 1 N
          else .ok (s1, true, p.bufferR) : Except Failure (WavReader α × Bool × List α)) with
      | error e => rw [h2] at h; cases h
      | ok y =>
        obtain ⟨s2, ok2, outR⟩ := y
        rw [h2] at h
        simp only [] at h
        cases ok2 with
        | false => simp at h
        | true =>
          simp only [Bool.true_eq_false, if_false] at h
          generalize hfL : applyFilter cos pi process p.hannL p.audioModel outL N p.chan0Output
            = fL at h ⊢
          cases hadd : p.averager.add d with
          | error e => rw [hadd] at h; cases h
          | ok av =>
          rw [hadd] at h
          simp only [] at h
          generalize hfR : (if c > 1 then
              applyFilter cos pi process p.hannR fL.2.1 outR N p.chan1Output
            else (p.hannR, fL.2.1, p.chan1Output, true)) = fR at h
          by_cases hO : p.outputSamples = 0
          · rw [if_pos hO] at h
            cases h3 : writeToFile s2 (some (fL.2.2.1.drop (N / 2)))
                (if c > 1 then some (fR.2.2.1.drop (N / 2)) else none) (N / 2) with
            | error e => rw [h3] at h; cases h
            | ok z =>
              obtain ⟨s3, w⟩ := z
              rw [h3] at h
              simp only [Except.ok.injEq, Prod.mk.injEq, and_true] at h
              refine ⟨s1, outL, s2, outR, s3, w,
                (if c > 1 then some (fR.2.2.1.drop (N / 2)) else none), rfl, h2, ?_, ?_, ?_⟩
              · split_ifs with hc <;> simp [hc]
              · rw [hfL, if_pos hO, if_pos hO]
                exact h3
              · rw [hfL, ← h]
                refine ⟨rfl, rfl, rfl, rfl, rfl, rfl, ?_, rfl, ?_⟩
                · split_ifs <;> rfl
                · show fR.2.2.1 = _
                  rw [← hfR]
                  split_ifs <;> rfl
          · rw [if_neg hO] at h
            cases h3 : writeToFile s2 (some fL.2.2.1)
                (if c > 1 then some fR.2.2.1 else none) N with
            | error e => rw [h3] at h; cases h
            | ok z =>
              obtain ⟨s3, w⟩ := z
              rw [h3] at h
              simp only [Except.ok.injEq, Prod.mk.injEq, and_true] at h
              refine ⟨s1, outL, s2, outR, s3, w,
                (if c > 1 then some fR.2.2.1 else none), rfl, h2, ?_, ?_, ?_⟩
              · split_ifs with hc <;> simp [hc]
              · rw [hfL, if_neg hO, if_neg hO]
                exact h3
              · rw [hfL, ← h]
                refine ⟨rfl, rfl, rfl, rfl, rfl, rfl, ?_, rfl, ?_⟩
                · split_ifs <;> rfl
                · show fR.2.2.1 = _
                  rw [← hfR]
                  split_ifs <;> rfl

/-- The averager of `processFile` as `init` leaves it: the history holds `T / 1000` entries. -/
theorem processFileInit_averager {α σ : Type} [LinearOrderedField α] [FloorRing α]
    (streamer : WavReader α) (audioModel : σ) (N : Nat) (hannL hannR : HannFilter α) :
    (processFileInit streamer audioModel N hannL hannR).averager._history.length
        = getNumSamplesPerChannel streamer / 1000 ∧
      (processFileInit streamer audioModel N hannL hannR).averager._histIdx = -1 ∧
      (processFileInit streamer audioModel N hannL hannR).averager._currentIt = 0 := by
  have hT : getNumSamplesPerChannel streamer < 4294967296 := by
    unfold getNumSamplesPerChannel
    have h1 : 8 * streamer.chk.size % 4294967296 < 4294967296 := Nat.mod_lt _ (by decide)
    have h2 := Nat.div_le_self (8 * streamer.chk.size % 4294967296) streamer.bitsPerSample
    have h3 := Nat.div_le_self (8 * streamer.chk.size % 4294967296 / streamer.bitsPerSample)
      streamer.numChannels
    omega
  have hq : getNumSamplesPerChannel streamer / 1000 < 2147483648 := by omega
  have e : toInt32 ((getNumSamplesPerChannel streamer : Int) / 1000)
      = ((getNumSamplesPerChannel streamer / 1000 : Nat) : Int) := by
    unfold toInt32
    have : ((getNumSamplesPerChannel streamer : Int) / 1000)
        = ((getNumSamplesPerChannel streamer / 1000 : Nat) : Int) := by
      push_cast
      rfl
    rw [this]
    omega
  refine ⟨?_, by simp only [processFileInit, Average.init, Average.clear],
    by simp only [processFileInit, Average.init, Average.clear]⟩
  simp only [processFileInit, Average.init, Average.clear, List.length_replicate]
  rw [e]
  rfl

/-- The averager at the head of the loop of `processFile` after passes that all ran: its history
still holds as many entries as `init` gave it, `_histIdx ≥ -1`, and its iterator lies within the
history when there is one. -/
theorem processFilePasses_averager {α σ : Type} [LinearOrderedField α] [FloorRing α]
    (cos : α → α) (pi : α) (process : σ → List α → σ × List α) (uninit : Nat → α)
    (N c T L : Nat) :
    ∀ (i : Nat) (durations : Nat → α) (p p1 : ProcessState α σ),
      processFilePasses cos pi process uninit N c T i durations p = .ok (p1, true) →
      p.averager._history.length = L → -1 ≤ p.averager._histIdx →
      (L = 0 ∨ p.averager._currentIt < L) →
      p1.averager._history.length = L ∧ -1 ≤ p1.averager._histIdx ∧
        (L = 0 ∨ p1.averager._currentIt < L)
  | 0, _, p, p1, h, h1, h2, h3 => by
    simp only [processFilePasses, Except.ok.injEq, Prod.mk.injEq, and_true] at h
    rw [← h]
    exact ⟨h1, h2, h3⟩
  | i + 1, durations, p, p1, h, h1, h2, h3 => by
    rw [processFilePasses] at h
    cases hpass : processFilePass cos pi process uninit N c T (durations 0) p with
    | error e => rw [hpass] at h; cases h
    | ok x =>
      obtain ⟨p2, b⟩ := x
      rw [hpass] at h
      cases b with
      | false => simp at h
      | true =>
        simp only [] at h
        unfold processFilePass at hpass
        split_ifs at hpass with hcond
        · obtain ⟨_, _, _, _, _, _, _, _, _, _, _, _, _, _, _, ha, _⟩ :=
            processFileBody_inv cos pi process uninit N c (durations 0) p p2 hpass
          obtain ⟨a1, a2, a3⟩ := add_keeps_shape p.averager p2.averager (durations 0) L ha h1 h2
          exact processFilePasses_averager cos pi process uninit N c T L i _ p2 p1 h a1 a2
            (Or.inr a3)
        · simp at hpass

/-- The averager of `processFile` can take a value when the stream has at least 1000 samples
per channel. -/
theorem processFileInit_ready {α σ : Type} [LinearOrderedField α] [FloorRing α]
    (streamer : WavReader α) (audioModel : σ) (N : Nat) (hannL hannR : HannFilter α)
    (hT : 1000 ≤ getNumSamplesPerChannel streamer) :
    AverageReady (processFileInit streamer audioModel N hannL hannR).averager := by
  obtain ⟨e1, e2, e3⟩ := processFileInit_averager streamer audioModel N hannL hannR
  refine ⟨by rw [e1]; omega, by rw [e2], by rw [e3, e1]; omega⟩

/-- The first evaluation of the loop condition of `processFile` and the first pass, on a stream
of fewer than 1000 samples per channel, at least one: the two reads return `true` and the `add`
of the averager goes through an iterator that points to no element of the empty history. -/
theorem processFilePass_short {α σ : Type} [LinearOrderedField α] [FloorRing α]
    (cos : α → α) (pi : α) (process : σ → List α → σ × List α) (uninit : Nat → α)
    (N : Nat) (s0 : WavReader α) (audioModel : σ) (hannL hannR : HannFilter α) (duration : α)
    (hb : s0.bitsPerSample = 16 ∨ s0.bitsPerSample = 24)
    (hc : s0.numChannels = 1 ∨ s0.numChannels = 2)
    (hsz : s0.chk.size < 4294967296)
    (hfile : s0.wavFile.gpos + s0.chk.size ≤ s0.wavFile.content.length)
    (hN2 : 2 ≤ N) (hN : N < 4294967296)
    (hp : AtPass N (getNumSamplesPerChannel s0) s0 0
      (processFileInit s0 audioModel N hannL hannR : ProcessState α σ))
    (hT1 : 1 ≤ getNumSamplesPerChannel s0) (hT : getNumSamplesPerChannel s0 < 1000) :
    processFilePass cos pi process uninit N s0.numChannels (getNumSamplesPerChannel s0) duration
      (processFileInit s0 audioModel N hannL hannR) = .error Failure.outOfBounds := by
  obtain ⟨e1, e2, e3⟩ := processFileInit_averager s0 audioModel N hannL hannR
  have hcond : (processFileInit s0 audioModel N hannL hannR : ProcessState α σ).outputSamples
      < getNumSamplesPerChannel s0 := by
    show 0 < _
    omega
  have hslot := addSlot_lt_iff (processFileInit s0 audioModel N hannL hannR).averager
    (getNumSamplesPerChannel s0 / 1000) e1 (by rw [e2]) (Or.inl (by omega))
  unfold processFilePass
  rw [if_pos hcond]
  exact processFileBody_add_error cos pi process uninit N s0 duration 0 _ hb hc hsz hfile hN2 hN
    hp _ (add_error _ duration (by rw [hslot]; omega)) hcond

/-- The loop of `processFile` on a stream of fewer than 1000 samples per channel, at least one:
it ends in its first pass, at the `add` of the averager. -/
theorem processFileLoop_short {α σ : Type} [LinearOrderedField α] [FloorRing α]
    (cos : α → α) (pi : α) (process : σ → List α → σ × List α) (uninit : Nat → α)
    (N : Nat) (s0 : WavReader α) (audioModel : σ) (hannL hannR : HannFilter α)
    (durations : Nat → α) (fuel : Nat)
    (hb : s0.bitsPerSample = 16 ∨ s0.bitsPerSample = 24)
    (hc : s0.numChannels = 1 ∨ s0.numChannels = 2)
    (hsz : s0.chk.size < 4294967296)
    (hfile : s0.wavFile.gpos + s0.chk.size ≤ s0.wavFile.content.length)
    (hN2 : 2 ≤ N) (hN : N < 4294967296)
    (hp : AtPass N (getNumSamplesPerChannel s0) s0 0
      (processFileInit s0 audioModel N hannL hannR : ProcessState α σ))
    (hT1 : 1 ≤ getNumSamplesPerChannel s0) (hT : getNumSamplesPerChannel s0 < 1000) :
    processFileLoop cos pi process uninit N s0.numChannels (getNumSamplesPerChannel s0)
      (fuel + 1) durations (processFileInit s0 audioModel N hannL hannR)
      = .error Failure.outOfBounds := by
  rw [processFileLoop, processFilePass_short cos pi process uninit N s0 audioModel hannL hannR
    (durations 0) hb hc hsz hfile hN2 hN hp hT1 hT]

/-- The passes of the loop of `processFile` on a stream of fewer than 1000 samples per channel,
at least one: the first of them ends at the `add` of the averager. -/
theorem processFilePasses_short {α σ : Type} [LinearOrderedField α] [FloorRing α]
    (cos : α → α) (pi : α) (process : σ → List α → σ × List α) (uninit : Nat → α)
    (N : Nat) (s0 : WavReader α) (audioModel : σ) (hannL hannR : HannFilter α)
    (durations : Nat → α) (i : Nat)
    (hb : s0.bitsPerSample = 16 ∨ s0.bitsPerSample = 24)
    (hc : s0.numChannels = 1 ∨ s0.numChannels = 2)
    (hsz : s0.chk.size < 4294967296)
    (hfile : s0.wavFile.gpos + s0.chk.size ≤ s0.wavFile.content.length)
    (hN2 : 2 ≤ N) (hN : N < 4294967296)
    (hp : AtPass N (getNumSamplesPerChannel s0) s0 0
      (processFileInit s0 audioModel N hannL hannR : ProcessState α σ))
    (hT1 : 1 ≤ getNumSamplesPerChannel s0) (hT : getNumSamplesPerChannel s0 < 1000) :
    processFilePasses cos pi process uninit N s0.numChannels (getNumSamplesPerChannel s0)
      (i + 1) durations (processFileInit s0 audioModel N hannL hannR)
      = .error Failure.outOfBounds := by
  rw [processFilePasses, processFilePass_short cos pi process uninit N s0 audioModel hannL hannR
    (durations 0) hb hc hsz hfile hN2 hN hp hT1 hT]

/-! ## Properties: the whole-window call of the Hann filter -/

/-- A call of `applyFilterInternal` with `sampleCnt = mHopSize` returns `true`; the sizes of the
filter stay as they are and `mHopSize` samples are emitted. -/
theorem applyFilterInternal_some {α σ : Type} [Field α]
    (cos : α → α) (pi : α) (process : σ → List α → σ × List α)
    (f : HannFilter α) (model : σ) (x : List α) :
    ∃ f1 m1 out, applyFilterInternal cos pi process f model x f.mHopSize = some (f1, m1, out) ∧
      f1.mWindowSize = f.mWindowSize ∧ f1.mHopSize = f.mHopSize ∧ out.length = f.mHopSize := by
  unfold applyFilterInternal
  rw [if_neg (by simp)]
  exact ⟨_, _, _, rfl, rfl, rfl, by simp⟩

/-- Two blocks of `hop` floats copied to the two halves of a buffer of `2 * hop` floats. -/
theorem memcpy_halves {α : Type} [Zero α] (out o1 o2 : List α) (hop : Nat)
    (ho : out.length = 2 * hop) (h1 : o1.length = hop) (h2 : o2.length = hop) :
    memcpy (memcpy out 0 o1 0 hop) hop o2 0 hop = o1 ++ o2 := by
  have e1 : memcpy out 0 o1 0 hop = o1 ++ out.drop hop := by
    simp only [memcpy, List.take_zero, List.nil_append, Nat.zero_add, List.drop_zero]
    rw [List.take_of_length_le (by omega)]
  rw [e1]
  simp only [memcpy, List.drop_zero]
  rw [List.take_append_of_le_length (by omega), List.take_of_length_le (by omega),
    List.take_of_length_le (by omega), List.drop_of_length_le (by simp; omega), List.append_nil]

/-! ## Properties: the position in the fmt chunk -/

theorem writeIf_extraSize {α : Type} (s : WavReader α) (b : List Byte) :
    (writeIf s b).extraSize = s.extraSize := by
  unfold writeIf
  split <;> rfl

/-- A member read adds its byte count to the position in the current chunk. -/
theorem readMember_chk {α : Type} (n : Nat) (store : WavReader α → Nat → WavReader α)
    (s r : WavReader α) (h : readMember n store s = .ok r)
    (hk : ∀ s v, (store s v).chk = s.chk) :
    r.chk = { s.chk with pos := (s.chk.pos + n) % 4294967296 } := by
  unfold readMember at h
  cases hread : read s.wavFile n (some s.chk) with
  | error e => rw [hread] at h; cases h
  | ok x =>
    obtain ⟨_, _, hx⟩ := read_inv _ _ _ _ hread
    rw [hread] at h
    simp only [Except.ok.injEq] at h
    subst h
    rw [writeIf_chk, hk, hx]
    rfl

theorem readMember_extraSize {α : Type} (n : Nat) (store : WavReader α → Nat → WavReader α)
    (s r : WavReader α) (h : readMember n store s = .ok r)
    (hk : ∀ s v, (store s v).extraSize = s.extraSize) : r.extraSize = s.extraSize := by
  unfold readMember at h
  cases hread : read s.wavFile n (some s.chk) with
  | error e => rw [hread] at h; cases h
  | ok x =>
    rw [hread] at h
    simp only [Except.ok.injEq] at h
    subst h
    rw [writeIf_extraSize, hk]

/-- The member `extraSize`, an `unsigned short`, after it was read. -/
theorem readMember_extraSize_lt {α : Type} (s r : WavReader α)
    (h : readMember 2 (fun s v => { s with extraSize := v }) s = .ok r) :
    r.extraSize < 65536 := by
  unfold readMember at h
  cases hread : read s.wavFile 2 (some s.chk) with
  | error e => rw [hread] at h; cases h
  | ok x =>
    obtain ⟨_, _, hx⟩ := read_inv _ _ _ _ hread
    rw [hread] at h
    simp only [Except.ok.injEq] at h
    subst h
    rw [writeIf_extraSize, hx]
    exact leValue_take_two_lt _

theorem getInfo_chk {α : Type} (s r : WavReader α) (h : getInfo s = .ok r)
    (hp : s.chk.pos + 14 < 4294967296) :
    r.chk = { s.chk with pos := s.chk.pos + 14 } ∧ r.extraSize = s.extraSize := by
  unfold getInfo at h
  cases h1 : readMember 2 (fun s v => { s with audioFormat := v }) s with
  | error e => rw [h1, error_bind, error_bind, error_bind, error_bind] at h; cases h
  | ok s1 =>
    rw [h1, ok_bind] at h
    cases h2 : readMember 2 (fun s v => { s with numChannels := v }) s1 with
    | error e => rw [h2, error_bind, error_bind, error_bind] at h; cases h
    | ok s2 =>
      rw [h2, ok_bind] at h
      cases h3 : readMember 4 (fun s v => { s with sampleRate := v }) s2 with
      | error e => rw [h3, error_bind, error_bind] at h; cases h
      | ok s3 =>
        rw [h3, ok_bind] at h
        cases h4 : readMember 4 (fun s v => { s with byteRate := v }) s3 with
        | error e => rw [h4, error_bind] at h; cases h
        | ok s4 =>
          rw [h4, ok_bind] at h
          have c1 := readMember_chk 2 _ s s1 h1 (fun _ _ => rfl)
          have c2 := readMember_chk 2 _ s1 s2 h2 (fun _ _ => rfl)
          have c3 := readMember_chk 4 _ s2 s3 h3 (fun _ _ => rfl)
          have c4 := readMember_chk 4 _ s3 s4 h4 (fun _ _ => rfl)
          have c5 := readMember_chk 2 _ s4 r h (fun _ _ => rfl)
          have x1 := readMember_extraSize 2 _ s s1 h1 (fun _ _ => rfl)
          have x2 := readMember_extraSize 2 _ s1 s2 h2 (fun _ _ => rfl)
          have x3 := readMember_extraSize 4 _ s2 s3 h3 (fun _ _ => rfl)
          have x4 := readMember_extraSize 4 _ s3 s4 h4 (fun _ _ => rfl)
          have x5 := readMember_extraSize 2 _ s4 r h (fun _ _ => rfl)
          refine ⟨?_, by rw [x5, x4, x3, x2, x1]⟩
          rw [c5, c4, c3, c2, c1]
          simp only [chunkHdr.mk.injEq, true_and]
          omega

theorem readExtension_chk {α : Type} (stack : Nat → Byte) (s r : WavReader α)
    (h : readExtension stack s = .ok r) (hp : s.chk.pos + s.extraSize < 4294967296) :
    r.chk = { s.chk with pos := s.chk.pos + s.extraSize } ∧ r.extraSize = s.extraSize := by
  unfold readExtension at h
  split_ifs at h with he
  · cases hread : read s.wavFile s.extraSize (some s.chk) with
    | error e => rw [hread] at h; cases h
    | ok x =>
      obtain ⟨_, _, hx⟩ := read_inv _ _ _ _ hread
      rw [hread] at h
      simp only [Except.ok.injEq] at h
      subst h
      rw [writeIf_chk, writeIf_extraSize, hx]
      simp only [Option.map_some', Option.getD_some, chunkHdr.mk.injEq, true_and, and_true]
      exact Nat.mod_eq_of_lt hp
  · simp only [Except.ok.injEq] at h
    subst h
    have : s.extraSize = 0 := by omega
    rw [this]
    exact ⟨rfl, rfl⟩

theorem skipInChk_chk {α : Type} (n : Nat) (s r : WavReader α) (h : skipInChk n s = .ok r) :
    r.chk = { s.chk with pos := (s.chk.pos + n) % 4294967296 } ∧ r.extraSize = s.extraSize := by
  unfold skipInChk at h
  cases hsk : skip s.wavFile n (some s.chk) with
  | error e => rw [hsk] at h; cases h
  | ok x =>
    obtain ⟨_, hx⟩ := skip_inv _ _ _ _ hsk
    rw [hsk] at h
    simp only [Except.ok.injEq] at h
    subst h
    rw [hx]
    exact ⟨rfl, rfl⟩

theorem bind_ok_inv {ε β γ : Type} (x : Except ε β) (f : β → Except ε γ) (r : γ)
    (h : (x >>= f) = .ok r) : ∃ m, x = .ok m ∧ f m = .ok r := by
  cases x with
  | error e => cases h
  | ok m => exact ⟨m, rfl, h⟩

/-- The branch of `updateInfo` for a fmt chunk, entered at the position 0 of the chunk: when it
returns, the position in the chunk is the declared size or the number of bytes read, whichever
is larger; 14 bytes are read, 2 more when the size is at least 16, and 2 and the extension more
when it is at least 18. -/
theorem fmtChunk_pos {α : Type} (stack : Nat → Byte) (s r : WavReader α)
    (h : fmtChunk stack s = .ok r) (hp : s.chk.pos = 0) (hsz : s.chk.size < 4294967296) :
    r.chk.id = s.chk.id ∧ r.chk.size = s.chk.size ∧
      r.chk.pos = max r.chk.size
        (14 + (if 16 ≤ r.chk.size then 2 else 0)
          + (if 18 ≤ r.chk.size then 2 + r.extraSize else 0)) := by
  have hid := keepsId_fmtChunk stack s r h
  rw [fmtChunk_eq] at h
  obtain ⟨s3, h123, hD⟩ := bind_ok_inv _ _ _ h
  obtain ⟨s2, h12, hC⟩ := bind_ok_inv _ _ _ h123
  obtain ⟨s1, h1, hB⟩ := bind_ok_inv _ _ _ h12
  obtain ⟨s0, hA, hG⟩ := bind_ok_inv _ _ _ h1
  simp only [] at hA hB hC hD
  clear h h123 h12 h1
  -- the header as the branch finds it
  have a0 : s0.chk = s.chk := by
    split_ifs at hA
    simp only [Except.ok.injEq] at hA
    rw [← hA]
    show (writeIf (writeIf { s with fmtPosition := s.chk.size } [102, 109, 116, 32])
      (leBytes 4 s.chk.size)).chk = _
    rw [writeIf_chk, writeIf_chk]
  -- the five leading fields
  obtain ⟨a1, _⟩ := getInfo_chk s0 s1 hG (by rw [a0, hp]; decide)
  rw [a0, hp] at a1
  clear hA hG
  have b1 : s1.chk.size = s.chk.size := by rw [a1]
  -- the bit depth
  have a2 : s2.chk = { s.chk with pos := 14 + (if 16 ≤ s.chk.size then 2 else 0) } := by
    rw [b1] at hB
    by_cases h16 : s.chk.size ≥ 16
    · rw [if_pos h16] at hB
      rw [readMember_chk 2 _ s1 s2 hB (fun _ _ => rfl), a1, if_pos h16]
      simp only [chunkHdr.mk.injEq, true_and]
    · rw [if_neg h16] at hB
      simp only [Except.ok.injEq] at hB
      rw [← hB, a1, if_neg h16]
  have b2 : s2.chk.size = s.chk.size := by rw [a2]
  clear hB
  -- the extension
  have a3 : s3.chk = { s.chk with pos := 14 + (if 16 ≤ s.chk.size then 2 else 0)
        + (if 18 ≤ s.chk.size then 2 + s3.extraSize else 0) } ∧
      (18 ≤ s.chk.size → s3.extraSize < 65536) := by
    rw [b2] at hC
    by_cases h18 : s.chk.size ≥ 18
    · rw [if_pos h18] at hC
      obtain ⟨s2', hx, hy⟩ := bind_ok_inv _ _ _ hC
      have c1 := readMember_chk 2 _ s2 s2' hx (fun _ _ => rfl)
      have c2 := readMember_extraSize_lt s2 s2' hx
      rw [a2, if_pos (by omega)] at c1
      have hpos' : s2'.chk.pos = 18 := by rw [c1]; norm_num
      obtain ⟨c3, c4⟩ := readExtension_chk stack s2' s3 hy (by rw [hpos']; omega)
      refine ⟨?_, fun _ => by rw [c4]; exact c2⟩
      rw [c3, c4, c1, if_pos (by omega), if_pos h18]
      simp only [chunkHdr.mk.injEq, true_and]
      norm_num
      omega
    · rw [if_neg h18] at hC
      simp only [Except.ok.injEq] at hC
      refine ⟨?_, fun h => absurd h h18⟩
      rw [← hC, a2, if_neg h18]
      rfl
  obtain ⟨a3, x3⟩ := a3
  have b3 : s3.chk.size = s.chk.size := by rw [a3]
  have p3 : s3.chk.pos = 14 + (if 16 ≤ s.chk.size then 2 else 0)
      + (if 18 ≤ s.chk.size then 2 + s3.extraSize else 0) := by rw [a3]
  -- the rest of the chunk
  by_cases hlt : s3.chk.pos < s3.chk.size
  · rw [if_pos hlt] at hD
    obtain ⟨d1, d2⟩ := skipInChk_chk _ s3 r hD
    have e1 : r.chk.size = s.chk.size := by rw [d1, b3]
    have e2 : r.chk.pos = s.chk.size := by
      rw [d1]
      show (s3.chk.pos + (s3.chk.size + 4294967296 - s3.chk.pos) % 4294967296) % 4294967296 = _
      rw [b3] at hlt ⊢
      omega
    refine ⟨hid, e1, ?_⟩
    rw [e2, e1, d2]
    rw [b3, p3] at hlt
    omega
  · rw [if_neg hlt] at hD
    simp only [Except.ok.injEq] at hD
    subst hD
    refine ⟨hid, b3, ?_⟩
    rw [b3]
    rw [b3] at hlt
    rw [p3] at hlt ⊢
    omega

/-- The loop of `updateInfo`, when it finds a fmt chunk on a reader that had parsed none: the
current chunk is that fmt chunk, and the position in it is the declared size or the number of
bytes read, whichever is larger. -/
theorem updateInfoLoop_fmt_pos {α : Type} (stack : Nat → Byte) :
    ∀ (fuel : Nat) (s r : WavReader α), updateInfoLoop stack fuel s = .ok r →
      s.fmtFound = false → r.fmtFound = true →
      isChunkID r.chk 102 109 116 32 = true ∧
        r.chk.pos = max r.chk.size
          (14 + (if 16 ≤ r.chk.size then 2 else 0)
            + (if 18 ≤ r.chk.size then 2 + r.extraSize else 0))
  | 0, s, r, h, _, _ => by cases h
  | fuel + 1, s, r, h, h0, h1 => by
    rw [updateInfoLoop] at h
    split_ifs at h with hcond
    · cases hrd : readSubChunk s with
      | error e => rw [hrd] at h; cases h
      | ok s1 =>
        rw [hrd] at h
        simp only [] at h
        obtain ⟨_, _, hs1⟩ := readSubChunk_inv s s1 hrd
        have hf1 : s1.fmtFound = s.fmtFound := by rw [hs1]
        have hp1 : s1.chk.pos = 0 := by rw [hs1]
        have hz1 : s1.chk.size < 4294967296 := by
          rw [hs1]
          exact leValue_take_four_lt _
        split_ifs at h with hid
        · obtain ⟨e1, e2, e3⟩ := fmtChunk_pos stack s1 r h hp1 hz1
          refine ⟨?_, e3⟩
          rw [← hid]
          unfold isChunkID
          rw [e1]
        · cases hsk : skipChunk s1 with
          | error e => rw [hsk] at h; cases h
          | ok s2 =>
            rw [hsk] at h
            simp only [] at h
            exact updateInfoLoop_fmt_pos stack fuel s2 r h
              (by rw [(skipChunk_inv s1 s2 hsk).2.2, hf1, h0]) h1
    · simp only [Except.ok.injEq] at h
      rw [h, h1] at h0
      cases h0

/-! ## Properties: the passes of the loop of `processFile` -/

/-- Induction over the passes of the loop of `processFile` that ran: a property of the state at
the head of the loop that holds before the first pass and that every pass run from a head of the
loop carries on, holds after all of them, together with the state of the head of the loop. -/
theorem processFilePasses_induct {α σ : Type} [LinearOrderedField α] [FloorRing α]
    (cos : α → α) (pi : α) (process : σ → List α → σ × List α) (uninit : Nat → α)
    (N : Nat) (s0 : WavReader α)
    (hb : s0.bitsPerSample = 16 ∨ s0.bitsPerSample = 24)
    (hc : s0.numChannels = 1 ∨ s0.numChannels = 2)
    (hsz : s0.chk.size < 4294967296)
    (hfile : s0.wavFile.gpos + s0.chk.size ≤ s0.wavFile.content.length)
    (hN2 : 2 ≤ N) (hN : N < 4294967296)
    (I : Nat → ProcessState α σ → Prop)
    (hstep : ∀ (k : Nat) (p p1 : ProcessState α σ) (d : α),
      AtPass N (getNumSamplesPerChannel s0) s0 k p → I k p →
      p.outputSamples < getNumSamplesPerChannel s0 →
      processFileBody cos pi process uninit N s0.numChannels d p = .ok (p1, true) →
      AtPass N (getNumSamplesPerChannel s0) s0 (k + 1) p1 → I (k + 1) p1) :
    ∀ (i k : Nat) (durations : Nat → α) (p p1 : ProcessState α σ),
      AtPass N (getNumSamplesPerChannel s0) s0 k p → I k p →
      processFilePasses cos pi process uninit N s0.numChannels (getNumSamplesPerChannel s0)
        i durations p = .ok (p1, true) →
      AtPass N (getNumSamplesPerChannel s0) s0 (k + i) p1 ∧ I (k + i) p1
  | 0, k, _, p, p1, hp, hI, h => by
    simp only [processFilePasses, Except.ok.injEq, Prod.mk.injEq, and_true] at h
    rw [← h]
    exact ⟨hp, hI⟩
  | i + 1, k, durations, p, p1, hp, hI, h => by
    rw [processFilePasses] at h
    by_cases hcond : p.outputSamples < getNumSamplesPerChannel s0
    · unfold processFilePass at h
      rw [if_pos hcond] at h
      cases hbody : processFileBody cos pi process uninit N s0.numChannels (durations 0) p with
      | error e => rw [hbody] at h; cases h
      | ok x =>
        obtain ⟨p2, b⟩ := x
        rw [hbody] at h
        cases b with
        | false => simp at h
        | true =>
          simp only [] at h
          have hp2 := processFileBody_AtPass cos pi process uninit N s0 (durations 0) k p p2 hb hc
            hsz hfile hN2 hN hp hcond hbody
          have hI2 := hstep k p p2 (durations 0) hp hI hcond hbody hp2
          have e : k + (i + 1) = k + 1 + i := by omega
          rw [e]
          exact processFilePasses_induct cos pi process uninit N s0 hb hc hsz hfile hN2 hN I hstep
            i (k + 1) _ p2 p1 hp2 hI2 h
    · have h2 : processFilePass cos pi process uninit N s0.numChannels
          (getNumSamplesPerChannel s0) (durations 0) p = .ok (p, false) := by
        unfold processFilePass
        rw [if_neg hcond]
      rw [h2] at h
      simp at h

/-- The loop of `processFile`, when it returns, has run some passes that went on and then one
that ended it. -/
theorem processFileLoop_inv {α σ : Type} [LinearOrderedField α] [FloorRing α]
    (cos : α → α) (pi : α) (process : σ → List α → σ × List α) (uninit : Nat → α)
    (N c T : Nat) :
    ∀ (fuel : Nat) (durations : Nat → α) (p r : ProcessState α σ),
      processFileLoop cos pi process uninit N c T fuel durations p = .ok r →
      ∃ i q, i < fuel ∧
        processFilePasses cos pi process uninit N c T i durations p = .ok (q, true) ∧
        processFilePass cos pi process uninit N c T (durations i) q = .ok (r, false)
  | 0, _, _, _, h => by cases h
  | fuel + 1, durations, p, r, h => by
    rw [processFileLoop] at h
    cases hpass : processFilePass cos pi process uninit N c T (durations 0) p with
    | error e => rw [hpass] at h; cases h
    | ok x =>
      obtain ⟨p1, b⟩ := x
      rw [hpass] at h
      cases b with
      | false =>
        simp only [Except.ok.injEq] at h
        subst h
        exact ⟨0, p, by omega, rfl, hpass⟩
      | true =>
        simp only [] at h
        obtain ⟨i, q, h1, h2, h3⟩ := processFileLoop_inv cos pi process uninit N c T fuel _ p1 r h
        refine ⟨i + 1, q, by omega, ?_, h3⟩
        rw [processFilePasses, hpass]
        exact h2

/-- The state in which the loop of `processFile` ends on a supported stream: the head of the
loop after some passes that ran, with the loop condition false. -/
theorem processFileLoop_end {α σ : Type} [LinearOrderedField α] [FloorRing α]
    (cos : α → α) (pi : α) (process : σ → List α → σ × List α) (uninit : Nat → α)
    (N : Nat) (s0 : WavReader α)
    (hb : s0.bitsPerSample = 16 ∨ s0.bitsPerSample = 24)
    (hc : s0.numChannels = 1 ∨ s0.numChannels = 2)
    (hsz : s0.chk.size < 4294967296)
    (hfile : s0.wavFile.gpos + s0.chk.size ≤ s0.wavFile.content.length)
    (hN2 : 2 ≤ N) (hN : N < 4294967296)
    (fuel : Nat) (durations : Nat → α) (p r : ProcessState α σ)
    (hp : AtPass N (getNumSamplesPerChannel s0) s0 0 p)
    (h : processFileLoop cos pi process uninit N s0.numChannels (getNumSamplesPerChannel s0)
      fuel durations p = .ok r) :
    ∃ i, processFilePasses cos pi process uninit N s0.numChannels (getNumSamplesPerChannel s0)
        i durations p = .ok (r, true) ∧
      AtPass N (getNumSamplesPerChannel s0) s0 i r ∧
      getNumSamplesPerChannel s0 ≤ r.outputSamples := by
  obtain ⟨i, q, _, h2, h3⟩ := processFileLoop_inv cos pi process uninit N _ _ fuel durations p r h
  obtain ⟨hq, _⟩ := processFilePasses_induct cos pi process uninit N s0 hb hc hsz hfile hN2 hN
    (fun _ _ => True) (fun _ _ _ _ _ _ _ _ _ => trivial) i 0 durations p q hp trivial h2
  rw [Nat.zero_add] at hq
  by_cases hcond : q.outputSamples < getNumSamplesPerChannel s0
  · unfold processFilePass at h3
    rw [if_pos hcond] at h3
    exact absurd h3 (processFileBody_no_break cos pi process uninit N s0 (durations i) i q r hb hc
      hsz hfile hN2 hN hq hcond)
  · unfold processFilePass at h3
    rw [if_neg hcond] at h3
    simp only [Except.ok.injEq, Prod.mk.injEq, and_true] at h3
    subst h3
    exact ⟨i, h2, hq, by omega⟩

/-- The block of channel 0 that a call of `getNextAudioBlock` yields on a supported stream whose
data lies in the file: the call returns `true`, the buffer holds the samples of channel 0 of the
next `n` frames, or of the whole frames that are left of the data chunk when these are fewer,
followed by zeros; the flag `isEofReached` stays unset. -/
theorem getNextAudioBlock_ch0_block {α : Type} [LinearOrderedField α] (uninit : Nat → α)
    (s : WavReader α) (bufL : List α) (n : Nat) (hs : Supported s)
    (he : s.isEofReached = false) (hn1 : 1 ≤ n) (hn : n < 2 ^ 61) (hbuf : bufL.length = n)
    (hR : ∀ R, s.bufferToFillR = some R → n ≤ R.length)
    (hpos : s.chk.pos ≤ s.chk.size)
    (hfile : s.wavFile.gpos + (s.chk.size - s.chk.pos) ≤ s.wavFile.content.length) :
    ∃ s1 : WavReader α,
      getNextAudioBlock uninit s (some bufL) 0 n =
        .ok (s1, true, storeFrom (List.replicate n 0) 0
          ((List.range (min n ((s.chk.size - s.chk.pos) / frameBytes s))).map
            fun i => decodeSample s 0 (frameAt s i))) ∧
      s1.isEofReached = false := by
  obtain ⟨hf, hb, hc, hg, hsz⟩ := id hs
  have hB := frameBytes_pos s hb hc
  have hdm := Nat.div_mul_le_self (s.chk.size - s.chk.pos) (frameBytes s)
  obtain ⟨_, _, _, w4, _, _, _, _⟩ := withBlock_fields uninit s n
  by_cases hfull : s.chk.pos + n * frameBytes s ≤ s.chk.size
  · have hmin : min n ((s.chk.size - s.chk.pos) / frameBytes s) = n := by
      have : n ≤ (s.chk.size - s.chk.pos) / frameBytes s := by
        rw [Nat.le_div_iff_mul_le (by omega)]
        omega
      omega
    have h1 := getNextAudioBlock_ch0_full uninit s bufL n hs he hn1 hbuf hR hfull (by omega)
    rw [hmin]
    refine ⟨_, h1, ?_⟩
    show (withBlock uninit s n).isEofReached = false
    rw [w4]
    exact he
  · have hlt : (s.chk.size - s.chk.pos) / frameBytes s < n := by
      rw [Nat.div_lt_iff_lt_mul (by omega)]
      omega
    have h1 := getNextAudioBlock_ch0_short uninit s bufL n _ hs he hn hbuf hR hpos rfl hlt
      (by omega)
    rw [min_eq_right (by omega)]
    refine ⟨_, h1, ?_⟩
    show (withBlock uninit s n).isEofReached = false
    rw [w4]
    exact he

/-- What the state at the head of the loop with the loop condition true provides for the reads
of the next pass. -/
theorem AtPass_reads {α σ : Type} [LinearOrderedField α] (N : Nat) (s0 : WavReader α)
    (k : Nat) (p : ProcessState α σ)
    (hb : s0.bitsPerSample = 16 ∨ s0.bitsPerSample = 24)
    (hc : s0.numChannels = 1 ∨ s0.numChannels = 2)
    (hsz : s0.chk.size < 4294967296)
    (hfile : s0.wavFile.gpos + s0.chk.size ≤ s0.wavFile.content.length)
    (hp : AtPass N (getNumSamplesPerChannel s0) s0 k p)
    (hcond : p.outputSamples < getNumSamplesPerChannel s0) :
    Supported p.streamer ∧ p.streamer.isEofReached = false ∧ p.bufferL.length = N ∧
      p.streamer.chk.pos ≤ p.streamer.chk.size ∧
      p.streamer.wavFile.gpos + (p.streamer.chk.size - p.streamer.chk.pos)
        ≤ p.streamer.wavFile.content.length ∧
      frameBytes p.streamer = frameBytes s0 ∧
      p.streamer.chk.pos = k * N * frameBytes s0 ∧
      p.streamer.wavFile.gpos = s0.wavFile.gpos + k * N * frameBytes s0 ∧
      k * N ≤ getNumSamplesPerChannel s0 ∧
      (∀ R, p.streamer.bufferToFillR = some R → N ≤ R.length) := by
  obtain ⟨hkN, _⟩ := AtPass_blocks N _ s0 k p hp hcond
  obtain ⟨i1, i2, i3, i4, i5, i6, i7, i8, i9, i10, i11⟩ := hp
  obtain ⟨j1, j2, j3, j4⟩ := i11 hcond
  have hTle := getNumSamplesPerChannel_le s0 hb hc
  have hkfb : k * N * frameBytes s0 ≤ getNumSamplesPerChannel s0 * frameBytes s0 :=
    Nat.mul_le_mul_right _ hkN
  have hfb : frameBytes p.streamer = frameBytes s0 := by
    unfold frameBytes; rw [i3, i4]
  exact ⟨⟨i2, by rw [i3]; exact hb, by rw [i4]; exact hc, i5, by rw [i7]; exact hsz⟩, j4, i1,
    by rw [j1, i7]; omega, by rw [j2, i7, i6, j1]; omega, hfb, j1, j2, hkN, i8.2⟩

/-- The passes of the loop of `processFile`, the last one taken apart: `i + 1` passes ran when
`i` passes ran and the pass from the state they led to went on. -/
theorem processFilePasses_succ {α σ : Type} [LinearOrderedField α] [FloorRing α]
    (cos : α → α) (pi : α) (process : σ → List α → σ × List α) (uninit : Nat → α)
    (N c T : Nat) :
    ∀ (i : Nat) (durations : Nat → α) (p p1 : ProcessState α σ),
      processFilePasses cos pi process uninit N c T (i + 1) durations p = .ok (p1, true) →
      ∃ q, processFilePasses cos pi process uninit N c T i durations p = .ok (q, true) ∧
        processFilePass cos pi process uninit N c T (durations i) q = .ok (p1, true)
  | 0, durations, p, p1, h => by
    rw [processFilePasses] at h
    cases hpass : processFilePass cos pi process uninit N c T (durations 0) p with
    | error e => rw [hpass] at h; cases h
    | ok x =>
      obtain ⟨p2, b⟩ := x
      rw [hpass] at h
      cases b with
      | false => simp at h
      | true =>
        simp only [processFilePasses, Except.ok.injEq, Prod.mk.injEq, and_true] at h
        subst h
        exact ⟨p, rfl, hpass⟩
  | i + 1, durations, p, p1, h => by
    rw [processFilePasses] at h
    cases hpass : processFilePass cos pi process uninit N c T (durations 0) p with
    | error e => rw [hpass] at h; cases h
    | ok x =>
      obtain ⟨p2, b⟩ := x
      rw [hpass] at h
      cases b with
      | false => simp at h
      | true =>
        simp only [] at h
        obtain ⟨q, h1, h2⟩ := processFilePasses_succ cos pi process uninit N c T i _ p2 p1 h
        refine ⟨q, ?_, h2⟩
        rw [processFilePasses, hpass]
        exact h1

/-- When `i` passes of the loop ran, so did every smaller number of passes. -/
theorem processFilePasses_upto {α σ : Type} [LinearOrderedField α] [FloorRing α]
    (cos : α → α) (pi : α) (process : σ → List α → σ × List α) (uninit : Nat → α)
    (N c T : Nat) (durations : Nat → α) (p : ProcessState α σ) :
    ∀ (i : Nat) (p1 : ProcessState α σ),
      processFilePasses cos pi process uninit N c T i durations p = .ok (p1, true) →
      ∀ j, j ≤ i →
        ∃ q, processFilePasses cos pi process uninit N c T j durations p = .ok (q, true)
  | 0, p1, h, j, hj => by
    have : j = 0 := by omega
    subst this
    exact ⟨p1, h⟩
  | i + 1, p1, h, j, hj => by
    by_cases hji : j = i + 1
    · subst hji
      exact ⟨p1, h⟩
    · obtain ⟨q, h1, _⟩ := processFilePasses_succ cos pi process uninit N c T i durations p p1 h
      exact processFilePasses_upto cos pi process uninit N c T durations p i q h1 j (by omega)

/-- A pass of the loop raises `outputSamples`, which is `writtenSamples + N / 2` after it. -/
theorem AtPass_grow {α σ : Type} [LinearOrderedField α] (N T : Nat) (s0 : WavReader α)
    (k : Nat) (p p1 : ProcessState α σ) (hN2 : 2 ≤ N)
    (hp : AtPass N T s0 k p) (hp1 : AtPass N T s0 (k + 1) p1) (hcond : p.outputSamples < T) :
    p.outputSamples < p1.outputSamples ∧
      p1.outputSamples = p1.streamer.writtenSamples + N / 2 := by
  obtain ⟨_, c2⟩ := AtPass_counters N _ s0 k p hp
  obtain ⟨d1, d2⟩ := AtPass_counters N _ s0 (k + 1) p1 hp1
  rw [if_neg (by omega), Nat.add_sub_cancel] at d1 d2
  refine ⟨?_, by rw [d2, d1]⟩
  rw [c2] at hcond
  rw [c2, d2]
  rcases Nat.eq_zero_or_pos k with hk | hk
  · rw [if_pos hk]
    omega
  · obtain ⟨j, rfl⟩ : ∃ j, k = j + 1 := ⟨k - 1, by omega⟩
    rw [if_neg (by omega), Nat.add_sub_cancel] at hcond ⊢
    rw [Nat.succ_mul]
    omega

/-- The loop of `processFile` on a supported stream whose data lies in the file, with an
averager that can take a value, throws nothing and makes no invalid access: it can only fail by
running out of the fuel of the model. -/
theorem processFileLoop_errors {α σ : Type} [LinearOrderedField α] [FloorRing α]
    (cos : α → α) (pi : α) (process : σ → List α → σ × List α) (uninit : Nat → α)
    (N : Nat) (s0 : WavReader α)
    (hb : s0.bitsPerSample = 16 ∨ s0.bitsPerSample = 24)
    (hc : s0.numChannels = 1 ∨ s0.numChannels = 2)
    (hsz : s0.chk.size < 4294967296)
    (hfile : s0.wavFile.gpos + s0.chk.size ≤ s0.wavFile.content.length)
    (hN2 : 2 ≤ N) (hN : N < 4294967296) :
    ∀ (fuel k : Nat) (durations : Nat → α) (p : ProcessState α σ) (e : Failure),
      AtPass N (getNumSamplesPerChannel s0) s0 k p → AverageReady p.averager →
      processFileLoop cos pi process uninit N s0.numChannels (getNumSamplesPerChannel s0)
        fuel durations p = .error e → e = Failure.outOfFuel
  | 0, _, _, _, e, _, _, h => by
    simp only [processFileLoop, Except.error.injEq] at h
    exact h.symm
  | fuel + 1, k, durations, p, e, hp, hav, h => by
    rw [processFileLoop] at h
    by_cases hcond : p.outputSamples < getNumSamplesPerChannel s0
    · obtain ⟨p1, h1, hp1, hav1⟩ := processFilePass_spec cos pi process uninit N s0
        (durations 0) k p hb hc hsz hfile hN2 hN hp hav hcond
      rw [h1] at h
      exact processFileLoop_errors cos pi process uninit N s0 hb hc hsz hfile hN2 hN fuel (k + 1)
        _ p1 e hp1 hav1 h
    · have h1 : processFilePass cos pi process uninit N s0.numChannels
          (getNumSamplesPerChannel s0) (durations 0) p = .ok (p, false) := by
        unfold processFilePass
        rw [if_neg hcond]
      rw [h1] at h
      cases h

/-- The function `processFile` on a stream of at least 1000 samples per channel: the loop ends
without a throw (every fuel above `T` is enough), and at its end
`T - N / 2 ≤ writtenSamples ≤ T`. -/
theorem processFile_runs {α σ : Type} [LinearOrderedField α] [FloorRing α]
    (cos : α → α) (pi : α) (process : σ → List α → σ × List α) (stack : Nat → Byte)
    (garbage st : WavReader α) (clearedLow : Nat → α → α) (heap : Nat → Nat → α)
    (audioModel : σ) (N : Nat) (input : List Byte) (out : Option OutFile) (durations : Nat → α)
    (fuel : Nat)
    (hload : loadWithOutput stack (newReader garbage) (openFile input) out = .ok (st, true))
    (hfmt : st.fmtFound = true)
    (hb : st.bitsPerSample = 16 ∨ st.bitsPerSample = 24)
    (hc : st.numChannels = 1 ∨ st.numChannels = 2)
    (hdata : st.wavFile.gpos + st.chk.size ≤ input.length)
    (hT : 1000 ≤ getNumSamplesPerChannel st) (hN2 : 2 ≤ N) (hN : N < 4294967296)
    (hfuel : getNumSamplesPerChannel st < fuel) :
    ∃ p, processFile cos pi process stack garbage clearedLow heap audioModel N input out
        durations fuel = .ok (some p) ∧
      getNumSamplesPerChannel st - N / 2 ≤ p.streamer.writtenSamples ∧
      p.streamer.writtenSamples ≤ getNumSamplesPerChannel st := by
  obtain ⟨h0, hsz, hcont⟩ := loadWithOutput_AtPass stack garbage st input out true audioModel N
    (newHannFilter clearedLow (heap 0) (heap 1) N) (newHannFilter clearedLow (heap 2) (heap 3) N)
    hload hfmt
  obtain ⟨p1, k1, e1, e2, _, e4, e5⟩ := processFileLoop_spec cos pi process (heap 4) N st hb hc
    hsz (by rw [hcont]; exact hdata) hN2 hN (by omega) fuel 0 durations _ h0
    (processFileInit_ready st audioModel N _ _ hT) (by
      show getNumSamplesPerChannel st - 0 < fuel
      omega)
  obtain ⟨c1, c2⟩ := AtPass_counters N _ st k1 p1 e4
  rw [if_neg (by omega)] at c1 c2
  refine ⟨p1, ?_, by omega, by omega⟩
  unfold processFile
  rw [hload]
  simp only [Bool.true_eq_false, if_false, e1]

/-! ## Properties: the bytes of the output file -/

theorem writerState_withBlock {α : Type} [LinearOrderedField α] (uninit : Nat → α)
    (st : WavReader α) (n : Nat) : writerState (withBlock uninit st n) = writerState st := by
  unfold withBlock
  split <;> rfl

theorem copyLoop_writer {α : Type} [LinearOrderedField α] (B N : Nat) :
    ∀ (fuel : Nat) (s r : WavReader α) (dbr idx : Nat) (buf out : List α),
      copyLoop B N fuel s dbr idx buf = .ok (r, out) → writerState r = writerState s
  | 0, s, r, dbr, idx, buf, out, h => by cases h
  | fuel + 1, s, r, dbr, idx, buf, out, h => by
    rw [copyLoop] at h
    split_ifs at h with hcond
    · cases hf : copyFrame B s idx buf with
      | error e => rw [hf] at h; cases h
      | ok x =>
        obtain ⟨s1, b1⟩ := x
        rw [hf] at h
        simp only [] at h
        obtain ⟨f1, R1, hs1⟩ := copyFrame_fields B s s1 idx buf b1 hf
        rw [copyLoop_writer B N fuel s1 r _ _ b1 out h, hs1]
        rfl
    · simp only [Except.ok.injEq, Prod.mk.injEq] at h
      rw [← h.1]

theorem fillDataBuffer_writer {α : Type} [LinearOrderedField α] (s r : WavReader α)
    (buf out : List α) (enough : Bool) (h : fillDataBuffer s buf enough = .ok (r, out)) :
    writerState r = writerState s := by
  unfold fillDataBuffer at h
  cases hchk : checkForExceptions s 0 s.mBufferSize with
  | error e => rw [hchk] at h; cases h
  | ok u =>
    rw [hchk] at h
    simp only [] at h
    have key : ∀ B N, copyToBuffer s B buf N = .ok (r, out) → writerState r = writerState s := by
      intro B N hcp
      unfold copyToBuffer at hcp
      split_ifs at hcp <;> exact copyLoop_writer B N _ s r _ _ _ out hcp
    split_ifs at h <;> exact key _ _ h

/-- A call of `getNextAudioBlock` leaves what the writer works on as it is. -/
theorem getNextAudioBlock_writer {α : Type} [LinearOrderedField α] (uninit : Nat → α)
    (s r : WavReader α) (buf out : List α) (channel : Int) (n : Nat) (ok : Bool)
    (h : getNextAudioBlock uninit s (some buf) channel n = .ok (r, ok, out)) :
    writerState r = writerState s := by
  have hw := writerState_withBlock uninit s n
  cases hchk : checkForExceptions (withBlock uninit s n) channel n with
  | error e =>
    rw [getNextAudioBlock_checked_error uninit s buf channel n e hchk] at h
    cases h
  | ok u =>
    rw [getNextAudioBlock_unfold uninit s buf channel n hchk] at h
    by_cases hch : channel = 0
    · rw [if_pos hch] at h
      cases hen : enoughSamplesLeft (withBlock uninit s n) with
      | true =>
        rw [hen] at h
        simp only [if_true] at h
        cases hf : fillDataBuffer (withBlock uninit s n) buf true with
        | error e => rw [hf] at h; cases h
        | ok x =>
          obtain ⟨r1, out1⟩ := x
          rw [hf] at h
          simp only [] at h
          have := fillDataBuffer_writer _ r1 buf out1 true hf
          split_ifs at h
          · split at h
            · cases h
            · simp only [Except.ok.injEq, Prod.mk.injEq] at h
              rw [← h.1, ← hw, ← this]
              try rfl
          · simp only [Except.ok.injEq, Prod.mk.injEq] at h
            rw [← h.1, ← hw, ← this]
            try rfl
      | false =>
        rw [hen] at h
        simp only [Bool.false_eq_true, if_false] at h
        cases hf : fillDataBuffer (withBlock uninit s n) buf false with
        | error e => rw [hf] at h; cases h
        | ok x =>
          obtain ⟨r1, out1⟩ := x
          rw [hf] at h
          simp only [] at h
          have := fillDataBuffer_writer _ r1 buf out1 false hf
          split_ifs at h
          · split at h
            · cases h
            · simp only [Except.ok.injEq, Prod.mk.injEq] at h
              rw [← h.1, ← hw, ← this]
              try rfl
          · simp only [Except.ok.injEq, Prod.mk.injEq] at h
            rw [← h.1, ← hw, ← this]
            try rfl
    · rw [if_neg hch] at h
      simp only [] at h
      split_ifs at h
      · split at h
        · cases h
        · simp only [Except.ok.injEq, Prod.mk.injEq] at h
          rw [← h.1, ← hw]
          try rfl
      · simp only [Except.ok.injEq, Prod.mk.injEq] at h
        rw [← h.1, ← hw]
        try rfl

theorem flatMap_length_const {β : Type} (f : Nat → List β) (m : Nat)
    (hf : ∀ i, (f i).length = m) : ∀ k, ((List.range k).flatMap f).length = k * m
  | 0 => by simp
  | k + 1 => by
    rw [List.range_succ, List.flatMap_append, List.length_append, flatMap_length_const f m hf k]
    simp only [List.flatMap_cons, List.flatMap_nil, List.append_nil, hf]
    ring

theorem convertFloatTo24Bits_length {α : Type} [LinearOrderedField α] [FloorRing α] (x : α) :
    (convertFloatTo24Bits x).length = 3 := rfl

theorem sampleToFile_length {α : Type} [LinearOrderedField α] [FloorRing α] (bits : Nat) (x : α)
    (hb : bits = 16 ∨ bits = 24) : (sampleToFile bits x).length = bits / 8 := by
  unfold sampleToFile
  rcases hb with h | h <;> subst h <;> simp [convertFloatTo24Bits]

/-- The bytes that the loops of `writeToFile` write for `m` frames, with a buffer for channel 1
exactly when the stream has two channels and the scratch buffer existing exactly then. -/
theorem writeSamples_length {α : Type} [LinearOrderedField α] [FloorRing α] (st : WavReader α)
    (bufL : List α) (bufR : Option (List α)) (m : Nat)
    (hb : st.bitsPerSample = 16 ∨ st.bitsPerSample = 24)
    (hc : st.numChannels = 1 ∨ st.numChannels = 2)
    (hR : bufR.isSome = true ↔ st.numChannels = 2)
    (hM : st.bufferToFillR.isSome = true ↔ st.numChannels = 2) :
    ∃ bytes, writeSamples st bufL bufR ((m : Nat) : Int) = .ok bytes ∧
      bytes.length = m * frameBytes st := by
  unfold writeSamples frameBytes
  by_cases h16 : st.bitsPerSample = 16
  · rw [if_pos h16, if_neg]
    · refine ⟨_, rfl, ?_⟩
      rw [Int.toNat_ofNat]
      apply flatMap_length_const
      intro i
      rw [List.length_append, sampleToFile_length _ _ hb]
      rcases hc with h1 | h2
      · have hn : ¬ st.bufferToFillR.isSome = true := by
          intro hs
          have := hM.mp hs
          omega
        rw [if_neg hn, h1]
        simp
      · rw [if_pos (hM.mpr h2), sampleToFile_length _ _ hb, h2]
        ring
    · rintro ⟨_, h2, h3⟩
      have := hR.mpr (hM.mp h2)
      rw [Option.isNone_iff_eq_none] at h3
      rw [h3] at this
      cases this
  · have h24 : st.bitsPerSample = 24 := by omega
    rw [if_neg h16, if_pos h24]
    refine ⟨_, rfl, ?_⟩
    rw [Int.toNat_ofNat]
    apply flatMap_length_const
    intro i
    rw [List.length_append, convertFloatTo24Bits_length, h24]
    rcases hc with h1 | h2
    · have : bufR = none := by
        cases hs : bufR with
        | none => rfl
        | some x =>
          have := hR.mp (by rw [hs]; rfl)
          omega
      rw [this, h1]
      rfl
    · obtain ⟨x, hx⟩ := Option.isSome_iff_exists.mp (hR.mpr h2)
      rw [hx, h2]
      rfl

/-- A write as `processFile` makes it, with a buffer for channel 1 exactly when the stream has
two channels and the scratch buffer existing exactly then: the call returns `true`, the counter
grows by the count capped to what remains, and that many frames of bytes go to the output file
at its position. -/
theorem writeToFile_bytes {α : Type} [LinearOrderedField α] [FloorRing α] (st : WavReader α)
    (bufL : List α) (bufR : Option (List α)) (c : Nat)
    (hb : st.bitsPerSample = 16 ∨ st.bitsPerSample = 24)
    (hc : st.numChannels = 1 ∨ st.numChannels = 2)
    (hW : st.writtenSamples ≤ getNumSamplesPerChannel st)
    (hR : bufR.isSome = true ↔ st.numChannels = 2)
    (hM : st.bufferToFillR.isSome = true ↔ st.numChannels = 2) :
    ∃ s3 bytes, writeToFile st (some bufL) bufR c = .ok (s3, true) ∧
      s3.writtenSamples
        = st.writtenSamples + min (getNumSamplesPerChannel st - st.writtenSamples) c ∧
      bytes.length = min (getNumSamplesPerChannel st - st.writtenSamples) c * frameBytes st ∧
      s3.outWavFile = st.outWavFile.map (fun o => o.fwrite bytes) ∧
      s3.dataHdrSizeOffset = st.dataHdrSizeOffset ∧ s3.riffSizeOffset = st.riffSizeOffset := by
  have hT := getNumSamplesPerChannel_lt st hb
  have hrem : (getNumSamplesPerChannel st + 18446744073709551616 - st.writtenSamples)
      % 18446744073709551616 = getNumSamplesPerChannel st - st.writtenSamples := by
    omega
  have hmin : (if getNumSamplesPerChannel st - st.writtenSamples < c then
      ((getNumSamplesPerChannel st - st.writtenSamples : Nat) : Int) else (c : Int))
      = ((min (getNumSamplesPerChannel st - st.writtenSamples) c : Nat) : Int) := by
    split_ifs with h
    · rw [min_eq_left (by omega)]
    · rw [min_eq_right (by omega)]
  have hsmall : min (getNumSamplesPerChannel st - st.writtenSamples) c < 268435456 := by
    omega
  have h32 : toInt32 ((min (getNumSamplesPerChannel st - st.writtenSamples) c : Nat) : Int)
      = ((min (getNumSamplesPerChannel st - st.writtenSamples) c : Nat) : Int) := by
    unfold toInt32
    omega
  generalize min (getNumSamplesPerChannel st - st.writtenSamples) c = m at hmin hsmall h32 ⊢
  obtain ⟨bytes, hbytes, hlen⟩ := writeSamples_length ({ st with mBufferSize := c } : WavReader α)
    bufL bufR m hb hc hR hM
  have hfin : ((st.writtenSamples : Int) + ((m : Nat) : Int)).toNat % 18446744073709551616
      = st.writtenSamples + m := by
    omega
  refine ⟨{ fwriteOut ({ st with mBufferSize := c } : WavReader α) bytes with
      writtenSamples := st.writtenSamples + m }, bytes, ?_, rfl, hlen, rfl, rfl, rfl⟩
  unfold writeToFile
  simp only [hrem, hmin, h32, hbytes, hfin]

/-- A block written at the end of a file is appended to it. -/
theorem fwrite_at_end (o : OutFile) (b : List Byte) (h : o.fpos = o.content.length) :
    (o.fwrite b).content = o.content ++ b ∧ (o.fwrite b).fpos = o.fpos + b.length := by
  refine ⟨?_, rfl⟩
  unfold OutFile.fwrite
  simp only []
  rw [h, List.take_length, Nat.sub_self, List.replicate_zero, List.append_nil,
    List.drop_of_length_le (by omega), List.append_nil]

theorem CopiesHeader_congr {α : Type} (s r : WavReader α)
    (h1 : r.writeToOutput = s.writeToOutput) (h2 : r.riffSizeOffset = s.riffSizeOffset)
    (h3 : r.outWavFile = s.outWavFile) (h : CopiesHeader s) : CopiesHeader r := by
  unfold CopiesHeader at h ⊢
  rw [h1, h2, h3]
  exact h

theorem CopiesHeader_fwriteOut {α : Type} (s : WavReader α) (b : List Byte)
    (h : CopiesHeader s) : CopiesHeader (fwriteOut s b) := by
  obtain ⟨h1, h2, o, h3, h4, h5⟩ := h
  obtain ⟨e1, e2⟩ := fwrite_at_end o b h4
  refine ⟨h1, h2, o.fwrite b, ?_, ?_, ?_⟩
  · show s.outWavFile.map _ = _
    rw [h3]
    rfl
  · rw [e2, e1, List.length_append, h4]
  · rw [e2]
    omega

theorem CopiesHeader_writeIf {α : Type} (s : WavReader α) (b : List Byte)
    (h : CopiesHeader s) : CopiesHeader (writeIf s b) := by
  unfold writeIf
  split
  · exact CopiesHeader_fwriteOut s b h
  · exact h

theorem Carries_bind {α : Type} (Q : WavReader α → Prop)
    (f g : WavReader α → Except Failure (WavReader α)) (hf : Carries Q f) (hg : Carries Q g) :
    Carries Q (fun s => f s >>= g) := by
  intro s r h hq
  obtain ⟨m, h1, h2⟩ := bind_ok_inv _ _ _ h
  exact hg m r h2 (hf s m h1 hq)

theorem Carries_ite {α : Type} (Q : WavReader α → Prop)
    (f g : WavReader α → Except Failure (WavReader α)) (p : WavReader α → Prop)
    [DecidablePred p] (hf : Carries Q f) (hg : Carries Q g) :
    Carries Q (fun s => if p s then f s else g s) := by
  intro s r h hq
  simp only [] at h
  split_ifs at h
  · exact hf s r h hq
  · exact hg s r h hq

theorem Carries_ok {α : Type} (Q : WavReader α → Prop) (φ : WavReader α → WavReader α)
    (h : ∀ s, Q s → Q (φ s)) : Carries Q (fun s => Except.ok (φ s)) := by
  intro s r hr hq
  simp only [Except.ok.injEq] at hr
  rw [← hr]
  exact h s hq

theorem Carries_readMember {α : Type} (n : Nat) (store : WavReader α → Nat → WavReader α)
    (hk : ∀ s v, (store s v).writeToOutput = s.writeToOutput ∧
      (store s v).riffSizeOffset = s.riffSizeOffset ∧ (store s v).outWavFile = s.outWavFile) :
    Carries CopiesHeader (readMember n store) := by
  intro s r h hq
  unfold readMember at h
  cases hread : read s.wavFile n (some s.chk) with
  | error e => rw [hread] at h; cases h
  | ok x =>
    rw [hread] at h
    simp only [Except.ok.injEq] at h
    subst h
    apply CopiesHeader_writeIf
    obtain ⟨k1, k2, k3⟩ := hk { s with wavFile := x.2.1, chk := x.2.2.getD s.chk } (leValue x.1)
    exact CopiesHeader_congr s _ k1 k2 k3 hq

theorem Carries_readExtension {α : Type} (stack : Nat → Byte) :
    Carries CopiesHeader (readExtension stack : WavReader α → Except Failure (WavReader α)) := by
  intro s r h hq
  unfold readExtension at h
  split_ifs at h
  · cases hread : read s.wavFile s.extraSize (some s.chk) with
    | error e => rw [hread] at h; cases h
    | ok x =>
      rw [hread] at h
      simp only [Except.ok.injEq] at h
      subst h
      apply CopiesHeader_writeIf
      exact CopiesHeader_congr s _ rfl rfl rfl hq
  · simp only [Except.ok.injEq] at h
    rw [← h]
    exact hq

theorem Carries_skipInChk {α : Type} (sz : WavReader α → Nat) :
    Carries CopiesHeader (fun s : WavReader α => skipInChk (sz s) s) := by
  intro s r h hq
  simp only [] at h
  unfold skipInChk at h
  cases hsk : skip s.wavFile (sz s) (some s.chk) with
  | error e => rw [hsk] at h; cases h
  | ok x =>
    rw [hsk] at h
    simp only [Except.ok.injEq] at h
    subst h
    exact CopiesHeader_congr s _ rfl rfl rfl hq

theorem Carries_skipInWave {α : Type} (n : Nat) :
    Carries CopiesHeader (skipInWave n : WavReader α → Except Failure (WavReader α)) := by
  intro s r h hq
  unfold skipInWave at h
  cases hsk : skip s.wavFile n (some s.wave) with
  | error e => rw [hsk] at h; cases h
  | ok x =>
    rw [hsk] at h
    simp only [Except.ok.injEq] at h
    subst h
    exact CopiesHeader_congr s _ rfl rfl rfl hq

theorem Carries_readSubChunk {α : Type} :
    Carries CopiesHeader (readSubChunk : WavReader α → Except Failure (WavReader α)) := by
  intro s r h hq
  obtain ⟨_, _, hr⟩ := readSubChunk_inv s r h
  rw [hr]
  exact CopiesHeader_congr s _ rfl rfl rfl hq

theorem Carries_skipChunk {α : Type} :
    Carries CopiesHeader (skipChunk : WavReader α → Except Failure (WavReader α)) := by
  rw [skipChunk_eq]
  refine Carries_bind _ _ _ (Carries_skipInChk _) ?_
  exact Carries_ite _ _ _ (fun s => s.chk.size % 2 = 1)
    (Carries_bind _ _ _
      (Carries_ok _ addChkPos (fun s hq => CopiesHeader_congr s _ rfl rfl rfl hq))
      (Carries_skipInWave 1))
    (Carries_ok _ addChkPos (fun s hq => CopiesHeader_congr s _ rfl rfl rfl hq))

theorem Carries_getInfo {α : Type} :
    Carries CopiesHeader (getInfo : WavReader α → Except Failure (WavReader α)) := by
  have h : (getInfo : WavReader α → Except Failure (WavReader α)) = fun s =>
      (fun s => (fun s => (fun s =>
        readMember 2 (fun s v => { s with audioFormat := v }) s >>=
        readMember 2 (fun s v => { s with numChannels := v })) s >>=
        readMember 4 (fun s v => { s with sampleRate := v })) s >>=
        readMember 4 (fun s v => { s with byteRate := v })) s >>=
        readMember 2 (fun s v => { s with blockAlign := v }) := by
    funext s
    rfl
  rw [h]
  exact Carries_bind _ _ _ (Carries_bind _ _ _ (Carries_bind _ _ _ (Carries_bind _ _ _
    (Carries_readMember 2 _ (fun s v => ⟨rfl, rfl, rfl⟩))
    (Carries_readMember 2 _ (fun s v => ⟨rfl, rfl, rfl⟩)))
    (Carries_readMember 4 _ (fun s v => ⟨rfl, rfl, rfl⟩)))
    (Carries_readMember 4 _ (fun s v => ⟨rfl, rfl, rfl⟩)))
    (Carries_readMember 2 _ (fun s v => ⟨rfl, rfl, rfl⟩))

theorem Carries_fmtChunk {α : Type} (stack : Nat → Byte) :
    Carries CopiesHeader (fmtChunk stack : WavReader α → Except Failure (WavReader α)) := by
  rw [fmtChunk_eq]
  refine Carries_bind _ _ _ (Carries_bind _ _ _ (Carries_bind _ _ _ (Carries_bind _ _ _ ?_
    Carries_getInfo) ?_) ?_) ?_
  · intro s r h hq
    simp only [] at h
    split_ifs at h
    simp only [Except.ok.injEq] at h
    subst h
    have h1 : CopiesHeader ({ s with fmtPosition := s.chk.size } : WavReader α) :=
      CopiesHeader_congr s _ rfl rfl rfl hq
    have h2 := CopiesHeader_writeIf _ (leBytes 4 s.chk.size)
      (CopiesHeader_writeIf _ [102, 109, 116, 32] h1)
    exact CopiesHeader_congr _ _ rfl rfl rfl h2
  · exact Carries_ite _ _ _ (fun s => s.chk.size ≥ 16)
      (Carries_readMember 2 _ (fun s v => ⟨rfl, rfl, rfl⟩))
      (Carries_ok _ id (fun _ hq => hq))
  · exact Carries_ite _ _ _ (fun s => s.chk.size ≥ 18)
      (Carries_bind _ _ _ (Carries_readMember 2 _ (fun s v => ⟨rfl, rfl, rfl⟩))
        (Carries_readExtension stack))
      (Carries_ok _ id (fun _ hq => hq))
  · exact Carries_ite _ _ _ (fun s => s.chk.pos < s.chk.size)
      (Carries_skipInChk (fun s => (s.chk.size + 4294967296 - s.chk.pos) % 4294967296))
      (Carries_ok _ id (fun _ hq => hq))

theorem Carries_updateInfoLoop {α : Type} (stack : Nat → Byte) :
    ∀ fuel, Carries CopiesHeader
      (updateInfoLoop stack fuel : WavReader α → Except Failure (WavReader α))
  | 0 => by
    intro s r h
    cases h
  | fuel + 1 => by
    intro s r h hq
    rw [updateInfoLoop] at h
    split_ifs at h with hcond
    · cases hrd : readSubChunk s with
      | error e => rw [hrd] at h; cases h
      | ok s1 =>
        rw [hrd] at h
        simp only [] at h
        have k1 := Carries_readSubChunk s s1 hrd hq
        split_ifs at h with hid
        · exact Carries_fmtChunk stack s1 r h k1
        · cases hsk : skipChunk s1 with
          | error e => rw [hsk] at h; cases h
          | ok s2 =>
            rw [hsk] at h
            simp only [] at h
            exact Carries_updateInfoLoop stack fuel s2 r h (Carries_skipChunk s1 s2 hsk k1)
    · simp only [Except.ok.injEq] at h
      rw [← h]
      exact hq

/-- The data scan of a reader that copies the header, started on a chunk that is not the data
chunk: it ends with the data chunk header written to the output, whose position is its end,
four bytes behind the remembered offset of the data size field. -/
theorem findDataLoop_out {α : Type} :
    ∀ (fuel : Nat) (s r : WavReader α), findDataLoop fuel s = .ok r →
      isChunkID s.chk 100 97 116 97 = false → CopiesHeader s →
      r.riffSizeOffset = 4 ∧
        ∃ o, r.outWavFile = some o ∧ o.fpos = o.content.length ∧
          o.fpos = r.dataHdrSizeOffset + 4 ∧ 16 ≤ r.dataHdrSizeOffset
  | 0, s, r, h, _, _ => by cases h
  | fuel + 1, s, r, h, hk, hq => by
    rw [findDataLoop, if_pos hk] at h
    cases hrd : readSubChunk s with
    | error e => rw [hrd] at h; cases h
    | ok s1 =>
      rw [hrd] at h
      simp only [] at h
      have k1 := Carries_readSubChunk s s1 hrd hq
      split_ifs at h with hdat
      · simp only [Except.ok.injEq] at h
        subst h
        obtain ⟨q1, q2, o, q3, q4, q5⟩ := k1
        obtain ⟨e1, e2⟩ := fwrite_at_end o [100, 97, 116, 97] q4
        have q4' : (o.fwrite [100, 97, 116, 97]).fpos
            = (o.fwrite [100, 97, 116, 97]).content.length := by
          rw [e2, e1, List.length_append, q4]
        obtain ⟨f1, f2⟩ := fwrite_at_end (o.fwrite [100, 97, 116, 97]) (leBytes 4 s1.chk.size) q4'
        unfold dataChunk
        simp only [q1, if_true, fwriteOut, q3, Option.map_some', Option.getD_some]
        refine ⟨q2, _, rfl, ?_, ?_, ?_⟩
        · rw [f2, f1, List.length_append, q4']
        · rw [f2, leBytes_length]
        · rw [e2]
          simp only [List.length_cons, List.length_nil]
          omega
      · cases hsk : skipChunk s1 with
        | error e => rw [hsk] at h; cases h
        | ok s2 =>
          rw [hsk] at h
          simp only [] at h
          have hk2 : isChunkID s2.chk 100 97 116 97 = false := by
            have hid := (skipChunk_inv s1 s2 hsk).2.1
            have : isChunkID s2.chk 100 97 116 97 = isChunkID s1.chk 100 97 116 97 := by
              unfold isChunkID
              rw [hid]
            rw [this]
            simpa using hdat
          exact findDataLoop_out fuel s2 r h hk2 (Carries_skipChunk s1 s2 hsk k1)

/-- The three header writes of `load(filePath, outputFile)` on a new, empty output file. -/
theorem CopiesHeader_riff {α : Type} (s2 : WavReader α) (id4 : List Byte)
    (hout : s2.outWavFile = some ⟨[], 0⟩) (hwr : s2.writeToOutput = true)
    (hid : id4.length = 4) :
    CopiesHeader (fwriteOut (fwriteOut
      { fwriteOut s2 id4 with
        srcRiffSize := (fwriteOut s2 id4).riff.size
        riffSizeOffset := ((fwriteOut s2 id4).outWavFile.map fun o => o.fpos).getD 0
        srcDataSize := 0 }
      (leBytes 4 (fwriteOut s2 id4).riff.size)) [87, 65, 86, 69]) := by
  refine ⟨hwr, ?_, (((⟨[], 0⟩ : OutFile).fwrite id4).fwrite (leBytes 4 s2.riff.size)).fwrite
    [87, 65, 86, 69], ?_, ?_, ?_⟩
  · show ((s2.outWavFile.map fun o => o.fwrite id4).map fun o => o.fpos).getD 0 = 4
    rw [hout]
    simp only [Option.map_some', Option.getD_some, OutFile.fwrite]
    omega
  · show ((s2.outWavFile.map fun o => o.fwrite id4).map
      (fun o => o.fwrite (leBytes 4 s2.riff.size))).map (fun o => o.fwrite [87, 65, 86, 69])
        = some _
    rw [hout]
    rfl
  · simp [OutFile.fwrite, hid, leBytes_length]
  · simp [OutFile.fwrite, hid, leBytes_length]

/-- The output file that `load(filePath, outputFile)` leaves when it was given a new, empty
file and has parsed a fmt chunk: the RIFF size field lies at offset 4, the data size field at
the remembered offset, at least 16, and the file ends right behind it, where its position
is. -/
theorem loadWithOutput_out {α : Type} (stack : Nat → Byte) (st0 st : WavReader α)
    (F : List Byte) (b : Bool)
    (h : loadWithOutput stack st0 (openFile F) (some ⟨[], 0⟩) = .ok (st, b))
    (h0 : st0.fmtFound = false) (hfmt : st.fmtFound = true) :
    st.riffSizeOffset = 4 ∧
      ∃ o, st.outWavFile = some o ∧ o.fpos = o.content.length ∧
        o.fpos = st.dataHdrSizeOffset + 4 ∧ 16 ≤ st.dataHdrSizeOffset := by
  unfold loadWithOutput at h
  cases h1 : checkForRiffHeader
      ({ st0 with writeToOutput := true, wavFile := openFile F, outWavFile := some ⟨[], 0⟩ }
        : WavReader α) with
  | error e =>
    rw [h1, error_bind, error_bind, error_bind, error_bind, error_bind] at h
    cases h
  | ok s1 =>
    rw [h1, ok_bind] at h
    cases h2 : readToWaveChunkHeader s1 with
    | error e =>
      rw [h2, error_bind, error_bind, error_bind, error_bind] at h
      cases h
    | ok s2 =>
      rw [h2, ok_bind] at h
      simp only [] at h
      split_ifs at h with hw
      · rw [error_bind, error_bind, error_bind] at h
        cases h
      · rw [ok_bind] at h
        obtain ⟨_, a2, _, a4⟩ := checkForRiffHeader_inv _ s1 h1
        obtain ⟨_, _, b4⟩ := readToWaveChunkHeader_inv s1 s2 h2
        have hout : s2.outWavFile = some ⟨[], 0⟩ := by rw [b4, a4]
        have hwr : s2.writeToOutput = true := by rw [b4, a4]
        have hff : s2.fmtFound = false := by rw [b4, a4]; exact h0
        have hid : (s2.riff.id.take 4).length = 4 := by
          have a2' : 8 ≤ F.length := by
            have : (0 : Nat) + 8 ≤ F.length := a2
            omega
          have : s2.riff.id = (F.drop 0).take 4 := by rw [b4, a4]; rfl
          rw [this]
          simp
          omega
        generalize hidd : s2.riff.id.take 4 = id4 at h hid
        have hq3 := CopiesHeader_riff s2 id4 hout hwr hid
        cases h3 : updateInfo stack (fwriteOut (fwriteOut
            { fwriteOut s2 id4 with
              srcRiffSize := (fwriteOut s2 id4).riff.size
              riffSizeOffset := ((fwriteOut s2 id4).outWavFile.map fun o => o.fpos).getD 0
              srcDataSize := 0 }
            (leBytes 4 (fwriteOut s2 id4).riff.size)) [87, 65, 86, 69]) with
        | error e =>
          rw [h3, error_bind, error_bind] at h
          cases h
        | ok s =>
          rw [h3, ok_bind] at h
          cases h4 : findDataPosition s with
          | error e =>
            rw [h4, error_bind] at h
            cases h
          | ok r =>
            rw [h4, ok_bind] at h
            simp only [Except.ok.injEq, Prod.mk.injEq] at h
            obtain ⟨e1, _⟩ := h
            subst e1
            have hsf : s.fmtFound = true := by
              rw [← findDataLoop_fmtFound _ s r h4]
              exact hfmt
            have hq := Carries_updateInfoLoop stack _ _ s h3 hq3
            obtain ⟨hchk, _⟩ := updateInfoLoop_fmt_pos stack _ _ s h3 hff hsf
            exact findDataLoop_out _ s r h4 (isChunkID_fmt_not_data s.chk hchk) hq

/-- What one pass of the loop of `processFile` does to the output file: it writes, at the
position of the file, one whole frame for each sample that `writtenSamples` goes up by, and
leaves the remembered offsets as they are. -/
theorem processFileBody_out {α σ : Type} [LinearOrderedField α] [FloorRing α]
    (cos : α → α) (pi : α) (process : σ → List α → σ × List α) (uninit : Nat → α)
    (N : Nat) (s0 : WavReader α) (d : α) (k : Nat) (p p1 : ProcessState α σ)
    (hb : s0.bitsPerSample = 16 ∨ s0.bitsPerSample = 24)
    (hc : s0.numChannels = 1 ∨ s0.numChannels = 2)
    (hsz : s0.chk.size < 4294967296)
    (hfile : s0.wavFile.gpos + s0.chk.size ≤ s0.wavFile.content.length)
    (hN2 : 2 ≤ N) (hN : N < 4294967296)
    (hp : AtPass N (getNumSamplesPerChannel s0) s0 k p)
    (hcond : p.outputSamples < getNumSamplesPerChannel s0)
    (h : processFileBody cos pi process uninit N s0.numChannels d p = .ok (p1, true)) :
    ∃ bytes, p.streamer.writtenSamples ≤ p1.streamer.writtenSamples ∧
      bytes.length
        = (p1.streamer.writtenSamples - p.streamer.writtenSamples) * frameBytes s0 ∧
      p1.streamer.outWavFile = p.streamer.outWavFile.map (fun o => o.fwrite bytes) ∧
      p1.streamer.dataHdrSizeOffset = p.streamer.dataHdrSizeOffset ∧
      p1.streamer.riffSizeOffset = p.streamer.riffSizeOffset := by
  obtain ⟨hs, he, hlen, hpos, hfl, hfb, _, _, _⟩ :=
    AtPass_reads N s0 k p hb hc hsz hfile hp hcond
  obtain ⟨i1, i2, i3, i4, i5, i6, i7, i8, i9, i10, i11⟩ := id hp
  obtain ⟨s1, outL, s2, outR, s3, w, Rarg, e1, e2, hRarg, ew, f1, _⟩ :=
    processFileBody_inv cos pi process uninit N s0.numChannels d p p1 h
  obtain ⟨t1, t2, oL, oR, r1, r2, _, a1, a2, a3, a4, a5, a6, a7, a8, a9, a10, _⟩ :=
    readPair uninit p.streamer p.bufferL p.bufferR N hs he (by omega) (by omega) hlen i8.2 hpos
      hfl
  rw [i4] at r2
  rw [e1] at r1
  simp only [Except.ok.injEq, Prod.mk.injEq, true_and] at r1
  obtain ⟨q1, _⟩ := r1
  subst q1
  rw [e2] at r2
  simp only [Except.ok.injEq, Prod.mk.injEq, true_and] at r2
  obtain ⟨q2, _⟩ := r2
  subst q2
  have hw1 : writerState s1 = writerState p.streamer :=
    getNextAudioBlock_writer uninit _ _ _ _ _ _ _ e1
  have hw2 : writerState s2 = writerState s1 := by
    by_cases hcc : s0.numChannels > 1
    · rw [if_pos hcc] at e2
      exact getNextAudioBlock_writer uninit _ _ _ _ _ _ _ e2
    · rw [if_neg hcc] at e2
      simp only [Except.ok.injEq, Prod.mk.injEq, true_and] at e2
      rw [e2.1]
  have hws : writerState s2 = writerState p.streamer := by rw [hw2, hw1]
  unfold writerState at hws
  simp only [Prod.mk.injEq] at hws
  obtain ⟨_, v2, v3, _, _, _⟩ := hws
  have hT2 : getNumSamplesPerChannel s2 = getNumSamplesPerChannel s0 := by
    rw [getNumSamplesPerChannel_congr s2 p.streamer a6 a2 a3]
    exact getNumSamplesPerChannel_congr _ _ i7 i3 i4
  have hfb2 : frameBytes s2 = frameBytes s0 := by
    unfold frameBytes
    rw [a2, a3, i3, i4]
  have hW2 : s2.writtenSamples ≤ getNumSamplesPerChannel s2 := by
    rw [hT2, a7, i9]
    split_ifs
    · omega
    · exact min_le_left _ _
  have hc2 : s2.numChannels = s0.numChannels := by rw [a3, i4]
  obtain ⟨s3', bytes, w0, w1, w2, w3, w4, w5⟩ := writeToFile_bytes s2
    (if p.outputSamples = 0 then
        (applyFilter cos pi process p.hannL p.audioModel outL N p.chan0Output).2.2.1.drop (N / 2)
      else (applyFilter cos pi process p.hannL p.audioModel outL N p.chan0Output).2.2.1)
    Rarg (if p.outputSamples = 0 then N / 2 else N)
    (by rw [a2, i3]; exact hb) (by rw [hc2]; exact hc) hW2
    (by rw [hRarg, hc2]; rcases hc with h | h <;> rw [h] <;> decide)
    (by
      rw [hc2]
      rcases hc with h1 | h2
      · rw [a9 (by rw [i4]; exact h1), i8.1 h1, h1]
        simp
      · obtain ⟨R, hR, _⟩ := a10 (by rw [i4]; exact h2)
        rw [hR, h2]
        simp)
  rw [ew] at w0
  simp only [Except.ok.injEq, Prod.mk.injEq] at w0
  obtain ⟨q3, _⟩ := w0
  subst q3
  rw [f1]
  refine ⟨bytes, by rw [w1, a7]; omega, ?_, by rw [w3, a8], by rw [w4, v2], by rw [w5, v3]⟩
  rw [w2, w1, hfb2, a7, Nat.add_sub_cancel_left]

/-- A write that stays within the file keeps its length and what lies behind the written
bytes. -/
theorem fwrite_inside (o : OutFile) (b : List Byte) (h : o.fpos + b.length ≤ o.content.length) :
    (o.fwrite b).content.length = o.content.length ∧
      ∀ n, o.fpos + b.length ≤ n → (o.fwrite b).content.drop n = o.content.drop n := by
  refine ⟨by rw [fwrite_length]; omega, ?_⟩
  intro n hn
  unfold OutFile.fwrite
  simp only []
  have h0 : o.fpos - o.content.length = 0 := by omega
  rw [h0, List.replicate_zero, List.append_nil]
  have hl : (List.take o.fpos o.content ++ b).length = o.fpos + b.length := by
    rw [List.length_append, List.length_take, min_eq_left (by omega)]
  rw [List.drop_append_eq_append_drop, List.drop_of_length_le (by rw [hl]; exact hn), hl,
    List.nil_append, List.drop_drop]
  congr 1
  omega

/-- The closed output file when the file holds a header that ends right behind the data size
field, followed by a payload, the RIFF size field lying at offset 4: the destructor changes
bytes of the header only, and the data size field holds the product of the counter, the bytes
per sample and the channel count, modulo `2 ^ 32`. -/
theorem destroy_payload {α : Type} (s : WavReader α) (header payload : List Byte)
    (hout : s.outWavFile = some ⟨header ++ payload, (header ++ payload).length⟩)
    (hD : header.length = s.dataHdrSizeOffset + 4) (hR : s.riffSizeOffset = 4)
    (h16 : 16 ≤ s.dataHdrSizeOffset) :
    ∃ c, destroy s = some c ∧ c.length = header.length + payload.length ∧
      c.drop header.length = payload ∧
      leValue ((c.drop s.dataHdrSizeOffset).take 4)
        = (s.writtenSamples * (s.bitsPerSample / 8) * s.numChannels) % 4294967296 := by
  obtain ⟨c, h1, h2, _, h4, _⟩ := destroy_getD s _ hout
  have hval : leValue ((c.drop s.dataHdrSizeOffset).take 4)
      = (s.writtenSamples * (s.bitsPerSample / 8) * s.numChannels) % 4294967296 := by
    have hb := block_of_getD c
      (leBytes 4 ((s.writtenSamples * (s.bitsPerSample / 8) * s.numChannels) % 4294967296))
      s.dataHdrSizeOffset (by rw [leBytes_length]; exact h2)
      (by
        intro i hi
        rw [leBytes_length] at hi
        exact h4 i hi (by omega))
    rw [leBytes_length] at hb
    rw [hb, leValue_leBytes 4 _ (by
      have := Nat.mod_lt (s.writtenSamples * (s.bitsPerSample / 8) * s.numChannels)
        (show 0 < 4294967296 by decide)
      norm_num
      exact this)]
  refine ⟨c, h1, ?_, ?_, hval⟩ <;>
  · unfold destroy at h1
    rw [hout] at h1
    simp only [Option.map_some', Option.some.injEq] at h1
    rw [← h1]
    generalize (s.writtenSamples * (s.bitsPerSample / 8) * s.numChannels) % 4294967296 = v
    generalize ((s.srcRiffSize + 18446744073709551616 - (s.srcDataSize + 4294967296 - v)
      % 4294967296) % 18446744073709551616) % 4294967296 = v2
    obtain ⟨a1, a2⟩ := fwrite_inside
      ((⟨header ++ payload, (header ++ payload).length⟩ : OutFile).fseek s.dataHdrSizeOffset)
      (leBytes 4 v) (by
        rw [leBytes_length, fseek_fpos, fseek_content]
        show _ ≤ (header ++ payload).length
        rw [List.length_append]
        omega)
    rw [fseek_content] at a1 a2
    rw [leBytes_length, fseek_fpos] at a2
    obtain ⟨b1, b2⟩ := fwrite_inside
      ((((⟨header ++ payload, (header ++ payload).length⟩ : OutFile).fseek
        s.dataHdrSizeOffset).fwrite (leBytes 4 v)).fseek s.riffSizeOffset)
      (leBytes 4 v2) (by
        rw [leBytes_length, fseek_fpos, fseek_content, a1]
        show _ ≤ (header ++ payload).length
        rw [List.length_append]
        omega)
    rw [fseek_content] at b1 b2
    rw [leBytes_length, fseek_fpos] at b2
    first
      | rw [b1, a1]
        show (header ++ payload).length = _
        rw [List.length_append]
      | rw [b2 _ (by omega), a2 _ (by omega)]
        show (header ++ payload).drop header.length = payload
        rw [List.drop_left]

/-- The output file at the head of the loop of `processFile` after the passes that ran: the
file that `load` left, followed by one whole frame for each sample counted by
`writtenSamples`, the position at its end and the remembered offsets as `load` left them. -/
theorem processFilePasses_out {α σ : Type} [LinearOrderedField α] [FloorRing α]
    (cos : α → α) (pi : α) (process : σ → List α → σ × List α) (uninit : Nat → α)
    (N : Nat) (s0 : WavReader α)
    (hb : s0.bitsPerSample = 16 ∨ s0.bitsPerSample = 24)
    (hc : s0.numChannels = 1 ∨ s0.numChannels = 2)
    (hsz : s0.chk.size < 4294967296)
    (hfile : s0.wavFile.gpos + s0.chk.size ≤ s0.wavFile.content.length)
    (hN2 : 2 ≤ N) (hN : N < 4294967296)
    (header : List Byte) (i : Nat) (durations : Nat → α) (p p1 : ProcessState α σ)
    (hp : AtPass N (getNumSamplesPerChannel s0) s0 0 p)
    (hout : p.streamer.outWavFile = some ⟨header, header.length⟩)
    (h : processFilePasses cos pi process uninit N s0.numChannels (getNumSamplesPerChannel s0)
      i durations p = .ok (p1, true)) :
    AtPass N (getNumSamplesPerChannel s0) s0 i p1 ∧
      p1.streamer.riffSizeOffset = p.streamer.riffSizeOffset ∧
      p1.streamer.dataHdrSizeOffset = p.streamer.dataHdrSizeOffset ∧
      ∃ payload,
        p1.streamer.outWavFile = some ⟨header ++ payload, (header ++ payload).length⟩ ∧
        payload.length = p1.streamer.writtenSamples * frameBytes s0 := by
  have ind := processFilePasses_induct cos pi process uninit N s0 hb hc hsz hfile hN2 hN
    (fun _ q =>
      q.streamer.riffSizeOffset = p.streamer.riffSizeOffset ∧
      q.streamer.dataHdrSizeOffset = p.streamer.dataHdrSizeOffset ∧
      ∃ payload,
        q.streamer.outWavFile = some ⟨header ++ payload, (header ++ payload).length⟩ ∧
        payload.length = q.streamer.writtenSamples * frameBytes s0)
    (by
      intro k q q1 d hq hI hcond hbody _
      obtain ⟨e1, e2, payload, e3, e4⟩ := hI
      obtain ⟨bytes, b1, b2, b3, b4, b5⟩ := processFileBody_out cos pi process uninit N s0 d k q
        q1 hb hc hsz hfile hN2 hN hq hcond hbody
      refine ⟨by rw [b5, e1], by rw [b4, e2], payload ++ bytes, ?_, ?_⟩
      · rw [b3, e3]
        obtain ⟨f1, f2⟩ := fwrite_at_end
          (⟨header ++ payload, (header ++ payload).length⟩ : OutFile) bytes rfl
        simp only [Option.map_some', Option.some.injEq]
        apply OutFile.ext
        · rw [f1, List.append_assoc]
        · rw [f2]
          simp only [List.length_append]
          omega
      · rw [List.length_append, e4, b2, ← Nat.add_mul]
        congr 1
        omega)
    i 0 durations p p1 hp
    (by
      obtain ⟨_, _, _, _, _, _, _, _, i9, _⟩ := id hp
      refine ⟨rfl, rfl, [], ?_, ?_⟩
      · rw [hout, List.append_nil]
      · rw [i9]
        simp)
    h
  rw [Nat.zero_add] at ind
  exact ind

/-! ## Properties: the pipeline with the identity transform -/

/-- A call of `applyFilterInternal` reads the first `mHopSize` samples of `dataSamples` only. -/
theorem applyFilterInternal_take {α σ : Type} [Field α]
    (cos : α → α) (pi : α) (process : σ → List α → σ × List α)
    (f : HannFilter α) (model : σ) (x : List α) (n : Nat) :
    applyFilterInternal cos pi process f model x n
      = applyFilterInternal cos pi process f model (x.take f.mHopSize) n := by
  unfold applyFilterInternal
  have e : memcpy (memcpy f.mModelInputBuffer 0 f.mModelInputBuffer f.mHopSize f.mHopSize)
        f.mHopSize x 0 f.mHopSize
      = memcpy (memcpy f.mModelInputBuffer 0 f.mModelInputBuffer f.mHopSize f.mHopSize)
        f.mHopSize (x.take f.mHopSize) 0 f.mHopSize := by
    simp only [memcpy, List.drop_zero, List.take_take, min_self]
  simp only [e]

/-- One call of `applyFilterInternal` with the identity transform, for an even window size:
the emitted hop is the first half of the overlap buffer plus the weighted second half of the
model input buffer; the filter shifts the new samples into its model input and keeps them,
weighted, in its overlap buffer. -/
theorem applyFilterInternal_identity {α σ : Type} [Field α]
    (cos : α → α) (pi : α) (f : HannFilter α) (model : σ) (x : List α) (hop : Nat)
    (hW : f.mWindowSize = 2 * hop) (hH : f.mHopSize = hop)
    (hI : f.mModelInputBuffer.length = 2 * hop) (hO : hop ≤ f.mOverlapBuffer.length)
    (hx : x.length = hop) :
    ∃ f1 out,
      applyFilterInternal cos pi (fun (m : σ) (w : List α) => (m, w)) f model x hop
        = some (f1, model, out) ∧
      f1.mWindowSize = 2 * hop ∧ f1.mHopSize = hop ∧
      f1.mModelInputBuffer = f.mModelInputBuffer.drop hop ++ x ∧
      out.length = hop ∧ f1.mOverlapBuffer.length = f.mOverlapBuffer.length ∧
      ∀ s, s < hop →
        out.getD s 0
          = f.mOverlapBuffer.getD s 0
            + hannMultiplier cos pi (2 * hop) s * f.mModelInputBuffer.getD (hop + s) 0 ∧
        f1.mOverlapBuffer.getD s 0 = hannMultiplier cos pi (2 * hop) (hop + s) * x.getD s 0 := by
  subst hH
  obtain ⟨f1, o1, a0, a1, a2, a3, a4, a5, a6⟩ := applyFilterInternal_step cos pi
    (fun (m : σ) (w : List α) => (m, w)) f model x hW (by omega) hO hx
  refine ⟨f1, o1, a0, by rw [a1, hW], a2, a3, a4, a5, ?_⟩
  intro s hs
  obtain ⟨c1, c2⟩ := a6 s hs
  have g1 : (List.drop f.mHopSize f.mModelInputBuffer ++ x).getD s 0
      = f.mModelInputBuffer.getD (f.mHopSize + s) 0 := by
    rw [List.getD_append _ _ _ _ (by rw [List.length_drop]; omega)]
    simp only [List.getD_eq_getElem?_getD, List.getElem?_drop]
  have g2 : (List.drop f.mHopSize f.mModelInputBuffer ++ x).getD (f.mHopSize + s) 0
      = x.getD s 0 := by
    rw [List.getD_append_right _ _ _ _ (by rw [List.length_drop]; omega)]
    rw [List.length_drop, hI]
    have : f.mHopSize + s - (2 * f.mHopSize - f.mHopSize) = s := by omega
    rw [this]
  simp only [] at c1 c2
  rw [g1, hW] at c1
  rw [g2, hW] at c2
  exact ⟨c1, c2⟩

/-- A call of `applyFilter` with `sampleCnt = mWindowSize`, from the results of its two calls of
`applyFilterInternal`. -/
theorem applyFilter_calls {α σ : Type} [Field α]
    (cos : α → α) (pi : α) (process : σ → List α → σ × List α)
    (f f1 f2 : HannFilter α) (model m1 m2 : σ) (data out o1 o2 : List α) (n : Nat)
    (hn : n = f.mWindowSize)
    (h1 : applyFilterInternal cos pi process f model data f.mHopSize = some (f1, m1, o1))
    (h2 : applyFilterInternal cos pi process f1 m1 (data.drop f1.mHopSize) f1.mHopSize
      = some (f2, m2, o2)) :
    applyFilter cos pi process f model data n out
      = (f2, m2, memcpy (memcpy out 0 o1 0 f.mHopSize) f1.mHopSize o2 0 f1.mHopSize, true) := by
  unfold applyFilter
  rw [if_neg (by simp [hn]), h1]
  simp only []
  rw [h2]

/-- The samples of two successive hops with the identity transform, put together. -/
theorem identity_window_values {α : Type} [Field α] (w : Nat → α)
    (ov inp data o1 o2 ov1 ov2 in1 : List α) (hop : Nat)
    (hI : inp.length = 2 * hop) (h1 : o1.length = hop)
    (hin1 : in1 = inp.drop hop ++ data.take hop)
    (hc : ∀ s, s < hop →
      o1.getD s 0 = ov.getD s 0 + w s * inp.getD (hop + s) 0 ∧
      ov1.getD s 0 = w (hop + s) * (data.take hop).getD s 0)
    (hd : ∀ s, s < hop →
      o2.getD s 0 = ov1.getD s 0 + w s * in1.getD (hop + s) 0 ∧
      ov2.getD s 0 = w (hop + s) * (data.drop hop).getD s 0) :
    ∀ s, s < hop →
      (o1 ++ o2).getD s 0 = ov.getD s 0 + w s * inp.getD (hop + s) 0 ∧
      (o1 ++ o2).getD (hop + s) 0 = (w s + w (hop + s)) * data.getD s 0 ∧
      ov2.getD s 0 = w (hop + s) * data.getD (hop + s) 0 := by
  intro s hs
  obtain ⟨c1, c2⟩ := hc s hs
  obtain ⟨d1, d2⟩ := hd s hs
  have g2 : (data.take hop).getD s 0 = data.getD s 0 := by
    simp only [List.getD_eq_getElem?_getD, List.getElem?_take_of_lt hs]
  have g1 : in1.getD (hop + s) 0 = data.getD s 0 := by
    rw [hin1, List.getD_append_right _ _ _ _ (by rw [List.length_drop]; omega),
      List.length_drop, hI]
    have : hop + s - (2 * hop - hop) = s := by omega
    rw [this, g2]
  have g3 : (data.drop hop).getD s 0 = data.getD (hop + s) 0 := by
    simp only [List.getD_eq_getElem?_getD, List.getElem?_drop]
  have e1 : (o1 ++ o2).getD s 0 = o1.getD s 0 := List.getD_append _ _ _ _ (by omega)
  have e2 : (o1 ++ o2).getD (hop + s) 0 = o2.getD s 0 := by
    rw [List.getD_append_right _ _ _ _ (by omega), h1, Nat.add_sub_cancel_left]
  refine ⟨by rw [e1, c1], ?_, by rw [d2, g3]⟩
  rw [e2, d1, c2, g1, g2]
  ring

/-- One call of `applyFilter` on a whole window with the identity transform, for an even window
size: the first hop of `outSamples` is the first half of the overlap buffer plus the weighted
second half of the model input buffer, the second hop is the first half of the window, each
sample times the sum of the two multipliers of its index; the filter keeps the window as its
model input, and the weighted second half of the window in its overlap buffer. -/
theorem applyFilter_identity {α σ : Type} [Field α]
    (cos : α → α) (pi : α) (f : HannFilter α) (model : σ) (data out : List α) (hop : Nat)
    (hW : f.mWindowSize = 2 * hop) (hH : f.mHopSize = hop)
    (hI : f.mModelInputBuffer.length = 2 * hop) (hO : f.mOverlapBuffer.length = 2 * hop)
    (hd : data.length = 2 * hop) (ho : out.length = 2 * hop) :
    ∃ f2 o,
      applyFilter cos pi (fun (m : σ) (w : List α) => (m, w)) f model data (2 * hop) out
        = (f2, model, o, true) ∧
      f2.mWindowSize = 2 * hop ∧ f2.mHopSize = hop ∧ f2.mModelInputBuffer = data ∧
      f2.mOverlapBuffer.length = 2 * hop ∧ o.length = 2 * hop ∧
      ∀ s, s < hop →
        o.getD s 0
          = f.mOverlapBuffer.getD s 0
            + hannMultiplier cos pi (2 * hop) s * f.mModelInputBuffer.getD (hop + s) 0 ∧
        o.getD (hop + s) 0
          = (hannMultiplier cos pi (2 * hop) s + hannMultiplier cos pi (2 * hop) (hop + s))
              * data.getD s 0 ∧
        f2.mOverlapBuffer.getD s 0
          = hannMultiplier cos pi (2 * hop) (hop + s) * data.getD (hop + s) 0 := by
  have hx1 : (data.take hop).length = hop := by
    rw [List.length_take]; omega
  have hx2 : (data.drop hop).length = hop := by
    rw [List.length_drop]; omega
  have hO1 : hop ≤ f.mOverlapBuffer.length := by omega
  obtain ⟨f1, o1, a0, a1, a2, a3, a4, a5, a6⟩ := applyFilterInternal_identity cos pi f model
    (data.take hop) hop hW hH hI hO1 hx1
  have hI1 : f1.mModelInputBuffer.length = 2 * hop := by
    rw [a3, List.length_append, List.length_drop]; omega
  have hO2 : hop ≤ f1.mOverlapBuffer.length := by omega
  obtain ⟨f2, o2, b0, b1, b2, b3, b4, b5, b6⟩ := applyFilterInternal_identity cos pi f1 model
    (data.drop hop) hop a1 a2 hI1 hO2 hx2
  have hdrop : f1.mModelInputBuffer.drop hop = data.take hop := by
    rw [a3, List.drop_append_of_le_length (by rw [List.length_drop]; omega),
      List.drop_of_length_le (by rw [List.length_drop]; omega), List.nil_append]
  have hin2 : f2.mModelInputBuffer = data := by
    rw [b3, hdrop, List.take_append_drop]
  have c1 : applyFilterInternal cos pi (fun (m : σ) (w : List α) => (m, w)) f model data
      f.mHopSize = some (f1, model, o1) := by
    rw [applyFilterInternal_take, hH]
    exact a0
  have c2 : applyFilterInternal cos pi (fun (m : σ) (w : List α) => (m, w)) f1 model
      (data.drop f1.mHopSize) f1.mHopSize = some (f2, model, o2) := by
    rw [a2]
    exact b0
  have happ := applyFilter_calls cos pi (fun (m : σ) (w : List α) => (m, w)) f f1 f2 model
    model model data out o1 o2 (2 * hop) hW.symm c1 c2
  rw [hH, a2, memcpy_halves out o1 o2 hop ho a4 b4] at happ
  clear c1 c2
  have hlen2 : f2.mOverlapBuffer.length = 2 * hop := by rw [b5, a5, hO]
  have hlo : (o1 ++ o2).length = 2 * hop := by
    rw [List.length_append, a4, b4]; omega
  exact ⟨f2, o1 ++ o2, happ, b1, b2, hin2, hlen2, hlo,
    identity_window_values (hannMultiplier cos pi (2 * hop)) f.mOverlapBuffer
      f.mModelInputBuffer data o1 o2 f1.mOverlapBuffer f2.mOverlapBuffer f1.mModelInputBuffer
      hop hI a4 a3 a6 b6⟩

/-- The block of channel 0 read in the pass that follows `k` passes of the loop of
`processFile`: the `N` samples of channel 0 from frame `k * N` of the data chunk on, zeros
beyond the whole frames of the chunk. -/
theorem AtPass_block {α σ : Type} [LinearOrderedField α] (uninit : Nat → α) (N : Nat)
    (s0 : WavReader α) (k : Nat) (p : ProcessState α σ)
    (hb : s0.bitsPerSample = 16 ∨ s0.bitsPerSample = 24)
    (hc : s0.numChannels = 1 ∨ s0.numChannels = 2)
    (hsz : s0.chk.size < 4294967296)
    (hfile : s0.wavFile.gpos + s0.chk.size ≤ s0.wavFile.content.length)
    (hN2 : 2 ≤ N) (hN : N < 4294967296)
    (hp : AtPass N (getNumSamplesPerChannel s0) s0 k p)
    (hcond : p.outputSamples < getNumSamplesPerChannel s0)
    (s1 : WavReader α) (outL : List α)
    (h : getNextAudioBlock uninit p.streamer (some p.bufferL) 0 N = .ok (s1, true, outL)) :
    outL.length = N ∧ ∀ s, s < N → outL.getD s 0 = inputSample s0 (k * N + s) := by
  obtain ⟨hs, he, hlen, hpos, hfl, hfb, hchk, hgp, hkN, hsc⟩ :=
    AtPass_reads N s0 k p hb hc hsz hfile hp hcond
  obtain ⟨_, _, i3, _, _, i6, i7, _⟩ := id hp
  obtain ⟨t1, r1, _⟩ := getNextAudioBlock_ch0_block uninit p.streamer p.bufferL N hs he
    (by omega) (by omega) hlen hsc hpos hfl
  rw [h] at r1
  simp only [Except.ok.injEq, Prod.mk.injEq, true_and] at r1
  obtain ⟨_, r2⟩ := r1
  have hB := frameBytes_pos s0 hb hc
  have hTle := getNumSamplesPerChannel_le s0 hb hc
  have hq : (s0.chk.size - k * N * frameBytes s0) / frameBytes s0
      = s0.chk.size / frameBytes s0 - k * N := by
    rw [Nat.mul_comm (k * N) (frameBytes s0)]
    exact Nat.sub_mul_div _ _ _ (by
      have := Nat.mul_le_mul_right (frameBytes s0) hkN
      rw [Nat.mul_comm (frameBytes s0) (k * N)]
      omega)
  rw [hfb, i7, hchk, hq] at r2
  rw [r2]
  refine ⟨by rw [storeFrom_length, List.length_replicate], ?_⟩
  intro s hs1
  rw [storeFrom_getD _ _ _ _ (by
    rw [List.length_map, List.length_range, List.length_replicate, Nat.zero_add]
    exact min_le_left _ _)]
  rw [List.length_map, List.length_range, Nat.zero_add, Nat.sub_zero]
  unfold inputSample
  by_cases hin : s < min N (s0.chk.size / frameBytes s0 - k * N)
  · rw [if_pos ⟨Nat.zero_le _, hin⟩, getD_map_range _ _ _ hin, if_pos (by omega)]
    have e1 : frameAt p.streamer s = frameAt s0 (k * N + s) := by
      unfold frameAt
      rw [i6, hfb, hgp, Nat.add_mul, Nat.add_assoc]
    rw [e1]
    unfold decodeSample
    rw [i3]
  · rw [if_neg (by omega), if_neg (by omega)]
    simp only [List.getD_eq_getElem?_getD, List.getElem?_replicate]
    rw [if_pos hs1]
    rfl

theorem delayedSample_add {α : Type} [LinearOrderedField α] (s0 : WavReader α) (N m : Nat) :
    delayedSample s0 N (N + m) = inputSample s0 m := by
  unfold delayedSample
  rw [if_neg (by omega), Nat.add_sub_cancel_left]

/-- The filter of channel 0 and `chan0Output` after one more pass of the loop of `processFile`,
from the block that the pass read, for an even frame length. -/
theorem AtHann_values {α : Type} [LinearOrderedField α] (w : Nat → α) (D : Nat → α)
    (X : Nat → α) (ov inp data o ov2 : List α) (hop kN : Nat) (hh : 1 ≤ hop)
    (hD : ∀ m, D (2 * hop + m) = X m)
    (hdata : ∀ s, s < 2 * hop → data.getD s 0 = X (kN + s))
    (hin : ∀ j, j < 2 * hop → inp.getD j 0 = D (kN + j))
    (hov : ∀ s, s < hop → ov.getD s 0 = w (hop + s) * D (kN + hop + s))
    (hval : ∀ s, s < hop →
      o.getD s 0 = ov.getD s 0 + w s * inp.getD (hop + s) 0 ∧
      o.getD (hop + s) 0 = (w s + w (hop + s)) * data.getD s 0 ∧
      ov2.getD s 0 = w (hop + s) * data.getD (hop + s) 0) :
    (∀ j, j < 2 * hop → data.getD j 0 = D (kN + 2 * hop + j)) ∧
    (∀ s, s < hop → ov2.getD s 0 = w (hop + s) * D (kN + 2 * hop + hop + s)) ∧
    (∀ t, t < 2 * hop → o.getD t 0 = (w (t % hop) + w (t % hop + hop)) * D (kN + hop + t)) := by
  have hDk : ∀ m, D (kN + 2 * hop + m) = X (kN + m) := by
    intro m
    rw [← hD (kN + m)]
    congr 1
    omega
  refine ⟨?_, ?_, ?_⟩
  · intro j hj
    rw [hdata j hj, hDk]
  · intro s hs
    rw [(hval s hs).2.2, hdata (hop + s) (by omega), Nat.add_assoc (kN + 2 * hop), hDk]
  · intro t ht
    by_cases hlt : t < hop
    · rw [(hval t hlt).1, hov t hlt, hin (hop + t) (by omega), Nat.mod_eq_of_lt hlt,
        Nat.add_comm t hop, ← Nat.add_assoc]
      ring
    · obtain ⟨s, rfl⟩ : ∃ s, t = hop + s := ⟨t - hop, by omega⟩
      have hs : s < hop := by omega
      rw [(hval s hs).2.1, hdata s (by omega), Nat.add_mod_left, Nat.mod_eq_of_lt hs,
        Nat.add_comm s hop]
      have e : kN + hop + (hop + s) = kN + 2 * hop + s := by omega
      rw [e, hDk]

/-- One pass of the loop of `processFile` on a mono stream with the identity transform and an
even frame length carries the state of the filter of channel 0 on. -/
theorem AtHann_next {α σ : Type} [LinearOrderedField α] [FloorRing α]
    (cos : α → α) (pi : α) (uninit : Nat → α)
    (N : Nat) (s0 : WavReader α) (d : α) (k : Nat) (p p1 : ProcessState α σ)
    (hb : s0.bitsPerSample = 16 ∨ s0.bitsPerSample = 24)
    (hc : s0.numChannels = 1 ∨ s0.numChannels = 2)
    (hsz : s0.chk.size < 4294967296)
    (hfile : s0.wavFile.gpos + s0.chk.size ≤ s0.wavFile.content.length)
    (hN2 : 2 ≤ N) (hN : N < 4294967296) (hev : N % 2 = 0)
    (hp : AtPass N (getNumSamplesPerChannel s0) s0 k p)
    (hJ : AtHann cos pi N s0 k p)
    (hcond : p.outputSamples < getNumSamplesPerChannel s0)
    (hbody : processFileBody cos pi (fun (m : σ) (w : List α) => (m, w)) uninit N s0.numChannels
      d p = .ok (p1, true)) :
    AtHann cos pi N s0 (k + 1) p1 := by
  obtain ⟨s1, outL, s2, outR, s3, w, Rarg, e1, _, _, _, _, _, f3, f4, _⟩ :=
    processFileBody_inv cos pi (fun (m : σ) (w : List α) => (m, w)) uninit N s0.numChannels d p
      p1 hbody
  obtain ⟨hlen, hblock⟩ := AtPass_block uninit N s0 k p hb hc hsz hfile hN2 hN hp hcond s1 outL
    e1
  obtain ⟨hop, rfl⟩ : ∃ hop, N = 2 * hop := ⟨N / 2, by omega⟩
  have h2 : 2 * hop / 2 = hop := by omega
  unfold AtHann at hJ ⊢
  rw [h2] at hJ ⊢
  obtain ⟨j1, j2, j3, j4, j5, j6, j7, _⟩ := hJ
  obtain ⟨f2, o, a0, a1, a2, a3, a4, a5, a6⟩ := applyFilter_identity cos pi p.hannL p.audioModel
    outL p.chan0Output hop j1 j2 j3 j4 hlen j5
  rw [a0] at f3 f4
  simp only [] at f3 f4
  obtain ⟨v1, v2, v3⟩ := AtHann_values (hannMultiplier cos pi (2 * hop))
    (delayedSample s0 (2 * hop)) (inputSample s0) p.hannL.mOverlapBuffer
    p.hannL.mModelInputBuffer outL o f2.mOverlapBuffer hop (k * (2 * hop)) (by omega)
    (delayedSample_add s0 (2 * hop)) hblock j6 j7 a6
  have e : (k + 1) * (2 * hop) = k * (2 * hop) + 2 * hop := Nat.succ_mul _ _
  rw [f3, f4, e, Nat.add_sub_cancel, a3]
  exact ⟨a1, a2, hlen, a4, a5, v1, v2, fun _ => v3⟩

/-- The call of `writeToFile` in a pass of the loop of `processFile`: it is handed the buffer
`chan0Output` as the pass leaves it, from its second half on when `outputSamples` was 0, and
when there is more than one channel the buffer `chan1Output` in the same way, else a null
pointer; it returns `true`, and the counter `writtenSamples` it starts from is that of the head
of the loop. The two buffers hold what `applyFilter` made of the blocks read in this pass. -/
theorem processFileBody_write {α σ : Type} [LinearOrderedField α] [FloorRing α]
    (cos : α → α) (pi : α) (process : σ → List α → σ × List α) (uninit : Nat → α)
    (N : Nat) (s0 : WavReader α) (d : α) (k : Nat) (p p1 : ProcessState α σ)
    (hb : s0.bitsPerSample = 16 ∨ s0.bitsPerSample = 24)
    (hc : s0.numChannels = 1 ∨ s0.numChannels = 2)
    (hsz : s0.chk.size < 4294967296)
    (hfile : s0.wavFile.gpos + s0.chk.size ≤ s0.wavFile.content.length)
    (hN2 : 2 ≤ N) (hN : N < 4294967296)
    (hp : AtPass N (getNumSamplesPerChannel s0) s0 k p)
    (hcond : p.outputSamples < getNumSamplesPerChannel s0)
    (h : processFileBody cos pi process uninit N s0.numChannels d p = .ok (p1, true)) :
    ∃ s2 Rarg,
      writeToFile s2
        (some (if p.outputSamples = 0 then p1.chan0Output.drop (N / 2) else p1.chan0Output))
        Rarg (if p.outputSamples = 0 then N / 2 else N) = .ok (p1.streamer, true) ∧
      s2.writtenSamples = p.streamer.writtenSamples ∧
      (Rarg.isSome = true ↔ s0.numChannels > 1) ∧
      Rarg = (if s0.numChannels > 1 then
          some (if p.outputSamples = 0 then p1.chan1Output.drop (N / 2) else p1.chan1Output)
        else none) ∧
      p1.chan0Output
        = (applyFilter cos pi process p.hannL p.audioModel p1.bufferL N p.chan0Output).2.2.1 ∧
      p1.chan1Output = (if s0.numChannels > 1 then
          (applyFilter cos pi process p.hannR
            (applyFilter cos pi process p.hannL p.audioModel p1.bufferL N p.chan0Output).2.1
            p1.bufferR N p.chan1Output).2.2.1
        else p.chan1Output) := by
  obtain ⟨hs, he, hlen, hpos, hfl, hfb, _, _, _⟩ :=
    AtPass_reads N s0 k p hb hc hsz hfile hp hcond
  obtain ⟨i1, i2, i3, i4, i5, i6, i7, i8, i9, i10, i11⟩ := id hp
  obtain ⟨s1, outL, s2, outR, s3, w, Rarg, e1, e2, hRarg, ew, f1, f2, _, f4, _, _, f7, f8, f9⟩ :=
    processFileBody_inv cos pi process uninit N s0.numChannels d p p1 h
  obtain ⟨t1, t2, oL, oR, r1, r2, _, a1, a2, a3, a4, a5, a6, a7, a8, a9, a10, _⟩ :=
    readPair uninit p.streamer p.bufferL p.bufferR N hs he (by omega) (by omega) hlen i8.2 hpos
      hfl
  rw [i4] at r2
  rw [e1] at r1
  simp only [Except.ok.injEq, Prod.mk.injEq, true_and] at r1
  obtain ⟨q1, _⟩ := r1
  subst q1
  rw [e2] at r2
  simp only [Except.ok.injEq, Prod.mk.injEq, true_and] at r2
  obtain ⟨q2, _⟩ := r2
  subst q2
  have hT2 : getNumSamplesPerChannel s2 = getNumSamplesPerChannel s0 := by
    rw [getNumSamplesPerChannel_congr s2 p.streamer a6 a2 a3]
    exact getNumSamplesPerChannel_congr _ _ i7 i3 i4
  have hW2 : s2.writtenSamples ≤ getNumSamplesPerChannel s2 := by
    rw [hT2, a7, i9]
    split_ifs
    · omega
    · exact min_le_left _ _
  have hc2 : s2.numChannels = s0.numChannels := by rw [a3, i4]
  rw [← f4] at ew
  obtain ⟨s3', bytes, w0, _⟩ := writeToFile_bytes s2
    (if p.outputSamples = 0 then p1.chan0Output.drop (N / 2) else p1.chan0Output)
    Rarg (if p.outputSamples = 0 then N / 2 else N)
    (by rw [a2, i3]; exact hb) (by rw [hc2]; exact hc) hW2
    (by rw [hRarg, hc2]; rcases hc with h | h <;> rw [h] <;> decide)
    (by
      rw [hc2]
      rcases hc with h1 | h2
      · rw [a9 (by rw [i4]; exact h1), i8.1 h1, h1]
        simp
      · obtain ⟨R, hR, _⟩ := a10 (by rw [i4]; exact h2)
        rw [hR, h2]
        simp)
  rw [ew] at w0
  simp only [Except.ok.injEq, Prod.mk.injEq] at w0
  obtain ⟨_, q3⟩ := w0
  subst q3
  rw [f1]
  refine ⟨s2, Rarg, ew, a7, hRarg, f7, ?_, ?_⟩
  · rw [f4, f2]
  · rw [f9, f2, f8]

/-- The state of the filter of channel 0 at the head of the loop of `processFile` after the
passes that ran, on a mono stream with the identity transform and an even frame length. -/
theorem processFilePasses_hann {α σ : Type} [LinearOrderedField α] [FloorRing α]
    (cos : α → α) (pi : α) (uninit : Nat → α)
    (N : Nat) (s0 : WavReader α)
    (hb : s0.bitsPerSample = 16 ∨ s0.bitsPerSample = 24)
    (hc : s0.numChannels = 1 ∨ s0.numChannels = 2)
    (hsz : s0.chk.size < 4294967296)
    (hfile : s0.wavFile.gpos + s0.chk.size ≤ s0.wavFile.content.length)
    (hN2 : 2 ≤ N) (hN : N < 4294967296) (hev : N % 2 = 0)
    (i : Nat) (durations : Nat → α) (p p1 : ProcessState α σ)
    (hp : AtPass N (getNumSamplesPerChannel s0) s0 0 p)
    (hJ : AtHann cos pi N s0 0 p)
    (h : processFilePasses cos pi (fun (m : σ) (w : List α) => (m, w)) uninit N s0.numChannels
      (getNumSamplesPerChannel s0) i durations p = .ok (p1, true)) :
    AtPass N (getNumSamplesPerChannel s0) s0 i p1 ∧ AtHann cos pi N s0 i p1 := by
  have ind := processFilePasses_induct cos pi (fun (m : σ) (w : List α) => (m, w)) uninit N s0
    hb hc hsz hfile hN2 hN (fun k q => AtHann cos pi N s0 k q)
    (fun k q q1 d hq hI hcond hbody _ =>
      AtHann_next cos pi uninit N s0 d k q q1 hb hc hsz hfile hN2 hN hev hq hI hcond hbody)
    i 0 durations p p1 hp hJ h
  rw [Nat.zero_add] at ind
  exact ind

/-- The filter with zeroed buffers, before the first pass. -/
theorem processFileInit_AtHann {α σ : Type} [LinearOrderedField α] [FloorRing α]
    (cos : α → α) (pi : α) (s0 : WavReader α) (audioModel : σ) (N : Nat) (hannR : HannFilter α) :
    AtHann cos pi N s0 0 (processFileInit s0 audioModel N
      ⟨N, N / 2, List.replicate N 0, List.replicate N 0⟩ hannR : ProcessState α σ) := by
  have hz : ∀ (n j : Nat), (List.replicate n (0 : α)).getD j 0 = 0 := by
    intro n j
    simp only [List.getD_eq_getElem?_getD, List.getElem?_replicate]
    split_ifs <;> rfl
  refine ⟨rfl, rfl, List.length_replicate _ _, List.length_replicate _ _,
    List.length_replicate _ _, ?_, ?_, fun h => absurd h (by omega)⟩
  · intro j hj
    show (List.replicate N (0 : α)).getD j 0 = _
    rw [hz]
    unfold delayedSample
    rw [if_pos (by omega)]
  · intro s hs
    show (List.replicate N (0 : α)).getD s 0 = _
    rw [hz]
    unfold delayedSample
    rw [if_pos (by omega), mul_zero]

/-- The samples that a pass of the loop of `processFile` hands to the writer and that the
writer counts, on a mono stream with the identity transform and an even frame length: the
sample counted as the `n`-th is the `n`-th sample of the input, times the sum of the two
multipliers of its index in the hop. -/
theorem pass_samples {α σ : Type} [LinearOrderedField α]
    (cos : α → α) (pi : α) (N : Nat) (s0 : WavReader α) (j : Nat) (q p : ProcessState α σ)
    (hb : s0.bitsPerSample = 16 ∨ s0.bitsPerSample = 24)
    (hc : s0.numChannels = 1 ∨ s0.numChannels = 2)
    (hN2 : 2 ≤ N) (hev : N % 2 = 0)
    (hq : AtPass N (getNumSamplesPerChannel s0) s0 j q)
    (hp : AtPass N (getNumSamplesPerChannel s0) s0 (j + 1) p)
    (hJ : AtHann cos pi N s0 (j + 1) p) :
    ∀ n, q.streamer.writtenSamples ≤ n → n < p.streamer.writtenSamples →
      (if q.outputSamples = 0 then p.chan0Output.drop (N / 2) else p.chan0Output).getD
          (n - q.streamer.writtenSamples) 0
        = (hannMultiplier cos pi N (n % (N / 2)) + hannMultiplier cos pi N (n % (N / 2) + N / 2))
            * decodeSample s0 0 (frameAt s0 n) := by
  intro n hn1 hn2
  obtain ⟨c1, c2⟩ := AtPass_counters N _ s0 j q hq
  obtain ⟨d1, _⟩ := AtPass_counters N _ s0 (j + 1) p hp
  rw [if_neg (by omega), Nat.add_sub_cancel] at d1
  obtain ⟨_, _, _, _, _, _, _, hch⟩ := hJ
  have hch := hch (by omega)
  rw [Nat.add_sub_cancel] at hch
  have hB := frameBytes_pos s0 hb hc
  have hTle := getNumSamplesPerChannel_le s0 hb hc
  have hnT : n < getNumSamplesPerChannel s0 := by
    rw [d1] at hn2
    exact lt_of_lt_of_le hn2 (min_le_left _ _)
  have hx : delayedSample s0 N (N + n) = decodeSample s0 0 (frameAt s0 n) := by
    rw [delayedSample_add]
    unfold inputSample
    rw [if_pos]
    have : getNumSamplesPerChannel s0 ≤ s0.chk.size / frameBytes s0 := by
      rw [Nat.le_div_iff_mul_le (by omega)]
      exact hTle
    omega
  rw [← hx]
  obtain ⟨hop, rfl⟩ : ∃ hop, N = 2 * hop := ⟨N / 2, by omega⟩
  have h2 : 2 * hop / 2 = hop := by omega
  rw [h2] at hch d1 c1 c2 ⊢
  rcases Nat.eq_zero_or_pos j with hj | hj
  · subst hj
    rw [if_pos rfl] at c1 c2
    rw [Nat.zero_mul, Nat.add_zero] at d1
    rw [Nat.zero_mul, Nat.zero_add] at hch
    rw [c1, c2, if_pos rfl, Nat.sub_zero]
    have hnh : n < hop := by
      rw [d1] at hn2
      exact lt_of_lt_of_le hn2 (min_le_right _ _)
    have e : (List.drop hop p.chan0Output).getD n 0 = p.chan0Output.getD (hop + n) 0 := by
      simp only [List.getD_eq_getElem?_getD, List.getElem?_drop]
    rw [e, hch (hop + n) (by omega), Nat.add_mod_left]
    congr 2
    omega
  · obtain ⟨m, rfl⟩ : ∃ m, j = m + 1 := ⟨j - 1, by omega⟩
    rw [if_neg (by omega), Nat.add_sub_cancel] at c1 c2
    have hWq : q.streamer.writtenSamples = hop + m * (2 * hop) := by
      rw [d1] at hn2
      rw [c1] at hn1 ⊢
      have := min_le_left (getNumSamplesPerChannel s0) (hop + (m + 1) * (2 * hop))
      apply min_eq_right
      omega
    have hO : ¬ q.outputSamples = 0 := by
      rw [c2]
      omega
    rw [if_neg hO, hWq]
    have hlt : n - (hop + m * (2 * hop)) < 2 * hop := by
      rw [d1, Nat.succ_mul] at hn2
      have := min_le_right (getNumSamplesPerChannel s0) (hop + (m * (2 * hop) + 2 * hop))
      omega
    rw [hch _ hlt]
    have e1 : (n - (hop + m * (2 * hop))) % hop = n % hop := by
      have : n = (n - (hop + m * (2 * hop))) + hop * (1 + m * 2) := by
        have em : hop * (1 + m * 2) = hop + m * (2 * hop) := by ring
        rw [hWq] at hn1
        rw [em]
        omega
      conv_rhs => rw [this]
      rw [Nat.add_mul_mod_self_left]
    have e2 : (m + 1) * (2 * hop) + hop + (n - (hop + m * (2 * hop))) = 2 * hop + n := by
      rw [hWq] at hn1
      rw [Nat.succ_mul]
      omega
    rw [e1, e2]

/-! ## Properties: a file of a thousand samples -/

/-- What `load(filePath, outputFile)` on a new reader leaves for the 16-bit mono file of a
thousand samples that count up, as values. -/
theorem loadWithOutput_ramp_values :
    (loadWithOutput (fun _ => 0) (newReader (blankReader : WavReader ℚ))
        (openFile (monoFile16 (rampSamples16 1000))) (some ⟨[], 0⟩)).toOption.map
      (fun r => (r.2, r.1.fmtFound, r.1.bitsPerSample, r.1.numChannels,
        decide (r.1.wavFile.gpos + r.1.chk.size ≤ 2044 ∧ r.1.dataHdrSizeOffset = 40),
        getNumSamplesPerChannel r.1))
      = some (true, true, 16, 1, true, 1000) := by
  decide!

/-- The file of a thousand 16-bit mono samples has 2044 bytes. -/
theorem monoFile16_ramp_length : (monoFile16 (rampSamples16 1000)).length = 2044 := by
  decide!

/-- `load(filePath, outputFile)` on a new reader returns `true` for the 16-bit mono file of a
thousand samples that count up: the fmt chunk is parsed, the declared bytes of the data chunk
are present, the sample count is 1000, and the data size field of the output lies at offset
40. -/
theorem loadWithOutput_ramp_header :
    ∃ st : WavReader ℚ,
      loadWithOutput (fun _ => 0) (newReader blankReader)
        (openFile (monoFile16 (rampSamples16 1000))) (some ⟨[], 0⟩) = .ok (st, true) ∧
      st.fmtFound = true ∧ st.bitsPerSample = 16 ∧ st.numChannels = 1 ∧
      st.wavFile.gpos + st.chk.size ≤ (monoFile16 (rampSamples16 1000)).length ∧
      getNumSamplesPerChannel st = 1000 ∧ st.dataHdrSizeOffset = 40 := by
  have h := loadWithOutput_ramp_values
  rw [monoFile16_ramp_length]
  cases hr : loadWithOutput (fun _ => 0) (newReader (blankReader : WavReader ℚ))
      (openFile (monoFile16 (rampSamples16 1000))) (some ⟨[], 0⟩) with
  | error e =>
    rw [hr] at h
    cases h
  | ok x =>
    obtain ⟨st, b⟩ := x
    rw [hr] at h
    simp only [Except.toOption, Option.map_some', Option.some.injEq, Prod.mk.injEq,
      decide_eq_true_eq] at h
    obtain ⟨h1, h2, h3, h4, ⟨h5, h7⟩, h6⟩ := h
    subst h1
    exact ⟨st, rfl, h2, h3, h4, h5, h6, h7⟩

/-- The facts of `loadWithOutput_ramp_header` that the reads work on. -/
theorem loadWithOutput_ramp :
    ∃ st : WavReader ℚ,
      loadWithOutput (fun _ => 0) (newReader blankReader)
        (openFile (monoFile16 (rampSamples16 1000))) (some ⟨[], 0⟩) = .ok (st, true) ∧
      st.fmtFound = true ∧ st.bitsPerSample = 16 ∧ st.numChannels = 1 ∧
      st.wavFile.gpos + st.chk.size ≤ (monoFile16 (rampSamples16 1000)).length ∧
      getNumSamplesPerChannel st = 1000 := by
  obtain ⟨st, h1, h2, h3, h4, h5, h6, _⟩ := loadWithOutput_ramp_header
  exact ⟨st, h1, h2, h3, h4, h5, h6⟩

/-! ## Claims: sample codec -/

/-- Claim C6 fails as stated. For `x = 9/10` the 16-bit write path stores `29490` and
`convert16BitsToFloat` decodes it to `14745/16384`, which is further than one quantization
step `1/32768` from `x`. -/
theorem roundTrip16_exceeds_one_step :
    (convert16BitsToFloat (sampleToFile 16 (clamp (9 / 10 : ℚ) (-1) 1)) : ℚ) = 14745 / 16384 ∧
    ¬ |(convert16BitsToFloat (sampleToFile 16 (clamp (9 / 10 : ℚ) (-1) 1)) : ℚ)
        - clamp (9 / 10) (-1) 1| ≤ 1 / 32768 := by
  decide!

/-- Instance of `roundTrip16_within_two_steps` at `x = 9/10`. -/
theorem roundTrip16_within_two_steps_witness :
    |(convert16BitsToFloat (sampleToFile 16 (clamp (9 / 10 : ℚ) (-1) 1)) : ℚ)
        - clamp (9 / 10) (-1) 1| < 2 / 32768 :=
  roundTrip16_within_two_steps (9 / 10 : ℚ) (by norm_num) (by norm_num)

/-- Claim C7 at the failing input `x = 1.0`. The clamped sample scales to `8388608`, the three
stored bytes are `00 00 80`, and `convert24BitsToFloat` reads them back as
`-2147483648 / 2147483391`, about `-1`: the distance from `clamp(x, -1, 1) = 1` is more than
one quantization step `1/8388608`. -/
theorem roundTrip24_full_scale_wraps :
    (convert24BitsToFloat (convertFloatTo24Bits (clamp (1 : ℚ) (-1) 1)) : ℚ)
      = -2147483648 / 2147483391 ∧
    ¬ |(convert24BitsToFloat (convertFloatTo24Bits (clamp (1 : ℚ) (-1) 1)) : ℚ)
        - clamp 1 (-1) 1| ≤ 1 / 8388608 := by
  decide!

/-- Claim C8 at the failing input `x = 1.0` on the 24-bit path. After clamping, the scaled and
truncated integer is `8388608`, outside the signed 24-bit range; the stored bytes are
`00 00 80`, which read back as the signed 24-bit value `-8388608` (shifted into the upper
three bytes of an `int`: `-2147483648`). -/
theorem encode24_full_scale_out_of_range :
    truncToInt (clamp (1 : ℚ) (-1) 1 * 8388608) = 8388608 ∧
    ¬ (truncToInt (clamp (1 : ℚ) (-1) 1 * 8388608) ≤ 8388607) ∧
    convertFloatTo24Bits (clamp (1 : ℚ) (-1) 1) = [0, 0, 128] ∧
    int32OfBytes (convertFloatTo24Bits (clamp (1 : ℚ) (-1) 1)) = -8388608 * 256 := by
  decide!

/-- Claim C9 at the failing input `(b0, b1, b2) = (0x00, 0x00, 0x80)`. The `int` is `-2^31`
and `convert24BitsToFloat` returns `-2147483648 / 2147483391`, which is below `-1`. -/
theorem convert24BitsToFloat_below_minus_one :
    (convert24BitsToFloat [0, 0, 128] : ℚ) = -2147483648 / 2147483391 ∧
    (convert24BitsToFloat [0, 0, 128] : ℚ) < -1 := by
  decide!

/-! ## Claims: Hann overlap-add -/

/-- Claim C5. For every `HannFilter` state with window size `N = 2 * hop`, history `H` of
length `N` and an overlap buffer `O` holding at least `hop` floats, every new input hop `x` of
length `hop` and every transform, `applyFilterInternal` succeeds, sets the history to
`H[hop..N) ++ x`, calls the transform once on it to get `Y`, returns
`out[s] = O[s] + w(s) * Y[s]` for every `s < hop` and leaves the overlap buffer holding
`w(hop + s) * Y[hop + s]` at every `s < hop`, `w` being the Hann multiplier. -/
theorem applyFilterInternal_hop {α : Type} [Field α] {σ : Type} (cos : α → α) (pi : α)
    (process : σ → List α → σ × List α) (f : HannFilter α) (model : σ) (x : List α)
    (hN : f.mWindowSize = 2 * f.mHopSize)
    (hH : f.mModelInputBuffer.length = f.mWindowSize)
    (hO : f.mHopSize ≤ f.mOverlapBuffer.length)
    (hx : x.length = f.mHopSize) :
    ∃ f1 out,
      applyFilterInternal cos pi process f model x f.mHopSize
        = some (f1, (process model (f.mModelInputBuffer.drop f.mHopSize ++ x)).1, out) ∧
      f1.mWindowSize = f.mWindowSize ∧ f1.mHopSize = f.mHopSize ∧
      f1.mModelInputBuffer = f.mModelInputBuffer.drop f.mHopSize ++ x ∧
      out.length = f.mHopSize ∧
      f1.mOverlapBuffer.length = f.mOverlapBuffer.length ∧
      ∀ s, s < f.mHopSize →
        out.getD s 0 = f.mOverlapBuffer.getD s 0 +
          hannMultiplier cos pi f.mWindowSize s *
            (process model (f.mModelInputBuffer.drop f.mHopSize ++ x)).2.getD s 0 ∧
        f1.mOverlapBuffer.getD s 0 =
          hannMultiplier cos pi f.mWindowSize (f.mHopSize + s) *
            (process model (f.mModelInputBuffer.drop f.mHopSize ++ x)).2.getD (f.mHopSize + s) 0 :=
  applyFilterInternal_step cos pi process f model x hN hH hO hx

/-- Instance of `applyFilterInternal_hop` over the rationals: window size 4, history
`[1, 2, 3, 4]`, overlap `[5, 6, 0, 0]`, new hop `[7, 8]`, a transform that reverses the window
and counts its calls, and the constant `1/2` in place of the cosine. -/
theorem applyFilterInternal_hop_witness :
    ∃ f1 out,
      applyFilterInternal (fun _ => (1 / 2 : ℚ)) 3 (fun (m : Nat) (w : List ℚ) => (m + 1, w.reverse))
          ⟨4, 2, [5, 6, 0, 0], [1, 2, 3, 4]⟩ 0 [7, 8] 2
        = some (f1, 1, out) ∧
      f1.mWindowSize = 4 ∧ f1.mHopSize = 2 ∧
      f1.mModelInputBuffer = [3, 4, 7, 8] ∧
      out.length = 2 ∧
      f1.mOverlapBuffer.length = 4 ∧
      ∀ s, s < 2 →
        out.getD s 0 = ([5, 6, 0, 0] : List ℚ).getD s 0 +
          hannMultiplier (fun _ => (1 / 2 : ℚ)) 3 4 s * ([8, 7, 4, 3] : List ℚ).getD s 0 ∧
        f1.mOverlapBuffer.getD s 0 =
          hannMultiplier (fun _ => (1 / 2 : ℚ)) 3 4 (2 + s) * ([8, 7, 4, 3] : List ℚ).getD (2 + s) 0 :=
  applyFilterInternal_hop (fun _ => (1 / 2 : ℚ)) 3 (fun (m : Nat) (w : List ℚ) => (m + 1, w.reverse))
    ⟨4, 2, [5, 6, 0, 0], [1, 2, 3, 4]⟩ 0 [7, 8] rfl rfl (by decide) rfl

/-! ## Claims: block reads -/

/-- Claim C1 at the failing input: a 16-bit stereo stream of three frames. The first call
`getNextAudioBlock(buf, 0, 1)` allocates the scratch buffer of channel 1 with one float, returns
`true` with `[1/2]` and leaves two whole frames, data position 4 of 12, the end not signalled.
The call `getNextAudioBlock(buf, 0, 2)` that follows does not return the two samples: the
scratch buffer is not allocated anew, and the channel-1 sample of the second frame is stored at
its index 1, outside the allocation. The same call on the reader as loaded, where it allocates
the scratch buffer itself, returns `true` with `[1/2, 1/8]`, and the call for channel 1 after it
returns `[1/4, 1/16]`. -/
theorem longer_block_overruns_scratch :
    ((readBlocks (fun _ => (0 : ℚ)) (streamAt [0, 64, 0, 32, 0, 16, 0, 8, 0, 4, 0, 2] 0 12 2 16)
        [([0], 0, 1)]).toOption.map
      fun r => (r.2, r.1.bufferToFillR.map List.length, r.1.chk.pos, r.1.chk.size,
        r.1.isEofReached))
      = some ([(true, [1 / 2])], some 1, 4, 12, false) ∧
    failureOf (readBlocks (fun _ => (0 : ℚ))
        (streamAt [0, 64, 0, 32, 0, 16, 0, 8, 0, 4, 0, 2] 0 12 2 16)
        [([0], 0, 1), ([0, 0], 0, 2)]) = some .outOfBounds ∧
    ((readBlocks (fun _ => (0 : ℚ)) (streamAt [0, 64, 0, 32, 0, 16, 0, 8, 0, 4, 0, 2] 0 12 2 16)
        [([0, 0], 0, 2), ([0, 0], 1, 2)]).toOption.map fun r => r.2)
      = some [(true, [1 / 2, 1 / 8]), (true, [1 / 4, 1 / 16])] := by
  decide!

/-- Claim C2 at the failing input: a 16-bit stereo stream of three frames read in blocks of
two. The second block is short (`m = 1`); channel 0 returns `[1/32, 0]`, but channel 1 returns
`[1/64, 1/16]`: index 1 still holds the channel-1 sample of the previous block instead of
`0.0`, because `copyToBuffer` clears `bufferToFill` twice and never the scratch buffer. -/
theorem shortBlock_channel1_keeps_stale_sample :
    ((readBlocks (fun _ => (0 : ℚ)) (streamAt [0, 64, 0, 32, 0, 16, 0, 8, 0, 4, 0, 2] 0 12 2 16)
        [([0, 0], 0, 2), ([0, 0], 1, 2), ([0, 0], 0, 2), ([0, 0], 1, 2)]).toOption.map
      fun r => r.2)
      = some [(true, [1 / 2, 1 / 8]), (true, [1 / 4, 1 / 16]),
              (true, [1 / 32, 0]), (true, [1 / 64, 1 / 16])] := by
  decide!

/-- Claim C3 at the failing input: a 16-bit mono stream of one frame read in blocks of two.
The first call cannot fill the block and returns `[1/2, 0]`; the next call with channel 0 and
count 2 does not fail, it returns `true` with `[0, 0]`, because `isEofReached` is only set
when channel `maxNumOfChannels - 1 = 1` is fetched. On a stereo stream in the same situation
the call after the short block fails with "unexpected eof reading from file". -/
theorem pastEnd_read_mono_succeeds :
    ((readBlocks (fun _ => (0 : ℚ)) (streamAt [0, 64] 0 2 1 16)
        [([0, 0], 0, 2), ([0, 0], 0, 2)]).toOption.map fun r => r.2)
      = some [(true, [1 / 2, 0]), (true, [0, 0])] ∧
    failureOf (readBlocks (fun _ => (0 : ℚ)) (streamAt [0, 64, 0, 32] 0 4 2 16)
        [([0, 0], 0, 2), ([0, 0], 1, 2), ([0, 0], 0, 2)]) = some .unexpectedEof := by
  decide!

/-! ## Claims: chunk scanner, format scan and data scan -/

/-- Claim C12 (chunk skip correctness). The input `F` is accepted by `load` from a reader that
has parsed no fmt chunk before, a fmt chunk is found, and `d` is the offset of the data chunk
header at which `load` stops (the get position is behind its eight bytes). A chunk with a
four-byte id other than `data` and a payload of less than 2^32 bytes, padded when its size is
odd, is inserted at `d`; the RIFF size field is left as it is or set to a value `R` whose
WAVE extent is not smaller (for the size field of `F` itself the result is plainly `F` with
the chunk inserted). Then `load` accepts the new input too, reports the same fmt fields and
data chunk size, and every sequence of `getNextAudioBlock` calls returns the same flags and
blocks, or fails alike. -/
theorem load_skips_inserted_chunk {α : Type} [LinearOrderedField α] (stack : Nat → Byte)
    (uninit : Nat → α) (st0 st : WavReader α) (F : List Byte) (d : Nat) (id payload : List Byte)
    (R : Nat) (b : Bool)
    (h0 : st0.fmtFound = false)
    (hload : load stack st0 (openFile F) = .ok (st, b))
    (hfmt : st.fmtFound = true)
    (hd : st.wavFile.gpos = d + 8)
    (hid : id.length = 4) (hne : id ≠ [100, 97, 116, 97]) (hlen : payload.length < 4294967296)
    (hR : R < 4294967296)
    (hext : (leValue ((F.drop 4).take 4) + 4294967296 - 4) % 4294967296
      ≤ (R + 4294967296 - 4) % 4294967296) :
    insertChunk F d (riffChunk id payload) (leValue ((F.drop 4).take 4))
        = F.take d ++ riffChunk id payload ++ F.drop d ∧
      ∃ st1, load stack st0 (openFile (insertChunk F d (riffChunk id payload) R)) = .ok (st1, b) ∧
        formatOf st1 = formatOf st ∧
        ∀ calls, outputOf (readBlocks uninit st1 calls) = outputOf (readBlocks uninit st calls) := by
  obtain ⟨s2, s, hh, hu, hf, hb⟩ := load_inv stack st0 st (openFile F) b hload
  have hh' : (checkForRiffHeader { st0 with wavFile := ⟨F, 0, true⟩ } >>= readToWaveChunkHeader)
      = .ok s2 := hh
  obtain ⟨hw2, hF12, hf2⟩ := headers_inv st0 s2 F hh'
  have hc2 : s2.wavFile.content = F := by rw [hw2]
  have hg2 : s2.wavFile.gpos = 12 := by rw [hw2]
  have hul : updateInfoLoop stack (F.length + 1) s2 = .ok s := by
    have := hu
    unfold updateInfo at this
    rw [hc2] at this
    exact this
  have hsf : s.fmtFound = true := by
    rw [← findDataLoop_fmtFound _ s st hf]
    exact hfmt
  have hag0 : AgreeOn F F 8 0 := ⟨Nat.zero_le _, fun _ _ _ _ => rfl⟩
  obtain ⟨hcs, hgs, hchk, _⟩ := @updateInfoLoop_stable α F F 8 0 0 s2.wave.size hag0 stack
    (F.length + 1) s2 s hul hc2 (by omega) (by rw [hf2]; exact h0) hsf (le_refl _)
  have hnd := isChunkID_fmt_not_data s.chk hchk
  have hfl : findDataLoop (F.length + 1) s = .ok st := by
    have := hf
    unfold findDataPosition at this
    rw [hcs] at this
    exact this
  obtain ⟨b1, b2, b3⟩ := findDataLoop_basic _ s st hfl hnd
  rw [hcs] at b2
  rw [b2] at b3
  have hd12 : 12 ≤ d := by omega
  have hdF : d ≤ F.length := by omega
  obtain ⟨hins, hsh⟩ := insertChunk_shift F d (riffChunk id payload) R (by omega) hdF
  have hag := insertChunk_agree F d (riffChunk id payload) R (by omega) hdF
  obtain ⟨t1, t2, t3⟩ := insertChunk_header F d (riffChunk id payload) R hR hF12 hd12 hdF
  have hL := riffChunk_length id payload hid
  have hF'len : (insertChunk F d (riffChunk id payload) R).length
      = F.length + (riffChunk id payload).length := hsh.1
  obtain ⟨hh2, _, _, _, hws⟩ := headers_stable st0 s2 F
    (insertChunk F d (riffChunk id payload) R) R hh' (by omega) t1 t2 t3
  obtain ⟨_, _, _, hstab⟩ := @updateInfoLoop_stable α F
    (insertChunk F d (riffChunk id payload) R) 8 d R ((R + 4294967296 - 4) % 4294967296) hag
    stack (F.length + 1) s2 s hul hc2 (by omega) (by rw [hf2]; exact h0) hsf
    (by rw [hws]; exact hext)
  have hu2 := hstab (by omega) ((insertChunk F d (riffChunk id payload) R).length + 1) (by omega)
  obtain ⟨_, _, _, _, hfin⟩ := @findDataLoop_inserted α F
    (insertChunk F d (riffChunk id payload) R) 8 d R ((R + 4294967296 - 4) % 4294967296) hag
    id payload hins hid hne hlen (F.length + 1) s st hfl hcs (by omega) hnd
  obtain ⟨rf, wv, hf3⟩ := hfin hd ((insertChunk F d (riffChunk id payload) R).length + 1)
    (by omega)
  refine ⟨insertChunk_same F d _ (by omega) hdF,
    rebased st (insertChunk F d (riffChunk id payload) R) (riffChunk id payload).length rf wv,
    ?_, rfl, ?_⟩
  · have := load_of_steps stack st0 (openFile (insertChunk F d (riffChunk id payload) R))
      _ _ _ hh2 hu2 hf3
    rw [this, hb]
    rfl
  · intro calls
    rw [readBlocks_rebased F _ _ d rf wv hsh uninit calls st b2 (by omega), outputOf_mapReader]

theorem load_skips_inserted_chunk_witness :
    ∃ st1, load (fun _ => 0) (blankReader : WavReader ℚ)
        (openFile (insertChunk
          (riffFile [87, 65, 86, 69]
            (riffChunk [102, 109, 116, 32] (pcmFormat 1 44100 16) ++
              riffChunk [100, 97, 116, 97] [0, 64, 0, 32]))
          36 (riffChunk [76, 73, 83, 84] [1, 2, 3]) 52)) = .ok (st1, true) ∧
      formatOf st1 = [1, 1, 44100, 88200, 2, 16, 4] := by
  obtain ⟨_, st1, h1, h2, _⟩ := load_skips_inserted_chunk (fun _ => 0) (fun _ => (0 : ℚ))
    blankReader _
    (riffFile [87, 65, 86, 69]
      (riffChunk [102, 109, 116, 32] (pcmFormat 1 44100 16) ++
        riffChunk [100, 97, 116, 97] [0, 64, 0, 32]))
    36 [76, 73, 83, 84] [1, 2, 3] 52 true rfl rfl rfl rfl rfl (by decide) (by decide) (by decide)
    (by decide)
  exact ⟨st1, h1, h2⟩

/-- Claim C13 (chunk-padding rule) at a failing input: a fmt chunk of the odd size 17 followed by
its pad byte and a data chunk. The format scan leaves the stream at the end of the payload,
offset 12 + 8 + 17, without skipping the pad byte, so the data scan reads the next header one
byte early and `load` fails; an unknown chunk of odd size in the same place is skipped
together with its pad byte and `load` succeeds. -/
theorem fmt_odd_size_pad_not_skipped :
    ((formatScan (fun _ => 0) (newReader (blankReader : WavReader ℚ))
        (openFile (riffFile [87, 65, 86, 69]
          (riffChunk [102, 109, 116, 32] (pcmFormat 1 44100 16 ++ [0]) ++
           riffChunk [100, 97, 116, 97] [0, 64, 0, 32])))).toOption.map
      fun s => (s.chk.size, s.wavFile.gpos)) = some (17, 12 + 8 + 17) ∧
    failureOf (load (fun _ => 0) (newReader (blankReader : WavReader ℚ))
        (openFile (riffFile [87, 65, 86, 69]
          (riffChunk [102, 109, 116, 32] (pcmFormat 1 44100 16 ++ [0]) ++
           riffChunk [100, 97, 116, 97] [0, 64, 0, 32])))) = some .unexpectedEof ∧
    ((load (fun _ => 0) (newReader (blankReader : WavReader ℚ))
        (openFile (riffFile [87, 65, 86, 69]
          (riffChunk [102, 109, 116, 32] (pcmFormat 1 44100 16) ++
           riffChunk [76, 73, 83, 84] [1, 2, 3] ++
           riffChunk [100, 97, 116, 97] [0, 64, 0, 32])))).toOption.map
      fun r => (r.2, formatOf r.1, r.1.wavFile.gpos))
      = some (true, [1, 1, 44100, 88200, 2, 16, 4], 12 + 24 + 12 + 8) := by
  decide!

/-- Claim C14 (fmt decoding). The reader is at a good stream position at which chunks that are
not fmt chunks precede a fmt chunk of declared size `P.length` with payload `P` of at least 14
bytes, inside the extent of the WAVE chunk, and no fmt chunk was parsed before. Then
`updateInfo` returns; the five leading fields are the little-endian values of the payload
bytes; `bitsPerSample` is read from bytes 14 and 15 exactly when the size is at least 16 and
`extraSize` from bytes 16 and 17 exactly when the size is at least 18 (a field that is not read
keeps its value); the chunks before the fmt chunk are skipped whole; and when the fields and
the extension fit in the declared size, the stream is left at the end of the fmt payload. -/
theorem updateInfo_decodes_fmt {α : Type} (stack : Nat → Byte) (st : WavReader α)
    (c : List Byte) (g : Nat) (pre : List (List Byte × List Byte)) (P rest : List Byte)
    (hf : st.wavFile = ⟨c, g, true⟩) (hff : st.fmtFound = false)
    (hrem : c.drop g = riffChunks pre ++ [102, 109, 116, 32] ++ leBytes 4 P.length ++ P ++ rest)
    (hpre : ∀ ch ∈ pre, ch.1.length = 4 ∧ ch.1 ≠ [102, 109, 116, 32] ∧ ch.2.length < 4294967296)
    (hext : st.wave.pos + (riffChunks pre).length < st.wave.size)
    (hws : st.wave.size < 4294967296) (hP : P.length < 4294967296) (h14 : 14 ≤ P.length)
    (havail : 18 ≤ P.length → 18 + leValue ((P.drop 16).take 2) ≤ P.length + rest.length) :
    ∃ r, updateInfo stack st = .ok r ∧
      r.audioFormat = leValue (P.take 2) ∧
      r.numChannels = leValue ((P.drop 2).take 2) ∧
      r.sampleRate = leValue ((P.drop 4).take 4) ∧
      r.byteRate = leValue ((P.drop 8).take 4) ∧
      r.blockAlign = leValue ((P.drop 12).take 2) ∧
      r.bitsPerSample = (if 16 ≤ P.length then leValue ((P.drop 14).take 2) else st.bitsPerSample) ∧
      r.extraSize = (if 18 ≤ P.length then leValue ((P.drop 16).take 2) else st.extraSize) ∧
      r.fmtFound = true ∧ r.chk.id = [102, 109, 116, 32] ∧ r.chk.size = P.length ∧
      r.wavFile.content = c ∧ r.wavFile.good = true ∧
      r.wavFile.gpos = g + (riffChunks pre).length + 8 +
        max P.length (if 18 ≤ P.length then 18 + leValue ((P.drop 16).take 2) else 0) ∧
      ((18 ≤ P.length → 18 + leValue ((P.drop 16).take 2) ≤ P.length) →
        r.wavFile.gpos = g + (riffChunks pre).length + 8 + P.length) := by
  have hrem2 : c.drop g
      = riffChunks pre ++ ([102, 109, 116, 32] ++ (leBytes 4 P.length ++ (P ++ rest))) := by
    rw [hrem]
    simp only [List.append_assoc]
  have e16 : 18 ≤ P.length → ((P ++ rest).drop 16).take 2 = (P.drop 16).take 2 :=
    fun h => take_drop_append P rest 16 2 (by omega)
  obtain ⟨r, hr, sr⟩ := updateInfo_scan stack st c g P.length pre (P ++ rest) hf hff hrem2 hpre
    hext hws hP (by
      rw [List.length_append]
      split_ifs with h18 h16
      · rw [e16 h18]; exact havail h18
      · omega
      · omega)
  refine ⟨r, hr, ?_⟩
  simp only [scanState, fmtFields, Prod.mk.injEq, List.cons.injEq, and_true] at sr
  obtain ⟨hwf, hk, _, hfound, h0, h1, h2, h3, h4, h5, h6⟩ := sr
  have t0 : (P ++ rest).take 2 = P.take 2 := by
    have := take_drop_append P rest 0 2 (by omega)
    simpa using this
  rw [t0] at h0
  rw [take_drop_append P rest 2 2 (by omega)] at h1
  rw [take_drop_append P rest 4 4 (by omega)] at h2
  rw [take_drop_append P rest 8 4 (by omega)] at h3
  rw [take_drop_append P rest 12 2 (by omega)] at h4
  have hgpos : r.wavFile.gpos = g + (riffChunks pre).length + 8 +
      max P.length (if 18 ≤ P.length then 18 + leValue ((P.drop 16).take 2) else 0) := by
    rw [hwf]
    show g + (riffChunks pre).length + 8 + _ = _
    congr 1
    split_ifs with h18 h16
    · rw [e16 h18]
    · omega
    · omega
  refine ⟨h0, h1, h2, h3, h4, ?_, ?_, hfound, by rw [hk], by rw [hk], by rw [hwf], by rw [hwf],
    hgpos, ?_⟩
  · rw [h5]
    split_ifs with h16
    · rw [take_drop_append P rest 14 2 (by omega)]
    · rfl
  · rw [h6]
    split_ifs with h18
    · rw [e16 h18]
    · rfl
  · intro hfit
    rw [hgpos]
    congr 1
    split_ifs with h18
    · have := hfit h18
      omega
    · omega

theorem updateInfo_decodes_fmt_witness :
    ∃ r, updateInfo (fun _ => 0)
        ({ (blankReader : WavReader ℚ) with
            wavFile := ⟨riffFile [87, 65, 86, 69]
              (riffChunk [76, 73, 83, 84] [1, 2, 3] ++
                riffChunk [102, 109, 116, 32] (pcmFormat 2 44100 16)), 12, true⟩
            wave := ⟨[87, 65, 86, 69], 36, 0⟩ }) = .ok r ∧
      r.numChannels = 2 ∧ r.sampleRate = 44100 ∧ r.bitsPerSample = 16 ∧ r.wavFile.gpos = 48 := by
  obtain ⟨r, hr, _, h1, h2, _, _, h5, _, _, _, _, _, _, _, h13⟩ :=
    updateInfo_decodes_fmt (fun _ => 0)
      ({ (blankReader : WavReader ℚ) with
            wavFile := ⟨riffFile [87, 65, 86, 69]
              (riffChunk [76, 73, 83, 84] [1, 2, 3] ++
                riffChunk [102, 109, 116, 32] (pcmFormat 2 44100 16)), 12, true⟩
            wave := ⟨[87, 65, 86, 69], 36, 0⟩ })
      (riffFile [87, 65, 86, 69]
              (riffChunk [76, 73, 83, 84] [1, 2, 3] ++
                riffChunk [102, 109, 116, 32] (pcmFormat 2 44100 16))) 12
      [([76, 73, 83, 84], [1, 2, 3])] (pcmFormat 2 44100 16) []
      rfl rfl (by decide) (by decide) (by decide) (by decide) (by decide) (by decide) (by decide)
  exact ⟨r, hr, h1, h2, h5, h13 (by decide)⟩

/-- Claim C15 (duplicate fmt rejected) at a failing input: a second fmt chunk between the first
one and the data chunk. `load` returns an opened stream with the fields of the first fmt
chunk; the second one is skipped by the data scan as an unknown chunk. -/
theorem second_fmt_chunk_accepted :
    ((load (fun _ => 0) (newReader (blankReader : WavReader ℚ))
        (openFile (riffFile [87, 65, 86, 69]
          (riffChunk [102, 109, 116, 32] (pcmFormat 1 44100 16) ++
           riffChunk [102, 109, 116, 32] (pcmFormat 2 48000 24) ++
           riffChunk [100, 97, 116, 97] [0, 64, 0, 32])))).toOption.map
      fun r => (r.2, r.1.fmtFound, formatOf r.1))
      = some (true, true, [1, 1, 44100, 88200, 2, 16, 4]) := by
  decide!

/-- Claim C16 as stated fails: the RIFF size 28 declares a WAVE extent of 24 bytes, which the
fmt chunk uses up, and the data chunk lies behind it; `load` succeeds and takes that chunk as
the data chunk. -/
theorem data_beyond_wave_extent_accepted :
    ((load (fun _ => 0) (newReader (blankReader : WavReader ℚ))
        (openFile ([82, 73, 70, 70] ++ leBytes 4 28 ++ [87, 65, 86, 69] ++
          riffChunk [102, 109, 116, 32] (pcmFormat 1 44100 16) ++
          riffChunk [100, 97, 116, 97] [0, 64, 0, 32]))).toOption.map
      fun r => (r.2, r.1.wave.size, r.1.chk.id, r.1.chk.size, r.1.dataPosition))
      = some (true, 24, [100, 97, 116, 97], 4, 4) := by
  decide!

/-- Claim C16 (missing data chunk), as the code has it. The stream is a RIFF header, a form
type, chunks that are not fmt chunks, a fmt chunk that starts inside the declared extent of the
WAVE chunk and whose fields fit its even size, chunks that are not data chunks, and the bytes
`tail`. When fewer than 8 bytes are left in `tail`, `load` fails with the unexpected-eof
error. When `tail` starts with a data chunk header, `load` succeeds with that chunk as the data
chunk and the stream positioned behind the header, whatever the declared extent is: the data
scan never consults it. -/
theorem load_data_scan_ignores_extent {α : Type} (stack : Nat → Byte) (st0 : WavReader α)
    (R : Nat) (form : List Byte) (pre : List (List Byte × List Byte)) (P : List Byte)
    (post : List (List Byte × List Byte)) (tail : List Byte)
    (hff : st0.fmtFound = false) (hform : form.length = 4) (hR : R < 4294967296)
    (hpre : ∀ ch ∈ pre, ch.1.length = 4 ∧ ch.1 ≠ [102, 109, 116, 32] ∧ ch.2.length < 4294967296)
    (hext : (riffChunks pre).length < (R + 4294967296 - 4) % 4294967296)
    (hP : 14 ≤ P.length) (hP2 : P.length < 4294967296) (heven : P.length % 2 = 0)
    (hfit : 18 ≤ P.length → 18 + leValue ((P.drop 16).take 2) ≤ P.length)
    (hpost : ∀ ch ∈ post, ch.1.length = 4 ∧ ch.1 ≠ [100, 97, 116, 97] ∧
      ch.2.length < 4294967296) :
    (tail.length < 8 →
      load stack st0 (openFile (waveStream R form pre P post tail)) = .error .unexpectedEof) ∧
    (∀ (n : Nat) (Z : List Byte), n < 4294967296 →
      tail = [100, 97, 116, 97] ++ leBytes 4 n ++ Z →
      ∃ r, load stack st0 (openFile (waveStream R form pre P post tail)) = .ok (r, true) ∧
        r.chk = ⟨[100, 97, 116, 97], n, 0⟩ ∧
        r.wavFile.gpos + Z.length = (waveStream R form pre P post tail).length ∧
        r.fmtFound = true ∧ r.numChannels = leValue ((P.drop 2).take 2)) := by
  obtain ⟨s1, s2, s3, k, w, fuel, h1, h2, h3, hs3, hk, hrem, hlen⟩ :=
    load_reaches_tail stack st0 R form pre P post tail hff hform hR hpre hext hP hP2 heven hfit
      hpost
  have hs3b := hs3
  simp only [scanState, Prod.mk.injEq] at hs3b
  obtain ⟨hf3, hk3, _, hff3, hl3⟩ := hs3b
  constructor
  · intro htail
    apply load_of_steps_error stack st0 _ s1 s2 _ h1 h2
    rw [h3, findDataLoop, hk3, if_pos hk, readSubChunk_eof s3 _ _ hf3 (by omega)]
  · intro n Z hn hZ
    have hrem2 : (waveStream R form pre P post tail).drop
        (12 + (riffChunks pre).length + 8 + P.length + (riffChunks post).length)
        = [100, 97, 116, 97] ++ (leBytes 4 n ++ Z) := by
      rw [hrem, hZ, List.append_assoc]
    have htl : tail.length = 8 + Z.length := by
      rw [hZ]
      simp only [List.length_append, leBytes_length, List.length_cons, List.length_nil]
    obtain ⟨hid, hrem3⟩ := drop_split _ _ _ _ hrem2
    obtain ⟨hsize, _⟩ := drop_split _ _ _ _ hrem3
    rw [leBytes_length] at hsize
    simp only [List.length_cons, List.length_nil, Nat.zero_add, Nat.reduceAdd] at hid hsize
    obtain ⟨r, hr, sr⟩ := readSubChunk_scan s3 _ _ _ _ _ _ hs3 (by omega)
    rw [hid, hsize, leValue_leBytes 4 n (by norm_num; exact hn)] at sr
    have hsd := scanState_dataChunk r
    rw [sr] at hsd
    simp only [scanState, Prod.mk.injEq] at hsd
    obtain ⟨e1, e2, _, e4, e5⟩ := hsd
    have hfind : findDataPosition s2 = .ok (dataChunk r) := by
      rw [h3, findDataLoop, hk3, if_pos hk, hr]
      simp only []
      rw [if_pos]
      have hrk : r.chk = ⟨[100, 97, 116, 97], n, 0⟩ := by
        simp only [scanState, Prod.mk.injEq] at sr
        exact sr.2.1
      rw [isChunkID_iff _ _ _ _ _ (by rw [hrk]; rfl), hrk]
    have hload := load_of_steps stack st0 _ s1 s2 _ h1 h2 hfind
    rw [e1] at hload
    refine ⟨dataChunk r, hload, e2, ?_, e4, ?_⟩
    · rw [e1, hlen]
      show 12 + (riffChunks pre).length + 8 + P.length + (riffChunks post).length + 8 + _ = _
      omega
    · have := congrArg (fun x => x.getD 1 0) e5
      simpa [fmtFields] using this

theorem load_data_scan_ignores_extent_witness :
    load (fun _ => 0) (blankReader : WavReader ℚ)
        (openFile (waveStream 28 [87, 65, 86, 69] [] (pcmFormat 1 44100 16)
          [([76, 73, 83, 84], [1, 2])] [100, 97])) = .error .unexpectedEof ∧
    ∃ r, load (fun _ => 0) (blankReader : WavReader ℚ)
        (openFile (waveStream 28 [87, 65, 86, 69] [] (pcmFormat 1 44100 16)
          [([76, 73, 83, 84], [1, 2])] ([100, 97, 116, 97] ++ leBytes 4 4 ++ [0, 64, 0, 32])))
          = .ok (r, true) ∧ r.chk = ⟨[100, 97, 116, 97], 4, 0⟩ :=
  ⟨(load_data_scan_ignores_extent (fun _ => 0) (blankReader : WavReader ℚ) 28 [87, 65, 86, 69] []
      (pcmFormat 1 44100 16) [([76, 73, 83, 84], [1, 2])] [100, 97] rfl rfl (by decide)
      (by decide) (by decide) (by decide) (by decide) (by decide) (by decide) (by decide)).1
      (by decide),
    by
      obtain ⟨r, hr, hk, _⟩ :=
        (load_data_scan_ignores_extent (fun _ => 0) (blankReader : WavReader ℚ) 28
          [87, 65, 86, 69] [] (pcmFormat 1 44100 16) [([76, 73, 83, 84], [1, 2])]
          ([100, 97, 116, 97] ++ leBytes 4 4 ++ [0, 64, 0, 32]) rfl rfl (by decide)
          (by decide) (by decide) (by decide) (by decide) (by decide) (by decide) (by decide)).2
          4 [0, 64, 0, 32] (by decide) rfl
      exact ⟨r, hr, hk⟩⟩

/-- Claim C17 (form type check) at a failing input: a RIFF file whose form type is `WAVX`.
`load(filePath)` returns an opened stream, whereas `load(filePath, outputFile)` fails with
the not-a-WAV-file error. -/
theorem load_accepts_other_form_type :
    ((load (fun _ => 0) (newReader (blankReader : WavReader ℚ))
        (openFile (riffFile [87, 65, 86, 88]
          (riffChunk [102, 109, 116, 32] (pcmFormat 1 44100 16) ++
           riffChunk [100, 97, 116, 97] [0, 64, 0, 32])))).toOption.map
      fun r => (r.2, r.1.wave.id, formatOf r.1))
      = some (true, [87, 65, 86, 88], [1, 1, 44100, 88200, 2, 16, 4]) ∧
    failureOf (loadWithOutput (fun _ => 0) (newReader (blankReader : WavReader ℚ))
        (openFile (riffFile [87, 65, 86, 88]
          (riffChunk [102, 109, 116, 32] (pcmFormat 1 44100 16) ++
           riffChunk [100, 97, 116, 97] [0, 64, 0, 32]))) (some ⟨[], 0⟩)) = some .notWave := by
  decide!

/-- Claim C18 (RIFF check). For every input of at least 8 bytes whose first four bytes are not
`RIFF`, `checkForRiffHeader` throws the not-a-RIFF-file error, and so do both overloads of
`load`, before any chunk is parsed; and `isChunkID` on a four-byte id returns true exactly
when the id is the four expected bytes. -/
theorem load_rejects_non_riff {α : Type} (stack : Nat → Byte) (st : WavReader α)
    (content : List Byte) (h8 : 8 ≤ content.length) (hid : content.take 4 ≠ [82, 73, 70, 70]) :
    checkForRiffHeader { st with wavFile := openFile content } = .error .notRiff ∧
    load stack st (openFile content) = .error .notRiff ∧
    (∀ out, loadWithOutput stack st (openFile content) out = .error .notRiff) ∧
    ∀ (c : chunkHdr) (i1 i2 i3 i4 : Byte), c.id.length = 4 →
      (isChunkID c i1 i2 i3 i4 = true ↔ c.id = [i1, i2, i3, i4]) := by
  refine ⟨checkForRiffHeader_notRiff st content h8 hid, ?_, ?_, fun c i1 i2 i3 i4 h =>
    isChunkID_iff c i1 i2 i3 i4 h⟩
  · unfold load
    rw [checkForRiffHeader_notRiff st content h8 hid]
    rfl
  · intro out
    unfold loadWithOutput
    have h := checkForRiffHeader_notRiff { st with writeToOutput := true, outWavFile := out } content h8 hid
    simp only [] at h
    rw [h]
    rfl

theorem load_rejects_non_riff_witness :
    load (fun _ => 0) (blankReader : WavReader ℚ)
        (openFile [82, 73, 70, 88, 36, 0, 0, 0, 87, 65, 86, 69]) = .error .notRiff ∧
      (isChunkID ⟨[82, 73, 70, 88], 36, 0⟩ 82 73 70 70 = true ↔
        ([82, 73, 70, 88] : List Byte) = [82, 73, 70, 70]) :=
  ⟨(load_rejects_non_riff (fun _ => 0) (blankReader : WavReader ℚ)
      [82, 73, 70, 88, 36, 0, 0, 0, 87, 65, 86, 69] (by decide) (by decide)).2.1,
    (load_rejects_non_riff (fun _ => 0) (blankReader : WavReader ℚ)
      [82, 73, 70, 88, 36, 0, 0, 0, 87, 65, 86, 69] (by decide) (by decide)).2.2.2
      ⟨[82, 73, 70, 88], 36, 0⟩ 82 73 70 70 rfl⟩

/-! ## Claims: block reads of unsupported depth, and the writer -/

/-- Claim C19 (unsupported bit depth) at a failing input: on a loaded 8-bit mono stream
`getNextAudioBlock` with a buffer, channel 0 and count 2 ends in the `exit(0)` of
`copyToBuffer` instead of an error; only depths above 24 bits, such as 32, are rejected by
`checkForExceptions`. -/
theorem eight_bit_read_exits_process :
    failureOf (readSession (fun _ => 0) (fun _ => 0) (blankReader : WavReader ℚ)
        (riffFile [87, 65, 86, 69]
          (riffChunk [102, 109, 116, 32] (pcmFormat 1 44100 8) ++
           riffChunk [100, 97, 116, 97] [0, 64, 0, 32]))
        [([0, 0], 0, 2)]) = some .exitProcess ∧
    failureOf (readSession (fun _ => 0) (fun _ => 0) (blankReader : WavReader ℚ)
        (riffFile [87, 65, 86, 69]
          (riffChunk [102, 109, 116, 32] (pcmFormat 1 44100 32) ++
           riffChunk [100, 97, 116, 97] [0, 64, 0, 32]))
        [([0, 0], 0, 2)]) = some .unsupportedDepth := by
  decide!

/-- Claim C11 (writer-to-reader round trip) at a failing input: a 16-bit mono input whose fmt chunk
declares 20 bytes, the 16 PCM bytes, an extension size of 0 and two more bytes. The writer
copies the declared size 20 but only the 18 bytes of the fields it parsed, so the output it
produces for one `writeToFile` call of two samples has a fmt chunk that is two bytes short, and
`load` on those output bytes fails with the unexpected-eof error instead of reporting the
format. -/
theorem roundTrip_fmt_with_trailing_bytes_fails :
    ((writeSession (fun _ => 0) (blankReader : WavReader ℚ)
        (riffFile [87, 65, 86, 69]
          (riffChunk [102, 109, 116, 32] (pcmFormat 1 44100 16 ++ [0, 0, 0, 0]) ++
           riffChunk [100, 97, 116, 97] [0, 64, 0, 32]))
        [(some [1 / 2, 1 / 4], none, 2)]).toOption.map
      fun r => (r.1.writtenSamples, formatOf r.1, r.2))
      = some (2, [1, 1, 44100, 88200, 2, 16, 4],
          [82, 73, 70, 70, 44, 0, 0, 0, 87, 65, 86, 69,
           102, 109, 116, 32, 20, 0, 0, 0,
           1, 0, 1, 0, 68, 172, 0, 0, 136, 88, 1, 0, 2, 0, 16, 0, 0, 0,
           100, 97, 116, 97, 4, 0, 0, 0, 255, 63, 255, 31]) ∧
    failureOf (load (fun _ => 0) (newReader (blankReader : WavReader ℚ))
        (openFile
          [82, 73, 70, 70, 44, 0, 0, 0, 87, 65, 86, 69,
           102, 109, 116, 32, 20, 0, 0, 0,
           1, 0, 1, 0, 68, 172, 0, 0, 136, 88, 1, 0, 2, 0, 16, 0, 0, 0,
           100, 97, 116, 97, 4, 0, 0, 0, 255, 63, 255, 31])) = some .unexpectedEof := by
  decide!

/-- Claim C20 (interleaved stereo write) at a failing input: a 16-bit stereo writer on which no
block was read and a call `writeToFile(L, R, 2)` with both buffers given. The output holds the
two samples of `L` only, since the 16-bit loop tests the member `bufferToFillR` and not the
argument `bufferToFileR`, while `writtenSamples` becomes 2; the 24-bit loop writes the frames
interleaved. -/
theorem stereo16_write_drops_right_channel :
    ((writeSession (fun _ => 0) (blankReader : WavReader ℚ)
        (riffFile [87, 65, 86, 69]
          (riffChunk [102, 109, 116, 32] (pcmFormat 2 44100 16) ++
           riffChunk [100, 97, 116, 97] [0, 0, 0, 0, 0, 0, 0, 0]))
        [(some [1 / 2, 1 / 4], some [1 / 8, 1 / 16], 2)]).toOption.map
      fun r => (r.1.numChannels, r.1.bitsPerSample, r.1.writtenSamples, r.2.drop 44))
      = some (2, 16, 2, [255, 63, 255, 31]) ∧
    ((writeSession (fun _ => 0) (blankReader : WavReader ℚ)
        (riffFile [87, 65, 86, 69]
          (riffChunk [102, 109, 116, 32] (pcmFormat 2 44100 24) ++
           riffChunk [100, 97, 116, 97] [0, 0, 0, 0, 0, 0, 0, 0, 0, 0, 0, 0]))
        [(some [1 / 2, 1 / 4], some [1 / 8, 1 / 16], 2)]).toOption.map
      fun r => (r.1.numChannels, r.1.bitsPerSample, r.1.writtenSamples, r.2.drop 44))
      = some (2, 24, 2, [0, 0, 64, 0, 0, 16, 0, 0, 32, 0, 0, 8]) := by
  decide!

/-! ## Claims: the writer, the close and the scanner primitives -/

/-- Claim C21 (channel cap on write) at a failing input: a 24-bit mono writer and the call
`writeToFile(L, R, 2)` with both buffers given. The 24-bit loop tests the argument
`bufferToFileR` and never the channel count, so twelve bytes are appended, the samples of `L`
and of `R` interleaved, while the call with a null `R` appends the six bytes of `L`; in both
cases `writtenSamples` becomes 2 and the destructor declares 6 data bytes. On a 16-bit mono
writer the two calls append the same four bytes. -/
theorem mono24_write_emits_right_channel :
    ((writeSession (fun _ => 0) (blankReader : WavReader ℚ)
        (riffFile [87, 65, 86, 69]
          (riffChunk [102, 109, 116, 32] (pcmFormat 1 44100 24) ++
           riffChunk [100, 97, 116, 97] [0, 0, 0, 0, 0, 0]))
        [(some [1 / 2, 1 / 4], some [1 / 8, 1 / 16], 2)]).toOption.map
      fun r => ([r.1.numChannels, r.1.bitsPerSample, r.1.writtenSamples,
        leValue ((r.2.drop 40).take 4)], r.2.drop 44))
      = some ([1, 24, 2, 6], [0, 0, 64, 0, 0, 16, 0, 0, 32, 0, 0, 8]) ∧
    ((writeSession (fun _ => 0) (blankReader : WavReader ℚ)
        (riffFile [87, 65, 86, 69]
          (riffChunk [102, 109, 116, 32] (pcmFormat 1 44100 24) ++
           riffChunk [100, 97, 116, 97] [0, 0, 0, 0, 0, 0]))
        [(some [1 / 2, 1 / 4], none, 2)]).toOption.map
      fun r => ([r.1.numChannels, r.1.bitsPerSample, r.1.writtenSamples,
        leValue ((r.2.drop 40).take 4)], r.2.drop 44))
      = some ([1, 24, 2, 6], [0, 0, 64, 0, 0, 32]) ∧
    ((writeSession (fun _ => 0) (blankReader : WavReader ℚ)
        (riffFile [87, 65, 86, 69]
          (riffChunk [102, 109, 116, 32] (pcmFormat 1 44100 16) ++
           riffChunk [100, 97, 116, 97] [0, 0, 0, 0]))
        [(some [1 / 2, 1 / 4], some [1 / 8, 1 / 16], 2)]).toOption.map
      fun r => (r.1.numChannels, r.1.bitsPerSample, r.1.writtenSamples, r.2.drop 44))
      = some (1, 16, 2, [255, 63, 255, 31]) ∧
    ((writeSession (fun _ => 0) (blankReader : WavReader ℚ)
        (riffFile [87, 65, 86, 69]
          (riffChunk [102, 109, 116, 32] (pcmFormat 1 44100 16) ++
           riffChunk [100, 97, 116, 97] [0, 0, 0, 0]))
        [(some [1 / 2, 1 / 4], none, 2)]).toOption.map
      fun r => (r.1.numChannels, r.1.bitsPerSample, r.1.writtenSamples, r.2.drop 44))
      = some (1, 16, 2, [255, 63, 255, 31]) := by
  decide!

/-- Claim C22 (data size patch). For every writer state with an open output file the
destructor writes the four little-endian bytes of
`writtenSamples * (bitsPerSample / 8) * numChannels` modulo `2 ^ 32` at the offset
`dataHdrSizeOffset`: the closed file holds each of these bytes, but for a byte that the RIFF
size, written afterwards at `riffSizeOffset`, covers; when the two fields do not overlap the
32-bit value at `dataHdrSizeOffset` is that product. -/
theorem destroy_patches_data_size {α : Type} (st : WavReader α) (out : OutFile)
    (hout : st.outWavFile = some out) :
    ∃ c, destroy st = some c ∧
      (∀ i, i < 4 →
        ¬ (st.riffSizeOffset ≤ st.dataHdrSizeOffset + i ∧
            st.dataHdrSizeOffset + i < st.riffSizeOffset + 4) →
        c.getD (st.dataHdrSizeOffset + i) 0 =
          (leBytes 4 ((st.writtenSamples * (st.bitsPerSample / 8) * st.numChannels)
            % 4294967296)).getD i 0) ∧
      ((st.riffSizeOffset + 4 ≤ st.dataHdrSizeOffset ∨
          st.dataHdrSizeOffset + 4 ≤ st.riffSizeOffset) →
        leValue ((c.drop st.dataHdrSizeOffset).take 4) =
          (st.writtenSamples * (st.bitsPerSample / 8) * st.numChannels) % 4294967296) := by
  obtain ⟨c, h1, h2, _, h4, _⟩ := destroy_getD st out hout
  refine ⟨c, h1, h4, ?_⟩
  intro hsep
  have hb := block_of_getD c
    (leBytes 4 ((st.writtenSamples * (st.bitsPerSample / 8) * st.numChannels) % 4294967296))
    st.dataHdrSizeOffset (by rw [leBytes_length]; exact h2)
    (by
      intro i hi
      rw [leBytes_length] at hi
      exact h4 i hi (by omega))
  rw [leBytes_length] at hb
  rw [hb, leValue_leBytes 4 _ (by
    have := Nat.mod_lt (st.writtenSamples * (st.bitsPerSample / 8) * st.numChannels)
      (show 0 < 4294967296 by decide)
    norm_num
    exact this)]

theorem destroy_patches_data_size_witness :
    ∃ c, destroy ({ (streamAt [] 0 4 1 16 : WavReader ℚ) with
          outWavFile := some ⟨List.replicate 48 0, 48⟩
          dataHdrSizeOffset := 40
          riffSizeOffset := 4
          writtenSamples := 2 }) = some c ∧
      leValue ((c.drop 40).take 4) = 4 := by
  obtain ⟨c, h1, _, h3⟩ := destroy_patches_data_size
    ({ (streamAt [] 0 4 1 16 : WavReader ℚ) with
          outWavFile := some ⟨List.replicate 48 0, 48⟩
          dataHdrSizeOffset := 40
          riffSizeOffset := 4
          writtenSamples := 2 }) ⟨List.replicate 48 0, 48⟩ rfl
  exact ⟨c, h1, h3 (Or.inl (by decide))⟩

/-- Claim C23 (RIFF size consistency) at a failing input: a 16-bit mono input with a `LIST` chunk
of four bytes between the fmt chunk and the data chunk, opened with an output file, two samples
written, then closed. The output holds 48 bytes, the header without the skipped chunk and four
data bytes, so its RIFF size should be 40; the destructor writes 52, the RIFF size of the
source less the change of the data size, which still counts the twelve bytes of the skipped
chunk. On the same input without the `LIST` chunk the field is 40. -/
theorem riff_size_counts_skipped_chunk :
    ((writeSession (fun _ => 0) (blankReader : WavReader ℚ)
        (riffFile [87, 65, 86, 69]
          (riffChunk [102, 109, 116, 32] (pcmFormat 1 44100 16) ++
           riffChunk [76, 73, 83, 84] [1, 2, 3, 4] ++
           riffChunk [100, 97, 116, 97] [0, 0, 0, 0]))
        [(some [1 / 2, 1 / 4], none, 2)]).toOption.map
      fun r => (r.2.length, leValue ((r.2.drop 4).take 4), leValue ((r.2.drop 40).take 4),
        r.2.drop 12))
      = some (48, 52, 4,
          [102, 109, 116, 32, 16, 0, 0, 0, 1, 0, 1, 0, 68, 172, 0, 0, 136, 88, 1, 0, 2, 0, 16, 0,
           100, 97, 116, 97, 4, 0, 0, 0, 255, 63, 255, 31]) ∧
    ((writeSession (fun _ => 0) (blankReader : WavReader ℚ)
        (riffFile [87, 65, 86, 69]
          (riffChunk [102, 109, 116, 32] (pcmFormat 1 44100 16) ++
           riffChunk [100, 97, 116, 97] [0, 0, 0, 0]))
        [(some [1 / 2, 1 / 4], none, 2)]).toOption.map
      fun r => (r.2.length, leValue ((r.2.drop 4).take 4), leValue ((r.2.drop 40).take 4)))
      = some (48, 40, 4) := by
  decide!

/-- Claim C26 (zero initial state) at a failing input: a filter constructed with window size 8
in memory that holds `1.0` everywhere. `memset` is given the byte count 8, so only the first
two floats of each buffer are cleared. With the transform the identity and every multiplier
`1/2`, the first hop emitted for the input `2, 2, 2, 2` is `1/2, 1/2, 3/2, 3/2`; a filter of
zero state emits `0, 0, 0, 0`, the first half of its windowed output. -/
theorem hannFilter_buffers_not_cleared :
    (newHannFilter (fun _ x => x) (fun _ => 1) (fun _ => 1) 8 : HannFilter ℚ).mOverlapBuffer
      = [0, 0, 1, 1, 1, 1, 1, 1] ∧
    (newHannFilter (fun _ x => x) (fun _ => 1) (fun _ => 1) 8 : HannFilter ℚ).mModelInputBuffer
      = [0, 0, 1, 1, 1, 1, 1, 1] ∧
    (applyFilterInternal (fun _ => (0 : ℚ)) 0 (fun (u : Unit) x => (u, x))
        (newHannFilter (fun _ x => x) (fun _ => 1) (fun _ => 1) 8) () [2, 2, 2, 2] 4).map
      (fun r => (r.1.mModelInputBuffer, r.2.2))
      = some ([1, 1, 1, 1, 2, 2, 2, 2], [1 / 2, 1 / 2, 3 / 2, 3 / 2]) ∧
    (applyFilterInternal (fun _ => (0 : ℚ)) 0 (fun (u : Unit) x => (u, x))
        ⟨8, 4, List.replicate 8 0, List.replicate 8 0⟩ () [2, 2, 2, 2] 4).map
      (fun r => (r.1.mModelInputBuffer, r.2.2))
      = some ([0, 0, 0, 0, 2, 2, 2, 2], [0, 0, 0, 0]) := by
  decide!

/-- Claim C29 (sample count) at a failing input: a 16-bit mono stream whose data chunk declares
`2 ^ 29 = 536870912` bytes. The product `8 * chk.size` is `2 ^ 32` and wraps to 0 in
`unsigned int`, so `getNumSamplesPerChannel` returns 0 and not `536870912 / 2`; for the data
size 53157888 of the documented example it returns 26578944. -/
theorem getNumSamplesPerChannel_wraps :
    getNumSamplesPerChannel (streamAt [] 0 53157888 1 16 : WavReader ℚ) = 26578944 ∧
    getNumSamplesPerChannel (streamAt [] 0 536870912 1 16 : WavReader ℚ) = 0 ∧
    536870912 / (16 / 8 * 1) = 268435456 := by
  decide

/-- Claim C30 (channel 1 before channel 0) at a failing input: a loaded 16-bit stereo stream on
which no block was read, fresh memory that holds `1.0`, and the call
`getNextAudioBlock(buf, 1, 2)`. The call returns `true` and copies the scratch buffer, which
`new float[bufferSize]` left uninitialised, so `buf` holds `1.0, 1.0` and not zeros. -/
theorem channel1_first_returns_uninitialised :
    (readSession (fun _ => 0) (fun _ => 1) (blankReader : WavReader ℚ)
        (riffFile [87, 65, 86, 69]
          (riffChunk [102, 109, 116, 32] (pcmFormat 2 44100 16) ++
           riffChunk [100, 97, 116, 97] [1, 0, 2, 0, 3, 0, 4, 0]))
        [([0, 0], 1, 2)]).toOption = some [(true, [1, 1])] := by
  decide!

/-- Claim C28 (scanner position accounting). On a good stream, `read(f, buffer, n, parent)`
returns the `n` bytes at the get position, moves the get position by `n` and adds `n` to
`parent.pos` (an `unsigned int`, so modulo `2 ^ 32`: exactly `n` whenever the sum is
representable) when `n` bytes remain, and throws "unexpected eof" when fewer than `n` bytes
remain; the header read consumes 8 bytes, takes `id` from the first four and `size` from the
last four, sets `pos` to 0 and adds 8 to `parent.pos`; `skip(f, n, parent)` moves the get
position by `n` and adds `n` to `parent.pos`. On a stream that is not good all three throw
"unable to read". A call that throws returns no new parent: the caller keeps the chunk header it
held, with `pos` as it was before the call. -/
theorem read_skip_position_accounting (f : IfStream) (n : Nat) (parent : chunkHdr) :
    (f.good = true →
      (n ≤ f.content.length - f.gpos →
        read f n (some parent) =
          .ok ((f.content.drop f.gpos).take n, { f with gpos := f.gpos + n },
            some { parent with pos := (parent.pos + n) % 4294967296 }) ∧
        ((f.content.drop f.gpos).take n).length = n) ∧
      (f.content.length - f.gpos < n → read f n (some parent) = .error .unexpectedEof) ∧
      (8 ≤ f.content.length - f.gpos →
        readHeader f (some parent) =
          .ok ({ id := (f.content.drop f.gpos).take 4,
                 size := leValue ((f.content.drop (f.gpos + 4)).take 4), pos := 0 },
            { f with gpos := f.gpos + 8 },
            some { parent with pos := (parent.pos + 8) % 4294967296 })) ∧
      skip f n (some parent) =
        .ok ({ f with gpos := f.gpos + n },
          some { parent with pos := (parent.pos + n) % 4294967296 })) ∧
    (f.good = false →
      read f n (some parent) = .error .unableToRead ∧
      readHeader f (some parent) = .error .unableToRead ∧
      skip f n (some parent) = .error .unableToRead) ∧
    (parent.pos + n < 4294967296 → (parent.pos + n) % 4294967296 = parent.pos + n) := by
  refine ⟨fun hg => ⟨fun hn => ⟨read_within f n _ hg hn, ?_⟩, fun hn => ?_, fun h8 => ?_,
    skip_ok f n _ hg⟩, fun hg => ⟨?_, ?_, ?_⟩, fun h => Nat.mod_eq_of_lt h⟩
  · simp only [List.length_take, List.length_drop]
    omega
  · exact read_eof f n _ hg (by omega) (by omega)
  · exact readHeader_ok f _ hg (by omega)
  · unfold read
    rw [if_pos hg]
  · unfold readHeader read
    rw [if_pos hg]
  · unfold skip
    rw [if_pos hg]

theorem read_skip_position_accounting_witness :
    read ⟨[1, 2, 3, 4, 5], 1, true⟩ 3 (some ⟨[100, 97, 116, 97], 10, 2⟩)
        = .ok ([2, 3, 4], ⟨[1, 2, 3, 4, 5], 4, true⟩, some ⟨[100, 97, 116, 97], 10, 5⟩) ∧
      read ⟨[1, 2, 3, 4, 5], 1, true⟩ 5 (some ⟨[100, 97, 116, 97], 10, 2⟩)
        = .error .unexpectedEof ∧
      read ⟨[1, 2, 3, 4, 5], 1, false⟩ 3 (some ⟨[100, 97, 116, 97], 10, 2⟩)
        = .error .unableToRead :=
  ⟨((read_skip_position_accounting ⟨[1, 2, 3, 4, 5], 1, true⟩ 3 ⟨[100, 97, 116, 97], 10, 2⟩).1
      rfl).1 (by decide) |>.1,
   ((read_skip_position_accounting ⟨[1, 2, 3, 4, 5], 1, true⟩ 5 ⟨[100, 97, 116, 97], 10, 2⟩).1
      rfl).2.1 (by decide),
   ((read_skip_position_accounting ⟨[1, 2, 3, 4, 5], 1, false⟩ 3 ⟨[100, 97, 116, 97], 10, 2⟩).2.1
      rfl).1⟩

/-- Claim C27 (data budget invariant). Let `load` succeed on a new reader (no fmt chunk parsed
before) with a fmt chunk parsed, 16 or 24 bits per sample and one or two channels. Then the
current chunk is the chunk header that lies right before the get position: its id is `data`,
its size is the 32-bit value of the four size bytes of that header and its position is 0. Every
sequence of `getNextAudioBlock` calls, each with a block length below `2 ^ 61` (a buffer of that
many floats is an object of less than `2 ^ 63` bytes), that returns without throwing leaves the
size as it is and the position at most the size; the position never decreases. -/
theorem data_budget_invariant {α : Type} [LinearOrderedField α] (stack : Nat → Byte)
    (uninit : Nat → α) (st0 st : WavReader α) (F : List Byte) (b : Bool)
    (hload : load stack st0 (openFile F) = .ok (st, b))
    (h0 : st0.fmtFound = false) (hfmt : st.fmtFound = true)
    (hb : st.bitsPerSample = 16 ∨ st.bitsPerSample = 24)
    (hc : st.numChannels = 1 ∨ st.numChannels = 2) :
    (st.chk.id = (F.drop (st.wavFile.gpos - 8)).take 4 ∧
      isChunkID st.chk 100 97 116 97 = true ∧
      st.chk.size = leValue ((F.drop (st.wavFile.gpos - 4)).take 4) ∧
      st.chk.pos = 0 ∧ 8 ≤ st.wavFile.gpos ∧ st.wavFile.gpos ≤ F.length) ∧
    ∀ (calls : List (List α × Int × Nat)) (st1 : WavReader α) (outs : List (Bool × List α)),
      (∀ c ∈ calls, c.2.2 < 2 ^ 61) → readBlocks uninit st calls = .ok (st1, outs) →
      st1.chk.pos ≤ st1.chk.size ∧ st1.chk.size = st.chk.size ∧ st.chk.pos ≤ st1.chk.pos := by
  obtain ⟨c1, c2, _, _, _, c6, c7⟩ := load_data_header stack st0 st F b hload h0 hfmt
  have hsz : st.chk.size < 4294967296 := by
    rw [c1]
    exact leValue_take_four_lt _
  have hpos : st.chk.pos = 0 := by rw [c1]
  refine ⟨⟨by rw [c1], c2, by rw [c1], hpos, by omega, c7⟩, ?_⟩
  intro calls st1 outs hn hr
  obtain ⟨i1, i2, i3, _⟩ := readBlocks_budget uninit calls st st1 outs hr hn hb hc (by omega) hsz
  exact ⟨i1, i3, i2⟩

theorem data_budget_invariant_witness :
    ∃ st : WavReader ℚ,
      load (fun _ => 0) blankReader (openFile (riffFile [87, 65, 86, 69]
          (riffChunk [102, 109, 116, 32] (pcmFormat 1 44100 16) ++
            riffChunk [100, 97, 116, 97] [0, 64, 0, 32, 0, 16]))) = .ok (st, true) ∧
      st.chk.size = 6 ∧ st.chk.pos = 0 ∧
      ∀ st1 outs, readBlocks (fun _ => 0) st [([0, 0], 0, 2), ([0, 0], 0, 2)] = .ok (st1, outs) →
        st1.chk.pos ≤ st1.chk.size ∧ st1.chk.size = 6 := by
  obtain ⟨⟨_, _, h3, h4, _⟩, h5⟩ := data_budget_invariant (fun _ => 0) (fun _ => (0 : ℚ))
    blankReader _ (riffFile [87, 65, 86, 69]
      (riffChunk [102, 109, 116, 32] (pcmFormat 1 44100 16) ++
        riffChunk [100, 97, 116, 97] [0, 64, 0, 32, 0, 16])) true rfl rfl rfl
    (Or.inl rfl) (Or.inl rfl)
  refine ⟨_, rfl, rfl, h4, ?_⟩
  intro st1 outs hr
  obtain ⟨i1, i2, _⟩ := h5 _ st1 outs (by decide) hr
  exact ⟨i1, i2⟩

/-! ## Claims: the loop of `processFile` -/

/-- Claim C24 (pipeline output length), on the code. Let `load(filePath, outputFile)` on a new
reader return `true` with a fmt chunk parsed, 16 or 24 bits per sample and one or two channels,
the declared bytes of the data chunk being present in the input, and let
`T = getNumSamplesPerChannel()`, the `totalSamples` of `processFile`, be at least 1 (below
`2 ^ 29` data bytes `T` is the number of whole frames of the data chunk), and `2 ≤ N < 2 ^ 32`.
For `T ≥ 1000` the loop of `processFile` ends without a throw (every fuel above `T` is enough)
and at its end `T - N / 2 ≤ writtenSamples ≤ T`. For `T < 1000` the averager was initialised
with an empty history, and the first pass ends at its `add`, which loads and stores through an
iterator that points to no element, before anything is written: the loop does not reach its
end. -/
theorem processFile_output_length {α σ : Type} [LinearOrderedField α] [FloorRing α]
    (cos : α → α) (pi : α) (process : σ → List α → σ × List α) (stack : Nat → Byte)
    (garbage st : WavReader α) (clearedLow : Nat → α → α) (heap : Nat → Nat → α)
    (audioModel : σ) (N : Nat) (input : List Byte) (out : Option OutFile) (durations : Nat → α)
    (fuel : Nat)
    (hload : loadWithOutput stack (newReader garbage) (openFile input) out = .ok (st, true))
    (hfmt : st.fmtFound = true)
    (hb : st.bitsPerSample = 16 ∨ st.bitsPerSample = 24)
    (hc : st.numChannels = 1 ∨ st.numChannels = 2)
    (hdata : st.wavFile.gpos + st.chk.size ≤ input.length)
    (hT : 1 ≤ getNumSamplesPerChannel st) (hN2 : 2 ≤ N) (hN : N < 4294967296)
    (hfuel : getNumSamplesPerChannel st < fuel) :
    (st.chk.size < 536870912 → getNumSamplesPerChannel st = st.chk.size / frameBytes st) ∧
    (1000 ≤ getNumSamplesPerChannel st →
      ∃ p, processFile cos pi process stack garbage clearedLow heap audioModel N input out
          durations fuel = .ok (some p) ∧
        getNumSamplesPerChannel st - N / 2 ≤ p.streamer.writtenSamples ∧
        p.streamer.writtenSamples ≤ getNumSamplesPerChannel st) ∧
    (getNumSamplesPerChannel st < 1000 →
      processFile cos pi process stack garbage clearedLow heap audioModel N input out
        durations fuel = .error Failure.outOfBounds) := by
  obtain ⟨h0, hsz, hcont⟩ := loadWithOutput_AtPass stack garbage st input out true audioModel N
    (newHannFilter clearedLow (heap 0) (heap 1) N) (newHannFilter clearedLow (heap 2) (heap 3) N)
    hload hfmt
  refine ⟨getNumSamplesPerChannel_eq st hb hc, ?_, ?_⟩
  · intro hbig
    exact processFile_runs cos pi process stack garbage st clearedLow heap audioModel N input out
      durations fuel hload hfmt hb hc hdata hbig hN2 hN hfuel
  · intro hsmall
    obtain ⟨f, rfl⟩ : ∃ f, fuel = f + 1 := ⟨fuel - 1, by omega⟩
    unfold processFile
    rw [hload]
    simp only [Bool.true_eq_false, if_false]
    rw [processFileLoop_short cos pi process (heap 4) N st audioModel _ _ durations f hb hc hsz
      (by rw [hcont]; exact hdata) hN2 hN h0 hT hsmall]

/-- Instances of `processFile_output_length`: on the 16-bit mono file of five samples the
first pass ends at the `add` of the averager; on the file of a thousand samples the loop ends
with between 998 and 1000 samples written. -/
theorem processFile_output_length_witness :
    processFile (fun _ => (0 : ℚ)) 0 (fun (u : Unit) x => (u, x)) (fun _ => 0) blankReader
        (fun _ x => x) (fun _ _ => 0) () 4 (monoFile16 [1, 0, 2, 0, 3, 0, 4, 0, 5, 0])
        (some ⟨[], 0⟩) (fun _ => 1) 6 = .error Failure.outOfBounds ∧
    ∃ p, processFile (fun _ => (0 : ℚ)) 0 (fun (u : Unit) x => (u, x)) (fun _ => 0) blankReader
        (fun _ x => x) (fun _ _ => 0) () 4 (monoFile16 (rampSamples16 1000))
        (some ⟨[], 0⟩) (fun _ => 1) 1001 = .ok (some p) ∧
      998 ≤ p.streamer.writtenSamples ∧ p.streamer.writtenSamples ≤ 1000 := by
  refine ⟨(processFile_output_length (fun _ => (0 : ℚ)) 0 (fun (u : Unit) x => (u, x))
    (fun _ => 0) blankReader _ (fun _ x => x) (fun _ _ => 0) () 4
    (monoFile16 [1, 0, 2, 0, 3, 0, 4, 0, 5, 0])
    (some ⟨[], 0⟩) (fun _ => 1) 6 rfl rfl (Or.inl rfl) (Or.inl rfl) (by decide) (by decide)
    (by decide) (by decide) (by decide)).2.2 (by decide), ?_⟩
  obtain ⟨st, hl, h1, h2, h3, h4, h5⟩ := loadWithOutput_ramp
  have h := (processFile_output_length (fun _ => (0 : ℚ)) 0 (fun (u : Unit) x => (u, x))
    (fun _ => 0) blankReader st (fun _ x => x) (fun _ _ => 0) () 4
    (monoFile16 (rampSamples16 1000)) (some ⟨[], 0⟩) (fun _ => 1) 1001 hl h1 (Or.inl h2)
    (Or.inl h3) h4 (by rw [h5]; decide) (by decide) (by decide) (by rw [h5]; decide)).2.1
    (by rw [h5])
  rw [h5] at h
  exact h

/-- Claim C25 (pipeline warm-up handling). Let `load(filePath, outputFile)` on a new reader
return `true` with a fmt chunk parsed, 16 or 24 bits per sample and one or two channels, the
declared bytes of the data chunk being present in the input, `T = getNumSamplesPerChannel()`
and `2 ≤ N < 2 ^ 32`. The loop of `processFile` starts with `outputSamples = 0`. Whenever `j`
passes ran and the next pass runs, that pass calls `writeToFile` with the buffer `chan0Output`
and, on a stream with more than one channel, the buffer `chan1Output` (else a null pointer),
which hold the windows that `applyFilter` made of the blocks read in this pass: in the first
pass (`j = 0`) from the offset `N / 2` on with the count `N / 2`, in every later pass whole with
the count `N`. The call returns `true`, and after the pass
`writtenSamples = min T (N / 2 + j * N)` and `outputSamples = writtenSamples + N / 2 > 0`. For
`T ≥ 1000` and every `i ≥ 1` for which the loop condition holds before each of the first `i`
passes (`i = 1`, or `N / 2 + (i - 2) * N + N / 2 < T`) these passes run without a throw, after
them `writtenSamples = min T (N / 2 + (i - 1) * N)`, and the loop goes on from that state. -/
theorem processFile_warm_up {α σ : Type} [LinearOrderedField α] [FloorRing α]
    (cos : α → α) (pi : α) (process : σ → List α → σ × List α) (stack : Nat → Byte)
    (garbage st : WavReader α) (clearedLow : Nat → α → α) (heap : Nat → Nat → α)
    (audioModel : σ) (N : Nat) (input : List Byte) (out : Option OutFile) (durations : Nat → α)
    (hload : loadWithOutput stack (newReader garbage) (openFile input) out = .ok (st, true))
    (hfmt : st.fmtFound = true)
    (hb : st.bitsPerSample = 16 ∨ st.bitsPerSample = 24)
    (hc : st.numChannels = 1 ∨ st.numChannels = 2)
    (hdata : st.wavFile.gpos + st.chk.size ≤ input.length)
    (hN2 : 2 ≤ N) (hN : N < 4294967296) :
    (processFileInit st audioModel N (newHannFilter clearedLow (heap 0) (heap 1) N)
      (newHannFilter clearedLow (heap 2) (heap 3) N)).outputSamples = 0 ∧
    (∀ (j : Nat) (q p : ProcessState α σ),
      processFilePasses cos pi process (heap 4) N st.numChannels
        (getNumSamplesPerChannel st) j durations
        (processFileInit st audioModel N (newHannFilter clearedLow (heap 0) (heap 1) N)
          (newHannFilter clearedLow (heap 2) (heap 3) N)) = .ok (q, true) →
      processFilePass cos pi process (heap 4) N st.numChannels (getNumSamplesPerChannel st)
        (durations j) q = .ok (p, true) →
      (q.outputSamples = 0 ↔ j = 0) ∧
      (∃ s2, writeToFile s2
          (some (if j = 0 then p.chan0Output.drop (N / 2) else p.chan0Output))
          (if st.numChannels > 1 then
              some (if j = 0 then p.chan1Output.drop (N / 2) else p.chan1Output)
            else none)
          (if j = 0 then N / 2 else N) = .ok (p.streamer, true) ∧
        s2.writtenSamples = q.streamer.writtenSamples) ∧
      p.chan0Output
        = (applyFilter cos pi process q.hannL q.audioModel p.bufferL N q.chan0Output).2.2.1 ∧
      p.chan1Output = (if st.numChannels > 1 then
          (applyFilter cos pi process q.hannR
            (applyFilter cos pi process q.hannL q.audioModel p.bufferL N q.chan0Output).2.1
            p.bufferR N q.chan1Output).2.2.1
        else q.chan1Output) ∧
      p.streamer.writtenSamples = min (getNumSamplesPerChannel st) (N / 2 + j * N) ∧
      p.outputSamples = p.streamer.writtenSamples + N / 2 ∧ 0 < p.outputSamples) ∧
    (1000 ≤ getNumSamplesPerChannel st → ∀ i, 1 ≤ i →
      (i = 1 ∨ N / 2 + (i - 2) * N + N / 2 < getNumSamplesPerChannel st) →
      ∃ p, processFilePasses cos pi process (heap 4) N st.numChannels
          (getNumSamplesPerChannel st) i durations
          (processFileInit st audioModel N (newHannFilter clearedLow (heap 0) (heap 1) N)
            (newHannFilter clearedLow (heap 2) (heap 3) N)) = .ok (p, true) ∧
        p.streamer.writtenSamples = min (getNumSamplesPerChannel st) (N / 2 + (i - 1) * N) ∧
        ∀ fuel, processFileLoop cos pi process (heap 4) N st.numChannels
            (getNumSamplesPerChannel st) (i + fuel) durations
            (processFileInit st audioModel N (newHannFilter clearedLow (heap 0) (heap 1) N)
              (newHannFilter clearedLow (heap 2) (heap 3) N))
          = processFileLoop cos pi process (heap 4) N st.numChannels
            (getNumSamplesPerChannel st) fuel (fun k => durations (k + i)) p) := by
  obtain ⟨h0, hsz, hcont⟩ := loadWithOutput_AtPass stack garbage st input out true audioModel N
    (newHannFilter clearedLow (heap 0) (heap 1) N) (newHannFilter clearedLow (heap 2) (heap 3) N)
    hload hfmt
  have hfile : st.wavFile.gpos + st.chk.size ≤ st.wavFile.content.length := by
    rw [hcont]
    exact hdata
  refine ⟨rfl, ?_, ?_⟩
  · intro j q p hq hpass
    obtain ⟨hq1, _⟩ := processFilePasses_induct cos pi process (heap 4) N st hb hc hsz hfile hN2
      hN (fun _ _ => True) (fun _ _ _ _ _ _ _ _ _ => trivial) j 0 durations _ q h0 trivial hq
    rw [Nat.zero_add] at hq1
    unfold processFilePass at hpass
    by_cases hcond : q.outputSamples < getNumSamplesPerChannel st
    · rw [if_pos hcond] at hpass
      have hp1 := processFileBody_AtPass cos pi process (heap 4) N st (durations j) j q p hb hc
        hsz hfile hN2 hN hq1 hcond hpass
      obtain ⟨s2, Rarg, w1, w2, _, w4, w5, w6⟩ := processFileBody_write cos pi process (heap 4) N
        st (durations j) j q p hb hc hsz hfile hN2 hN hq1 hcond hpass
      obtain ⟨_, c2⟩ := AtPass_counters N _ st j q hq1
      obtain ⟨d1, d2⟩ := AtPass_counters N _ st (j + 1) p hp1
      rw [if_neg (by omega), Nat.add_sub_cancel] at d1 d2
      have hiff : q.outputSamples = 0 ↔ j = 0 := by
        rw [c2]
        by_cases hj : j = 0
        · rw [if_pos hj]
          exact ⟨fun _ => hj, fun _ => rfl⟩
        · rw [if_neg hj]
          exact ⟨fun h => by omega, fun h => absurd h hj⟩
      refine ⟨hiff, ⟨s2, ?_, w2⟩, w5, w6, d1, by rw [d2, d1], by rw [d2]; omega⟩
      rw [w4] at w1
      by_cases hj : j = 0
      · rw [if_pos (hiff.mpr hj), if_pos (hiff.mpr hj), if_pos (hiff.mpr hj)] at w1
        rw [if_pos hj, if_pos hj, if_pos hj]
        exact w1
      · rw [if_neg (fun h => hj (hiff.mp h)), if_neg (fun h => hj (hiff.mp h)),
          if_neg (fun h => hj (hiff.mp h))] at w1
        rw [if_neg hj, if_neg hj, if_neg hj]
        exact w1
    · rw [if_neg hcond] at hpass
      simp at hpass
  · intro hbig i hi hrun
    obtain ⟨p1, e1, e2, _⟩ := processFilePasses_spec cos pi process (heap 4) N st hb hc hsz
      hfile hN2 hN (by omega) i 0 durations _ h0 (processFileInit_ready st audioModel N _ _ hbig)
      (by rw [Nat.zero_add]; exact hrun)
    rw [Nat.zero_add] at e2
    obtain ⟨c1, c2⟩ := AtPass_counters N _ st i p1 e2
    rw [if_neg (by omega)] at c1 c2
    exact ⟨p1, e1, c1,
      processFileLoop_passes cos pi process (heap 4) N _ _ i durations _ p1 e1⟩

/-- Instance of `processFile_warm_up`: the 16-bit mono file of a thousand samples with the frame
length 4. The first pass runs, and the second pass hands the whole window of four samples to
`writeToFile`, with a null pointer for channel 1; six samples are written after it. -/
theorem processFile_warm_up_witness :
    ∃ (st : WavReader ℚ) (q p : ProcessState ℚ Unit) (s2 : WavReader ℚ),
      loadWithOutput (fun _ => 0) (newReader blankReader)
        (openFile (monoFile16 (rampSamples16 1000))) (some ⟨[], 0⟩) = .ok (st, true) ∧
      processFilePasses (fun _ => (0 : ℚ)) 0 (fun (u : Unit) x => (u, x)) (fun _ => 0) 4
        st.numChannels (getNumSamplesPerChannel st) 1 (fun _ => 1)
        (processFileInit st () 4
          (newHannFilter (fun _ x => x) (fun _ => 0) (fun _ => 0) 4)
          (newHannFilter (fun _ x => x) (fun _ => 0) (fun _ => 0) 4)) = .ok (q, true) ∧
      processFilePass (fun _ => (0 : ℚ)) 0 (fun (u : Unit) x => (u, x)) (fun _ => 0) 4
        st.numChannels (getNumSamplesPerChannel st) 1 q = .ok (p, true) ∧
      writeToFile s2 (some p.chan0Output) none 4 = .ok (p.streamer, true) ∧
      p.streamer.writtenSamples = 6 := by
  obtain ⟨st, hl, h1, h2, h3, h4, h5⟩ := loadWithOutput_ramp
  obtain ⟨_, hstep, hrun⟩ := processFile_warm_up (fun _ => (0 : ℚ)) 0
    (fun (u : Unit) x => (u, x)) (fun _ => 0) blankReader st (fun _ x => x) (fun _ _ => 0) () 4
    (monoFile16 (rampSamples16 1000)) (some ⟨[], 0⟩) (fun _ => 1) hl h1 (Or.inl h2) (Or.inl h3)
    h4 (by decide) (by decide)
  obtain ⟨p, hp, _⟩ := hrun (by rw [h5]) 2 (by decide) (Or.inr (by rw [h5]; decide))
  obtain ⟨q, hq, hpass⟩ := processFilePasses_succ _ _ _ _ _ _ _ 1 _ _ p hp
  obtain ⟨_, ⟨s2, hw, _⟩, _, _, hws, _⟩ := hstep 1 q p hq hpass
  rw [if_neg (by decide), if_neg (by rw [h3]; decide), if_neg (by decide)] at hw
  rw [h5] at hws
  exact ⟨st, q, p, s2, hl, hq, hpass, hw, hws⟩

/-! ## Claims: the position in the fmt chunk -/

/-- Claim C31 (malformed fmt chunk rejected) fails as stated. A fmt chunk that declares 4 bytes
and is followed by the 14 bytes of the leading fields and a data chunk: the format scan reads
the 14 bytes, the position in the fmt chunk is 14 with the size 4, and `load` succeeds. A fmt
chunk that declares 18 bytes, with `extraSize = 2` and two extension bytes behind it: the scan
reads 20 bytes, the position is 20 with the size 18, and `load` succeeds. -/
theorem undersized_fmt_chunk_accepted :
    ((formatScan (fun _ => 0) (newReader (blankReader : WavReader ℚ))
        (openFile (riffFile [87, 65, 86, 69]
          ([102, 109, 116, 32] ++ leBytes 4 4 ++
            (leBytes 2 1 ++ leBytes 2 1 ++ leBytes 4 44100 ++ leBytes 4 88200 ++ leBytes 2 2) ++
           riffChunk [100, 97, 116, 97] [0, 64, 0, 32])))).toOption.map
      fun r => (r.chk.id, r.chk.size, r.chk.pos)) = some ([102, 109, 116, 32], 4, 14) ∧
    ((load (fun _ => 0) (newReader (blankReader : WavReader ℚ))
        (openFile (riffFile [87, 65, 86, 69]
          ([102, 109, 116, 32] ++ leBytes 4 4 ++
            (leBytes 2 1 ++ leBytes 2 1 ++ leBytes 4 44100 ++ leBytes 4 88200 ++ leBytes 2 2) ++
           riffChunk [100, 97, 116, 97] [0, 64, 0, 32])))).toOption.map
      fun r => (r.2, r.1.chk.id, r.1.chk.size, r.1.numChannels, r.1.sampleRate))
      = some (true, [100, 97, 116, 97], 4, 1, 44100) ∧
    ((formatScan (fun _ => 0) (newReader (blankReader : WavReader ℚ))
        (openFile (riffFile [87, 65, 86, 69]
          ([102, 109, 116, 32] ++ leBytes 4 18 ++
            (pcmFormat 1 44100 16 ++ leBytes 2 2 ++ [7, 7]) ++
           riffChunk [100, 97, 116, 97] [0, 64, 0, 32])))).toOption.map
      fun r => (r.chk.id, r.chk.size, r.chk.pos, r.extraSize))
      = some ([102, 109, 116, 32], 18, 20, 2) ∧
    ((load (fun _ => 0) (newReader (blankReader : WavReader ℚ))
        (openFile (riffFile [87, 65, 86, 69]
          ([102, 109, 116, 32] ++ leBytes 4 18 ++
            (pcmFormat 1 44100 16 ++ leBytes 2 2 ++ [7, 7]) ++
           riffChunk [100, 97, 116, 97] [0, 64, 0, 32])))).toOption.map
      fun r => (r.2, r.1.chk.id, r.1.chk.size, r.1.numChannels, r.1.bitsPerSample))
      = some (true, [100, 97, 116, 97], 4, 1, 16) := by
  refine ⟨by decide!, by decide!, by decide!, by decide!⟩

/-- Claim C31, as amended. Whenever `load` succeeds on a reader that had parsed no fmt chunk and
has parsed one afterwards, the format scan ended in a fmt chunk, and the position in that chunk
at the end of the scan is the declared size or the number of bytes the scan read from it,
whichever is larger: 14 bytes, 2 more when the size is at least 16, and 2 more and `extraSize`
bytes when the size is at least 18. So the position exceeds the declared size exactly when the
size is below 14, or is at least 18 and below `18 + extraSize`; `load` has succeeded all the
same. -/
theorem load_fmt_chunk_position {α : Type} (stack : Nat → Byte) (st0 st : WavReader α)
    (F : List Byte) (b : Bool)
    (h : load stack st0 (openFile F) = .ok (st, b))
    (h0 : st0.fmtFound = false) (hf : st.fmtFound = true) :
    ∃ r, formatScan stack st0 (openFile F) = .ok r ∧ findDataPosition r = .ok st ∧
      isChunkID r.chk 102 109 116 32 = true ∧
      r.chk.pos = max r.chk.size
        (14 + (if 16 ≤ r.chk.size then 2 else 0)
          + (if 18 ≤ r.chk.size then 2 + r.extraSize else 0)) ∧
      (r.chk.size < r.chk.pos ↔
        r.chk.size < 14 ∨ (18 ≤ r.chk.size ∧ r.chk.size < 18 + r.extraSize)) := by
  obtain ⟨s2, s, h1, h2, h3, _⟩ := load_inv stack st0 st (openFile F) b h
  obtain ⟨_, _, hff⟩ := headers_inv st0 s2 F h1
  have hsf : s.fmtFound = true := by
    rw [← findDataLoop_fmtFound _ s st h3]
    exact hf
  obtain ⟨e1, e2⟩ := updateInfoLoop_fmt_pos stack _ s2 s h2 (by rw [hff, h0]) hsf
  refine ⟨s, ?_, h3, e1, e2, ?_⟩
  · unfold formatScan
    rw [h1, ok_bind]
    exact h2
  · rw [e2]
    split_ifs <;> omega

/-- Instance of `load_fmt_chunk_position`: a fmt chunk that declares 18 bytes and an
extension of 2 bytes. -/
theorem load_fmt_chunk_position_witness :
    ∃ r, formatScan (fun _ => 0) (blankReader : WavReader ℚ)
        (openFile (riffFile [87, 65, 86, 69]
          ([102, 109, 116, 32] ++ leBytes 4 18 ++
            (pcmFormat 1 44100 16 ++ leBytes 2 2 ++ [7, 7]) ++
           riffChunk [100, 97, 116, 97] [0, 64, 0, 32]))) = .ok r ∧
      isChunkID r.chk 102 109 116 32 = true ∧
      r.chk.pos = max r.chk.size
        (14 + (if 16 ≤ r.chk.size then 2 else 0)
          + (if 18 ≤ r.chk.size then 2 + r.extraSize else 0)) ∧
      (r.chk.size < r.chk.pos ↔
        r.chk.size < 14 ∨ (18 ≤ r.chk.size ∧ r.chk.size < 18 + r.extraSize)) := by
  have hload : ∃ st, load (fun _ => 0) (blankReader : WavReader ℚ)
      (openFile (riffFile [87, 65, 86, 69]
        ([102, 109, 116, 32] ++ leBytes 4 18 ++
          (pcmFormat 1 44100 16 ++ leBytes 2 2 ++ [7, 7]) ++
         riffChunk [100, 97, 116, 97] [0, 64, 0, 32]))) = .ok (st, true) ∧
      st.fmtFound = true := ⟨_, rfl, rfl⟩
  obtain ⟨st, hl, hf⟩ := hload
  obtain ⟨r, h1, _, h3, h4, h5⟩ := load_fmt_chunk_position (fun _ => 0)
    (blankReader : WavReader ℚ) st _ true hl rfl hf
  exact ⟨r, h1, h3, h4, h5⟩

/-! ## Claims: the whole-window call of the Hann filter -/

/-- Claim C32 (length check of `applyFilter`). For every filter, `applyFilter` returns `false`
exactly when `sampleCnt` differs from `mWindowSize`; it then returns before any call of the
transform, leaving the filter with its two buffers, the state of the model and `outSamples` as
they are. When `sampleCnt = mWindowSize` it returns `true` and is two calls of
`applyFilterInternal`, on `dataSamples` and on `dataSamples + mHopSize`, whose emitted hops go to
`outSamples` and `outSamples + mHopSize`: for an even window size, `mWindowSize = 2 * mHopSize`,
and `mWindowSize` floats in `outSamples`, the buffer holds the first hop followed by the second
one. -/
theorem applyFilter_length_check {α σ : Type} [Field α]
    (cos : α → α) (pi : α) (process : σ → List α → σ × List α)
    (f : HannFilter α) (model : σ) (dataSamples : List α) (sampleCnt : Nat)
    (outSamples : List α) :
    ((applyFilter cos pi process f model dataSamples sampleCnt outSamples).2.2.2 = false
      ↔ sampleCnt ≠ f.mWindowSize) ∧
    (sampleCnt ≠ f.mWindowSize →
      applyFilter cos pi process f model dataSamples sampleCnt outSamples
        = (f, model, outSamples, false)) ∧
    (sampleCnt = f.mWindowSize →
      ∃ f1 m1 o1 f2 m2 o2,
        applyFilterInternal cos pi process f model dataSamples f.mHopSize = some (f1, m1, o1) ∧
        applyFilterInternal cos pi process f1 m1 (dataSamples.drop f.mHopSize) f.mHopSize
          = some (f2, m2, o2) ∧
        o1.length = f.mHopSize ∧ o2.length = f.mHopSize ∧
        applyFilter cos pi process f model dataSamples sampleCnt outSamples
          = (f2, m2, memcpy (memcpy outSamples 0 o1 0 f.mHopSize) f.mHopSize o2 0 f.mHopSize,
              true) ∧
        (f.mWindowSize = 2 * f.mHopSize → outSamples.length = f.mWindowSize →
          memcpy (memcpy outSamples 0 o1 0 f.mHopSize) f.mHopSize o2 0 f.mHopSize = o1 ++ o2)) := by
  obtain ⟨f1, m1, o1, h1, w1, p1, l1⟩ :=
    applyFilterInternal_some cos pi process f model dataSamples
  obtain ⟨f2, m2, o2, h2, w2, p2, l2⟩ :=
    applyFilterInternal_some cos pi process f1 m1 (dataSamples.drop f1.mHopSize)
  have hyes : sampleCnt = f.mWindowSize →
      applyFilter cos pi process f model dataSamples sampleCnt outSamples
        = (f2, m2, memcpy (memcpy outSamples 0 o1 0 f.mHopSize) f.mHopSize o2 0 f.mHopSize,
            true) := by
    intro hc
    unfold applyFilter
    rw [if_neg (by simp [hc]), h1]
    simp only []
    rw [h2]
    simp only [p1]
  have hno : sampleCnt ≠ f.mWindowSize →
      applyFilter cos pi process f model dataSamples sampleCnt outSamples
        = (f, model, outSamples, false) := by
    intro hc
    unfold applyFilter
    rw [if_pos hc]
  refine ⟨?_, hno, ?_⟩
  · by_cases hc : sampleCnt = f.mWindowSize
    · rw [hyes hc]
      simp [hc]
    · rw [hno hc]
      simp [hc]
  · intro hc
    rw [p1] at h2 l2
    exact ⟨f1, m1, o1, f2, m2, o2, h1, h2, l1, l2, hyes hc,
      fun hN ho => memcpy_halves outSamples o1 o2 f.mHopSize (by omega) l1 l2⟩

/-- Instance of `applyFilter_length_check`: a filter of window size 4 with the identity
transform, called with four samples and with three. -/
theorem applyFilter_length_check_witness :
    (applyFilter (fun _ => (0 : ℚ)) 0 (fun (u : Unit) x => (u, x))
        ⟨4, 2, [0, 0, 0, 0], [0, 0, 0, 0]⟩ () [1, 2, 3, 4] 3 [9, 9, 9, 9]
      = (⟨4, 2, [0, 0, 0, 0], [0, 0, 0, 0]⟩, (), [9, 9, 9, 9], false)) ∧
    (∃ f1 m1 o1 f2 m2 o2,
        applyFilterInternal (fun _ => (0 : ℚ)) 0 (fun (u : Unit) x => (u, x))
          ⟨4, 2, [0, 0, 0, 0], [0, 0, 0, 0]⟩ () [1, 2, 3, 4] 2 = some (f1, m1, o1) ∧
        applyFilterInternal (fun _ => (0 : ℚ)) 0 (fun (u : Unit) x => (u, x)) f1 m1
          (([1, 2, 3, 4] : List ℚ).drop 2) 2 = some (f2, m2, o2) ∧
        o1.length = 2 ∧ o2.length = 2 ∧
        applyFilter (fun _ => (0 : ℚ)) 0 (fun (u : Unit) x => (u, x))
            ⟨4, 2, [0, 0, 0, 0], [0, 0, 0, 0]⟩ () [1, 2, 3, 4] 4 [9, 9, 9, 9]
          = (f2, m2, memcpy (memcpy [9, 9, 9, 9] 0 o1 0 2) 2 o2 0 2, true) ∧
        ((4 : Nat) = 2 * 2 → ([9, 9, 9, 9] : List ℚ).length = 4 →
          memcpy (memcpy ([9, 9, 9, 9] : List ℚ) 0 o1 0 2) 2 o2 0 2 = o1 ++ o2)) :=
  ⟨(applyFilter_length_check (fun _ => (0 : ℚ)) 0 (fun (u : Unit) x => (u, x))
      ⟨4, 2, [0, 0, 0, 0], [0, 0, 0, 0]⟩ () [1, 2, 3, 4] 3 [9, 9, 9, 9]).2.1 (by decide),
   (applyFilter_length_check (fun _ => (0 : ℚ)) 0 (fun (u : Unit) x => (u, x))
      ⟨4, 2, [0, 0, 0, 0], [0, 0, 0, 0]⟩ () [1, 2, 3, 4] 4 [9, 9, 9, 9]).2.2 rfl⟩

/-! ## Claims: the running average -/

/-- Claim C33 (moving average). For every history length `L ≥ 1` and every sequence `xs` of
values added with `add` after `init(L)`, in exact arithmetic: with no value added `computeMean()`
returns 0; every `add` of the sequence loads and stores within the history, and with `n ≥ 1`
values added `computeMean()` returns the sum of the last `min(n, L)` values divided by
`min(n, L)`, and `getLastValue()` loads within the history and returns the value added last. -/
theorem average_computeMean_moving {α : Type} [Field α] (a0 : Average α) (L : Nat) (e : α)
    (xs : List α) (hL : 1 ≤ L) :
    (Average.init a0 (L : Int) e).computeMean = 0 ∧
    ∃ a, xs.foldlM Average.add (Average.init a0 (L : Int) e) = .ok a ∧
      (xs ≠ [] →
        a.computeMean = (xs.drop (xs.length - L)).sum / ((min xs.length L : Nat) : α)) ∧
      (∀ h : xs ≠ [], a.getLastValue = .ok (xs.getLast h)) := by
  obtain ⟨A, hA, i1, i2, i3, i4, i5, i6, i7⟩ := average_after_adds a0 L e hL xs
  have hsum : ((List.replicate L (0 : α) ++ xs).drop xs.length).sum
      = (xs.drop (xs.length - L)).sum := by
    rw [List.drop_append_eq_append_drop, List.sum_append]
    simp
  refine ⟨?_, A, hA, ?_, ?_⟩
  · simp [Average.computeMean, Average.init, Average.clear]
  · intro hne
    have hn : 1 ≤ xs.length := List.length_pos.mpr hne
    unfold Average.computeMean
    rw [i1, if_pos (by omega), i4, i5, i7, hsum]
    by_cases hlt : xs.length < L
    · have e1 : decide (L ≤ xs.length) = false := by simp; omega
      rw [if_pos hlt, e1, if_neg (by omega), if_pos rfl, min_eq_left (by omega)]
      simp
    · have e1 : decide (L ≤ xs.length) = true := by simp; omega
      rw [e1, if_neg (by simp), if_neg (by simp), min_eq_right (by omega)]
      simp
  · intro hne
    have hn : 1 ≤ xs.length := List.length_pos.mpr hne
    unfold Average.getLastValue
    rw [if_pos (by rw [i3, i2]; exact Nat.mod_lt _ (by omega))]
    congr 1
    have h6 := i6 (xs.length + L - 1) (by omega) (by omega)
    have e : (xs.length + L - 1 + 1) % L = xs.length % L := by
      rw [show xs.length + L - 1 + 1 = xs.length + L by omega, Nat.add_mod_right]
    rw [e] at h6
    rw [i3, h6, List.getD_append_right _ _ _ _ (by simp; omega)]
    simp only [List.length_replicate]
    rw [show xs.length + L - 1 - L = xs.length - 1 by omega,
      List.getD_eq_getElem _ _ (by omega), List.getLast_eq_getElem]

/-- Instance of `average_computeMean_moving`: history length 2 and the values 3, 5, 10 added. -/
theorem average_computeMean_moving_witness :
    (Average.init (newAverage : Average ℚ) ((2 : Nat) : Int) 0).computeMean = 0 ∧
    ∃ a, ([3, 5, 10] : List ℚ).foldlM Average.add (Average.init newAverage ((2 : Nat) : Int) 0)
        = .ok a ∧
      (([3, 5, 10] : List ℚ) ≠ [] →
        a.computeMean
          = (([3, 5, 10] : List ℚ).drop (([3, 5, 10] : List ℚ).length - 2)).sum
            / ((min ([3, 5, 10] : List ℚ).length 2 : Nat) : ℚ)) ∧
      (∀ h : ([3, 5, 10] : List ℚ) ≠ [],
        a.getLastValue = .ok (([3, 5, 10] : List ℚ).getLast h)) :=
  average_computeMean_moving newAverage 2 0 [3, 5, 10] (by decide)

/-- Claim C39 (statistics collaborator used safely). In `processFile` the averager is
initialised with a history of `T / 1000` entries, `T` the sample count of the streamer. At the
head of the loop after any number of passes that ran, the history still holds `T / 1000` entries,
and the slot at which the `add` of the next pass loads and stores lies within the history exactly
when `T ≥ 1000`: for `1 ≤ T < 1000` the history is empty and every `add` of the loop goes through
an iterator that points to no element. -/
theorem processFile_averager_slot {α σ : Type} [LinearOrderedField α] [FloorRing α]
    (cos : α → α) (pi : α) (process : σ → List α → σ × List α) (uninit : Nat → α)
    (streamer : WavReader α) (audioModel : σ) (N : Nat) (hannL hannR : HannFilter α)
    (i : Nat) (durations : Nat → α) (p : ProcessState α σ)
    (h : processFilePasses cos pi process uninit N streamer.numChannels
        (getNumSamplesPerChannel streamer) i durations
        (processFileInit streamer audioModel N hannL hannR) = .ok (p, true)) :
    p.averager._history.length = getNumSamplesPerChannel streamer / 1000 ∧
      (p.averager.addSlot < p.averager._history.length
        ↔ 1000 ≤ getNumSamplesPerChannel streamer) := by
  obtain ⟨e1, e2, e3⟩ := processFileInit_averager streamer audioModel N hannL hannR
  obtain ⟨a1, a2, a3⟩ := processFilePasses_averager cos pi process uninit N streamer.numChannels
    (getNumSamplesPerChannel streamer) (getNumSamplesPerChannel streamer / 1000) i durations _ p h
    e1 (by rw [e2]) (by rw [e3]; omega)
  refine ⟨a1, ?_⟩
  rw [addSlot_lt_iff p.averager _ a1 a2 a3]
  omega

/-- Instance of `processFile_averager_slot`: a 16-bit mono stream of five samples, before the
first pass. The history is empty and the first `add` stores at slot 1. -/
theorem processFile_averager_slot_witness :
    (processFileInit (streamAt [1, 0, 2, 0, 3, 0, 4, 0, 5, 0] 0 10 1 16 : WavReader ℚ) () 4
        ⟨4, 2, [0, 0, 0, 0], [0, 0, 0, 0]⟩
        ⟨4, 2, [0, 0, 0, 0], [0, 0, 0, 0]⟩).averager._history.length
      = getNumSamplesPerChannel (streamAt [1, 0, 2, 0, 3, 0, 4, 0, 5, 0] 0 10 1 16 : WavReader ℚ)
        / 1000 ∧
    ((processFileInit (streamAt [1, 0, 2, 0, 3, 0, 4, 0, 5, 0] 0 10 1 16 : WavReader ℚ) () 4
        ⟨4, 2, [0, 0, 0, 0], [0, 0, 0, 0]⟩
        ⟨4, 2, [0, 0, 0, 0], [0, 0, 0, 0]⟩).averager.addSlot
      < (processFileInit (streamAt [1, 0, 2, 0, 3, 0, 4, 0, 5, 0] 0 10 1 16 : WavReader ℚ) () 4
        ⟨4, 2, [0, 0, 0, 0], [0, 0, 0, 0]⟩
        ⟨4, 2, [0, 0, 0, 0], [0, 0, 0, 0]⟩).averager._history.length
      ↔ 1000 ≤ getNumSamplesPerChannel
          (streamAt [1, 0, 2, 0, 3, 0, 4, 0, 5, 0] 0 10 1 16 : WavReader ℚ)) :=
  processFile_averager_slot (fun _ => (0 : ℚ)) 0 (fun (u : Unit) x => (u, x)) (fun _ => 0)
    (streamAt [1, 0, 2, 0, 3, 0, 4, 0, 5, 0] 0 10 1 16) () 4
    ⟨4, 2, [0, 0, 0, 0], [0, 0, 0, 0]⟩ ⟨4, 2, [0, 0, 0, 0], [0, 0, 0, 0]⟩ 0 (fun _ => 0) _ rfl

/-! ## Claims: end of stream and termination of the loop of `processFile` -/

/-- Claim C34 (no read past the end in the pipeline). Let `load(filePath, outputFile)` on a new
reader return `true` with a fmt chunk parsed, 16 or 24 bits per sample and one or two channels,
the declared bytes of the data chunk being present in the input. Then for every frame length
`2 ≤ N < 2 ^ 32`, at the head of the loop of `processFile` after any number of passes, when the
loop condition holds: `isEofReached` is unset when `getNextAudioBlock` is called for channel 0,
the call returns `true`, `isEofReached` is still unset when the call for channel 1 is made on a
stream with more than one channel, and that call returns `true` as well. No call of the loop
throws: `processFile` can only fail by running out of the fuel of the model or, on a stream of
at least one and fewer than 1000 samples per channel, at the `add` of the averager, which then
goes through an iterator that points to no element of an empty history; it never fails with
`unexpected eof`. -/
theorem processFile_reads_before_eof {α σ : Type} [LinearOrderedField α] [FloorRing α]
    (cos : α → α) (pi : α) (process : σ → List α → σ × List α) (stack : Nat → Byte)
    (garbage st : WavReader α) (clearedLow : Nat → α → α) (heap : Nat → Nat → α)
    (audioModel : σ) (N : Nat) (input : List Byte) (out : Option OutFile) (durations : Nat → α)
    (hload : loadWithOutput stack (newReader garbage) (openFile input) out = .ok (st, true))
    (hfmt : st.fmtFound = true)
    (hb : st.bitsPerSample = 16 ∨ st.bitsPerSample = 24)
    (hc : st.numChannels = 1 ∨ st.numChannels = 2)
    (hdata : st.wavFile.gpos + st.chk.size ≤ input.length)
    (hN2 : 2 ≤ N) (hN : N < 4294967296) :
    (∀ (i : Nat) (p : ProcessState α σ),
      processFilePasses cos pi process (heap 4) N st.numChannels (getNumSamplesPerChannel st) i
        durations
        (processFileInit st audioModel N (newHannFilter clearedLow (heap 0) (heap 1) N)
          (newHannFilter clearedLow (heap 2) (heap 3) N)) = .ok (p, true) →
      p.outputSamples < getNumSamplesPerChannel st →
      p.streamer.isEofReached = false ∧
      ∃ s1 outL,
        getNextAudioBlock (heap 4) p.streamer (some p.bufferL) 0 N = .ok (s1, true, outL) ∧
        s1.isEofReached = false ∧
        ∃ s2 outR,
          (if st.numChannels > 1 then getNextAudioBlock (heap 4) s1 (some p.bufferR) 1 N
            else .ok (s1, true, p.bufferR)) = .ok (s2, true, outR)) ∧
    (∀ (fuel : Nat) (e : Failure),
      processFile cos pi process stack garbage clearedLow heap audioModel N input out
        durations fuel = .error e →
      (e = Failure.outOfFuel ∨
        (e = Failure.outOfBounds ∧ 1 ≤ getNumSamplesPerChannel st ∧
          getNumSamplesPerChannel st < 1000)) ∧
      e ≠ Failure.unexpectedEof) := by
  obtain ⟨h0, hsz, hcont⟩ := loadWithOutput_AtPass stack garbage st input out true audioModel N
    (newHannFilter clearedLow (heap 0) (heap 1) N) (newHannFilter clearedLow (heap 2) (heap 3) N)
    hload hfmt
  have hfile : st.wavFile.gpos + st.chk.size ≤ st.wavFile.content.length := by
    rw [hcont]; exact hdata
  refine ⟨?_, ?_⟩
  · intro i p hpass hcond
    obtain ⟨hp, _⟩ := processFilePasses_induct cos pi process (heap 4) N st hb hc hsz hfile hN2
      hN (fun _ _ => True) (fun _ _ _ _ _ _ _ _ _ => trivial) i 0 durations _ p h0 trivial hpass
    obtain ⟨r1, r2, r3, r4, r5, _, _, _, _, r6⟩ := AtPass_reads N st _ p hb hc hsz hfile hp hcond
    obtain ⟨s1, e1, e2⟩ := getNextAudioBlock_ch0_block (heap 4) p.streamer p.bufferL N r1 r2
      (by omega) (by omega) r3 r6 r4 r5
    obtain ⟨s1', s2, outL, outR, f1, f2, _⟩ := readPair (heap 4) p.streamer p.bufferL p.bufferR N
      r1 r2 (by omega) (by omega) r3 r6 r4 r5
    rw [e1] at f1
    simp only [Except.ok.injEq, Prod.mk.injEq, true_and] at f1
    obtain ⟨g1, _⟩ := f1
    subst g1
    have hnc : p.streamer.numChannels = st.numChannels := hp.2.2.2.1
    rw [hnc] at f2
    exact ⟨r2, s1, _, e1, e2, s2, outR, f2⟩
  · intro fuel e h
    have key : e = Failure.outOfFuel ∨
        (e = Failure.outOfBounds ∧ 1 ≤ getNumSamplesPerChannel st ∧
          getNumSamplesPerChannel st < 1000) := by
      unfold processFile at h
      rw [hload] at h
      simp only [Bool.true_eq_false, if_false] at h
      cases hl : processFileLoop cos pi process (heap 4) N st.numChannels
          (getNumSamplesPerChannel st) fuel durations
          (processFileInit st audioModel N (newHannFilter clearedLow (heap 0) (heap 1) N)
            (newHannFilter clearedLow (heap 2) (heap 3) N)) with
      | error e1 =>
        rw [hl] at h
        simp only [Except.error.injEq] at h
        rw [← h]
        by_cases hbig : 1000 ≤ getNumSamplesPerChannel st
        · exact Or.inl (processFileLoop_errors cos pi process (heap 4) N st hb hc hsz hfile hN2
            hN fuel 0 durations _ e1 h0 (processFileInit_ready st audioModel N _ _ hbig) hl)
        · cases fuel with
          | zero =>
            simp only [processFileLoop, Except.error.injEq] at hl
            exact Or.inl hl.symm
          | succ f =>
            by_cases hT0 : getNumSamplesPerChannel st = 0
            · rw [processFileLoop] at hl
              unfold processFilePass at hl
              rw [if_neg (by rw [hT0]; exact Nat.not_lt_zero _)] at hl
              cases hl
            · rw [processFileLoop_short cos pi process (heap 4) N st audioModel _ _ durations f
                hb hc hsz hfile hN2 hN h0 (by omega) (by omega)] at hl
              simp only [Except.error.injEq] at hl
              exact Or.inr ⟨hl.symm, by omega, by omega⟩
      | ok r =>
        rw [hl] at h
        cases h
    refine ⟨key, ?_⟩
    rcases key with hk | ⟨hk, _⟩ <;> rw [hk] <;> decide

/-- Instance of `processFile_reads_before_eof`: the 16-bit mono file of a thousand samples
processed with the frame length 4, at the head of the loop before the first pass. -/
theorem processFile_reads_before_eof_witness :
    ∃ st,
      loadWithOutput (fun _ => 0) (newReader (blankReader : WavReader ℚ))
        (openFile (monoFile16 (rampSamples16 1000))) (some ⟨[], 0⟩) = .ok (st, true) ∧
      (processFileInit st () 4 (newHannFilter (fun _ x => x) (fun _ => 0) (fun _ => 0) 4)
        (newHannFilter (fun _ x => x) (fun _ => 0) (fun _ => 0) 4)
          : ProcessState ℚ Unit).streamer.isEofReached = false ∧
      ∃ s1 outL,
        getNextAudioBlock (fun _ => 0)
          (processFileInit st () 4 (newHannFilter (fun _ x => x) (fun _ => 0) (fun _ => 0) 4)
            (newHannFilter (fun _ x => x) (fun _ => 0) (fun _ => 0) 4)
              : ProcessState ℚ Unit).streamer
          (some (processFileInit st () 4
            (newHannFilter (fun _ x => x) (fun _ => 0) (fun _ => 0) 4)
            (newHannFilter (fun _ x => x) (fun _ => 0) (fun _ => 0) 4)
              : ProcessState ℚ Unit).bufferL) 0 4 = .ok (s1, true, outL) ∧
        s1.isEofReached = false := by
  obtain ⟨st, h1, h2, h3, h4, h5, h6⟩ := loadWithOutput_ramp
  have hcond : (processFileInit st () 4
      (newHannFilter (fun _ x => x) (fun _ => 0) (fun _ => 0) 4)
      (newHannFilter (fun _ x => x) (fun _ => 0) (fun _ => 0) 4)
        : ProcessState ℚ Unit).outputSamples < getNumSamplesPerChannel st := by
    rw [h6]
    show 0 < 1000
    decide
  obtain ⟨a1, s1, outL, a2, a3, _⟩ :=
    (processFile_reads_before_eof (fun _ => (0 : ℚ)) 0 (fun (u : Unit) x => (u, x)) (fun _ => 0)
      blankReader st (fun _ x => x) (fun _ _ => 0) () 4 (monoFile16 (rampSamples16 1000))
      (some ⟨[], 0⟩) (fun _ => 1) h1 h2 (Or.inl h3) (Or.inl h4) h5 (by decide) (by decide)).1
      0 _ rfl hcond
  exact ⟨st, h1, a1, s1, outL, a2, a3⟩

/-- Claim C35 (pipeline termination) fails as stated. The 16-bit mono file of `T = 1000`
samples processed with the frame length `N = 5`: the hop is `5 / 2 = 2`, the first pass writes
two samples and every later pass five, so after `200 = ceil(1000 / 5)` passes
`writtenSamples = 997` and `outputSamples = 999 < 1000`: the loop condition still holds and a
pass 201 runs. -/
theorem odd_frame_length_needs_extra_pass :
    ∃ (st : WavReader ℚ) (p p1 : ProcessState ℚ Unit),
      loadWithOutput (fun _ => 0) (newReader blankReader)
        (openFile (monoFile16 (rampSamples16 1000))) (some ⟨[], 0⟩) = .ok (st, true) ∧
      getNumSamplesPerChannel st = 1000 ∧
      processFilePasses (fun _ => 0) 0 (fun (u : Unit) x => (u, x)) (fun _ => 0) 5
        st.numChannels (getNumSamplesPerChannel st) 200 (fun _ => 1)
        (processFileInit st () 5 (newHannFilter (fun _ x => x) (fun _ => 0) (fun _ => 0) 5)
          (newHannFilter (fun _ x => x) (fun _ => 0) (fun _ => 0) 5)) = .ok (p, true) ∧
      p.streamer.writtenSamples = 997 ∧ p.outputSamples = 999 ∧
      processFilePasses (fun _ => 0) 0 (fun (u : Unit) x => (u, x)) (fun _ => 0) 5
        st.numChannels (getNumSamplesPerChannel st) 201 (fun _ => 1)
        (processFileInit st () 5 (newHannFilter (fun _ x => x) (fun _ => 0) (fun _ => 0) 5)
          (newHannFilter (fun _ x => x) (fun _ => 0) (fun _ => 0) 5)) = .ok (p1, true) ∧
      (1000 + 5 - 1) / 5 = 200 := by
  obtain ⟨st, hl, h1, h2, h3, h4, h5⟩ := loadWithOutput_ramp
  obtain ⟨h0, hsz, hcont⟩ := loadWithOutput_AtPass (fun _ => 0) blankReader st
    (monoFile16 (rampSamples16 1000)) (some ⟨[], 0⟩) true () 5
    (newHannFilter (fun _ x => x) (fun _ => 0) (fun _ => 0) 5)
    (newHannFilter (fun _ x => x) (fun _ => 0) (fun _ => 0) 5) hl h1
  have hready := processFileInit_ready st () 5
    (newHannFilter (fun _ x => x) (fun _ => 0) (fun _ => 0) 5)
    (newHannFilter (fun _ x => x) (fun _ => 0) (fun _ => 0) 5) (by rw [h5])
  have spec := processFilePasses_spec (fun _ => (0 : ℚ)) 0 (fun (u : Unit) x => (u, x))
    (fun _ => 0) 5 st (Or.inl h2) (Or.inl h3) hsz (by rw [hcont]; exact h4) (by decide)
    (by decide) (by rw [h5]; decide)
  obtain ⟨p, e1, e2, _⟩ := spec 200 0 (fun _ => 1) _ h0 hready (Or.inr (by rw [h5]; decide))
  obtain ⟨p1, f1, _⟩ := spec 201 0 (fun _ => 1) _ h0 hready (Or.inr (by rw [h5]; decide))
  obtain ⟨c1, c2⟩ := AtPass_counters 5 _ st _ p e2
  rw [h5] at c1 c2
  exact ⟨st, p, p1, hl, h5, e1, c1, c2, f1, by decide⟩

/-- Claim C35, as amended. Under the hypotheses of C34 on the input, with
`T = getNumSamplesPerChannel()` and a frame length `2 ≤ N < 2 ^ 32`: for `T = 0` and for
`T ≥ 1000` the loop of `processFile` ends after exactly `K` iterations, where `K = ceil(T / N)`
when `N` is even or `T = 0`, and `K = floor(T / N) + 1` when `N` is odd and `T ≥ 1`, which is
`ceil(T / N) + 1` when `N` divides `T`; in every case `K ≤ floor(T / N) + 1`. Every iteration
starts with `outputSamples < T` and raises `outputSamples`, which is `writtenSamples + N / 2`
after it, and after the last one `outputSamples ≥ T`. For `1 ≤ T < 1000` no iteration
completes: the first one ends at the `add` of the averager, which goes through an iterator that
points to no element of the empty history. -/
theorem processFile_iterations {α σ : Type} [LinearOrderedField α] [FloorRing α]
    (cos : α → α) (pi : α) (process : σ → List α → σ × List α) (stack : Nat → Byte)
    (garbage st : WavReader α) (clearedLow : Nat → α → α) (heap : Nat → Nat → α)
    (audioModel : σ) (N : Nat) (input : List Byte) (out : Option OutFile) (durations : Nat → α)
    (hload : loadWithOutput stack (newReader garbage) (openFile input) out = .ok (st, true))
    (hfmt : st.fmtFound = true)
    (hb : st.bitsPerSample = 16 ∨ st.bitsPerSample = 24)
    (hc : st.numChannels = 1 ∨ st.numChannels = 2)
    (hdata : st.wavFile.gpos + st.chk.size ≤ input.length)
    (hN2 : 2 ≤ N) (hN : N < 4294967296) :
    ((1 ≤ getNumSamplesPerChannel st ∧ getNumSamplesPerChannel st < 1000) →
      processFilePasses cos pi process (heap 4) N st.numChannels (getNumSamplesPerChannel st) 1
        durations
        (processFileInit st audioModel N (newHannFilter clearedLow (heap 0) (heap 1) N)
          (newHannFilter clearedLow (heap 2) (heap 3) N)) = .error Failure.outOfBounds ∧
      ∀ fuel, processFile cos pi process stack garbage clearedLow heap audioModel N input out
        durations (fuel + 1) = .error Failure.outOfBounds) ∧
    ((getNumSamplesPerChannel st = 0 ∨ 1000 ≤ getNumSamplesPerChannel st) →
    ∃ (K : Nat) (p : ProcessState α σ),
      K = (if N % 2 = 0 ∨ getNumSamplesPerChannel st = 0 then
            (getNumSamplesPerChannel st + N - 1) / N
          else getNumSamplesPerChannel st / N + 1) ∧
      K ≤ getNumSamplesPerChannel st / N + 1 ∧
      processFilePasses cos pi process (heap 4) N st.numChannels (getNumSamplesPerChannel st) K
        durations
        (processFileInit st audioModel N (newHannFilter clearedLow (heap 0) (heap 1) N)
          (newHannFilter clearedLow (heap 2) (heap 3) N)) = .ok (p, true) ∧
      getNumSamplesPerChannel st ≤ p.outputSamples ∧
      processFile cos pi process stack garbage clearedLow heap audioModel N input out
        durations (K + 1) = .ok (some p) ∧
      ∀ i, i < K →
        ∃ q q1,
          processFilePasses cos pi process (heap 4) N st.numChannels
            (getNumSamplesPerChannel st) i durations
            (processFileInit st audioModel N (newHannFilter clearedLow (heap 0) (heap 1) N)
              (newHannFilter clearedLow (heap 2) (heap 3) N)) = .ok (q, true) ∧
          processFilePasses cos pi process (heap 4) N st.numChannels
            (getNumSamplesPerChannel st) (i + 1) durations
            (processFileInit st audioModel N (newHannFilter clearedLow (heap 0) (heap 1) N)
              (newHannFilter clearedLow (heap 2) (heap 3) N)) = .ok (q1, true) ∧
          q.outputSamples < getNumSamplesPerChannel st ∧
          q.outputSamples < q1.outputSamples ∧
          q1.outputSamples = q1.streamer.writtenSamples + N / 2) := by
  obtain ⟨h0, hsz, hcont⟩ := loadWithOutput_AtPass stack garbage st input out true audioModel N
    (newHannFilter clearedLow (heap 0) (heap 1) N) (newHannFilter clearedLow (heap 2) (heap 3) N)
    hload hfmt
  have hfile : st.wavFile.gpos + st.chk.size ≤ st.wavFile.content.length := by
    rw [hcont]; exact hdata
  refine ⟨?_, ?_⟩
  · rintro ⟨hT1, hT⟩
    refine ⟨processFilePasses_short cos pi process (heap 4) N st audioModel _ _ durations 0 hb hc
      hsz hfile hN2 hN h0 hT1 hT, fun fuel => ?_⟩
    unfold processFile
    rw [hload]
    simp only [Bool.true_eq_false, if_false]
    rw [processFileLoop_short cos pi process (heap 4) N st audioModel _ _ durations fuel hb hc
      hsz hfile hN2 hN h0 hT1 hT]
  intro hreg
  have hready : 1000 ≤ getNumSamplesPerChannel st →
      AverageReady (processFileInit st audioModel N
        (newHannFilter clearedLow (heap 0) (heap 1) N)
        (newHannFilter clearedLow (heap 2) (heap 3) N) : ProcessState α σ).averager :=
    processFileInit_ready st audioModel N _ _
  generalize hTdef : getNumSamplesPerChannel st = T at *
  generalize hinit : (processFileInit st audioModel N
    (newHannFilter clearedLow (heap 0) (heap 1) N)
    (newHannFilter clearedLow (heap 2) (heap 3) N) : ProcessState α σ) = init at *
  -- the loop from a head at which the condition is false
  have hstop : ∀ (k : Nat) (p : ProcessState α σ) (d : Nat → α), T ≤ p.outputSamples →
      processFileLoop cos pi process (heap 4) N st.numChannels T 1 d p = .ok p := by
    intro k p d hle
    rw [processFileLoop]
    unfold processFilePass
    rw [if_neg (by omega)]
  have hfin : ∀ (K : Nat) (p : ProcessState α σ),
      processFilePasses cos pi process (heap 4) N st.numChannels T K durations init
        = .ok (p, true) → T ≤ p.outputSamples →
      processFile cos pi process stack garbage clearedLow heap audioModel N input out
        durations (K + 1) = .ok (some p) := by
    intro K p hK hle
    unfold processFile
    rw [hload]
    simp only [Bool.true_eq_false, if_false]
    rw [hTdef, hinit, processFileLoop_passes cos pi process (heap 4) N _ T K durations init p hK 1,
      hstop K p _ hle]
  -- every pass that ran started below `T` and raised the counter
  have hrise : ∀ (K : Nat) (p : ProcessState α σ),
      processFilePasses cos pi process (heap 4) N st.numChannels T K durations init
        = .ok (p, true) →
      ∀ i, i < K →
        ∃ q q1,
          processFilePasses cos pi process (heap 4) N st.numChannels T i durations init
            = .ok (q, true) ∧
          processFilePasses cos pi process (heap 4) N st.numChannels T (i + 1) durations init
            = .ok (q1, true) ∧
          q.outputSamples < T ∧ q.outputSamples < q1.outputSamples ∧
          q1.outputSamples = q1.streamer.writtenSamples + N / 2 := by
    intro K p hK i hi
    obtain ⟨q1, hq1⟩ := processFilePasses_upto cos pi process (heap 4) N _ T durations init K p
      hK (i + 1) (by omega)
    obtain ⟨q, hq, hpass⟩ := processFilePasses_succ cos pi process (heap 4) N _ T i durations
      init q1 hq1
    have hcond : q.outputSamples < T := by
      by_contra hn
      unfold processFilePass at hpass
      rw [if_neg hn] at hpass
      simp at hpass
    have ind := processFilePasses_induct cos pi process (heap 4) N st hb hc hsz hfile hN2 hN
      (fun _ _ => True) (fun _ _ _ _ _ _ _ _ _ => trivial)
    rw [hTdef] at ind
    obtain ⟨aq, _⟩ := ind i 0 durations init q h0 trivial hq
    obtain ⟨aq1, _⟩ := ind (i + 1) 0 durations init q1 h0 trivial hq1
    rw [Nat.zero_add] at aq aq1
    obtain ⟨g1, g2⟩ := AtPass_grow N T st i q q1 hN2 aq aq1 hcond
    exact ⟨q, q1, hq, hq1, hcond, g1, g2⟩
  have hdm := Nat.div_add_mod N 2
  have hm2 := Nat.mod_two_eq_zero_or_one N
  by_cases hT0 : T = 0
  · have hK0 : (T + N - 1) / N = 0 := Nat.div_eq_of_lt (by omega)
    have hp0 : processFilePasses cos pi process (heap 4) N st.numChannels T 0 durations init
        = .ok (init, true) := rfl
    refine ⟨0, init, by rw [if_pos (Or.inr hT0), hK0], Nat.zero_le _, hp0, by omega,
      hfin 0 init hp0 (by omega), fun i hi => absurd hi (Nat.not_lt_zero i)⟩
  · have spec := processFilePasses_spec cos pi process (heap 4) N st hb hc hsz hfile hN2 hN
      (by rw [hTdef]; omega)
    rw [hTdef] at spec
    -- the number of passes
    have key : ∀ K, 1 ≤ K → (K = 1 ∨ N / 2 + (K - 2) * N + N / 2 < T) →
        T ≤ N / 2 + (K - 1) * N + N / 2 →
        ∃ p, processFilePasses cos pi process (heap 4) N st.numChannels T K durations init
            = .ok (p, true) ∧ T ≤ p.outputSamples := by
      intro K hK1 hrun hend
      obtain ⟨p, hp, ap, _⟩ := spec K 0 durations init h0 (hready (by omega))
        (by rw [Nat.zero_add]; exact hrun)
      rw [Nat.zero_add] at ap
      obtain ⟨_, c2⟩ := AtPass_counters N T st K p ap
      rw [if_neg (by omega)] at c2
      exact ⟨p, hp, by omega⟩
    by_cases hev : N % 2 = 0
    · -- even frame length
      have hq1 := Nat.div_mul_le_self (T + N - 1) N
      have hq2 := Nat.lt_div_mul_add (a := T + N - 1) (b := N) (by omega)
      have hq3 := Nat.div_le_div_right (c := N) (show T ≤ T + N - 1 by omega)
      have hq4 : (T + N - 1) / N ≤ T / N + 1 := by
        have := Nat.lt_div_mul_add (a := T) (b := N) (by omega)
        have h5 : (T + N - 1) / N * N < (T / N + 2) * N := by
          rw [Nat.add_mul]
          omega
        have := Nat.lt_of_mul_lt_mul_right h5
        omega
      generalize (T + N - 1) / N = K at hq1 hq2 hq4
      have hK1 : 1 ≤ K := by
        by_contra hk
        have : K = 0 := by omega
        subst this
        omega
      obtain ⟨j, rfl⟩ : ∃ j, K = j + 1 := ⟨K - 1, by omega⟩
      rw [Nat.succ_mul] at hq1 hq2
      obtain ⟨p, hp, hle⟩ := key (j + 1) hK1 (by
          rcases Nat.eq_zero_or_pos j with hj | hj
          · left; omega
          · right
            obtain ⟨j2, rfl⟩ : ∃ j2, j = j2 + 1 := ⟨j - 1, by omega⟩
            rw [Nat.succ_mul] at hq1
            have e : j2 + 1 + 1 - 2 = j2 := by omega
            rw [e]
            omega) (by
          rw [Nat.add_sub_cancel]
          omega)
      refine ⟨j + 1, p, by rw [if_pos (Or.inl hev)], hq4, hp, hle, hfin _ p hp hle,
        hrise _ p hp⟩
    · -- odd frame length
      have hq1 := Nat.div_mul_le_self T N
      have hq2 := Nat.lt_div_mul_add (a := T) (b := N) (by omega)
      generalize T / N = j at hq1 hq2
      obtain ⟨p, hp, hle⟩ := key (j + 1) (by omega) (by
          rcases Nat.eq_zero_or_pos j with hj | hj
          · left; omega
          · right
            obtain ⟨j2, rfl⟩ : ∃ j2, j = j2 + 1 := ⟨j - 1, by omega⟩
            rw [Nat.succ_mul] at hq1
            have e : j2 + 1 + 1 - 2 = j2 := by omega
            rw [e]
            omega) (by
          rw [Nat.add_sub_cancel]
          omega)
      refine ⟨j + 1, p, by rw [if_neg (by omega)], le_refl _, hp, hle, hfin _ p hp hle,
        hrise _ p hp⟩

/-- Instance of `processFile_iterations`: the 16-bit mono file of a thousand samples processed
with the frame length 5 takes 201 iterations. -/
theorem processFile_iterations_witness :
    ∃ (p : ProcessState ℚ Unit),
      processFile (fun _ => (0 : ℚ)) 0 (fun (u : Unit) x => (u, x)) (fun _ => 0) blankReader
        (fun _ x => x) (fun _ _ => 0) () 5 (monoFile16 (rampSamples16 1000))
        (some ⟨[], 0⟩) (fun _ => 1) (201 + 1) = .ok (some p) ∧
      1000 ≤ p.outputSamples := by
  obtain ⟨st, hl, h1, h2, h3, h4, h5⟩ := loadWithOutput_ramp
  obtain ⟨K, p, k1, _, _, k4, k5, _⟩ := (processFile_iterations (fun _ => (0 : ℚ)) 0
    (fun (u : Unit) x => (u, x)) (fun _ => 0) blankReader st (fun _ x => x) (fun _ _ => 0) () 5
    (monoFile16 (rampSamples16 1000)) (some ⟨[], 0⟩) (fun _ => 1) hl h1 (Or.inl h2) (Or.inl h3)
    h4 (by decide) (by decide)).2 (Or.inr (by rw [h5]))
  rw [h5] at k1 k4
  have hK : K = 201 := by
    rw [k1]
    decide
  subst hK
  exact ⟨p, k5, k4⟩

/-! ## Claims: the pipeline with the identity transform -/

/-- Claim C36 (zero net delay of the pipeline). Let `load(filePath, outputFile)` on a new reader
return `true` for a mono input of 16 or 24 bits per sample whose declared data bytes are
present, let the frame length `N` be even with `2 ≤ N < 2 ^ 32`, the transform the identity,
and the two buffers of the filter of channel 0 zeroed by its constructor. Then for every state
at a head of the loop of `processFile`, and for the state in which `processFile` ends, and every
`n < writtenSamples`: there is a pass of the loop whose call of `writeToFile` starts from a
counter `writtenSamples ≤ n`, returns `true`, leaves the counter above `n`, and is handed a
buffer in which the sample counted as the `n`-th is
`(w(n mod hop) + w(n mod hop + hop)) * x[n]`, with `hop = N / 2`, `w` the Hann multiplier and
`x[n]` the sample of frame `n` of the data chunk (every `n < writtenSamples` lies within the
data). -/
theorem processFile_zero_net_delay {α σ : Type} [LinearOrderedField α] [FloorRing α]
    (cos : α → α) (pi : α) (stack : Nat → Byte)
    (garbage st : WavReader α) (clearedLow : Nat → α → α) (heap : Nat → Nat → α)
    (audioModel : σ) (N : Nat) (input : List Byte) (out : Option OutFile) (durations : Nat → α)
    (hload : loadWithOutput stack (newReader garbage) (openFile input) out = .ok (st, true))
    (hfmt : st.fmtFound = true)
    (hb : st.bitsPerSample = 16 ∨ st.bitsPerSample = 24)
    (hmono : st.numChannels = 1)
    (hdata : st.wavFile.gpos + st.chk.size ≤ input.length)
    (hN2 : 2 ≤ N) (hN : N < 4294967296) (hev : N % 2 = 0)
    (hzero : newHannFilter clearedLow (heap 0) (heap 1) N
      = ⟨N, N / 2, List.replicate N 0, List.replicate N 0⟩) :
    ∀ pEnd,
      ((∃ i, processFilePasses cos pi (fun (m : σ) (w : List α) => (m, w)) (heap 4) N
          st.numChannels (getNumSamplesPerChannel st) i durations
          (processFileInit st audioModel N (newHannFilter clearedLow (heap 0) (heap 1) N)
            (newHannFilter clearedLow (heap 2) (heap 3) N)) = .ok (pEnd, true)) ∨
        (∃ fuel, processFile cos pi (fun (m : σ) (w : List α) => (m, w)) stack garbage
          clearedLow heap audioModel N input out durations fuel = .ok (some pEnd))) →
      ∀ n, n < pEnd.streamer.writtenSamples →
        ∃ j q p s2,
          processFilePasses cos pi (fun (m : σ) (w : List α) => (m, w)) (heap 4) N
            st.numChannels (getNumSamplesPerChannel st) j durations
            (processFileInit st audioModel N (newHannFilter clearedLow (heap 0) (heap 1) N)
              (newHannFilter clearedLow (heap 2) (heap 3) N)) = .ok (q, true) ∧
          processFilePasses cos pi (fun (m : σ) (w : List α) => (m, w)) (heap 4) N
            st.numChannels (getNumSamplesPerChannel st) (j + 1) durations
            (processFileInit st audioModel N (newHannFilter clearedLow (heap 0) (heap 1) N)
              (newHannFilter clearedLow (heap 2) (heap 3) N)) = .ok (p, true) ∧
          writeToFile s2
            (some (if q.outputSamples = 0 then p.chan0Output.drop (N / 2) else p.chan0Output))
            none (if q.outputSamples = 0 then N / 2 else N) = .ok (p.streamer, true) ∧
          s2.writtenSamples = q.streamer.writtenSamples ∧
          q.streamer.writtenSamples ≤ n ∧ n < p.streamer.writtenSamples ∧
          (if q.outputSamples = 0 then p.chan0Output.drop (N / 2) else p.chan0Output).getD
              (n - q.streamer.writtenSamples) 0
            = (hannMultiplier cos pi N (n % (N / 2))
                + hannMultiplier cos pi N (n % (N / 2) + N / 2))
              * decodeSample st 0 (frameAt st n) := by
  obtain ⟨h0, hsz, hcont⟩ := loadWithOutput_AtPass stack garbage st input out true audioModel N
    (newHannFilter clearedLow (heap 0) (heap 1) N) (newHannFilter clearedLow (heap 2) (heap 3) N)
    hload hfmt
  have hfile : st.wavFile.gpos + st.chk.size ≤ st.wavFile.content.length := by
    rw [hcont]; exact hdata
  have hc : st.numChannels = 1 ∨ st.numChannels = 2 := Or.inl hmono
  have hJ0 : AtHann cos pi N st 0 (processFileInit st audioModel N
      (newHannFilter clearedLow (heap 0) (heap 1) N)
      (newHannFilter clearedLow (heap 2) (heap 3) N) : ProcessState α σ) := by
    rw [hzero]
    exact processFileInit_AtHann cos pi st audioModel N _
  generalize hinit : (processFileInit st audioModel N
    (newHannFilter clearedLow (heap 0) (heap 1) N)
    (newHannFilter clearedLow (heap 2) (heap 3) N) : ProcessState α σ) = init at h0 hJ0 ⊢
  have key : ∀ (i : Nat) (pEnd : ProcessState α σ),
      processFilePasses cos pi (fun (m : σ) (w : List α) => (m, w)) (heap 4) N
        st.numChannels (getNumSamplesPerChannel st) i durations init = .ok (pEnd, true) →
      ∀ n, n < pEnd.streamer.writtenSamples →
        ∃ j q p s2,
          processFilePasses cos pi (fun (m : σ) (w : List α) => (m, w)) (heap 4) N
            st.numChannels (getNumSamplesPerChannel st) j durations init = .ok (q, true) ∧
          processFilePasses cos pi (fun (m : σ) (w : List α) => (m, w)) (heap 4) N
            st.numChannels (getNumSamplesPerChannel st) (j + 1) durations init = .ok (p, true) ∧
          writeToFile s2
            (some (if q.outputSamples = 0 then p.chan0Output.drop (N / 2) else p.chan0Output))
            none (if q.outputSamples = 0 then N / 2 else N) = .ok (p.streamer, true) ∧
          s2.writtenSamples = q.streamer.writtenSamples ∧
          q.streamer.writtenSamples ≤ n ∧ n < p.streamer.writtenSamples ∧
          (if q.outputSamples = 0 then p.chan0Output.drop (N / 2) else p.chan0Output).getD
              (n - q.streamer.writtenSamples) 0
            = (hannMultiplier cos pi N (n % (N / 2))
                + hannMultiplier cos pi N (n % (N / 2) + N / 2))
              * decodeSample st 0 (frameAt st n) := by
    intro i
    induction i with
    | zero =>
      intro pEnd hi n hn
      simp only [processFilePasses, Except.ok.injEq, Prod.mk.injEq, and_true] at hi
      subst hi
      obtain ⟨c1, _⟩ := AtPass_counters N _ st 0 init h0
      rw [if_pos rfl] at c1
      omega
    | succ i ih =>
      intro pEnd hi n hn
      obtain ⟨q, hq, hpass⟩ := processFilePasses_succ cos pi
        (fun (m : σ) (w : List α) => (m, w)) (heap 4) N _ _ i durations init pEnd hi
      by_cases hlt : n < q.streamer.writtenSamples
      · exact ih q hq n hlt
      · have hcond : q.outputSamples < getNumSamplesPerChannel st := by
          by_contra hn
          unfold processFilePass at hpass
          rw [if_neg hn] at hpass
          simp at hpass
        have hbody : processFileBody cos pi (fun (m : σ) (w : List α) => (m, w)) (heap 4) N
            st.numChannels (durations i) q = .ok (pEnd, true) := by
          unfold processFilePass at hpass
          rw [if_pos hcond] at hpass
          exact hpass
        obtain ⟨aq, _⟩ := processFilePasses_hann cos pi (heap 4) N st hb hc hsz hfile hN2 hN hev
          i durations init q h0 hJ0 hq
        obtain ⟨ap, jp⟩ := processFilePasses_hann cos pi (heap 4) N st hb hc hsz hfile hN2 hN
          hev (i + 1) durations init pEnd h0 hJ0 hi
        obtain ⟨s2, Rarg, w1, w2, w3, _⟩ := processFileBody_write cos pi
          (fun (m : σ) (w : List α) => (m, w)) (heap 4) N st (durations i) i q pEnd hb hc hsz
          hfile hN2 hN aq hcond hbody
        have hR : Rarg = none := by
          cases Rarg with
          | none => rfl
          | some R =>
            have := w3.1 rfl
            omega
        subst hR
        exact ⟨i, q, pEnd, s2, hq, hi, w1, w2, by omega, hn,
          pass_samples cos pi N st i q pEnd hb hc hN2 hev aq ap jp n (by omega) hn⟩
  intro pEnd hp
  rcases hp with ⟨i, hi⟩ | ⟨fuel, hrun⟩
  · exact key i pEnd hi
  · unfold processFile at hrun
    rw [hload] at hrun
    simp only [Bool.true_eq_false, if_false] at hrun
    rw [hinit] at hrun
    cases hl : processFileLoop cos pi (fun (m : σ) (w : List α) => (m, w)) (heap 4) N
        st.numChannels (getNumSamplesPerChannel st) fuel durations init with
    | error e1 =>
      rw [hl] at hrun
      cases hrun
    | ok r =>
      rw [hl] at hrun
      simp only [Except.ok.injEq, Option.some.injEq] at hrun
      subst hrun
      obtain ⟨i, hi, _⟩ := processFileLoop_end cos pi (fun (m : σ) (w : List α) => (m, w))
        (heap 4) N st hb hc hsz hfile hN2 hN fuel durations _ r h0 hl
      exact key i r hi

/-- Instance of `processFile_zero_net_delay`: the 16-bit mono file of a thousand samples
processed with the frame length 4, the cosine replaced by the constant 0, so that both
multipliers are `1 / 2`: the loop ends with at least 998 samples written, and every sample
counted by the writer is the input sample of the same index. -/
theorem processFile_zero_net_delay_witness :
    ∃ st pEnd,
      loadWithOutput (fun _ => 0) (newReader (blankReader : WavReader ℚ))
        (openFile (monoFile16 (rampSamples16 1000))) (some ⟨[], 0⟩) = .ok (st, true) ∧
      processFile (fun _ => (0 : ℚ)) 0 (fun (u : Unit) (x : List ℚ) => (u, x)) (fun _ => 0)
        blankReader (fun _ x => x) (fun _ _ => 0) () 4 (monoFile16 (rampSamples16 1000))
        (some ⟨[], 0⟩) (fun _ => 1) 1001 = .ok (some pEnd) ∧
      998 ≤ pEnd.streamer.writtenSamples ∧
      ∀ n, n < pEnd.streamer.writtenSamples →
        ∃ j q p s2,
          processFilePasses (fun _ => (0 : ℚ)) 0 (fun (u : Unit) (x : List ℚ) => (u, x))
            (fun _ => 0) 4 st.numChannels (getNumSamplesPerChannel st) j (fun _ => 1)
            (processFileInit st () 4 (newHannFilter (fun _ x => x) (fun _ => 0) (fun _ => 0) 4)
              (newHannFilter (fun _ x => x) (fun _ => 0) (fun _ => 0) 4)) = .ok (q, true) ∧
          processFilePasses (fun _ => (0 : ℚ)) 0 (fun (u : Unit) (x : List ℚ) => (u, x))
            (fun _ => 0) 4 st.numChannels (getNumSamplesPerChannel st) (j + 1) (fun _ => 1)
            (processFileInit st () 4 (newHannFilter (fun _ x => x) (fun _ => 0) (fun _ => 0) 4)
              (newHannFilter (fun _ x => x) (fun _ => 0) (fun _ => 0) 4)) = .ok (p, true) ∧
          writeToFile s2
            (some (if q.outputSamples = 0 then p.chan0Output.drop (4 / 2) else p.chan0Output))
            none (if q.outputSamples = 0 then 4 / 2 else 4) = .ok (p.streamer, true) ∧
          s2.writtenSamples = q.streamer.writtenSamples ∧
          q.streamer.writtenSamples ≤ n ∧ n < p.streamer.writtenSamples ∧
          (if q.outputSamples = 0 then p.chan0Output.drop (4 / 2) else p.chan0Output).getD
              (n - q.streamer.writtenSamples) 0
            = (hannMultiplier (fun _ => (0 : ℚ)) 0 4 (n % (4 / 2))
                + hannMultiplier (fun _ => (0 : ℚ)) 0 4 (n % (4 / 2) + 4 / 2))
              * decodeSample st 0 (frameAt st n) := by
  obtain ⟨st, h1, h2, h3, h4, h5, h6⟩ := loadWithOutput_ramp
  obtain ⟨pEnd, hp, hw, _⟩ := processFile_runs (fun _ => (0 : ℚ)) 0
    (fun (u : Unit) (x : List ℚ) => (u, x)) (fun _ => 0) blankReader st (fun _ x => x)
    (fun _ _ => 0) () 4 (monoFile16 (rampSamples16 1000)) (some ⟨[], 0⟩) (fun _ => 1) 1001 h1 h2
    (Or.inl h3) (Or.inl h4) h5 (by rw [h6]) (by decide) (by decide) (by rw [h6]; decide)
  rw [h6] at hw
  exact ⟨st, pEnd, h1, hp, hw,
    processFile_zero_net_delay (fun _ => (0 : ℚ)) 0 (fun _ => 0) blankReader st (fun _ x => x)
      (fun _ _ => 0) () 4 (monoFile16 (rampSamples16 1000))
      (some ⟨[], 0⟩) (fun _ => 1) h1 h2 (Or.inl h3) h4 h5 (by decide) (by decide) (by decide)
      rfl pEnd (Or.inr ⟨1001, hp⟩)⟩

/-! ## Claims: the write cap -/

/-- Claim C37 (write cap invariant) at a failing input: a 16-bit stereo stream opened with an
output file, one block of channel 0 read (which allocates the scratch buffer `bufferToFillR`),
then `writeToFile(L, nullptr, 2)`. Before the write `writtenSamples` is 0 and the sample count 2.
The 16-bit loop tests the member `bufferToFillR`, not the argument, and reads
`bufferToFileR[0]` through the null pointer: the call does not return. With a second buffer
the same call returns `true` and `writtenSamples` becomes 2. A call with a null `L` returns
`false` and changes nothing, on every state. -/
theorem stereo16_write_null_right_dereferences :
    ((loadWithOutput (fun _ => 0) (newReader (blankReader : WavReader ℚ))
        (openFile (riffFile [87, 65, 86, 69]
          (riffChunk [102, 109, 116, 32] (pcmFormat 2 44100 16) ++
           riffChunk [100, 97, 116, 97] [1, 0, 2, 0, 3, 0, 4, 0]))) (some ⟨[], 0⟩) >>= fun r =>
      getNextAudioBlock (fun _ => 0) r.1 (some [0, 0]) 0 2).toOption.map
        fun r1 => (r1.1.writtenSamples, getNumSamplesPerChannel r1.1, r1.1.bufferToFillR.isSome))
      = some (0, 2, true) ∧
    failureOf
      (loadWithOutput (fun _ => 0) (newReader (blankReader : WavReader ℚ))
        (openFile (riffFile [87, 65, 86, 69]
          (riffChunk [102, 109, 116, 32] (pcmFormat 2 44100 16) ++
           riffChunk [100, 97, 116, 97] [1, 0, 2, 0, 3, 0, 4, 0]))) (some ⟨[], 0⟩) >>= fun r =>
      getNextAudioBlock (fun _ => 0) r.1 (some [0, 0]) 0 2 >>= fun r1 =>
      writeToFile r1.1 (some [1 / 2, 1 / 4]) none 2) = some Failure.nullDeref ∧
    ((loadWithOutput (fun _ => 0) (newReader (blankReader : WavReader ℚ))
        (openFile (riffFile [87, 65, 86, 69]
          (riffChunk [102, 109, 116, 32] (pcmFormat 2 44100 16) ++
           riffChunk [100, 97, 116, 97] [1, 0, 2, 0, 3, 0, 4, 0]))) (some ⟨[], 0⟩) >>= fun r =>
      getNextAudioBlock (fun _ => 0) r.1 (some [0, 0]) 0 2 >>= fun r1 =>
      writeToFile r1.1 (some [1 / 2, 1 / 4]) (some [1 / 8, 1 / 16]) 2).toOption.map
        fun r2 => (r2.2, r2.1.writtenSamples)) = some (true, 2) ∧
    (∀ (st : WavReader ℚ) (R : Option (List ℚ)) (n : Nat),
      writeToFile st none R n = .ok (st, false)) := by
  refine ⟨by decide!, by decide!, by decide!, fun _ _ _ => rfl⟩

/-! ## Claims: the bytes of the output file -/

/-- Claim C38 (counter matches emitted bytes in the pipeline). Let `load(filePath, outputFile)`
on a new reader, with the output file newly created, return `true` with a fmt chunk parsed,
16 or 24 bits per sample and one or two channels, the declared bytes of the data chunk being
present in the input, and let `2 ≤ N < 2 ^ 32`. The output file then holds a header that ends
right behind the data size field. At every head of the loop of `processFile`, and in the state
in which `processFile` ends, the output file is that header followed by a payload of exactly
`writtenSamples * (bitsPerSample / 8) * numChannels` bytes; the destructor changes no byte of
the payload, and the data size field of the closed file holds the length of the payload. -/
theorem processFile_payload_matches_counter {α σ : Type} [LinearOrderedField α] [FloorRing α]
    (cos : α → α) (pi : α) (process : σ → List α → σ × List α) (stack : Nat → Byte)
    (garbage st : WavReader α) (clearedLow : Nat → α → α) (heap : Nat → Nat → α)
    (audioModel : σ) (N : Nat) (input : List Byte) (durations : Nat → α)
    (hload : loadWithOutput stack (newReader garbage) (openFile input) (some ⟨[], 0⟩)
      = .ok (st, true))
    (hfmt : st.fmtFound = true)
    (hb : st.bitsPerSample = 16 ∨ st.bitsPerSample = 24)
    (hc : st.numChannels = 1 ∨ st.numChannels = 2)
    (hdata : st.wavFile.gpos + st.chk.size ≤ input.length)
    (hN2 : 2 ≤ N) (hN : N < 4294967296) :
    ∃ header, st.outWavFile = some ⟨header, header.length⟩ ∧
      header.length = st.dataHdrSizeOffset + 4 ∧
      ∀ p,
        ((∃ i, processFilePasses cos pi process (heap 4) N st.numChannels
            (getNumSamplesPerChannel st) i durations
            (processFileInit st audioModel N (newHannFilter clearedLow (heap 0) (heap 1) N)
              (newHannFilter clearedLow (heap 2) (heap 3) N)) = .ok (p, true)) ∨
          (∃ fuel, processFile cos pi process stack garbage clearedLow heap audioModel N input
            (some ⟨[], 0⟩) durations fuel = .ok (some p))) →
        ∃ payload c,
          p.streamer.outWavFile = some ⟨header ++ payload, (header ++ payload).length⟩ ∧
          payload.length
            = p.streamer.writtenSamples * (p.streamer.bitsPerSample / 8)
                * p.streamer.numChannels ∧
          p.streamer.dataHdrSizeOffset = st.dataHdrSizeOffset ∧
          destroy p.streamer = some c ∧ c.length = header.length + payload.length ∧
          c.drop header.length = payload ∧
          leValue ((c.drop p.streamer.dataHdrSizeOffset).take 4) = payload.length := by
  obtain ⟨h0, hsz, hcont⟩ := loadWithOutput_AtPass stack garbage st input (some ⟨[], 0⟩) true
    audioModel N (newHannFilter clearedLow (heap 0) (heap 1) N)
    (newHannFilter clearedLow (heap 2) (heap 3) N) hload hfmt
  have hfile : st.wavFile.gpos + st.chk.size ≤ st.wavFile.content.length := by
    rw [hcont]; exact hdata
  obtain ⟨hR, o, ho, hpos, hD, h16⟩ := loadWithOutput_out stack (newReader garbage) st input true
    hload rfl hfmt
  have ho2 : st.outWavFile = some ⟨o.content, o.content.length⟩ := by
    rw [ho]
    congr 1
    apply OutFile.ext
    · rfl
    · exact hpos
  have hlen : o.content.length = st.dataHdrSizeOffset + 4 := by rw [← hpos, hD]
  refine ⟨o.content, ho2, hlen, ?_⟩
  have key : ∀ (i : Nat) (p : ProcessState α σ),
      processFilePasses cos pi process (heap 4) N st.numChannels
        (getNumSamplesPerChannel st) i durations
        (processFileInit st audioModel N (newHannFilter clearedLow (heap 0) (heap 1) N)
          (newHannFilter clearedLow (heap 2) (heap 3) N)) = .ok (p, true) →
      ∃ payload c,
        p.streamer.outWavFile
          = some ⟨o.content ++ payload, (o.content ++ payload).length⟩ ∧
        payload.length
          = p.streamer.writtenSamples * (p.streamer.bitsPerSample / 8)
              * p.streamer.numChannels ∧
        p.streamer.dataHdrSizeOffset = st.dataHdrSizeOffset ∧
        destroy p.streamer = some c ∧ c.length = o.content.length + payload.length ∧
        c.drop o.content.length = payload ∧
        leValue ((c.drop p.streamer.dataHdrSizeOffset).take 4) = payload.length := by
    intro i p hi
    obtain ⟨ap, e1, e2, payload, e3, e4⟩ := processFilePasses_out cos pi process (heap 4) N st
      hb hc hsz hfile hN2 hN o.content i durations _ p h0 ho2 hi
    have e1' : p.streamer.riffSizeOffset = 4 := by rw [e1]; exact hR
    have e2' : p.streamer.dataHdrSizeOffset = st.dataHdrSizeOffset := e2
    obtain ⟨_, _, i3, i4, _, _, _, _, i9, _⟩ := id ap
    have hfb : frameBytes st = p.streamer.bitsPerSample / 8 * p.streamer.numChannels := by
      unfold frameBytes
      rw [i3, i4]
    have e4' : payload.length
        = p.streamer.writtenSamples * (p.streamer.bitsPerSample / 8)
            * p.streamer.numChannels := by
      rw [e4, hfb, Nat.mul_assoc]
    obtain ⟨c, d1, d2, d3, d4⟩ := destroy_payload p.streamer o.content payload e3
      (by rw [e2', hlen]) e1' (by rw [e2']; exact h16)
    refine ⟨payload, c, e3, e4', e2', d1, d2, d3, ?_⟩
    rw [d4, ← e4']
    apply Nat.mod_eq_of_lt
    have hW : p.streamer.writtenSamples ≤ getNumSamplesPerChannel st := by
      rw [i9]
      split_ifs
      · omega
      · exact min_le_left _ _
    have hTle := getNumSamplesPerChannel_le st hb hc
    have := Nat.mul_le_mul_right (frameBytes st) hW
    rw [e4]
    omega
  intro p hp
  rcases hp with ⟨i, hi⟩ | ⟨fuel, hrun⟩
  · exact key i p hi
  · unfold processFile at hrun
    rw [hload] at hrun
    simp only [Bool.true_eq_false, if_false] at hrun
    cases hl : processFileLoop cos pi process (heap 4) N st.numChannels
        (getNumSamplesPerChannel st) fuel durations
        (processFileInit st audioModel N (newHannFilter clearedLow (heap 0) (heap 1) N)
          (newHannFilter clearedLow (heap 2) (heap 3) N)) with
    | error e1 =>
      rw [hl] at hrun
      cases hrun
    | ok r =>
      rw [hl] at hrun
      simp only [Except.ok.injEq, Option.some.injEq] at hrun
      subst hrun
      obtain ⟨i, hi, _⟩ := processFileLoop_end cos pi process (heap 4) N st hb hc hsz hfile hN2
        hN fuel durations _ r h0 hl
      exact key i r hi

/-- Instance of `processFile_payload_matches_counter`: the 16-bit mono file of a thousand samples
processed with the frame length 4. The loop ends with at least 998 samples written; the closed
output file holds 44 bytes of header and the payload, whose length is in the data size field at
offset 40. -/
theorem processFile_payload_matches_counter_witness :
    ∃ p payload c,
      processFile (fun _ => (0 : ℚ)) 0 (fun (u : Unit) x => (u, x)) (fun _ => 0) blankReader
        (fun _ x => x) (fun _ _ => 0) () 4 (monoFile16 (rampSamples16 1000))
        (some ⟨[], 0⟩) (fun _ => 1) 1001 = .ok (some p) ∧
      998 ≤ p.streamer.writtenSamples ∧
      payload.length
        = p.streamer.writtenSamples * (p.streamer.bitsPerSample / 8) * p.streamer.numChannels ∧
      destroy p.streamer = some c ∧ c.length = 44 + payload.length ∧
      c.drop 44 = payload ∧ leValue ((c.drop 40).take 4) = payload.length := by
  obtain ⟨st, h1, h2, h3, h4, h5, h7, h6⟩ := loadWithOutput_ramp_header
  obtain ⟨p, hp, hw, _⟩ := processFile_runs (fun _ => (0 : ℚ)) 0
    (fun (u : Unit) (x : List ℚ) => (u, x)) (fun _ => 0) blankReader st (fun _ x => x)
    (fun _ _ => 0) () 4 (monoFile16 (rampSamples16 1000)) (some ⟨[], 0⟩) (fun _ => 1) 1001 h1 h2
    (Or.inl h3) (Or.inl h4) h5 (by rw [h7]) (by decide) (by decide) (by rw [h7]; decide)
  rw [h7] at hw
  obtain ⟨header, a1, a2, a3⟩ := processFile_payload_matches_counter (fun _ => (0 : ℚ)) 0
    (fun (u : Unit) x => (u, x)) (fun _ => 0) blankReader st (fun _ x => x) (fun _ _ => 0) () 4
    (monoFile16 (rampSamples16 1000))
    (fun _ => 1) h1 h2 (Or.inl h3) (Or.inl h4) h5 (by decide) (by decide)
  obtain ⟨payload, c, b1, b2, b3, b4, b5, b6, b7⟩ := a3 p (Or.inr ⟨1001, hp⟩)
  rw [h6] at a2
  rw [a2] at b5 b6
  rw [b3, h6] at b7
  exact ⟨p, payload, c, hp, hw, b2, b4, b5, b6, b7⟩

end WS
